import Mathlib

/-!
# Grid mazes, four search strategies and three maze generators

A shallow embedding of the maze model (`Cell`, `Maze`), of the four
path-finding strategies (`BFSPathfinder`, `DFSPathfinder`,
`DijkstraPathfinder`, `AStarPathfinder`) and of the maze generators of
`Maze.cpp`, followed by the properties proved about them.

Modelling conventions.

* A cell is owned by the grid and handed around as a shared pointer.  A
  pointer to the cell stored at row `y`, column `x` is modelled by the
  coordinate `(x, y)`; the flags of the cells are total functions on
  coordinates.  Every read or write of the source at a computed position
  is guarded by `isValid`, so the values outside the grid are never looked at.
* A null pointer is `none`.
* A `while` loop is `whileLoop`: it runs its body as long as the condition
  holds and gives `none` when the supplied number of iterations does not
  suffice.  Every result about a returned value states that the run ends.
* Costs are `double`s in the source; they only ever hold small non-negative
  whole numbers (a count of moves), so they are natural numbers here.
* The counters of `PathStats` start at zero and only count upwards, far below
  the range of `int`; they are natural numbers.
* The clock is outside the program: the measured duration is an argument.
* A `std::priority_queue` leaves open which of several entries of least key
  it yields.  The queue is the list of its entries in insertion order and
  `pop` takes, among the entries of least key, the one selected by a number
  supplied from outside, one number per pop.
* The random generator is a stream of raw draws; `uniformInt a b` maps a raw
  draw into `[a, b]`.
-/

/-! ## Loops -/

/-- While loop with an iteration budget: `none` when the budget is used up
while the condition still holds. -/
def whileLoop {σ : Type} (cond : σ → Bool) (body : σ → σ) : Nat → σ → Option σ
  | 0, s => if cond s then none else some s
  | n + 1, s => if cond s then whileLoop cond body n (body s) else some s

/-! ## PathStats.h, Cell.h -/

/-- Integer coordinates of a cell (`struct Coordinate`). -/
structure Coordinate where
  x : Int
  y : Int
deriving DecidableEq, Repr

/-- Statistics of one run (`struct PathStats`). -/
structure PathStats where
  pathLength : Nat
  nodesExplored : Nat
  executionTime : Nat
deriving DecidableEq, Repr

/-- Value-initialised statistics (`stats = {}`). -/
def PathStats.zero : PathStats := ⟨0, 0, 0⟩

/-- Copy of a cell (`class Cell`): position and the three flags. -/
structure Cell where
  coords : Coordinate
  wall : Bool
  visited : Bool
  path : Bool
deriving DecidableEq, Repr

/-- Model of `Cell::Cell(x, y)`: an open, unvisited cell that is on no path. -/
def Cell.new (x y : Int) : Cell := ⟨⟨x, y⟩, false, false, false⟩

/-- Model of `Cell::reset`: clears the visited and path flags. -/
def Cell.reset (c : Cell) : Cell := { c with visited := false, path := false }

/-! ## Maze.h, Maze.cpp: the grid -/

/-- The errors thrown by the grid. -/
inductive MazeError where
  | invalidDimensions
  | outOfBounds
deriving DecidableEq, Repr

/-- The three generators (`enum class MazeGenerationAlgorithm`). -/
inductive MazeGenerationAlgorithm where
  | RECURSIVE_BACKTRACKING
  | RANDOMIZED_PRIMS
  | RECURSIVE_DIVISION
deriving DecidableEq, Repr

/-- The grid (`class Maze`): its size, the flags of its cells, and the
optional start and goal cells. -/
structure Maze where
  width : Int
  height : Int
  wall : Coordinate → Bool
  visited : Coordinate → Bool
  path : Coordinate → Bool
  start : Option Coordinate
  goal : Option Coordinate

namespace Maze

/-- Model of `Maze::isValid`. -/
def isValid (m : Maze) (x y : Int) : Bool :=
  decide (x ≥ 0) && decide (x < m.width) && decide (y ≥ 0) && decide (y < m.height)

/-- The cell stored at a position, as a value (`*grid[y][x]`). -/
def cellAt (m : Maze) (c : Coordinate) : Cell := ⟨c, m.wall c, m.visited c, m.path c⟩

/-- The vector of rows `grid`, as values: row `y` holds the cells of the
columns `0 .. width - 1`. -/
def grid (m : Maze) : List (List Cell) :=
  (List.range m.height.toNat).map fun (y : Nat) =>
    (List.range m.width.toNat).map fun (x : Nat) => m.cellAt ⟨(x : Int), (y : Int)⟩

/-- The call `grid[y][x]->setWall(b)`. -/
def setWall (m : Maze) (c : Coordinate) (b : Bool) : Maze :=
  { m with wall := fun k => if k = c then b else m.wall k }

/-- The call `grid[y][x]->setVisited(b)`. -/
def setVisited (m : Maze) (c : Coordinate) (b : Bool) : Maze :=
  { m with visited := fun k => if k = c then b else m.visited k }

/-- Model of `Maze::validateDimensions`. -/
def validateDimensions (width height : Int) : Except MazeError Unit :=
  if width < 5 ∨ height < 5 then .error .invalidDimensions
  else if width > 100 ∨ height > 100 then .error .invalidDimensions
  else .ok ()

/-- Model of `Maze::initializeGrid`: fresh cells everywhere; the size and the start
and goal pointers are left as they are. -/
def initializeGrid (m : Maze) : Maze :=
  { m with wall := fun _ => false, visited := fun _ => false, path := fun _ => false }

/-- Model of `Maze::Maze(width, height)`: the size is only validated, and the grid only
built, when both are positive. -/
def new (width height : Int) : Except MazeError Maze :=
  let m : Maze := ⟨width, height, fun _ => false, fun _ => false, fun _ => false, none, none⟩
  if width > 0 ∧ height > 0 then
    match validateDimensions width height with
    | .error e => .error e
    | .ok () => .ok m.initializeGrid
  else .ok m

/-- Model of `Maze::getCell`. -/
def getCell (m : Maze) (x y : Int) : Except MazeError Cell :=
  if m.isValid x y then .ok (m.cellAt ⟨x, y⟩) else .error .outOfBounds

/-- The offsets `(dx[i], dy[i])` of `getNeighbors`: UP, DOWN, LEFT, RIGHT. -/
def directions : List (Int × Int) := [(0, -1), (0, 1), (-1, 0), (1, 0)]

/-- Model of `Maze::getNeighbors`: the in-bounds, non-wall cells one step away, in
the order UP, DOWN, LEFT, RIGHT. -/
def getNeighbors (m : Maze) (cell : Coordinate) : List Coordinate :=
  (directions.map fun d => (⟨cell.x + d.1, cell.y + d.2⟩ : Coordinate)).filter
    fun n => m.isValid n.x n.y && !m.wall n

/-- Model of `Maze::getUnvisitedNeighbors`: the in-bounds, unvisited cells one step
away, walls included. -/
def getUnvisitedNeighbors (m : Maze) (cell : Coordinate) : List Coordinate :=
  (directions.map fun d => (⟨cell.x + d.1, cell.y + d.2⟩ : Coordinate)).filter
    fun n => m.isValid n.x n.y && !m.visited n

/-- Model of `Maze::reset`: clears the visited and path flag of every cell of the
grid. -/
def reset (m : Maze) : Maze :=
  { m with
    visited := fun c => if m.isValid c.x c.y then false else m.visited c
    path := fun c => if m.isValid c.x c.y then false else m.path c }

/-- The double loop `grid[y][x]->setWall(b)` over the whole grid. -/
def setAllWalls (m : Maze) (b : Bool) : Maze :=
  { m with wall := fun c => if m.isValid c.x c.y then b else m.wall c }

/-- The double loop `grid[y][x]->setVisited(false)` over the whole grid. -/
def clearVisited (m : Maze) : Maze :=
  { m with visited := fun c => if m.isValid c.x c.y then false else m.visited c }

/-- Model of `Maze::setStart`. -/
def setStart (m : Maze) (x y : Int) : Maze :=
  if m.isValid x y then { m with start := some ⟨x, y⟩ } else m

/-- Model of `Maze::setGoal`. -/
def setGoal (m : Maze) (x y : Int) : Maze :=
  if m.isValid x y then { m with goal := some ⟨x, y⟩ } else m

end Maze

/-! ## Path reconstruction, shared by the four strategies -/

/-- The body of the loop `while (current != nullptr) { path.push_back(*current);
current = parent[current]; }`.  A key that is missing from the `std::map`
reads as the null pointer. -/
def reconstructStep (maze : Maze) (parent : Coordinate → Option Coordinate)
    (s : Option Coordinate × List Cell) : Option Coordinate × List Cell :=
  match s.1 with
  | some current => (parent current, s.2 ++ [maze.cellAt current])
  | none => s

/-- The reconstruction loop, started at the goal, followed by `std::reverse`. -/
def reconstructPath (maze : Maze) (parent : Coordinate → Option Coordinate)
    (fuel : Nat) (goal : Coordinate) : Option (List Cell) :=
  (whileLoop (fun (s : Option Coordinate × List Cell) => s.1.isSome)
    (reconstructStep maze parent) fuel (some goal, [])).map fun s => s.2.reverse

/-- The end of `findPath`: the path is rebuilt when the goal was found, its
size stored, and the measured time recorded. -/
def finishSearch (maze : Maze) (parent : Coordinate → Option Coordinate)
    (found : Bool) (nodesExplored : Nat) (fuel elapsed : Nat) (goal : Coordinate) :
    Option (List Cell × PathStats) :=
  if found then
    (reconstructPath maze parent fuel goal).map fun path =>
      (path, ⟨path.length, nodesExplored, elapsed⟩)
  else
    some ([], ⟨0, nodesExplored, elapsed⟩)

/-- What a run of `findPath` leaves behind: the returned path, the
statistics, the grid with its visited flags, and the cells handed to the
visit callback, in call order. -/
structure SearchResult where
  path : List Cell
  stats : PathStats
  maze : Maze
  notified : List Cell

/-! ## BFSPathfinder.cpp -/

namespace BFSPathfinder

/-- The local variables of `findPath` during the main loop. -/
structure State where
  maze : Maze
  queue : List Coordinate
  parent : Coordinate → Option Coordinate
  nodesExplored : Nat
  found : Bool
  notified : List Cell

/-- The body of the loop over the neighbours of `current`. -/
def visitNeighbor (current : Coordinate) (s : State) (neighbor : Coordinate) : State :=
  if !s.maze.visited neighbor then
    { s with
      maze := s.maze.setVisited neighbor true
      parent := fun k => if k = neighbor then some current else s.parent k
      queue := s.queue ++ [neighbor] }
  else s

/-- One iteration of the main loop. -/
def body (goal : Coordinate) (s : State) : State :=
  match s.queue with
  | [] => s
  | current :: rest =>
    let s1 : State :=
      { s with queue := rest, nodesExplored := s.nodesExplored + 1
               notified := s.notified ++ [s.maze.cellAt current] }
    if current = goal then { s1 with found := true }
    else (s.maze.getNeighbors current).foldl (visitNeighbor current) s1

/-- The state in which the main loop is entered. -/
def init (maze : Maze) (start : Coordinate) : State :=
  { maze := maze.setVisited start true
    queue := [start]
    parent := fun _ => none
    nodesExplored := 0
    found := false
    notified := [] }

/-- The main loop `while (!queue.empty() && !found)`. -/
def search (fuel : Nat) (maze : Maze) (start goal : Coordinate) : Option State :=
  whileLoop (fun s => !s.queue.isEmpty && !s.found) (body goal) fuel (init maze start)

/-- Model of `BFSPathfinder::findPath`. -/
def findPath (fuel elapsed : Nat) (maze : Maze) (start goal : Option Coordinate) :
    Option SearchResult :=
  match start, goal with
  | some start, some goal =>
    (search fuel maze start goal).bind fun s =>
      (finishSearch s.maze s.parent s.found s.nodesExplored fuel elapsed goal).map fun r =>
        ⟨r.1, r.2, s.maze, s.notified⟩
  | _, _ => some ⟨[], PathStats.zero, maze, []⟩

end BFSPathfinder

/-! ## DFSPathfinder.cpp -/

namespace DFSPathfinder

/-- The local variables of `findPath` during the main loop; the top of the
stack is the head of the list. -/
structure State where
  maze : Maze
  stack : List Coordinate
  parent : Coordinate → Option Coordinate
  nodesExplored : Nat
  found : Bool
  notified : List Cell

/-- The body of the loop over the neighbours of `current`. -/
def visitNeighbor (current : Coordinate) (s : State) (neighbor : Coordinate) : State :=
  if !s.maze.visited neighbor then
    { s with
      maze := s.maze.setVisited neighbor true
      parent := fun k => if k = neighbor then some current else s.parent k
      stack := neighbor :: s.stack }
  else s

/-- One iteration of the main loop. -/
def body (goal : Coordinate) (s : State) : State :=
  match s.stack with
  | [] => s
  | current :: rest =>
    let s1 : State :=
      { s with stack := rest, nodesExplored := s.nodesExplored + 1
               notified := s.notified ++ [s.maze.cellAt current] }
    if current = goal then { s1 with found := true }
    else (s.maze.getNeighbors current).foldl (visitNeighbor current) s1

/-- The state in which the main loop is entered. -/
def init (maze : Maze) (start : Coordinate) : State :=
  { maze := maze.setVisited start true
    stack := [start]
    parent := fun _ => none
    nodesExplored := 0
    found := false
    notified := [] }

/-- The main loop `while (!stack.empty() && !found)`. -/
def search (fuel : Nat) (maze : Maze) (start goal : Coordinate) : Option State :=
  whileLoop (fun s => !s.stack.isEmpty && !s.found) (body goal) fuel (init maze start)

/-- Model of `DFSPathfinder::findPath`. -/
def findPath (fuel elapsed : Nat) (maze : Maze) (start goal : Option Coordinate) :
    Option SearchResult :=
  match start, goal with
  | some start, some goal =>
    (search fuel maze start goal).bind fun s =>
      (finishSearch s.maze s.parent s.found s.nodesExplored fuel elapsed goal).map fun r =>
        ⟨r.1, r.2, s.maze, s.notified⟩
  | _, _ => some ⟨[], PathStats.zero, maze, []⟩

end DFSPathfinder

/-! ## std::priority_queue -/

namespace PriorityQueue

/-- Takes the `n`-th entry satisfying `p` out of a list, counting from 0. -/
def takeNth {α : Type} (p : α → Bool) : List α → Nat → Option (α × List α)
  | [], _ => none
  | a :: as, n =>
    if p a then
      match n with
      | 0 => some (a, as)
      | k + 1 => (takeNth p as k).map fun r => (r.1, a :: r.2)
    else (takeNth p as n).map fun r => (r.1, a :: r.2)

/-- The call `top()` followed by `pop()` on a min-heap ordered by `key`: one of the
entries of least key, chosen by `tie`, and the remaining entries. -/
def pop {α : Type} (key : α → Nat) (tie : Nat) (pq : List α) : Option (α × List α) :=
  match (pq.map key).min? with
  | none => none
  | some m => takeNth (fun a => key a == m) pq (tie % pq.countP (fun a => key a == m))

end PriorityQueue

/-! ## DijkstraPathfinder.cpp -/

namespace DijkstraPathfinder

/-- The entries of the priority queue (`struct Node`). -/
structure Node where
  cell : Coordinate
  cost : Nat
deriving DecidableEq, Repr

/-- The local variables of `findPath` during the main loop, and the numbers
that settle which entry of least cost each pop yields. -/
structure State where
  maze : Maze
  pq : List Node
  cost : Coordinate → Option Nat
  parent : Coordinate → Option Coordinate
  visited : List Coordinate
  nodesExplored : Nat
  found : Bool
  notified : List Cell
  ties : Nat → Nat

/-- The body of the loop over the neighbours of the popped node. -/
def relax (current : Node) (s : State) (neighbor : Coordinate) : State :=
  if neighbor ∉ s.visited then
    let newCost := current.cost + 1
    let better : Bool :=
      match s.cost neighbor with
      | none => true
      | some old => decide (newCost < old)
    if better then
      { s with
        cost := fun k => if k = neighbor then some newCost else s.cost k
        parent := fun k => if k = neighbor then some current.cell else s.parent k
        pq := s.pq ++ [⟨neighbor, newCost⟩] }
    else s
  else s

/-- One iteration of the main loop. -/
def body (goal : Coordinate) (s : State) : State :=
  match PriorityQueue.pop Node.cost (s.ties 0) s.pq with
  | none => s
  | some (current, rest) =>
    let s0 : State := { s with pq := rest, ties := fun n => s.ties (n + 1) }
    if current.cell ∈ s0.visited then s0
    else
      let maze1 := s0.maze.setVisited current.cell true
      let s1 : State :=
        { s0 with visited := current.cell :: s0.visited, maze := maze1
                  nodesExplored := s0.nodesExplored + 1
                  notified := s0.notified ++ [maze1.cellAt current.cell] }
      if current.cell = goal then { s1 with found := true }
      else (s1.maze.getNeighbors current.cell).foldl (relax current) s1

/-- The state in which the main loop is entered. -/
def init (ties : Nat → Nat) (maze : Maze) (start : Coordinate) : State :=
  { maze := maze
    pq := [⟨start, 0⟩]
    cost := fun k => if k = start then some 0 else none
    parent := fun _ => none
    visited := []
    nodesExplored := 0
    found := false
    notified := []
    ties := ties }

/-- The main loop `while (!pq.empty() && !found)`. -/
def search (fuel : Nat) (ties : Nat → Nat) (maze : Maze) (start goal : Coordinate) :
    Option State :=
  whileLoop (fun s => !s.pq.isEmpty && !s.found) (body goal) fuel (init ties maze start)

/-- Model of `DijkstraPathfinder::findPath`. -/
def findPath (fuel elapsed : Nat) (ties : Nat → Nat) (maze : Maze)
    (start goal : Option Coordinate) : Option SearchResult :=
  match start, goal with
  | some start, some goal =>
    (search fuel ties maze start goal).bind fun s =>
      (finishSearch s.maze s.parent s.found s.nodesExplored fuel elapsed goal).map fun r =>
        ⟨r.1, r.2, s.maze, s.notified⟩
  | _, _ => some ⟨[], PathStats.zero, maze, []⟩

end DijkstraPathfinder

/-! ## AStarPathfinder.cpp -/

namespace AStarPathfinder

/-- Model of `AStarPathfinder::heuristic`: the Manhattan distance. -/
def heuristic (src dst : Coordinate) : Nat :=
  (src.x - dst.x).natAbs + (src.y - dst.y).natAbs

/-- The entries of the priority queue (`struct Node`). -/
structure Node where
  cell : Coordinate
  fScore : Nat
deriving DecidableEq, Repr

/-- The local variables of `findPath` during the main loop, and the numbers
that settle which entry of least f-score each pop yields. -/
structure State where
  maze : Maze
  openSet : List Node
  gScore : Coordinate → Option Nat
  parent : Coordinate → Option Coordinate
  closedSet : List Coordinate
  nodesExplored : Nat
  found : Bool
  notified : List Cell
  ties : Nat → Nat

/-- The body of the loop over the neighbours of the popped node.  Reading a
missing key of `gScore` with `operator[]` gives `0.0`. -/
def relax (goal : Coordinate) (current : Node) (s : State) (neighbor : Coordinate) : State :=
  if neighbor ∉ s.closedSet then
    let tentativeGScore := (s.gScore current.cell).getD 0 + 1
    let better : Bool :=
      match s.gScore neighbor with
      | none => true
      | some old => decide (tentativeGScore < old)
    if better then
      { s with
        gScore := fun k => if k = neighbor then some tentativeGScore else s.gScore k
        parent := fun k => if k = neighbor then some current.cell else s.parent k
        openSet := s.openSet ++ [⟨neighbor, tentativeGScore + heuristic neighbor goal⟩] }
    else s
  else s

/-- One iteration of the main loop. -/
def body (goal : Coordinate) (s : State) : State :=
  match PriorityQueue.pop Node.fScore (s.ties 0) s.openSet with
  | none => s
  | some (current, rest) =>
    let s0 : State := { s with openSet := rest, ties := fun n => s.ties (n + 1) }
    if current.cell ∈ s0.closedSet then s0
    else
      let maze1 := s0.maze.setVisited current.cell true
      let s1 : State :=
        { s0 with closedSet := current.cell :: s0.closedSet, maze := maze1
                  nodesExplored := s0.nodesExplored + 1
                  notified := s0.notified ++ [maze1.cellAt current.cell] }
      if current.cell = goal then { s1 with found := true }
      else (s1.maze.getNeighbors current.cell).foldl (relax goal current) s1

/-- The state in which the main loop is entered. -/
def init (ties : Nat → Nat) (maze : Maze) (start goal : Coordinate) : State :=
  { maze := maze
    openSet := [⟨start, heuristic start goal⟩]
    gScore := fun k => if k = start then some 0 else none
    parent := fun _ => none
    closedSet := []
    nodesExplored := 0
    found := false
    notified := []
    ties := ties }

/-- The main loop `while (!openSet.empty() && !found)`. -/
def search (fuel : Nat) (ties : Nat → Nat) (maze : Maze) (start goal : Coordinate) :
    Option State :=
  whileLoop (fun s => !s.openSet.isEmpty && !s.found) (body goal) fuel
    (init ties maze start goal)

/-- Model of `AStarPathfinder::findPath`. -/
def findPath (fuel elapsed : Nat) (ties : Nat → Nat) (maze : Maze)
    (start goal : Option Coordinate) : Option SearchResult :=
  match start, goal with
  | some start, some goal =>
    (search fuel ties maze start goal).bind fun s =>
      (finishSearch s.maze s.parent s.found s.nodesExplored fuel elapsed goal).map fun r =>
        ⟨r.1, r.2, s.maze, s.notified⟩
  | _, _ => some ⟨[], PathStats.zero, maze, []⟩

end AStarPathfinder

/-! ## Maze.cpp: the generators -/

/-- The random generator: the stream of its raw draws, the next one first. -/
abbrev Rng := Nat → Nat

/-- The generator after `k` draws. -/
def Rng.drop (rng : Rng) (k : Nat) : Rng := fun n => rng (n + k)

/-- The distribution `std::uniform_int_distribution<>(a, b)` applied to a raw draw: a value
of `[a, b]`, every one of them for some draw. -/
def uniformInt (a b : Int) (raw : Nat) : Int := a + (raw : Int) % (b - a + 1)

namespace Maze

/-- The offsets of the recursive backtracker: two cells away, UP, DOWN,
LEFT, RIGHT. -/
def directions2 : List (Int × Int) := [(0, -2), (0, 2), (-2, 0), (2, 0)]

/-- The local variables of `generateRecursiveBacktracking` during its loop;
the back of the vector used as a stack is the head of the list. -/
structure CarveState where
  maze : Maze
  stack : List Coordinate
  rng : Rng

/-- One iteration of the loop of `generateRecursiveBacktracking`.  The index
drawn lies inside `neighbors`, so the default of `getD` is never used. -/
def carveBody (s : CarveState) : CarveState :=
  match s.stack with
  | [] => s
  | current :: rest =>
    let neighbors :=
      (directions2.map fun d => (⟨current.x + d.1, current.y + d.2⟩ : Coordinate)).filter
        fun n => s.maze.isValid n.x n.y && !s.maze.visited n
    if !neighbors.isEmpty then
      let chosen := neighbors.getD (uniformInt 0 (neighbors.length - 1) (s.rng 0)).toNat current
      let mx := Int.tdiv (current.x + chosen.x) 2
      let my := Int.tdiv (current.y + chosen.y) 2
      { maze := (((s.maze.setWall chosen false).setVisited chosen true).setWall ⟨mx, my⟩ false)
        stack := chosen :: current :: rest
        rng := s.rng.drop 1 }
    else { s with stack := rest }

/-- Model of `Maze::generateRecursiveBacktracking`. -/
def generateRecursiveBacktracking (fuel : Nat) (rng : Rng) (m : Maze) : Option (Maze × Rng) :=
  let startX := 1 + uniformInt 0 (Int.tdiv (m.width - 3) 2) (rng 0) * 2
  let startY := 1 + uniformInt 0 (Int.tdiv (m.height - 3) 2) (rng 1) * 2
  let current : Coordinate := ⟨startX, startY⟩
  let m1 := (m.setWall current false).setVisited current true
  (whileLoop (fun s => !s.stack.isEmpty) carveBody fuel ⟨m1, [current], rng.drop 2⟩).map
    fun s => (s.maze.clearVisited, s.rng)

/-- The local variables of `generateRandomizedPrims` during its loop. -/
structure PrimState where
  maze : Maze
  frontier : List Coordinate
  rng : Rng

/-- The body of the loops that put a cell on the frontier when it is a wall
that is not yet marked. -/
def primPush (requireUnvisited : Bool) (s : PrimState) (n : Coordinate) : PrimState :=
  if s.maze.wall n && (!requireUnvisited || !s.maze.visited n) then
    { s with frontier := s.frontier ++ [n], maze := s.maze.setVisited n true }
  else s

/-- One iteration of the loop of `generateRandomizedPrims`.  The index drawn
lies inside `frontier`, so the default of `getD` is never used. -/
def primBody (s : PrimState) : PrimState :=
  if s.frontier.isEmpty then s
  else
    let idx := (uniformInt 0 (s.frontier.length - 1) (s.rng 0)).toNat
    let wall := s.frontier.getD idx ⟨0, 0⟩
    let s1 : PrimState := { s with frontier := s.frontier.eraseIdx idx, rng := s.rng.drop 1 }
    let around := directions.map fun d => (⟨wall.x + d.1, wall.y + d.2⟩ : Coordinate)
    let passageCount := around.countP fun n => s1.maze.isValid n.x n.y && !s1.maze.wall n
    if passageCount = 1 then
      (around.filter fun n => s1.maze.isValid n.x n.y).foldl (primPush true)
        { s1 with maze := s1.maze.setWall wall false }
    else s1

/-- Model of `Maze::generateRandomizedPrims`.  The row index `distY(rng)` is drawn
before the column index `distX(rng)`. -/
def generateRandomizedPrims (fuel : Nat) (rng : Rng) (m : Maze) : Option (Maze × Rng) :=
  let sy := uniformInt 1 (m.height - 2) (rng 0)
  let sx := uniformInt 1 (m.width - 2) (rng 1)
  let start : Coordinate := ⟨sx, sy⟩
  let m1 := (m.setWall start false).setVisited start true
  let s0 := (m1.getNeighbors start).foldl (primPush false) ⟨m1, [], rng.drop 2⟩
  (whileLoop (fun s => !s.frontier.isEmpty) primBody fuel s0).map
    fun s => (s.maze.clearVisited, s.rng)

/-- The border of `generateRecursiveDivision`: the first and last column,
then the first and last row. -/
def addBorder (m : Maze) : Maze :=
  { m with wall := fun c =>
      if m.isValid c.x c.y ∧ (c.x = 0 ∨ c.x = m.width - 1 ∨ c.y = 0 ∨ c.y = m.height - 1)
      then true else m.wall c }

/-- The loop `for (i = x; i < x + w; ++i)` drawing a horizontal wall in row
`wallY` that leaves `gapX` open. -/
def drawHorizontal (m : Maze) (x w wallY gapX : Int) : Maze :=
  (List.range w.toNat).foldl
    (fun (acc : Maze) (k : Nat) =>
      let i := x + (k : Int)
      if i ≠ gapX ∧ acc.isValid i wallY then acc.setWall ⟨i, wallY⟩ true else acc) m

/-- The loop `for (i = y; i < y + h; ++i)` drawing a vertical wall in column
`wallX` that leaves `gapY` open. -/
def drawVertical (m : Maze) (y h wallX gapY : Int) : Maze :=
  (List.range h.toNat).foldl
    (fun (acc : Maze) (k : Nat) =>
      let i := y + (k : Int)
      if i ≠ gapY ∧ acc.isValid wallX i then acc.setWall ⟨wallX, i⟩ true else acc) m

/-- The recursive lambda `divide(x, y, w, h)` of `generateRecursiveDivision`,
with a bound on the depth of the recursion.  The coin `rng() % 2` is only
tossed for a square region. -/
def divide : Nat → Maze × Rng → Int → Int → Int → Int → Option (Maze × Rng)
  | fuel, (m, rng), x, y, w, h =>
    if w < 2 ∨ h < 2 then some (m, rng)
    else
      match fuel with
      | 0 => none
      | fuel + 1 =>
        let horizontal : Bool := decide (h > w) || (decide (h = w) && rng 0 % 2 == 0)
        let rng1 : Rng := if h = w then rng.drop 1 else rng
        if horizontal then
          let wallY := uniformInt y (y + h - 1) (rng1 0)
          let gapX := uniformInt x (x + w - 1) (rng1 1)
          let m1 := drawHorizontal m x w wallY gapX
          (divide fuel (m1, rng1.drop 2) x y w (wallY - y)).bind fun r =>
            divide fuel r x (wallY + 1) w (y + h - wallY - 1)
        else
          let wallX := uniformInt x (x + w - 1) (rng1 0)
          let gapY := uniformInt y (y + h - 1) (rng1 1)
          let m1 := drawVertical m y h wallX gapY
          (divide fuel (m1, rng1.drop 2) x y (wallX - x) h).bind fun r =>
            divide fuel r (wallX + 1) y (x + w - wallX - 1) h

/-- Model of `Maze::generateRecursiveDivision`. -/
def generateRecursiveDivision (fuel : Nat) (rng : Rng) (m : Maze) : Option (Maze × Rng) :=
  divide fuel ((m.setAllWalls false).addBorder, rng) 1 1 (m.width - 2) (m.height - 2)

/-- Model of `Maze::generatePerfectMaze`: an error when the size is refused, else the
grid that the chosen generator leaves, with start and goal set and opened
(`none` when the iteration budget does not suffice). -/
def generatePerfectMaze (fuel : Nat) (rng : Rng) (m : Maze) (w h : Int)
    (algorithm : MazeGenerationAlgorithm) : Except MazeError (Option Maze) :=
  match validateDimensions w h with
  | .error e => .error e
  | .ok () =>
    let m0 := ({ m with width := w, height := h } : Maze).initializeGrid
    let m1 := if algorithm ≠ .RECURSIVE_DIVISION then m0.setAllWalls true else m0
    let generated :=
      match algorithm with
      | .RECURSIVE_BACKTRACKING => generateRecursiveBacktracking fuel rng m1
      | .RANDOMIZED_PRIMS => generateRandomizedPrims fuel rng m1
      | .RECURSIVE_DIVISION => generateRecursiveDivision fuel rng m1
    .ok (generated.map fun r =>
      let m2 : Maze := { r.1 with start := some ⟨1, 1⟩, goal := some ⟨w - 2, h - 2⟩ }
      (m2.setWall ⟨1, 1⟩ false).setWall ⟨w - 2, h - 2⟩ false)

/-- The call `generatePerfectMaze(w, h, algorithm)` on the object that holds the grid
`m`: what the call returns or throws, and the grid that the object holds
afterwards (`none` for a budget that does not suffice).  The call of
`validateDimensions` is the first statement of the method: when it throws, no
member has been written. -/
def generatePerfectMazeCall (fuel : Nat) (rng : Rng) (m : Maze) (w h : Int)
    (algorithm : MazeGenerationAlgorithm) : Except MazeError Unit × Option Maze :=
  match generatePerfectMaze fuel rng m w h algorithm with
  | .error e => (.error e, some m)
  | .ok r => (.ok (), r)

/-- The inner walls of `generate`: the loops `for (y = 2; y < height - 2; y += 2)` and
`for (x = 2; x < width - 2; x += 3)` around `grid[y][x]->setWall(true)`. -/
def addInnerWalls (m : Maze) : Maze :=
  { m with wall := fun c =>
      if 2 ≤ c.y ∧ c.y < m.height - 2 ∧ c.y % 2 = 0 ∧
          2 ≤ c.x ∧ c.x < m.width - 2 ∧ (c.x - 2) % 3 = 0
      then true else m.wall c }

/-- Model of `Maze::generate`: what the call returns or throws, and the grid that the
object holds afterwards.  When `validateDimensions` throws, no member has been
written. -/
def generate (m : Maze) (w h : Int) : Except MazeError Unit × Maze :=
  match validateDimensions w h with
  | .error e => (.error e, m)
  | .ok () =>
    let m1 := (({ m with width := w, height := h } : Maze).initializeGrid).addBorder.addInnerWalls
    (.ok (),
      if w > 2 ∧ h > 2 then { m1 with start := some ⟨1, 1⟩, goal := some ⟨w - 2, h - 2⟩ }
      else m1)

/-- The state in which the loop of `generateRecursiveBacktracking` is entered: the
origin opened, marked and pushed. -/
def carveSeed (rng : Rng) (m : Maze) : CarveState :=
  let startX := 1 + uniformInt 0 (Int.tdiv (m.width - 3) 2) (rng 0) * 2
  let startY := 1 + uniformInt 0 (Int.tdiv (m.height - 3) 2) (rng 1) * 2
  let current : Coordinate := ⟨startX, startY⟩
  ⟨(m.setWall current false).setVisited current true, [current], rng.drop 2⟩

/-- The state in which the loop of `generateRandomizedPrims` is entered: the origin
opened and marked, and the loop over `getNeighbors(start)` run. -/
def primSeed (rng : Rng) (m : Maze) : PrimState :=
  let sy := uniformInt 1 (m.height - 2) (rng 0)
  let sx := uniformInt 1 (m.width - 2) (rng 1)
  let start : Coordinate := ⟨sx, sy⟩
  let m1 := (m.setWall start false).setVisited start true
  (m1.getNeighbors start).foldl (primPush false) ⟨m1, [], rng.drop 2⟩

/-! ### Recursive division without its bounds guard

The same procedure with the test `isValid` taken out of the two drawing
loops, to state that the test never fails. -/

/-- The loop of `drawHorizontal` without the test `isValid(i, wallY)`. -/
def drawHorizontalAll (m : Maze) (x w wallY gapX : Int) : Maze :=
  (List.range w.toNat).foldl
    (fun (acc : Maze) (k : Nat) =>
      let i := x + (k : Int)
      if i ≠ gapX then acc.setWall ⟨i, wallY⟩ true else acc) m

/-- The loop of `drawVertical` without the test `isValid(wallX, i)`. -/
def drawVerticalAll (m : Maze) (y h wallX gapY : Int) : Maze :=
  (List.range h.toNat).foldl
    (fun (acc : Maze) (k : Nat) =>
      let i := y + (k : Int)
      if i ≠ gapY then acc.setWall ⟨wallX, i⟩ true else acc) m

/-- The recursion `divide` with the unguarded drawing loops. -/
def divideAll : Nat → Maze × Rng → Int → Int → Int → Int → Option (Maze × Rng)
  | fuel, (m, rng), x, y, w, h =>
    if w < 2 ∨ h < 2 then some (m, rng)
    else
      match fuel with
      | 0 => none
      | fuel + 1 =>
        let horizontal : Bool := decide (h > w) || (decide (h = w) && rng 0 % 2 == 0)
        let rng1 : Rng := if h = w then rng.drop 1 else rng
        if horizontal then
          let wallY := uniformInt y (y + h - 1) (rng1 0)
          let gapX := uniformInt x (x + w - 1) (rng1 1)
          let m1 := drawHorizontalAll m x w wallY gapX
          (divideAll fuel (m1, rng1.drop 2) x y w (wallY - y)).bind fun r =>
            divideAll fuel r x (wallY + 1) w (y + h - wallY - 1)
        else
          let wallX := uniformInt x (x + w - 1) (rng1 0)
          let gapY := uniformInt y (y + h - 1) (rng1 1)
          let m1 := drawVerticalAll m y h wallX gapY
          (divideAll fuel (m1, rng1.drop 2) x y (wallX - x) h).bind fun r =>
            divideAll fuel r (wallX + 1) y (x + w - wallX - 1) h

end Maze

/-! ## The notions in which the properties are stated -/

/-- Manhattan distance between two positions. -/
def manhattan (a b : Coordinate) : Nat := (a.x - b.x).natAbs + (a.y - b.y).natAbs

namespace Maze

/-- A cell of the grid that is not a wall. -/
def isOpen (m : Maze) (c : Coordinate) : Bool := m.isValid c.x c.y && !m.wall c

/-- A sequence of non-wall cells of the grid in which each cell is at
Manhattan distance 1 from the next. -/
def IsPath (m : Maze) (p : List Coordinate) : Prop :=
  (∀ c ∈ p, m.isOpen c = true) ∧ p.Chain' (fun a b => manhattan a b = 1)

/-- A path of the grid that begins at `a` and ends at `b`. -/
def Connects (m : Maze) (a b : Coordinate) (p : List Coordinate) : Prop :=
  m.IsPath p ∧ p.head? = some a ∧ p.getLast? = some b

/-- The cell `b` can be reached from `a` through 4-adjacent non-wall cells. -/
def Reachable (m : Maze) (a b : Coordinate) : Prop := ∃ p, m.Connects a b p

/-- No cell of the grid has its visited flag set. -/
def Unvisited (m : Maze) : Prop := ∀ c, m.isValid c.x c.y = true → m.visited c = false

/-- The cells of the grid, row by row. -/
def cells (m : Maze) : List Coordinate :=
  (List.range m.height.toNat).flatMap fun (y : Nat) =>
    (List.range m.width.toNat).map fun (x : Nat) => (⟨(x : Int), (y : Int)⟩ : Coordinate)

/-- The number of cells of the grid whose visited flag is not set. -/
def countUnvisited (m : Maze) : Nat := m.cells.countP fun c => !m.visited c

/-- The number of cells of the grid. -/
def area (m : Maze) : Nat := m.width.toNat * m.height.toNat

/-- Cells reached from `start` by a number of moves, each to a cell listed
by `getNeighbors`. -/
inductive StepsTo (m : Maze) (start : Coordinate) : Nat → Coordinate → Prop
  | zero : StepsTo m start 0 start
  | step {n : Nat} {c d : Coordinate} :
      StepsTo m start n c → d ∈ m.getNeighbors c → StepsTo m start (n + 1) d

/-- The cells of the grid whose two coordinates are odd, row by row. -/
def oddCells (m : Maze) : List Coordinate :=
  m.cells.filter fun c => decide (c.x % 2 = 1) && decide (c.y % 2 = 1)

/-- Two grids of the same size whose cells have the same wall flags; the
other flags may differ. -/
def SameWalls (a b : Maze) : Prop :=
  a.width = b.width ∧ a.height = b.height ∧
    ∀ c, a.isValid c.x c.y = true → a.wall c = b.wall c

/-- A perfect maze: between any two non-wall cells of the grid there is
exactly one path of the grid that repeats no cell. -/
def Perfect (m : Maze) : Prop :=
  ∀ a b, m.isOpen a = true → m.isOpen b = true → ∃! p, m.Connects a b p ∧ p.Nodup

end Maze

/-- A returned path of cell copies that is non-empty, begins at `start`,
ends at `goal`, moves by one step at a time, holds no wall, and lies in the
grid. -/
def ValidPath (m : Maze) (start goal : Coordinate) (path : List Cell) : Prop :=
  path ≠ [] ∧ m.Connects start goal (path.map Cell.coords) ∧ ∀ c ∈ path, c.wall = false

/-! ## Example grids -/

/-- A 5x5 grid with a solid border and one inner wall at `(2, 2)`; start is
`(1, 1)` and goal `(3, 3)`. -/
def exampleMaze : Maze :=
  { width := 5, height := 5
    wall := fun c =>
      decide (c.x = 0) || decide (c.x = 4) || decide (c.y = 0) || decide (c.y = 4) ||
        (decide (c.x = 2) && decide (c.y = 2))
    visited := fun _ => false
    path := fun _ => false
    start := some ⟨1, 1⟩
    goal := some ⟨3, 3⟩ }

/-- The grid `exampleMaze` with the goal `(3, 3)` walled off by two more
walls at `(2, 3)` and `(3, 2)`. -/
def walledMaze : Maze :=
  { exampleMaze with
    wall := fun c =>
      exampleMaze.wall c || (decide (c.x = 2) && decide (c.y = 3)) ||
        (decide (c.x = 3) && decide (c.y = 2)) }

/-- The cells of `walledMaze` that can be reached from `(1, 1)`. -/
def walledMazeComponent : List Coordinate :=
  [⟨1, 1⟩, ⟨2, 1⟩, ⟨3, 1⟩, ⟨1, 2⟩, ⟨1, 3⟩]

/-- The default-constructed grid `Maze maze;` of `main.cpp`. -/
def defaultMaze : Maze := ⟨0, 0, fun _ => false, fun _ => false, fun _ => false, none, none⟩

/-- The grid that `generatePerfectMaze(5, 5, RANDOMIZED_PRIMS)` leaves on the
default-constructed grid when the raw draws are 1, 2, 3, ... -/
def primsExample : Option Maze :=
  match Maze.generatePerfectMaze 0 (fun n => n + 1) defaultMaze 5 5 .RANDOMIZED_PRIMS with
  | .ok r => r
  | .error _ => none

/-- The grid that `generatePerfectMaze(5, 5, RECURSIVE_DIVISION)` leaves on the
default-constructed grid when the raw draws are 0, 0, 2, 2, 1, 0, 0, 1 and
then zeros. -/
def divisionExample : Option Maze :=
  match Maze.generatePerfectMaze 8 (fun n => [0, 0, 2, 2, 1, 0, 0, 1].getD n 0) defaultMaze 5 5
    .RECURSIVE_DIVISION with
  | .ok r => r
  | .error _ => none

/-- The grid that `generatePerfectMaze(6, 5, RECURSIVE_BACKTRACKING)` leaves on
the default-constructed grid when every raw draw is 0. -/
def backtrackingExample : Option Maze :=
  match Maze.generatePerfectMaze 61 (fun _ => 0) defaultMaze 6 5 .RECURSIVE_BACKTRACKING with
  | .ok r => r
  | .error _ => none

/-- The 7x7 grid whose only walls are its 24 border cells; no flag is set. -/
def emptyRoom : Maze :=
  { width := 7, height := 7
    wall := fun c => decide (c.x = 0) || decide (c.x = 6) || decide (c.y = 0) || decide (c.y = 6)
    visited := fun _ => false
    path := fun _ => false
    start := none
    goal := none }

/-! ## Notions used in the proofs -/

/-- The list `l` runs from `c` back to `start` along the predecessor map. -/
inductive ParentChain (parent : Coordinate → Option Coordinate) (start : Coordinate) :
    Coordinate → List Coordinate → Prop
  | base : parent start = none → ParentChain parent start start [start]
  | step {c p : Coordinate} {l : List Coordinate} :
      parent c = some p → ParentChain parent start p l → ParentChain parent start c (c :: l)

/-- The variables of the main loop that the breadth-first and the
depth-first search have in common. -/
structure MarkState where
  maze : Maze
  frontier : List Coordinate
  parent : Coordinate → Option Coordinate
  nodesExplored : Nat
  found : Bool

/-- The common variables of a state of the breadth-first search. -/
def BFSPathfinder.State.mark (s : BFSPathfinder.State) : MarkState :=
  ⟨s.maze, s.queue, s.parent, s.nodesExplored, s.found⟩

/-- The common variables of a state of the depth-first search. -/
def DFSPathfinder.State.mark (s : DFSPathfinder.State) : MarkState :=
  ⟨s.maze, s.stack, s.parent, s.nodesExplored, s.found⟩

/-- The neighbours of `current` that an expansion marks and puts on the
frontier. -/
def MarkState.fresh (s : MarkState) (current : Coordinate) : List Coordinate :=
  (s.maze.getNeighbors current).filter fun c => !s.maze.visited c

/-- The state `t` arises from `s` by one iteration that takes `current` off
the frontier `current :: rest`; `fifo` tells a queue from a stack. -/
structure MarkStep (fifo : Bool) (goal : Coordinate) (s t : MarkState)
    (current : Coordinate) (rest : List Coordinate) : Prop where
  frontier_eq : s.frontier = current :: rest
  explored : t.nodesExplored = s.nodesExplored + 1
  width : t.maze.width = s.maze.width
  height : t.maze.height = s.maze.height
  wall : ∀ c, t.maze.wall c = s.maze.wall c
  found : t.found = (s.found || decide (current = goal))
  visited : ∀ c, t.maze.visited c =
    (s.maze.visited c || (decide (current ≠ goal) && decide (c ∈ s.fresh current)))
  parent : ∀ c, t.parent c =
    if current ≠ goal ∧ c ∈ s.fresh current then some current else s.parent c
  frontier : t.frontier =
    if current = goal then rest
    else if fifo then rest ++ s.fresh current else (s.fresh current).reverse ++ rest

/-- The depth in the search tree after a step: the cells marked by the step
lie one level below the expanded cell. -/
def stepLevels (lvl : Coordinate → Option Nat) (s t : MarkState) (c : Coordinate) :
    Option Nat :=
  if s.maze.visited c = false ∧ t.maze.visited c = true then
    (s.frontier.head?.bind lvl).map (· + 1)
  else lvl c

/-- The invariant of the marking searches, for a depth function `lvl` on the
cells seen in the run: the predecessor map is a tree rooted at `start` whose
edges are moves of the grid `m0`, seen cells are marked, the frontier holds
seen cells without repetition, a found goal is seen and off the frontier,
and `total` counts the explored cells, the
frontier and the unmarked cells. -/
structure MarkInv (m0 : Maze) (start goal : Coordinate) (total : Nat)
    (lvl : Coordinate → Option Nat) (s : MarkState) : Prop where
  width : s.maze.width = m0.width
  height : s.maze.height = m0.height
  wall : ∀ c, s.maze.wall c = m0.wall c
  root : lvl start = some 0 ∧ s.parent start = none
  root_only : ∀ c, lvl c = some 0 → c = start
  tree : ∀ c k, lvl c = some (k + 1) →
    ∃ p, s.parent c = some p ∧ lvl p = some k ∧ c ∈ m0.getNeighbors p
  marked : ∀ c, lvl c ≠ none → s.maze.visited c = true
  frontier_seen : ∀ c ∈ s.frontier, lvl c ≠ none
  frontier_nodup : s.frontier.Nodup
  found_seen : s.found = true → lvl goal ≠ none
  found_off : s.found = true → goal ∉ s.frontier
  count : s.nodesExplored + s.frontier.length + s.maze.countUnvisited = total

/-- The further invariant when the run began with no visited flag set:
marked cells are seen cells, and, while the goal is not found, a seen cell
off the frontier is not the goal and has all its neighbours seen. -/
structure MarkFresh (m0 : Maze) (goal : Coordinate)
    (lvl : Coordinate → Option Nat) (s : MarkState) : Prop where
  seen : ∀ c, m0.isValid c.x c.y = true → s.maze.visited c = true → lvl c ≠ none
  closed : s.found = false → ∀ c, lvl c ≠ none → c ∉ s.frontier →
    c ≠ goal ∧ ∀ d ∈ m0.getNeighbors c, lvl d ≠ none

/-- The invariant of the breadth-first queue: depths do not decrease along
the queue, differ by at most one inside it, are at least the depth of any
expanded cell, and a neighbour of an expanded cell lies at most one level
below it (the goal is taken off the queue without being expanded). -/
structure QueueInv (m0 : Maze) (goal : Coordinate) (lvl : Coordinate → Option Nat)
    (s : MarkState) : Prop where
  sorted : s.frontier.Pairwise fun a b => ∀ i j, lvl a = some i → lvl b = some j → i ≤ j
  narrow : ∀ a ∈ s.frontier, ∀ b ∈ s.frontier, ∀ i j,
    lvl a = some i → lvl b = some j → j ≤ i + 1
  above : ∀ c q i j, lvl c = some i → c ∉ s.frontier → q ∈ s.frontier → lvl q = some j → i ≤ j
  near : ∀ e v i, lvl e = some i → e ∉ s.frontier → (s.found = true → e ≠ goal) →
    v ∈ m0.getNeighbors e → ∃ j, lvl v = some j ∧ j ≤ i + 1

/-- The variables of the main loop that Dijkstra's search and A* have in
common; an entry of the open set is a cell with its key. -/
structure BestState where
  maze : Maze
  openSet : List (Coordinate × Nat)
  g : Coordinate → Option Nat
  parent : Coordinate → Option Coordinate
  closed : List Coordinate
  nodesExplored : Nat
  found : Bool

/-- The common variables of a state of Dijkstra's search. -/
def DijkstraPathfinder.State.best (s : DijkstraPathfinder.State) : BestState :=
  ⟨s.maze, s.pq.map (fun n => (n.cell, n.cost)), s.cost, s.parent, s.visited,
    s.nodesExplored, s.found⟩

/-- The common variables of a state of A*. -/
def AStarPathfinder.State.best (s : AStarPathfinder.State) : BestState :=
  ⟨s.maze, s.openSet.map (fun n => (n.cell, n.fScore)), s.gScore, s.parent, s.closedSet,
    s.nodesExplored, s.found⟩

/-- The test of the relaxation: the neighbour is not closed and has no cost
yet or a greater one than `newCost`. -/
def BestState.improves (closed : List Coordinate) (g : Coordinate → Option Nat)
    (newCost : Nat) (n : Coordinate) : Bool :=
  decide (n ∉ closed) &&
    (match g n with
      | none => true
      | some old => decide (newCost < old))

/-- The neighbours whose cost the iteration that pops `current` lowers: none
when `current` is a stale entry or the goal. -/
def BestState.improved (s : BestState) (goal current : Coordinate) : List Coordinate :=
  if current ∈ s.closed ∨ current = goal then []
  else (s.maze.getNeighbors current).filter
    (BestState.improves (current :: s.closed) s.g ((s.g current).getD 0 + 1))

/-- The state `t` arises from `s` by one iteration that pops the entry
`(current, f)` of least key and leaves the entries `rest`; `h` is the
heuristic added to the cost to form the key. -/
structure BestStep (h : Coordinate → Nat) (goal : Coordinate) (s t : BestState)
    (current : Coordinate) (f : Nat) (rest : List (Coordinate × Nat)) : Prop where
  perm : s.openSet.Perm ((current, f) :: rest)
  least : ∀ e ∈ s.openSet, f ≤ e.2
  width : t.maze.width = s.maze.width
  height : t.maze.height = s.maze.height
  wall : ∀ c, t.maze.wall c = s.maze.wall c
  closed : t.closed = if current ∈ s.closed then s.closed else current :: s.closed
  explored : t.nodesExplored =
    if current ∈ s.closed then s.nodesExplored else s.nodesExplored + 1
  found : t.found = (s.found || (decide (current ∉ s.closed) && decide (current = goal)))
  g : ∀ c, t.g c =
    if c ∈ s.improved goal current then some ((s.g current).getD 0 + 1) else s.g c
  parent : ∀ c, t.parent c =
    if c ∈ s.improved goal current then some current else s.parent c
  openSet : t.openSet =
    rest ++ (s.improved goal current).map fun n => (n, (s.g current).getD 0 + 1 + h n)

/-- The invariant of the best-first searches on the grid `m0` with the
heuristic `h`: the costs and predecessors form a tree of moves rooted at
`start`, closed cells carry their least cost, every cell with a cost that is
not closed has an entry with that cost in the open set, and the neighbours of
an expanded cell have a cost at most one greater. -/
structure BestInv (m0 : Maze) (h : Coordinate → Nat) (start goal : Coordinate)
    (s : BestState) : Prop where
  width : s.maze.width = m0.width
  height : s.maze.height = m0.height
  wall : ∀ c, s.maze.wall c = m0.wall c
  root : s.g start = some 0 ∧ s.parent start = none
  root_only : ∀ c, s.g c = some 0 → c = start
  tree : ∀ c k, s.g c = some (k + 1) →
    ∃ p, s.parent c = some p ∧ s.g p = some k ∧ c ∈ m0.getNeighbors p ∧ p ∈ s.closed
  closed_seen : ∀ c ∈ s.closed, ∃ gv, s.g c = some gv
  closed_nodup : s.closed.Nodup
  closed_valid : ∀ c ∈ s.closed, m0.isValid c.x c.y = true
  open_valid : ∀ e ∈ s.openSet, m0.isValid e.1.x e.1.y = true
  explored : s.nodesExplored = s.closed.length
  entry_ge : ∀ e ∈ s.openSet, ∃ gv, s.g e.1 = some gv ∧ gv + h e.1 ≤ e.2
  entry_of : ∀ c gv, s.g c = some gv → c ∉ s.closed → (c, gv + h c) ∈ s.openSet
  near : ∀ e ∈ s.closed, e ≠ goal → ∀ v ∈ m0.getNeighbors e,
    ∃ gv ge, s.g v = some gv ∧ s.g e = some ge ∧ gv ≤ ge + 1
  goal_closed : goal ∈ s.closed ↔ s.found = true
  best : ∀ c ∈ s.closed, ∀ n gv, m0.StepsTo start n c → s.g c = some gv → gv ≤ n
  started : start ∈ s.closed ∨ (s.closed = [] ∧ s.openSet = [(start, h start)])

/-- The candidates of the recursive backtracker at a cell: the four positions
two cells away. -/
def Maze.twoAway (c : Coordinate) : List Coordinate :=
  Maze.directions2.map fun d => (⟨c.x + d.1, c.y + d.2⟩ : Coordinate)

/-- The invariant of the carving loop of the recursive backtracker on a grid
of `w` by `h` cells, started at `origin`: the stack holds visited cells of
the grid, visited cells are open, every open cell can be reached from the
origin, and a visited cell that has left the stack has all its candidates
inside the grid visited. -/
structure CarveInv (w h : Int) (origin : Coordinate) (s : Maze.CarveState) : Prop where
  width : s.maze.width = w
  height : s.maze.height = h
  origin_ok : s.maze.isValid origin.x origin.y = true ∧ s.maze.visited origin = true
  stack_ok : ∀ c ∈ s.stack, s.maze.isValid c.x c.y = true ∧ s.maze.visited c = true
  open_of_visited : ∀ c, s.maze.isValid c.x c.y = true → s.maze.visited c = true →
    s.maze.wall c = false
  connected : ∀ c, s.maze.isOpen c = true → ∃ n, s.maze.StepsTo origin n c
  finished : ∀ c, s.maze.isValid c.x c.y = true → s.maze.visited c = true → c ∉ s.stack →
    ∀ d ∈ Maze.twoAway c, s.maze.isValid d.x d.y = true → s.maze.visited d = true

/-- The grid `m` arises from the grid `m0` by setting visited flags of cells
of the grid: the size, the wall and path flags, start and goal are those of
`m0`, a flag set in `m0` is set in `m`, and a flag set in `m` was set in `m0`
or belongs to a cell of the grid. -/
structure Maze.MarkedFrom (m0 m : Maze) : Prop where
  width : m.width = m0.width
  height : m.height = m0.height
  wall : m.wall = m0.wall
  path : m.path = m0.path
  start : m.start = m0.start
  goal : m.goal = m0.goal
  kept : ∀ c, m0.visited c = true → m.visited c = true
  inside : ∀ c, m.visited c = true → m0.visited c = true ∨ m0.isValid c.x c.y = true

/-- The invariant of the calls of the visit callback in the breadth-first
and the depth-first search; `notified` holds the copies of the cells handed
to the callback, in call order.  There is one call per explored cell, the
notified cells and the cells of the frontier are marked and pairwise
different, every cell was marked when it was notified, the first call is for
`start`, and once the goal is found the last call was for it. -/
structure MarkNotified (start goal : Coordinate) (s : MarkState) (notified : List Cell) :
    Prop where
  count : notified.length = s.nodesExplored
  marked : ∀ c ∈ notified.map Cell.coords ++ s.frontier, s.maze.visited c = true
  nodup : (notified.map Cell.coords ++ s.frontier).Nodup
  flagged : ∀ c ∈ notified, c.visited = true
  first : notified.head?.map Cell.coords = some start ∨
    (notified = [] ∧ s.frontier = [start] ∧ s.found = false)
  last : s.found = true → notified.getLast?.map Cell.coords = some goal

/-- The invariant of the calls of the visit callback in Dijkstra's search and
in A*, in terms of the cells `pending` in the open set, the closed cells
(the newest first), the counter and the flag `found`.  The notified cells are
the closed cells in the order in which they were closed. -/
structure BestNotified (start goal : Coordinate) (pending closed : List Coordinate)
    (nodesExplored : Nat) (found : Bool) (notified : List Cell) : Prop where
  count : notified.length = nodesExplored
  coords : notified.map Cell.coords = closed.reverse
  nodup : closed.Nodup
  flagged : ∀ c ∈ notified, c.visited = true
  first : notified.head?.map Cell.coords = some start ∨
    (notified = [] ∧ pending = [start] ∧ found = false)
  last : found = true → notified.getLast?.map Cell.coords = some goal

/-- Two states of Dijkstra's search that agree in everything but the visited
and path flags of their grids and the flags copied into the notified
cells. -/
structure DijkstraPathfinder.Alike (s t : DijkstraPathfinder.State) : Prop where
  walls : s.maze.SameWalls t.maze
  pq : s.pq = t.pq
  cost : s.cost = t.cost
  parent : s.parent = t.parent
  visited : s.visited = t.visited
  nodesExplored : s.nodesExplored = t.nodesExplored
  found : s.found = t.found
  ties : s.ties = t.ties
  notified : s.notified.map Cell.coords = t.notified.map Cell.coords

/-- Two states of A* that agree in everything but the visited and path flags
of their grids and the flags copied into the notified cells. -/
structure AStarPathfinder.Alike (s t : AStarPathfinder.State) : Prop where
  walls : s.maze.SameWalls t.maze
  openSet : s.openSet = t.openSet
  gScore : s.gScore = t.gScore
  parent : s.parent = t.parent
  closedSet : s.closedSet = t.closedSet
  nodesExplored : s.nodesExplored = t.nodesExplored
  found : s.found = t.found
  ties : s.ties = t.ties
  notified : s.notified.map Cell.coords = t.notified.map Cell.coords

/-- The number of cells of the grid with two odd coordinates whose visited
flag is not set. -/
def Maze.countUnvisitedOdd (m : Maze) : Nat := m.oddCells.countP fun c => !m.visited c

/-- What the carving loop of the backtracker keeps true of its stack on a grid
of any size: every stacked cell is a cell of the grid with two odd
coordinates. -/
structure CarveOdd (w h : Int) (s : Maze.CarveState) : Prop where
  width : s.maze.width = w
  height : s.maze.height = h
  stack_odd : ∀ c ∈ s.stack, s.maze.isValid c.x c.y = true ∧ c.x % 2 = 1 ∧ c.y % 2 = 1

/-- What the carving loop of the backtracker keeps true on a grid of odd width
and height: a visited cell has two odd coordinates and lies off the border, a
non-wall cell is a visited cell or lies between two visited cells of its row
or of its column, and the walls and the unvisited cells are counted by
`walls + area = 2 * unvisited + 1`. -/
structure CarveTree (w h : Int) (s : Maze.CarveState) : Prop where
  odd_visited : ∀ c, s.maze.visited c = true →
    c.x % 2 = 1 ∧ c.y % 2 = 1 ∧ 1 ≤ c.x ∧ c.x ≤ w - 2 ∧ 1 ≤ c.y ∧ c.y ≤ h - 2
  open_kind : ∀ c, s.maze.isValid c.x c.y = true → s.maze.wall c = false →
    s.maze.visited c = true ∨
    (c.x % 2 = 0 ∧ c.y % 2 = 1 ∧ s.maze.visited ⟨c.x - 1, c.y⟩ = true ∧
      s.maze.visited ⟨c.x + 1, c.y⟩ = true) ∨
    (c.x % 2 = 1 ∧ c.y % 2 = 0 ∧ s.maze.visited ⟨c.x, c.y - 1⟩ = true ∧
      s.maze.visited ⟨c.x, c.y + 1⟩ = true)
  count : s.maze.cells.countP (fun c => s.maze.wall c) + s.maze.area =
    2 * s.maze.countUnvisited + 1

namespace Maze

/-- The branch of `divide` that draws a horizontal wall, for the generator
`rng1` left after the orientation was chosen. -/
def divideHorizontal (fuel : Nat) (m : Maze) (rng1 : Rng) (x y w h : Int) :
    Option (Maze × Rng) :=
  let wallY := uniformInt y (y + h - 1) (rng1 0)
  let gapX := uniformInt x (x + w - 1) (rng1 1)
  let m1 := drawHorizontal m x w wallY gapX
  (divide fuel (m1, rng1.drop 2) x y w (wallY - y)).bind fun r =>
    divide fuel r x (wallY + 1) w (y + h - wallY - 1)

/-- The branch of `divide` that draws a vertical wall, for the generator
`rng1` left after the orientation was chosen. -/
def divideVertical (fuel : Nat) (m : Maze) (rng1 : Rng) (x y w h : Int) :
    Option (Maze × Rng) :=
  let wallX := uniformInt x (x + w - 1) (rng1 0)
  let gapY := uniformInt y (y + h - 1) (rng1 1)
  let m1 := drawVertical m y h wallX gapY
  (divide fuel (m1, rng1.drop 2) x y (wallX - x) h).bind fun r =>
    divide fuel r (wallX + 1) y (x + w - wallX - 1) h

/-- The least number of moves from `a` to `b` is `n`. -/
def Dist (m : Maze) (a b : Coordinate) (n : Nat) : Prop :=
  m.StepsTo a n b ∧ ∀ k, m.StepsTo a k b → n ≤ k

end Maze

/-- The states a while loop goes through: `LoopRun cond body s0 k s` says that
the loop started in `s0` runs its body at least `k` times and is in state
`s` after the `k`-th time. -/
inductive LoopRun {σ : Type} (cond : σ → Bool) (body : σ → σ) (s0 : σ) : Nat → σ → Prop
  | start : LoopRun cond body s0 0 s0
  | step {k : Nat} {s : σ} :
      LoopRun cond body s0 k s → cond s = true → LoopRun cond body s0 (k + 1) (body s)

/-- What Dijkstra's search keeps true of its queue on a grid of unit moves:
no cell has two entries, no entry is for a closed cell, an entry carries the
cost recorded for its cell, every cell with a recorded cost is closed or has
its entry, no recorded cost exceeds the key of an entry by more than one, the
closed cells (the newest first) were closed in the order of their costs, none
of which exceeds the key of an entry, and one cell is closed per explored
node. -/
structure PushedOnce (s : BestState) : Prop where
  entries_nodup : (s.openSet.map Prod.fst).Nodup
  entries_open : ∀ e ∈ s.openSet, e.1 ∉ s.closed
  entry_cost : ∀ e ∈ s.openSet, s.g e.1 = some e.2
  costed : ∀ c gv, s.g c = some gv → c ∈ s.closed ∨ (c, gv) ∈ s.openSet
  cost_near : ∀ c gv, s.g c = some gv → ∀ e ∈ s.openSet, gv ≤ e.2 + 1
  closed_nodup : s.closed.Nodup
  closed_sorted : (s.closed.map fun c => (s.g c).getD 0).Pairwise (· ≥ ·)
  closed_le : ∀ c ∈ s.closed, ∀ e ∈ s.openSet, (s.g c).getD 0 ≤ e.2
  explored : s.nodesExplored = s.closed.length

/-- The order of two cells by their least number of moves from `start`. -/
def Maze.DistLE (m : Maze) (start a b : Coordinate) : Prop :=
  ∀ i j, m.Dist start a i → m.Dist start b j → i ≤ j

/-- What the breadth-first search keeps true of its queue and of the cells
it has handed to the visit callback, in terms of their least number of moves
from `start` in the grid `m0`: each of these cells can be reached, the queue
and the notified cells are in non-decreasing order, and two cells of the
queue differ by at most one. -/
structure BfsOrder (m0 : Maze) (start : Coordinate) (queue notified : List Coordinate) :
    Prop where
  queue_dist : ∀ a ∈ queue, ∃ i, m0.Dist start a i
  notified_dist : ∀ a ∈ notified, ∃ i, m0.Dist start a i
  queue_sorted : queue.Pairwise (m0.DistLE start)
  queue_narrow : ∀ a ∈ queue, ∀ b ∈ queue, ∀ i j,
    m0.Dist start a i → m0.Dist start b j → j ≤ i + 1
  notified_sorted : notified.Pairwise (m0.DistLE start)

/-! # Proofs -/

/-! ## Loops -/

theorem whileLoop_spec {σ : Type} (cond : σ → Bool) (body : σ → σ) (Inv : σ → Prop)
    (μ : σ → Nat)
    (hstep : ∀ s, Inv s → cond s = true → Inv (body s) ∧ μ (body s) < μ s) :
    ∀ n s, Inv s → μ s ≤ n →
      ∃ s', whileLoop cond body n s = some s' ∧ Inv s' ∧ cond s' = false := by
  intro n
  induction n with
  | zero =>
    intro s hI hμ
    cases hc : cond s with
    | false => exact ⟨s, by simp [whileLoop, hc], hI, hc⟩
    | true =>
      have := (hstep s hI hc).2
      omega
  | succ n ih =>
    intro s hI hμ
    cases hc : cond s with
    | false => exact ⟨s, by simp [whileLoop, hc], hI, hc⟩
    | true =>
      obtain ⟨hI', hlt⟩ := hstep s hI hc
      obtain ⟨s', hs', hI'', hc'⟩ := ih (body s) hI' (by omega)
      exact ⟨s', by simp [whileLoop, hc, hs'], hI'', hc'⟩

theorem whileLoop_inv {σ : Type} (cond : σ → Bool) (body : σ → σ) (Inv : σ → Prop)
    (hstep : ∀ s, Inv s → cond s = true → Inv (body s)) :
    ∀ n s s', Inv s → whileLoop cond body n s = some s' → Inv s' ∧ cond s' = false := by
  intro n
  induction n with
  | zero =>
    intro s s' hI h
    cases hc : cond s with
    | false =>
      simp [whileLoop, hc] at h
      subst h
      exact ⟨hI, hc⟩
    | true => simp [whileLoop, hc] at h
  | succ n ih =>
    intro s s' hI h
    cases hc : cond s with
    | false =>
      simp [whileLoop, hc] at h
      subst h
      exact ⟨hI, hc⟩
    | true =>
      simp [whileLoop, hc] at h
      exact ih (body s) s' (hstep s hI hc) h

theorem whileLoop_of_not_cond {σ : Type} (cond : σ → Bool) (body : σ → σ) (n : Nat) (s : σ)
    (h : cond s = false) : whileLoop cond body n s = some s := by
  cases n <;> simp [whileLoop, h]

/-! ## The grid -/

namespace Maze

theorem isValid_iff (m : Maze) (x y : Int) :
    m.isValid x y = true ↔ 0 ≤ x ∧ x < m.width ∧ 0 ≤ y ∧ y < m.height := by
  simp [isValid, and_assoc]

theorem isOpen_iff (m : Maze) (c : Coordinate) :
    m.isOpen c = true ↔ m.isValid c.x c.y = true ∧ m.wall c = false := by
  simp [isOpen]

theorem mem_getNeighbors (m : Maze) (c d : Coordinate) :
    d ∈ m.getNeighbors c ↔ m.isOpen d = true ∧ manhattan c d = 1 := by
  obtain ⟨cx, cy⟩ := c
  obtain ⟨dx, dy⟩ := d
  simp only [getNeighbors, directions, List.map, List.mem_filter, List.mem_cons,
    List.mem_singleton, List.not_mem_nil, or_false, isOpen, manhattan, Coordinate.mk.injEq]
  constructor
  · rintro ⟨h, ho⟩
    refine ⟨ho, ?_⟩
    omega
  · rintro ⟨ho, h⟩
    refine ⟨?_, ho⟩
    omega

theorem getNeighbors_length_le (m : Maze) (c : Coordinate) : (m.getNeighbors c).length ≤ 4 := by
  unfold getNeighbors
  exact le_trans (List.length_filter_le _ _) (by simp [directions])

theorem mem_cells (m : Maze) (c : Coordinate) : c ∈ m.cells ↔ m.isValid c.x c.y = true := by
  obtain ⟨cx, cy⟩ := c
  simp only [cells, List.mem_flatMap, List.mem_map, List.mem_range, Coordinate.mk.injEq,
    isValid_iff]
  constructor
  · rintro ⟨y, hy, x, hx, rfl, rfl⟩
    omega
  · rintro ⟨h1, h2, h3, h4⟩
    exact ⟨cy.toNat, by omega, cx.toNat, by omega, by omega, by omega⟩

theorem cells_length (m : Maze) : m.cells.length = m.area := by
  simp [cells, area, List.length_flatMap, Function.comp_def, Nat.mul_comm]

theorem cells_nodup (m : Maze) : m.cells.Nodup := by
  unfold cells
  rw [List.nodup_flatMap]
  refine ⟨?_, ?_⟩
  · intro y _
    refine List.Nodup.map ?_ (List.nodup_range _)
    intro a b h
    simpa using h
  · refine List.Pairwise.imp_of_mem ?_ (List.nodup_range _)
    intro a b _ _ hab
    intro c
    simp only [List.mem_map]
    rintro ⟨x, _, rfl⟩ ⟨x', _, h⟩
    simp at h
    omega

end Maze

/-! ## Counting cells -/

theorem countP_unset_point {α : Type} [DecidableEq α] (p q : α → Bool) (a : α) :
    ∀ (l : List α), l.Nodup → a ∈ l → p a = true → q a = false →
      (∀ k, k ≠ a → q k = p k) → l.countP q + 1 = l.countP p := by
  intro l
  induction l with
  | nil => intro _ h; simp at h
  | cons b l ih =>
    intro hnd hmem hp hq hother
    rw [List.nodup_cons] at hnd
    by_cases hba : b = a
    · subst hba
      have hsame : l.countP q = l.countP p := by
        apply List.countP_congr
        intro k hk
        have : k ≠ b := fun h => hnd.1 (h ▸ hk)
        simp [hother k this]
      simp [List.countP_cons, hp, hq, hsame]
    · have hmem' : a ∈ l := by
        rcases List.mem_cons.mp hmem with h | h
        · exact absurd h.symm hba
        · exact h
      have := ih hnd.2 hmem' hp hq hother
      simp only [List.countP_cons, hother b hba]
      omega

theorem countP_unset_list {α : Type} [DecidableEq α] (l : List α) (hl : l.Nodup) :
    ∀ (new : List α) (p : α → Bool), new.Nodup → (∀ c ∈ new, c ∈ l ∧ p c = true) →
      l.countP (fun c => p c && !decide (c ∈ new)) + new.length = l.countP p := by
  intro new
  induction new with
  | nil => intro p _ _; simp
  | cons a new ih =>
    intro p hnd h
    rw [List.nodup_cons] at hnd
    let p1 : α → Bool := fun c => p c && !decide (c = a)
    have h1 : l.countP p1 + 1 = l.countP p :=
      countP_unset_point p p1 a l hl (h a (List.mem_cons_self _ _)).1
        (h a (List.mem_cons_self _ _)).2 (by simp [p1]) (by intro k hk; simp [p1, hk])
    have h2 := ih p1 hnd.2 (by
      intro c hc
      refine ⟨(h c (List.mem_cons_of_mem _ hc)).1, ?_⟩
      have : c ≠ a := fun e => hnd.1 (e ▸ hc)
      simp [p1, this, (h c (List.mem_cons_of_mem _ hc)).2])
    have h3 : l.countP (fun c => p c && !decide (c ∈ a :: new)) =
        l.countP (fun c => p1 c && !decide (c ∈ new)) := by
      apply List.countP_congr
      intro c _
      simp [p1, List.mem_cons, not_or, Bool.and_assoc]
    rw [h3, List.length_cons]
    omega

namespace Maze

theorem cells_eq_of_size (m m' : Maze) (hw : m'.width = m.width) (hh : m'.height = m.height) :
    m'.cells = m.cells := by
  simp [cells, hw, hh]

theorem countUnvisited_le_area (m : Maze) : m.countUnvisited ≤ m.area := by
  rw [← cells_length]
  exact List.countP_le_length _

theorem nodup_valid_length_le (m : Maze) (l : List Coordinate) (hl : l.Nodup)
    (hv : ∀ c ∈ l, m.isValid c.x c.y = true) : l.length ≤ m.area := by
  rw [← cells_length]
  have hsub : l ⊆ m.cells := fun c hc => (mem_cells m c).mpr (hv c hc)
  have := List.subperm_of_subset hl hsub
  exact this.length_le

theorem getNeighbors_nodup (m : Maze) (c : Coordinate) : (m.getNeighbors c).Nodup := by
  unfold getNeighbors
  apply List.Nodup.filter
  obtain ⟨cx, cy⟩ := c
  simp only [directions, List.map, List.nodup_cons, List.mem_cons, List.mem_singleton,
    Coordinate.mk.injEq, List.not_mem_nil, not_false_eq_true, List.nodup_nil, and_true,
    or_false, true_and]
  refine ⟨?_, ?_, ?_⟩ <;> omega

theorem getNeighbors_congr (m m' : Maze) (hw : m'.width = m.width) (hh : m'.height = m.height)
    (hwall : ∀ c, m'.wall c = m.wall c) (c : Coordinate) :
    m'.getNeighbors c = m.getNeighbors c := by
  simp [getNeighbors, isValid, hw, hh, hwall]

theorem isOpen_congr (m m' : Maze) (hw : m'.width = m.width) (hh : m'.height = m.height)
    (hwall : ∀ c, m'.wall c = m.wall c) (c : Coordinate) :
    m'.isOpen c = m.isOpen c := by
  simp [isOpen, isValid, hw, hh, hwall]

/-! ## Paths as lists and as counted moves -/

theorem stepsTo_of_chain (m : Maze) (start : Coordinate) :
    ∀ (p : List Coordinate) (a b : Coordinate) (n : Nat), m.StepsTo start n a →
      List.Chain (fun a b => manhattan a b = 1) a p → (∀ c ∈ p, m.isOpen c = true) →
      (a :: p).getLast? = some b → m.StepsTo start (n + p.length) b := by
  intro p
  induction p with
  | nil =>
    intro a b n hs _ _ hl
    simp at hl
    subst hl
    simpa using hs
  | cons a' p ih =>
    intro a b n hs hc ho hl
    rw [List.chain_cons] at hc
    have hstep : m.StepsTo start (n + 1) a' :=
      StepsTo.step hs ((mem_getNeighbors m a a').mpr ⟨ho a' (List.mem_cons_self _ _), hc.1⟩)
    have hl' : (a' :: p).getLast? = some b := by
      rw [List.getLast?_cons_cons] at hl
      exact hl
    have := ih a' b (n + 1) hstep hc.2 (fun c hc' => ho c (List.mem_cons_of_mem _ hc')) hl'
    rw [List.length_cons]
    have e : n + (p.length + 1) = n + 1 + p.length := by omega
    rw [e]
    exact this

theorem stepsTo_of_connects (m : Maze) (a b : Coordinate) (p : List Coordinate)
    (h : m.Connects a b p) : m.StepsTo a (p.length - 1) b := by
  obtain ⟨⟨hopen, hchain⟩, hhead, hlast⟩ := h
  cases p with
  | nil => simp at hhead
  | cons a' p =>
    simp at hhead
    subst hhead
    have := stepsTo_of_chain m a' p a' b 0 StepsTo.zero hchain
      (fun c hc => hopen c (List.mem_cons_of_mem _ hc)) hlast
    simpa using this

theorem connects_of_stepsTo (m : Maze) (a : Coordinate) (ha : m.isOpen a = true) :
    ∀ (n : Nat) (b : Coordinate), m.StepsTo a n b →
      ∃ p, m.Connects a b p ∧ p.length = n + 1 := by
  intro n b h
  induction h with
  | zero =>
    refine ⟨[a], ⟨⟨?_, ?_⟩, ?_, ?_⟩, ?_⟩ <;> simp [ha]
  | @step n c d _ hd ih =>
    obtain ⟨p, ⟨⟨hopen, hchain⟩, hhead, hlast⟩, hlen⟩ := ih
    rw [mem_getNeighbors] at hd
    refine ⟨p ++ [d], ⟨⟨?_, ?_⟩, ?_, ?_⟩, ?_⟩
    · intro x hx
      rcases List.mem_append.mp hx with h | h
      · exact hopen x h
      · simp at h
        subst h
        exact hd.1
    · rw [List.chain'_append]
      refine ⟨hchain, by simp, ?_⟩
      intro x hx y hy
      simp at hy
      subst hy
      rw [hlast] at hx
      simp at hx
      subst hx
      exact hd.2
    · cases p with
      | nil => simp at hlen
      | cons x p => simpa using hhead
    · simp
    · simp [hlen]

theorem stepsTo_isOpen (m : Maze) (a : Coordinate) (ha : m.isOpen a = true) (n : Nat)
    (b : Coordinate) (h : m.StepsTo a n b) : m.isOpen b = true := by
  cases h with
  | zero => exact ha
  | step _ hd => exact ((mem_getNeighbors m _ _).mp hd).1

theorem reachable_iff_stepsTo (m : Maze) (a b : Coordinate) (ha : m.isOpen a = true) :
    m.Reachable a b ↔ ∃ n, m.StepsTo a n b := by
  constructor
  · rintro ⟨p, hp⟩
    exact ⟨_, stepsTo_of_connects m a b p hp⟩
  · rintro ⟨n, hn⟩
    obtain ⟨p, hp, _⟩ := connects_of_stepsTo m a ha n b hn
    exact ⟨p, hp⟩

end Maze

/-! ## Path reconstruction -/

theorem reconstruct_loop (maze : Maze) (parent : Coordinate → Option Coordinate)
    (start : Coordinate) :
    ∀ c l, ParentChain parent start c l → ∀ (acc : List Cell) (fuel : Nat), l.length ≤ fuel →
      whileLoop (fun (s : Option Coordinate × List Cell) => s.1.isSome)
        (reconstructStep maze parent) fuel (some c, acc) = some (none, acc ++ l.map maze.cellAt) := by
  intro c l h
  induction h with
  | base h0 =>
    intro acc fuel hf
    cases fuel with
    | zero => simp at hf
    | succ n =>
      simp only [whileLoop, Option.isSome_some, if_true, reconstructStep, h0]
      rw [whileLoop_of_not_cond _ _ _ _ (by simp)]
      simp
  | @step c p l hp _ ih =>
    intro acc fuel hf
    cases fuel with
    | zero => simp at hf
    | succ n =>
      simp only [whileLoop, Option.isSome_some, if_true, reconstructStep, hp]
      rw [ih (acc ++ [maze.cellAt c]) n (by simpa using hf)]
      simp

theorem reconstructPath_of_chain (maze : Maze) (parent : Coordinate → Option Coordinate)
    (start goal : Coordinate) (l : List Coordinate) (h : ParentChain parent start goal l)
    (fuel : Nat) (hf : l.length ≤ fuel) :
    reconstructPath maze parent fuel goal = some ((l.map maze.cellAt).reverse) := by
  unfold reconstructPath
  rw [reconstruct_loop maze parent start goal l h [] fuel hf]
  simp

theorem chain_of_levels (m0 : Maze) (start : Coordinate)
    (parent : Coordinate → Option Coordinate) (lvl : Coordinate → Option Nat)
    (hroot : parent start = none) (hroot_only : ∀ c, lvl c = some 0 → c = start)
    (htree : ∀ c k, lvl c = some (k + 1) →
      ∃ p, parent c = some p ∧ lvl p = some k ∧ c ∈ m0.getNeighbors p) :
    ∀ k c, lvl c = some k →
      ∃ l, ParentChain parent start c l ∧ l.length = k + 1 ∧ l.head? = some c ∧
        l.getLast? = some start ∧ l.Chain' (fun a b => manhattan b a = 1) ∧
        (∀ x ∈ l, x = start ∨ m0.isOpen x = true) ∧
        (∀ x ∈ l, ∃ j, j ≤ k ∧ lvl x = some j) ∧ l.Nodup := by
  intro k
  induction k with
  | zero =>
    intro c hc
    have := hroot_only c hc
    subst this
    exact ⟨[c], ParentChain.base hroot, by simp, by simp, by simp, by simp, by simp,
      by simpa using hc, by simp⟩
  | succ k ih =>
    intro c hc
    obtain ⟨p, hp, hlp, hmem⟩ := htree c k hc
    obtain ⟨l, hchain, hlen, hhead, hlast, hadj, hopen, hlev, hnd⟩ := ih p hlp
    have hcl : c ∉ l := by
      intro hin
      obtain ⟨j, hj, hlj⟩ := hlev c hin
      rw [hc] at hlj
      simp at hlj
      omega
    refine ⟨c :: l, ParentChain.step hp hchain, by simp [hlen], by simp, ?_, ?_, ?_, ?_, ?_⟩
    · cases l with
      | nil => simp at hlen
      | cons x l => simpa using hlast
    · rw [List.chain'_cons']
      refine ⟨?_, hadj⟩
      intro y hy
      rw [hhead] at hy
      simp at hy
      subst hy
      exact ((Maze.mem_getNeighbors m0 _ _).mp hmem).2
    · intro x hx
      rcases List.mem_cons.mp hx with h | h
      · subst h
        exact Or.inr ((Maze.mem_getNeighbors m0 _ _).mp hmem).1
      · exact hopen x h
    · intro x hx
      rcases List.mem_cons.mp hx with h | h
      · subst h
        exact ⟨k + 1, le_refl _, hc⟩
      · obtain ⟨j, hj, hlj⟩ := hlev x h
        exact ⟨j, by omega, hlj⟩
    · exact List.nodup_cons.mpr ⟨hcl, hnd⟩

theorem stepsTo_of_levels (m0 : Maze) (start : Coordinate)
    (parent : Coordinate → Option Coordinate) (lvl : Coordinate → Option Nat)
    (hroot_only : ∀ c, lvl c = some 0 → c = start)
    (htree : ∀ c k, lvl c = some (k + 1) →
      ∃ p, parent c = some p ∧ lvl p = some k ∧ c ∈ m0.getNeighbors p) :
    ∀ k c, lvl c = some k → m0.StepsTo start k c := by
  intro k
  induction k with
  | zero =>
    intro c hc
    rw [hroot_only c hc]
    exact Maze.StepsTo.zero
  | succ k ih =>
    intro c hc
    obtain ⟨p, _, hlp, hmem⟩ := htree c k hc
    exact Maze.StepsTo.step (ih p hlp) hmem

/-- The path rebuilt along a chain of a search tree is a valid path of the
grid, and the chain fits into the grid. -/
theorem validPath_of_chain (m0 maze : Maze) (start goal : Coordinate)
    (hwall : ∀ c, maze.wall c = m0.wall c) (hs : m0.isOpen start = true)
    (l : List Coordinate) (hhead : l.head? = some goal) (hlast : l.getLast? = some start)
    (hadj : l.Chain' (fun a b => manhattan b a = 1))
    (hopen : ∀ x ∈ l, x = start ∨ m0.isOpen x = true) :
    ValidPath m0 start goal ((l.map maze.cellAt).reverse) := by
  have hopen' : ∀ x ∈ l, m0.isOpen x = true := by
    intro x hx
    rcases hopen x hx with h | h
    · rw [h]; exact hs
    · exact h
  have hmap : ((l.map maze.cellAt).reverse).map Cell.coords = l.reverse := by
    simp [List.map_reverse, Function.comp_def, Maze.cellAt]
  refine ⟨?_, ?_, ?_⟩
  · cases l with
    | nil => simp at hhead
    | cons x l => simp
  · rw [hmap]
    refine ⟨⟨?_, ?_⟩, ?_, ?_⟩
    · intro c hc
      exact hopen' c (List.mem_reverse.mp hc)
    · rw [List.chain'_reverse]
      exact hadj
    · rw [List.head?_reverse]; exact hlast
    · rw [List.getLast?_reverse]; exact hhead
  · intro c hc
    rw [List.mem_reverse, List.mem_map] at hc
    obtain ⟨x, hx, rfl⟩ := hc
    have := hopen' x hx
    rw [Maze.isOpen_iff] at this
    simp [Maze.cellAt, hwall, this.2]

/-! ## The loops over the neighbours in the marking searches -/

theorem BFSPathfinder.bfs_foldl_visitNeighbor (cur : Coordinate) :
    ∀ (l : List Coordinate) (s : BFSPathfinder.State), l.Nodup →
      (l.foldl (BFSPathfinder.visitNeighbor cur) s).queue =
          s.queue ++ l.filter (fun c => !s.maze.visited c) ∧
      (l.foldl (BFSPathfinder.visitNeighbor cur) s).maze.width = s.maze.width ∧
      (l.foldl (BFSPathfinder.visitNeighbor cur) s).maze.height = s.maze.height ∧
      (∀ c, (l.foldl (BFSPathfinder.visitNeighbor cur) s).maze.wall c = s.maze.wall c) ∧
      (∀ c, (l.foldl (BFSPathfinder.visitNeighbor cur) s).maze.visited c =
          (s.maze.visited c || decide (c ∈ l))) ∧
      (∀ c, (l.foldl (BFSPathfinder.visitNeighbor cur) s).parent c =
          if c ∈ l ∧ s.maze.visited c = false then some cur else s.parent c) ∧
      (l.foldl (BFSPathfinder.visitNeighbor cur) s).nodesExplored = s.nodesExplored ∧
      (l.foldl (BFSPathfinder.visitNeighbor cur) s).found = s.found ∧
      (l.foldl (BFSPathfinder.visitNeighbor cur) s).notified = s.notified := by
  intro l
  induction l with
  | nil => intro s _; simp
  | cons a l ih =>
    intro s hnd
    rw [List.nodup_cons] at hnd
    obtain ⟨hq, hw, hh, hwall, hvis, hpar, hn, hf, hnot⟩ :=
      ih (BFSPathfinder.visitNeighbor cur s a) hnd.2
    rw [List.foldl_cons]
    cases hva : s.maze.visited a with
    | true =>
      have hs' : BFSPathfinder.visitNeighbor cur s a = s := by
        simp [BFSPathfinder.visitNeighbor, hva]
      rw [hs'] at hq hw hh hwall hvis hpar hn hf hnot ⊢
      refine ⟨?_, hw, hh, hwall, ?_, ?_, hn, hf, hnot⟩
      · rw [hq, List.filter_cons]
        simp [hva]
      · intro c
        rw [hvis c]
        by_cases hca : c = a
        · subst hca; simp [hva]
        · simp [hca]
      · intro c
        rw [hpar c]
        by_cases hca : c = a
        · subst hca; simp [hva]
        · simp [hca]
    | false =>
      have hs'q : (BFSPathfinder.visitNeighbor cur s a).queue = s.queue ++ [a] := by
        simp [BFSPathfinder.visitNeighbor, hva]
      have hs'v : ∀ c, (BFSPathfinder.visitNeighbor cur s a).maze.visited c =
          if c = a then true else s.maze.visited c := by
        intro c; simp [BFSPathfinder.visitNeighbor, hva, Maze.setVisited]
      have hs'p : ∀ c, (BFSPathfinder.visitNeighbor cur s a).parent c =
          if c = a then some cur else s.parent c := by
        intro c; simp [BFSPathfinder.visitNeighbor, hva]
      have hfilter : l.filter (fun c => !(BFSPathfinder.visitNeighbor cur s a).maze.visited c) =
          l.filter (fun c => !s.maze.visited c) := by
        apply List.filter_congr
        intro c hc
        have : c ≠ a := fun e => hnd.1 (e ▸ hc)
        simp [hs'v, this]
      refine ⟨?_, ?_, ?_, ?_, ?_, ?_, ?_, ?_, ?_⟩
      · rw [hq, hs'q, hfilter, List.filter_cons]
        simp [hva]
      · rw [hw]; simp [BFSPathfinder.visitNeighbor, hva, Maze.setVisited]
      · rw [hh]; simp [BFSPathfinder.visitNeighbor, hva, Maze.setVisited]
      · intro c; rw [hwall]; simp [BFSPathfinder.visitNeighbor, hva, Maze.setVisited]
      · intro c
        rw [hvis c, hs'v c]
        by_cases hca : c = a
        · subst hca; simp
        · simp [hca]
      · intro c
        rw [hpar c, hs'v c, hs'p c]
        by_cases hca : c = a
        · subst hca; simp [hva, hnd.1]
        · simp [hca]
      · rw [hn]; simp [BFSPathfinder.visitNeighbor, hva]
      · rw [hf]; simp [BFSPathfinder.visitNeighbor, hva]
      · rw [hnot]; simp [BFSPathfinder.visitNeighbor, hva]

theorem DFSPathfinder.dfs_foldl_visitNeighbor (cur : Coordinate) :
    ∀ (l : List Coordinate) (s : DFSPathfinder.State), l.Nodup →
      (l.foldl (DFSPathfinder.visitNeighbor cur) s).stack =
          (l.filter (fun c => !s.maze.visited c)).reverse ++ s.stack ∧
      (l.foldl (DFSPathfinder.visitNeighbor cur) s).maze.width = s.maze.width ∧
      (l.foldl (DFSPathfinder.visitNeighbor cur) s).maze.height = s.maze.height ∧
      (∀ c, (l.foldl (DFSPathfinder.visitNeighbor cur) s).maze.wall c = s.maze.wall c) ∧
      (∀ c, (l.foldl (DFSPathfinder.visitNeighbor cur) s).maze.visited c =
          (s.maze.visited c || decide (c ∈ l))) ∧
      (∀ c, (l.foldl (DFSPathfinder.visitNeighbor cur) s).parent c =
          if c ∈ l ∧ s.maze.visited c = false then some cur else s.parent c) ∧
      (l.foldl (DFSPathfinder.visitNeighbor cur) s).nodesExplored = s.nodesExplored ∧
      (l.foldl (DFSPathfinder.visitNeighbor cur) s).found = s.found ∧
      (l.foldl (DFSPathfinder.visitNeighbor cur) s).notified = s.notified := by
  intro l
  induction l with
  | nil => intro s _; simp
  | cons a l ih =>
    intro s hnd
    rw [List.nodup_cons] at hnd
    obtain ⟨hq, hw, hh, hwall, hvis, hpar, hn, hf, hnot⟩ :=
      ih (DFSPathfinder.visitNeighbor cur s a) hnd.2
    rw [List.foldl_cons]
    cases hva : s.maze.visited a with
    | true =>
      have hs' : DFSPathfinder.visitNeighbor cur s a = s := by
        simp [DFSPathfinder.visitNeighbor, hva]
      rw [hs'] at hq hw hh hwall hvis hpar hn hf hnot ⊢
      refine ⟨?_, hw, hh, hwall, ?_, ?_, hn, hf, hnot⟩
      · rw [hq, List.filter_cons]
        simp [hva]
      · intro c
        rw [hvis c]
        by_cases hca : c = a
        · subst hca; simp [hva]
        · simp [hca]
      · intro c
        rw [hpar c]
        by_cases hca : c = a
        · subst hca; simp [hva]
        · simp [hca]
    | false =>
      have hs'q : (DFSPathfinder.visitNeighbor cur s a).stack = a :: s.stack := by
        simp [DFSPathfinder.visitNeighbor, hva]
      have hs'v : ∀ c, (DFSPathfinder.visitNeighbor cur s a).maze.visited c =
          if c = a then true else s.maze.visited c := by
        intro c; simp [DFSPathfinder.visitNeighbor, hva, Maze.setVisited]
      have hs'p : ∀ c, (DFSPathfinder.visitNeighbor cur s a).parent c =
          if c = a then some cur else s.parent c := by
        intro c; simp [DFSPathfinder.visitNeighbor, hva]
      have hfilter : l.filter (fun c => !(DFSPathfinder.visitNeighbor cur s a).maze.visited c) =
          l.filter (fun c => !s.maze.visited c) := by
        apply List.filter_congr
        intro c hc
        have : c ≠ a := fun e => hnd.1 (e ▸ hc)
        simp [hs'v, this]
      refine ⟨?_, ?_, ?_, ?_, ?_, ?_, ?_, ?_, ?_⟩
      · rw [hq, hs'q, hfilter, List.filter_cons]
        simp [hva]
      · rw [hw]; simp [DFSPathfinder.visitNeighbor, hva, Maze.setVisited]
      · rw [hh]; simp [DFSPathfinder.visitNeighbor, hva, Maze.setVisited]
      · intro c; rw [hwall]; simp [DFSPathfinder.visitNeighbor, hva, Maze.setVisited]
      · intro c
        rw [hvis c, hs'v c]
        by_cases hca : c = a
        · subst hca; simp
        · simp [hca]
      · intro c
        rw [hpar c, hs'v c, hs'p c]
        by_cases hca : c = a
        · subst hca; simp [hva, hnd.1]
        · simp [hca]
      · rw [hn]; simp [DFSPathfinder.visitNeighbor, hva]
      · rw [hf]; simp [DFSPathfinder.visitNeighbor, hva]
      · rw [hnot]; simp [DFSPathfinder.visitNeighbor, hva]

/-! ## One iteration of the marking searches -/

theorem BFSPathfinder.bfs_body_markStep (goal : Coordinate) (s : BFSPathfinder.State)
    (current : Coordinate) (rest : List Coordinate) (hq : s.queue = current :: rest) :
    MarkStep true goal s.mark (BFSPathfinder.body goal s).mark current rest := by
  by_cases hg : current = goal
  · have hb : BFSPathfinder.body goal s =
        { s with queue := rest, nodesExplored := s.nodesExplored + 1,
                 notified := s.notified ++ [s.maze.cellAt current], found := true } := by
      simp [BFSPathfinder.body, hq, hg]
    rw [hb]
    constructor <;> simp [BFSPathfinder.State.mark, hq, hg]
  · have hb : BFSPathfinder.body goal s =
        (s.maze.getNeighbors current).foldl (BFSPathfinder.visitNeighbor current)
          { s with queue := rest, nodesExplored := s.nodesExplored + 1,
                   notified := s.notified ++ [s.maze.cellAt current] } := by
      simp [BFSPathfinder.body, hq, hg]
    obtain ⟨h1, h2, h3, h4, h5, h6, h7, h8, _⟩ :=
      BFSPathfinder.bfs_foldl_visitNeighbor current (s.maze.getNeighbors current)
        { s with queue := rest, nodesExplored := s.nodesExplored + 1,
                 notified := s.notified ++ [s.maze.cellAt current] }
        (Maze.getNeighbors_nodup _ _)
    rw [← hb] at h1 h2 h3 h4 h5 h6 h7 h8
    constructor
    · exact hq
    · simpa [BFSPathfinder.State.mark] using h7
    · simpa [BFSPathfinder.State.mark] using h2
    · simpa [BFSPathfinder.State.mark] using h3
    · simpa [BFSPathfinder.State.mark] using h4
    · simpa [BFSPathfinder.State.mark, hg] using h8
    · intro c
      simp only [BFSPathfinder.State.mark, MarkState.fresh, h5 c]
      cases hv : s.maze.visited c <;> simp [hg, hv, List.mem_filter]
    · intro c
      simp only [BFSPathfinder.State.mark, MarkState.fresh, h6 c]
      simp [hg, List.mem_filter]
    · simp only [BFSPathfinder.State.mark, MarkState.fresh, h1]
      simp [hg]

theorem DFSPathfinder.dfs_body_markStep (goal : Coordinate) (s : DFSPathfinder.State)
    (current : Coordinate) (rest : List Coordinate) (hq : s.stack = current :: rest) :
    MarkStep false goal s.mark (DFSPathfinder.body goal s).mark current rest := by
  by_cases hg : current = goal
  · have hb : DFSPathfinder.body goal s =
        { s with stack := rest, nodesExplored := s.nodesExplored + 1,
                 notified := s.notified ++ [s.maze.cellAt current], found := true } := by
      simp [DFSPathfinder.body, hq, hg]
    rw [hb]
    constructor <;> simp [DFSPathfinder.State.mark, hq, hg]
  · have hb : DFSPathfinder.body goal s =
        (s.maze.getNeighbors current).foldl (DFSPathfinder.visitNeighbor current)
          { s with stack := rest, nodesExplored := s.nodesExplored + 1,
                   notified := s.notified ++ [s.maze.cellAt current] } := by
      simp [DFSPathfinder.body, hq, hg]
    obtain ⟨h1, h2, h3, h4, h5, h6, h7, h8, _⟩ :=
      DFSPathfinder.dfs_foldl_visitNeighbor current (s.maze.getNeighbors current)
        { s with stack := rest, nodesExplored := s.nodesExplored + 1,
                 notified := s.notified ++ [s.maze.cellAt current] }
        (Maze.getNeighbors_nodup _ _)
    rw [← hb] at h1 h2 h3 h4 h5 h6 h7 h8
    constructor
    · exact hq
    · simpa [DFSPathfinder.State.mark] using h7
    · simpa [DFSPathfinder.State.mark] using h2
    · simpa [DFSPathfinder.State.mark] using h3
    · simpa [DFSPathfinder.State.mark] using h4
    · simpa [DFSPathfinder.State.mark, hg] using h8
    · intro c
      simp only [DFSPathfinder.State.mark, MarkState.fresh, h5 c]
      cases hv : s.maze.visited c <;> simp [hg, hv, List.mem_filter]
    · intro c
      simp only [DFSPathfinder.State.mark, MarkState.fresh, h6 c]
      simp [hg, List.mem_filter]
    · simp only [DFSPathfinder.State.mark, MarkState.fresh, h1]
      simp [hg]

/-! ## The invariants of the marking searches -/

theorem MarkState.mem_fresh (s : MarkState) (current c : Coordinate) :
    c ∈ s.fresh current ↔ c ∈ s.maze.getNeighbors current ∧ s.maze.visited c = false := by
  simp [MarkState.fresh, List.mem_filter]

theorem MarkState.fresh_nodup (s : MarkState) (current : Coordinate) :
    (s.fresh current).Nodup :=
  List.Nodup.filter _ (Maze.getNeighbors_nodup _ _)

theorem stepLevels_eq {fifo : Bool} {goal : Coordinate} {s t : MarkState}
    {current : Coordinate} {rest : List Coordinate} (lvl : Coordinate → Option Nat) {k : Nat}
    (hstep : MarkStep fifo goal s t current rest) (hk : lvl current = some k)
    (c : Coordinate) :
    stepLevels lvl s t c =
      if current ≠ goal ∧ c ∈ s.fresh current then some (k + 1) else lvl c := by
  unfold stepLevels
  rw [hstep.frontier_eq, hstep.visited c]
  by_cases hnew : current ≠ goal ∧ c ∈ s.fresh current
  · have hv := ((s.mem_fresh current c).mp hnew.2).2
    simp [hnew, hv, hk]
  · rw [if_neg hnew]
    cases hv : s.maze.visited c with
    | true => simp
    | false =>
      have : (decide (current ≠ goal) && decide (c ∈ s.fresh current)) = false := by
        rw [Bool.and_eq_false_iff]
        by_cases hg : current = goal
        · left; simp [hg]
        · right
          have : c ∉ s.fresh current := fun h => hnew ⟨hg, h⟩
          simp [this]
      rw [this]
      simp

/-- An iteration marks the cells it puts on the frontier: the number of
unmarked cells of the grid drops by their number. -/
theorem MarkStep.countUnvisited {fifo : Bool} {goal : Coordinate} {s t : MarkState}
    {current : Coordinate} {rest : List Coordinate}
    (hstep : MarkStep fifo goal s t current rest) :
    t.maze.countUnvisited + (if current = goal then 0 else (s.fresh current).length) =
      s.maze.countUnvisited := by
  unfold Maze.countUnvisited
  rw [Maze.cells_eq_of_size s.maze t.maze hstep.width hstep.height]
  by_cases hg : current = goal
  · simp only [hg, if_true, Nat.add_zero]
    apply List.countP_congr
    intro c _
    have := hstep.visited c
    simp [hg] at this
    simp [this]
  · simp only [hg, if_false]
    have h := countP_unset_list s.maze.cells (Maze.cells_nodup _) (s.fresh current)
      (fun c => !s.maze.visited c) (s.fresh_nodup current) (by
        intro c hc
        rw [MarkState.mem_fresh] at hc
        refine ⟨?_, by simp [hc.2]⟩
        rw [Maze.mem_cells]
        have := ((Maze.mem_getNeighbors _ _ _).mp hc.1).1
        exact ((Maze.isOpen_iff _ _).mp this).1)
    rw [← h]
    congr 1
    apply List.countP_congr
    intro c _
    have := hstep.visited c
    simp [hg] at this
    rw [this]
    simp

theorem MarkStep.frontier_length {fifo : Bool} {goal : Coordinate} {s t : MarkState}
    {current : Coordinate} {rest : List Coordinate}
    (hstep : MarkStep fifo goal s t current rest) :
    t.frontier.length = rest.length + (if current = goal then 0 else (s.fresh current).length) := by
  rw [hstep.frontier]
  by_cases hg : current = goal
  · simp [hg]
  · cases fifo <;> simp [hg, Nat.add_comm]

theorem MarkStep.mem_frontier {fifo : Bool} {goal : Coordinate} {s t : MarkState}
    {current : Coordinate} {rest : List Coordinate}
    (hstep : MarkStep fifo goal s t current rest) (c : Coordinate) :
    c ∈ t.frontier ↔ c ∈ rest ∨ (current ≠ goal ∧ c ∈ s.fresh current) := by
  rw [hstep.frontier]
  by_cases hg : current = goal
  · simp [hg]
  · cases fifo <;> simp [hg, or_comm]

/-- The measure that bounds the number of iterations. -/
theorem MarkStep.mark_measure_lt {fifo : Bool} {goal : Coordinate} {s t : MarkState}
    {current : Coordinate} {rest : List Coordinate}
    (hstep : MarkStep fifo goal s t current rest) :
    2 * t.maze.countUnvisited + t.frontier.length <
      2 * s.maze.countUnvisited + s.frontier.length := by
  have h1 := hstep.countUnvisited
  have h2 := hstep.frontier_length
  have h3 : s.frontier.length = rest.length + 1 := by rw [hstep.frontier_eq]; simp
  omega

theorem MarkInv.markInv_step {m0 : Maze} {start goal : Coordinate} {total : Nat}
    {lvl : Coordinate → Option Nat} {fifo : Bool} {s t : MarkState}
    {current : Coordinate} {rest : List Coordinate}
    (h : MarkInv m0 start goal total lvl s)
    (hstep : MarkStep fifo goal s t current rest) :
    MarkInv m0 start goal total (stepLevels lvl s t) t := by
  have hcur : current ∈ s.frontier := by rw [hstep.frontier_eq]; exact List.mem_cons_self _ _
  obtain ⟨k, hk⟩ := Option.ne_none_iff_exists'.mp (h.frontier_seen current hcur)
  have hlv := stepLevels_eq lvl hstep hk
  have hnb : ∀ c, s.maze.getNeighbors c = m0.getNeighbors c :=
    Maze.getNeighbors_congr m0 s.maze h.width h.height h.wall
  have hnew_none : ∀ c, c ∈ s.fresh current → lvl c = none := by
    intro c hc
    by_contra hne
    have := h.marked c hne
    rw [((s.mem_fresh current c).mp hc).2] at this
    exact absurd this (by simp)
  have hold : ∀ c, lvl c ≠ none → stepLevels lvl s t c = lvl c := by
    intro c hc
    rw [hlv c, if_neg]
    rintro ⟨_, hmem⟩
    exact hc (hnew_none c hmem)
  have hrest_nodup : rest.Nodup := by
    have := h.frontier_nodup
    rw [hstep.frontier_eq, List.nodup_cons] at this
    exact this.2
  constructor
  · rw [hstep.width, h.width]
  · rw [hstep.height, h.height]
  · intro c; rw [hstep.wall, h.wall]
  · refine ⟨?_, ?_⟩
    · rw [hold start (by simp [h.root.1])]; exact h.root.1
    · rw [hstep.parent start, if_neg]
      · exact h.root.2
      · rintro ⟨_, hmem⟩
        have := hnew_none start hmem
        rw [h.root.1] at this
        exact absurd this (by simp)
  · intro c hc
    rw [hlv c] at hc
    by_cases hnew : current ≠ goal ∧ c ∈ s.fresh current
    · rw [if_pos hnew] at hc
      simp at hc
    · rw [if_neg hnew] at hc
      exact h.root_only c hc
  · intro c j hc
    rw [hlv c] at hc
    by_cases hnew : current ≠ goal ∧ c ∈ s.fresh current
    · rw [if_pos hnew] at hc
      have hjk : j = k := by simp at hc; omega
      subst hjk
      refine ⟨current, ?_, ?_, ?_⟩
      · rw [hstep.parent c, if_pos hnew]
      · rw [hold current (by simp [hk])]; exact hk
      · rw [← hnb]; exact ((s.mem_fresh current c).mp hnew.2).1
    · rw [if_neg hnew] at hc
      obtain ⟨p, hp, hlp, hmem⟩ := h.tree c j hc
      refine ⟨p, ?_, ?_, hmem⟩
      · rw [hstep.parent c, if_neg hnew]; exact hp
      · rw [hold p (by simp [hlp])]; exact hlp
  · intro c hc
    rw [hstep.visited c]
    by_cases hnew : current ≠ goal ∧ c ∈ s.fresh current
    · simp [hnew.1, hnew.2]
    · rw [hlv c, if_neg hnew] at hc
      simp [h.marked c hc]
  · intro c hc
    rw [hstep.mem_frontier] at hc
    rcases hc with hc | hc
    · have hc' : c ∈ s.frontier := by rw [hstep.frontier_eq]; exact List.mem_cons_of_mem _ hc
      have := h.frontier_seen c hc'
      rw [hold c this]; exact this
    · rw [hlv c, if_pos hc]; simp
  · rw [hstep.frontier]
    have hdisj : ∀ c, c ∈ rest → c ∉ s.fresh current := by
      intro c hc hmem
      have hc' : c ∈ s.frontier := by rw [hstep.frontier_eq]; exact List.mem_cons_of_mem _ hc
      exact h.frontier_seen c hc' (hnew_none c hmem)
    by_cases hg : current = goal
    · simpa [hg] using hrest_nodup
    · cases fifo
      · simp only [hg, if_false, Bool.false_eq_true]
        rw [List.nodup_append]
        refine ⟨List.nodup_reverse.mpr (s.fresh_nodup current), hrest_nodup, ?_⟩
        intro c hc1 hc2
        exact hdisj c hc2 (List.mem_reverse.mp hc1)
      · simp only [hg, if_false, if_true]
        rw [List.nodup_append]
        exact ⟨hrest_nodup, s.fresh_nodup current, fun c hc1 hc2 => hdisj c hc1 hc2⟩
  · intro hf
    by_cases hg : current = goal
    · subst hg
      rw [hold current (by simp [hk])]; simp [hk]
    · have hsf : s.found = true := by
        have := hstep.found
        rw [hf] at this
        simpa [hg] using this.symm
      have := h.found_seen hsf
      rw [hold goal this]; exact this
  · intro hf hmem
    rw [hstep.mem_frontier] at hmem
    have hnd := h.frontier_nodup
    rw [hstep.frontier_eq, List.nodup_cons] at hnd
    by_cases hg : current = goal
    · subst hg
      rcases hmem with hmem | hmem
      · exact hnd.1 hmem
      · exact hmem.1 rfl
    · have hsf : s.found = true := by
        have := hstep.found
        rw [hf] at this
        simpa [hg] using this.symm
      have hoff := h.found_off hsf
      rcases hmem with hmem | hmem
      · exact hoff (by rw [hstep.frontier_eq]; exact List.mem_cons_of_mem _ hmem)
      · exact h.found_seen hsf (hnew_none goal hmem.2)
  · have h1 := hstep.countUnvisited
    have h2 := hstep.frontier_length
    have h3 : s.frontier.length = rest.length + 1 := by rw [hstep.frontier_eq]; simp
    have h4 := h.count
    have h5 := hstep.explored
    omega

theorem MarkFresh.markFresh_step {m0 : Maze} {start goal : Coordinate} {total : Nat}
    {lvl : Coordinate → Option Nat} {fifo : Bool} {s t : MarkState}
    {current : Coordinate} {rest : List Coordinate}
    (h : MarkInv m0 start goal total lvl s) (hfr : MarkFresh m0 goal lvl s)
    (hfound : s.found = false)
    (hstep : MarkStep fifo goal s t current rest) :
    MarkFresh m0 goal (stepLevels lvl s t) t := by
  have hcur : current ∈ s.frontier := by rw [hstep.frontier_eq]; exact List.mem_cons_self _ _
  obtain ⟨k, hk⟩ := Option.ne_none_iff_exists'.mp (h.frontier_seen current hcur)
  have hlv := stepLevels_eq lvl hstep hk
  have hnb : ∀ c, s.maze.getNeighbors c = m0.getNeighbors c :=
    Maze.getNeighbors_congr m0 s.maze h.width h.height h.wall
  have hmono : ∀ c, lvl c ≠ none → stepLevels lvl s t c ≠ none := by
    intro c hc
    rw [hlv c]
    split
    · simp
    · exact hc
  constructor
  · intro c hvalid hv
    rw [hstep.visited c] at hv
    by_cases hnew : current ≠ goal ∧ c ∈ s.fresh current
    · rw [hlv c, if_pos hnew]; simp
    · cases hsv : s.maze.visited c with
      | true => exact hmono c (hfr.seen c hvalid hsv)
      | false =>
        rw [hsv] at hv
        simp at hv
        exact absurd hv hnew
  · intro htf c hc hcf
    have hg : current ≠ goal := by
      intro hg
      have := hstep.found
      rw [htf, hfound] at this
      simp [hg] at this
    rw [hstep.mem_frontier] at hcf
    push_neg at hcf
    have hnotnew : ¬ (current ≠ goal ∧ c ∈ s.fresh current) := fun hn => hcf.2 hn.1 hn.2
    rw [hlv c, if_neg hnotnew] at hc
    by_cases hcc : c = current
    · subst hcc
      refine ⟨hg, ?_⟩
      intro d hd
      cases hsv : s.maze.visited d with
      | true =>
        have hvalid := ((Maze.isOpen_iff _ _).mp ((Maze.mem_getNeighbors _ _ _).mp hd).1).1
        exact hmono d (hfr.seen d hvalid hsv)
      | false =>
        have : d ∈ s.fresh c := (s.mem_fresh c d).mpr ⟨by rw [hnb]; exact hd, hsv⟩
        rw [hlv d, if_pos ⟨hg, this⟩]; simp
    · have hcs : c ∉ s.frontier := by
        rw [hstep.frontier_eq]
        simp [hcc, hcf.1]
      obtain ⟨h1, h2⟩ := hfr.closed hfound c hc hcs
      exact ⟨h1, fun d hd => hmono d (h2 d hd)⟩

theorem QueueInv.queueInv_step {m0 : Maze} {start goal : Coordinate} {total : Nat}
    {lvl : Coordinate → Option Nat} {s t : MarkState}
    {current : Coordinate} {rest : List Coordinate}
    (h : MarkInv m0 start goal total lvl s) (hfr : MarkFresh m0 goal lvl s)
    (hq : QueueInv m0 goal lvl s) (hfound : s.found = false)
    (hstep : MarkStep true goal s t current rest) :
    QueueInv m0 goal (stepLevels lvl s t) t := by
  have hcur : current ∈ s.frontier := by rw [hstep.frontier_eq]; exact List.mem_cons_self _ _
  obtain ⟨k, hk⟩ := Option.ne_none_iff_exists'.mp (h.frontier_seen current hcur)
  have hlv := stepLevels_eq lvl hstep hk
  have hnb : ∀ c, s.maze.getNeighbors c = m0.getNeighbors c :=
    Maze.getNeighbors_congr m0 s.maze h.width h.height h.wall
  have hnew_none : ∀ c, c ∈ s.fresh current → lvl c = none := by
    intro c hc
    by_contra hne
    have := h.marked c hne
    rw [((s.mem_fresh current c).mp hc).2] at this
    exact absurd this (by simp)
  have hold : ∀ c, lvl c ≠ none → stepLevels lvl s t c = lvl c := by
    intro c hc
    rw [hlv c, if_neg]
    rintro ⟨_, hmem⟩
    exact hc (hnew_none c hmem)
  have hrest_mem : ∀ c, c ∈ rest → c ∈ s.frontier := by
    intro c hc; rw [hstep.frontier_eq]; exact List.mem_cons_of_mem _ hc
  have hrest : ∀ c, c ∈ rest → stepLevels lvl s t c = lvl c :=
    fun c hc => hold c (h.frontier_seen c (hrest_mem c hc))
  have hnew : ∀ c, current ≠ goal → c ∈ s.fresh current →
      stepLevels lvl s t c = some (k + 1) := by
    intro c hg hc
    rw [hlv c, if_pos ⟨hg, hc⟩]
  have hsorted := hq.sorted
  rw [hstep.frontier_eq, List.pairwise_cons] at hsorted
  have hge : ∀ q ∈ rest, ∀ j, lvl q = some j → k ≤ j := fun q hq' j hj => hsorted.1 q hq' k j hk hj
  have hle : ∀ q ∈ rest, ∀ j, lvl q = some j → j ≤ k + 1 :=
    fun q hq' j hj => hq.narrow current hcur q (hrest_mem q hq') k j hk hj
  -- the level of a cell of the new frontier
  have hfront : ∀ c, c ∈ t.frontier → ∀ j, stepLevels lvl s t c = some j → k ≤ j ∧ j ≤ k + 1 := by
    intro c hc j hj
    rw [hstep.mem_frontier] at hc
    rcases hc with hc | hc
    · rw [hrest c hc] at hj
      exact ⟨hge c hc j hj, hle c hc j hj⟩
    · rw [hnew c hc.1 hc.2] at hj
      simp at hj
      omega
  -- a seen cell off the new frontier was seen before and lies at most at level `k`
  have hoff : ∀ c i, stepLevels lvl s t c = some i → c ∉ t.frontier → lvl c = some i ∧ i ≤ k := by
    intro c i hc hcf
    rw [hstep.mem_frontier] at hcf
    push_neg at hcf
    have hnotnew : ¬ (current ≠ goal ∧ c ∈ s.fresh current) := fun hn => hcf.2 hn.1 hn.2
    rw [hlv c, if_neg hnotnew] at hc
    refine ⟨hc, ?_⟩
    by_cases hcc : c = current
    · subst hcc
      rw [hk] at hc
      simp at hc
      omega
    · have hcs : c ∉ s.frontier := by
        rw [hstep.frontier_eq]
        simp [hcc, hcf.1]
      exact hq.above c current i k hc hcs hcur hk
  constructor
  · rw [hstep.frontier]
    by_cases hg : current = goal
    · simp only [hg, if_true]
      refine List.Pairwise.imp_of_mem ?_ hsorted.2
      intro a b ha hb hab i j hi hj
      rw [hrest a ha] at hi
      rw [hrest b hb] at hj
      exact hab i j hi hj
    · simp only [hg, if_false, if_true]
      rw [List.pairwise_append]
      refine ⟨?_, ?_, ?_⟩
      · refine List.Pairwise.imp_of_mem ?_ hsorted.2
        intro a b ha hb hab i j hi hj
        rw [hrest a ha] at hi
        rw [hrest b hb] at hj
        exact hab i j hi hj
      · apply List.pairwise_of_forall_mem_list
        intro a ha b hb i j hi hj
        rw [hnew a hg ha] at hi
        rw [hnew b hg hb] at hj
        simp at hi hj
        omega
      · intro a ha b hb i j hi hj
        rw [hrest a ha] at hi
        rw [hnew b hg hb] at hj
        have := hle a ha i hi
        simp at hj
        omega
  · intro a ha b hb i j hi hj
    have h1 := hfront a ha i hi
    have h2 := hfront b hb j hj
    omega
  · intro c q i j hc hcf hq' hj
    have h1 := hoff c i hc hcf
    have h2 := hfront q hq' j hj
    omega
  · intro e v i he hef hne hv
    obtain ⟨hei, hik⟩ := hoff e i he hef
    by_cases hec : e = current
    · subst hec
      have hg : e ≠ goal := by
        intro hg
        refine hne ?_ hg
        rw [hstep.found]
        simp [hg]
      have hik' : i = k := by rw [hk] at hei; simp at hei; omega
      subst hik'
      cases hsv : s.maze.visited v with
      | true =>
        have hvalid := ((Maze.isOpen_iff _ _).mp ((Maze.mem_getNeighbors _ _ _).mp hv).1).1
        have hseen := hfr.seen v hvalid hsv
        obtain ⟨j, hj⟩ := Option.ne_none_iff_exists'.mp hseen
        refine ⟨j, by rw [hold v hseen]; exact hj, ?_⟩
        by_cases hvf : v ∈ s.frontier
        · exact hq.narrow e hcur v hvf i j hk hj
        · have := hq.above v e j i hj hvf hcur hk
          omega
      | false =>
        have : v ∈ s.fresh e := (s.mem_fresh e v).mpr ⟨by rw [hnb]; exact hv, hsv⟩
        exact ⟨i + 1, hnew v hg this, le_refl _⟩
    · have hes : e ∉ s.frontier := by
        rw [hstep.frontier_eq]
        rw [hstep.mem_frontier] at hef
        push_neg at hef
        simp [hec, hef.1]
      obtain ⟨j, hj, hji⟩ := hq.near e v i hei hes (by simp [hfound]) hv
      exact ⟨j, by rw [hold v (by simp [hj])]; exact hj, hji⟩

/-! ## The state in which the marking searches begin -/

/-- The depth function at the beginning: only `start` is seen. -/
theorem markInv_init (maze : Maze) (start goal : Coordinate) :
    MarkInv maze start goal (1 + (maze.setVisited start true).countUnvisited)
      (fun c => if c = start then some 0 else none)
      ⟨maze.setVisited start true, [start], fun _ => none, 0, false⟩ := by
  constructor <;> simp [Maze.setVisited]

theorem markFresh_init (maze : Maze) (start goal : Coordinate) (hU : maze.Unvisited) :
    MarkFresh maze goal (fun c => if c = start then some 0 else none)
      ⟨maze.setVisited start true, [start], fun _ => none, 0, false⟩ := by
  constructor
  · intro c hvalid hv
    by_cases hc : c = start
    · simp [hc]
    · simp [Maze.setVisited, hc, hU c hvalid] at hv
  · intro _ c hc hcf
    by_cases hcs : c = start
    · simp [hcs] at hcf
    · simp [hcs] at hc

theorem queueInv_init (maze : Maze) (start goal : Coordinate) :
    QueueInv maze goal (fun c => if c = start then some 0 else none)
      ⟨maze.setVisited start true, [start], fun _ => none, 0, false⟩ := by
  constructor
  · simp
  · intro a ha b hb i j hi hj
    simp at ha hb
    subst ha; subst hb
    simp at hi hj
    omega
  · intro c q i j hc hcf
    by_cases hcs : c = start
    · simp [hcs] at hcf
    · simp [hcs] at hc
  · intro e v i he hef
    by_cases hes : e = start
    · simp [hes] at hef
    · simp [hes] at he

theorem countUnvisited_setVisited_lt (maze : Maze) (start : Coordinate)
    (hv : maze.isValid start.x start.y = true) :
    (maze.setVisited start true).countUnvisited < maze.area := by
  unfold Maze.countUnvisited
  have hcells : (maze.setVisited start true).cells = maze.cells := rfl
  rw [hcells, ← Maze.cells_length]
  apply lt_of_le_of_ne (List.countP_le_length _)
  intro h
  rw [List.countP_eq_length] at h
  have := h start ((Maze.mem_cells maze start).mpr hv)
  simp [Maze.setVisited] at this

/-! ## The main loops of the marking searches -/

theorem BFSPathfinder.bfs_search_spec (maze : Maze) (start goal : Coordinate) (fuel : Nat)
    (hfuel : 2 * maze.area + 1 ≤ fuel) :
    ∃ s lvl, BFSPathfinder.search fuel maze start goal = some s ∧
      MarkInv maze start goal (1 + (maze.setVisited start true).countUnvisited) lvl s.mark ∧
      (maze.Unvisited → MarkFresh maze goal lvl s.mark ∧ QueueInv maze goal lvl s.mark) ∧
      (s.queue = [] ∨ s.found = true) := by
  have hloop := whileLoop_spec (fun (s : BFSPathfinder.State) => !s.queue.isEmpty && !s.found)
    (BFSPathfinder.body goal)
    (fun s => ∃ lvl,
      MarkInv maze start goal (1 + (maze.setVisited start true).countUnvisited) lvl s.mark ∧
      (maze.Unvisited → MarkFresh maze goal lvl s.mark ∧ QueueInv maze goal lvl s.mark))
    (fun s => 2 * s.maze.countUnvisited + s.queue.length)
    (by
      rintro s ⟨lvl, hinv, hfresh⟩ hcond
      simp only [Bool.and_eq_true, Bool.not_eq_true', List.isEmpty_eq_false] at hcond
      obtain ⟨hne, hfound⟩ := hcond
      obtain ⟨current, rest, hq⟩ := List.exists_cons_of_ne_nil hne
      have hstep := BFSPathfinder.bfs_body_markStep goal s current rest hq
      refine ⟨⟨stepLevels lvl s.mark (BFSPathfinder.body goal s).mark, hinv.markInv_step hstep, ?_⟩,
        hstep.mark_measure_lt⟩
      intro hU
      obtain ⟨h1, h2⟩ := hfresh hU
      exact ⟨h1.markFresh_step hinv hfound hstep, h2.queueInv_step hinv h1 hfound hstep⟩)
    fuel (BFSPathfinder.init maze start)
    ⟨_, markInv_init maze start goal,
      fun hU => ⟨markFresh_init maze start goal hU, queueInv_init maze start goal⟩⟩
    (by
      have := Maze.countUnvisited_le_area (maze.setVisited start true)
      have harea : (maze.setVisited start true).area = maze.area := rfl
      simp only [BFSPathfinder.init, List.length_singleton]
      omega)
  obtain ⟨s, hs, ⟨lvl, hinv, hfresh⟩, hcond⟩ := hloop
  refine ⟨s, lvl, hs, hinv, hfresh, ?_⟩
  simp only [Bool.and_eq_false_iff, Bool.not_eq_false', List.isEmpty_iff] at hcond
  exact hcond

theorem DFSPathfinder.dfs_search_spec (maze : Maze) (start goal : Coordinate) (fuel : Nat)
    (hfuel : 2 * maze.area + 1 ≤ fuel) :
    ∃ s lvl, DFSPathfinder.search fuel maze start goal = some s ∧
      MarkInv maze start goal (1 + (maze.setVisited start true).countUnvisited) lvl s.mark ∧
      (maze.Unvisited → MarkFresh maze goal lvl s.mark) ∧
      (s.stack = [] ∨ s.found = true) := by
  have hloop := whileLoop_spec (fun (s : DFSPathfinder.State) => !s.stack.isEmpty && !s.found)
    (DFSPathfinder.body goal)
    (fun s => ∃ lvl,
      MarkInv maze start goal (1 + (maze.setVisited start true).countUnvisited) lvl s.mark ∧
      (maze.Unvisited → MarkFresh maze goal lvl s.mark))
    (fun s => 2 * s.maze.countUnvisited + s.stack.length)
    (by
      rintro s ⟨lvl, hinv, hfresh⟩ hcond
      simp only [Bool.and_eq_true, Bool.not_eq_true', List.isEmpty_eq_false] at hcond
      obtain ⟨hne, hfound⟩ := hcond
      obtain ⟨current, rest, hq⟩ := List.exists_cons_of_ne_nil hne
      have hstep := DFSPathfinder.dfs_body_markStep goal s current rest hq
      refine ⟨⟨stepLevels lvl s.mark (DFSPathfinder.body goal s).mark, hinv.markInv_step hstep, ?_⟩,
        hstep.mark_measure_lt⟩
      intro hU
      exact (hfresh hU).markFresh_step hinv hfound hstep)
    fuel (DFSPathfinder.init maze start)
    ⟨_, markInv_init maze start goal, fun hU => markFresh_init maze start goal hU⟩
    (by
      have := Maze.countUnvisited_le_area (maze.setVisited start true)
      have harea : (maze.setVisited start true).area = maze.area := rfl
      simp only [DFSPathfinder.init, List.length_singleton]
      omega)
  obtain ⟨s, hs, ⟨lvl, hinv, hfresh⟩, hcond⟩ := hloop
  refine ⟨s, lvl, hs, hinv, hfresh, ?_⟩
  simp only [Bool.and_eq_false_iff, Bool.not_eq_false', List.isEmpty_iff] at hcond
  exact hcond

/-! ## What the invariants give at the end of a marking search -/

/-- At most as many cells are explored as the grid has. -/
theorem MarkInv.explored_le {m0 : Maze} {start goal : Coordinate}
    {lvl : Coordinate → Option Nat} {s : MarkState}
    (h : MarkInv m0 start goal (1 + (m0.setVisited start true).countUnvisited) lvl s)
    (hv : m0.isValid start.x start.y = true) : s.nodesExplored ≤ m0.area := by
  have h1 := h.count
  have h2 := countUnvisited_setVisited_lt m0 start hv
  omega

/-- The predecessor chain of a seen cell. -/
theorem MarkInv.chain {m0 : Maze} {start goal : Coordinate} {total : Nat}
    {lvl : Coordinate → Option Nat} {s : MarkState}
    (h : MarkInv m0 start goal total lvl s) (k : Nat) (c : Coordinate) (hc : lvl c = some k) :
    ∃ l, ParentChain s.parent start c l ∧ l.length = k + 1 ∧ l.head? = some c ∧
      l.getLast? = some start ∧ l.Chain' (fun a b => manhattan b a = 1) ∧
      (∀ x ∈ l, x = start ∨ m0.isOpen x = true) ∧
      (∀ x ∈ l, ∃ j, j ≤ k ∧ lvl x = some j) ∧ l.Nodup :=
  chain_of_levels m0 start s.parent lvl h.root.2 h.root_only h.tree k c hc

/-- When the goal was found the path is rebuilt within `area` iterations; it
runs along the predecessor chain of the goal. -/
theorem MarkInv.finish {m0 : Maze} {start goal : Coordinate} {total : Nat}
    {lvl : Coordinate → Option Nat} {s : MarkState}
    (h : MarkInv m0 start goal total lvl s) (hfound : s.found = true)
    (hv : m0.isValid start.x start.y = true) (fuel elapsed : Nat) (hfuel : m0.area ≤ fuel) :
    ∃ (k : Nat) (l : List Coordinate), lvl goal = some k ∧ l.length = k + 1 ∧ l.head? = some goal ∧
      l.getLast? = some start ∧ l.Chain' (fun a b => manhattan b a = 1) ∧
      (∀ x ∈ l, x = start ∨ m0.isOpen x = true) ∧
      finishSearch s.maze s.parent s.found s.nodesExplored fuel elapsed goal =
        some ((l.map s.maze.cellAt).reverse, ⟨k + 1, s.nodesExplored, elapsed⟩) := by
  obtain ⟨k, hk⟩ := Option.ne_none_iff_exists'.mp (h.found_seen hfound)
  obtain ⟨l, hchain, hlen, hhead, hlast, hadj, hopen, _, hnd⟩ := h.chain k goal hk
  have hvalid : ∀ x ∈ l, m0.isValid x.x x.y = true := by
    intro x hx
    rcases hopen x hx with hx' | hx'
    · rw [hx']; exact hv
    · exact ((Maze.isOpen_iff _ _).mp hx').1
  have hle := Maze.nodup_valid_length_le m0 l hnd hvalid
  refine ⟨k, l, hk, hlen, hhead, hlast, hadj, hopen, ?_⟩
  unfold finishSearch
  rw [hfound, if_pos rfl, reconstructPath_of_chain s.maze s.parent start goal l hchain fuel
    (le_trans hle hfuel)]
  simp [hlen]

/-- Without residual flags, a search that ends without finding the goal has
seen every cell that can be reached, and the goal is not among them. -/
theorem MarkFresh.reach_seen {m0 : Maze} {start goal : Coordinate} {total : Nat}
    {lvl : Coordinate → Option Nat} {s : MarkState}
    (h : MarkInv m0 start goal total lvl s) (hfr : MarkFresh m0 goal lvl s)
    (hfound : s.found = false) (hempty : s.frontier = []) :
    ∀ n c, m0.StepsTo start n c → lvl c ≠ none ∧ c ≠ goal := by
  intro n c hsteps
  induction hsteps with
  | zero =>
    have hseen : lvl start ≠ none := by simp [h.root.1]
    exact ⟨hseen, (hfr.closed hfound start hseen (by simp [hempty])).1⟩
  | step _ hd ih =>
    have hc := hfr.closed hfound _ ih.1 (by simp [hempty])
    have hseen := hc.2 _ hd
    exact ⟨hseen, (hfr.closed hfound _ hseen (by simp [hempty])).1⟩

theorem MarkFresh.found_of_reachable {m0 : Maze} {start goal : Coordinate} {total : Nat}
    {lvl : Coordinate → Option Nat} {s : MarkState}
    (h : MarkInv m0 start goal total lvl s) (hfr : MarkFresh m0 goal lvl s)
    (hend : s.frontier = [] ∨ s.found = true) (n : Nat) (hreach : m0.StepsTo start n goal) :
    s.found = true := by
  rcases hend with hempty | hf
  · cases hfound : s.found with
    | true => rfl
    | false => exact absurd rfl (hfr.reach_seen h hfound hempty n goal hreach).2
  · exact hf

/-- Breadth-first search finds the goal at its least distance from start. -/
theorem QueueInv.level_le {m0 : Maze} {start goal : Coordinate} {total : Nat}
    {lvl : Coordinate → Option Nat} {s : MarkState}
    (h : MarkInv m0 start goal total lvl s) (hq : QueueInv m0 goal lvl s)
    (hoff : goal ∉ s.frontier) (k : Nat) (hk : lvl goal = some k) :
    ∀ n, m0.StepsTo start n goal → k ≤ n := by
  have key : ∀ n c, m0.StepsTo start n c →
      (∃ j, lvl c = some j ∧ j ≤ n) ∨
        ∃ q j, (q ∈ s.frontier ∨ q = goal) ∧ lvl q = some j ∧ j ≤ n := by
    intro n c hsteps
    induction hsteps with
    | zero => exact Or.inl ⟨0, h.root.1, le_refl _⟩
    | @step n c d _ hd ih =>
      rcases ih with ⟨j, hj, hjn⟩ | ⟨q, j, hq', hj, hjn⟩
      · by_cases hcf : c ∈ s.frontier ∨ c = goal
        · exact Or.inr ⟨c, j, hcf, hj, by omega⟩
        · push_neg at hcf
          obtain ⟨j', hj', hle⟩ := hq.near c d j hj hcf.1 (fun _ => hcf.2) hd
          exact Or.inl ⟨j', hj', by omega⟩
      · exact Or.inr ⟨q, j, hq', hj, by omega⟩
  intro n hn
  rcases key n goal hn with ⟨j, hj, hjn⟩ | ⟨q, j, hq' | hq', hj, hjn⟩
  · rw [hk] at hj
    simp at hj
    omega
  · have := hq.above goal q k j hk hoff hq' hj
    omega
  · subst hq'
    rw [hk] at hj
    simp at hj
    omega

/-! ## Counting the explored cells -/

theorem Maze.countUnvisited_of_unvisited (m : Maze) (hU : m.Unvisited) :
    m.countUnvisited = m.area := by
  unfold Maze.countUnvisited
  rw [← Maze.cells_length, List.countP_eq_length]
  intro c hc
  simp [hU c ((Maze.mem_cells m c).mp hc)]

theorem Maze.countUnvisited_setVisited (m : Maze) (hU : m.Unvisited) (start : Coordinate)
    (hv : m.isValid start.x start.y = true) :
    (m.setVisited start true).countUnvisited + 1 = m.area := by
  rw [← Maze.countUnvisited_of_unvisited m hU]
  unfold Maze.countUnvisited
  have hcells : (m.setVisited start true).cells = m.cells := rfl
  rw [hcells]
  apply countP_unset_point _ _ start m.cells (Maze.cells_nodup m) ((Maze.mem_cells m start).mpr hv)
  · simp [hU start hv]
  · simp [Maze.setVisited]
  · intro k hk
    simp [Maze.setVisited, hk]

/-- The cardinality of a set of cells that a duplicate-free list enumerates. -/
theorem ncard_eq_length_of_nodup (S : Set Coordinate) (l : List Coordinate) (hnd : l.Nodup)
    (hmem : ∀ c, c ∈ l ↔ c ∈ S) : S.ncard = l.length := by
  have hS : S = ↑l.toFinset := by
    ext c
    simp [hmem]
  rw [hS, Set.ncard_coe_Finset, List.toFinset_card_of_nodup hnd]

/-- Without residual flags, a marking search that ends without finding the
goal has explored as many cells as can be reached from start. -/
theorem MarkFresh.explored_eq {m0 : Maze} {start goal : Coordinate}
    {lvl : Coordinate → Option Nat} {s : MarkState}
    (h : MarkInv m0 start goal (1 + (m0.setVisited start true).countUnvisited) lvl s)
    (hfr : MarkFresh m0 goal lvl s) (hU : m0.Unvisited) (hs : m0.isOpen start = true)
    (hfound : s.found = false) (hempty : s.frontier = []) :
    s.nodesExplored = Set.ncard {c | m0.Reachable start c} := by
  have hv : m0.isValid start.x start.y = true := ((Maze.isOpen_iff _ _).mp hs).1
  have hcells : s.maze.cells = m0.cells := Maze.cells_eq_of_size m0 s.maze h.width h.height
  have hcount := h.count
  rw [hempty] at hcount
  have h0 := Maze.countUnvisited_setVisited m0 hU start hv
  have hsplit := List.length_eq_countP_add_countP (fun c => s.maze.visited c) s.maze.cells
  have hneg : List.countP (fun a => decide ¬s.maze.visited a = true) s.maze.cells =
      s.maze.countUnvisited := by
    unfold Maze.countUnvisited
    apply List.countP_congr
    intro c _
    simp
  rw [hneg, hcells, Maze.cells_length] at hsplit
  have hlen : (m0.cells.filter fun c => s.maze.visited c).length =
      List.countP (fun c => s.maze.visited c) m0.cells := by
    rw [List.countP_eq_length_filter]
  rw [ncard_eq_length_of_nodup _ (m0.cells.filter fun c => s.maze.visited c)
    (List.Nodup.filter _ (Maze.cells_nodup m0))]
  · rw [hlen]
    simp only [List.length_nil] at hcount
    omega
  · intro c
    simp only [List.mem_filter, Maze.mem_cells, Set.mem_setOf_eq]
    constructor
    · rintro ⟨hvalid, hvis⟩
      obtain ⟨k, hk⟩ := Option.ne_none_iff_exists'.mp (hfr.seen c hvalid hvis)
      exact (Maze.reachable_iff_stepsTo m0 start c hs).mpr
        ⟨k, stepsTo_of_levels m0 start s.parent lvl h.root_only h.tree k c hk⟩
    · intro hr
      obtain ⟨n, hn⟩ := (Maze.reachable_iff_stepsTo m0 start c hs).mp hr
      have hseen := (hfr.reach_seen h hfound hempty n c hn).1
      exact ⟨((Maze.isOpen_iff _ _).mp (Maze.stepsTo_isOpen m0 start hs n c hn)).1,
        h.marked c hseen⟩

/-! ## The results of the marking searches -/

/-- What the two marking searches have in common at the end of `findPath`: the
outcome that the final state of the main loop determines. -/
theorem markSearch_outcome (m0 : Maze) (start goal : Coordinate)
    (lvl : Coordinate → Option Nat) (s : MarkState) (fuel elapsed : Nat)
    (hfuel : m0.area ≤ fuel) (hv : m0.isValid start.x start.y = true)
    (h : MarkInv m0 start goal (1 + (m0.setVisited start true).countUnvisited) lvl s)
    (hfresh : m0.Unvisited → MarkFresh m0 goal lvl s)
    (hend : s.frontier = [] ∨ s.found = true) :
    ∃ r, finishSearch s.maze s.parent s.found s.nodesExplored fuel elapsed goal = some r ∧
      r.2.nodesExplored = s.nodesExplored ∧ s.nodesExplored ≤ m0.area ∧
      r.2.executionTime = elapsed ∧ r.2.pathLength = r.1.length ∧
      (s.found = true → ∃ k, lvl goal = some k ∧ r.1.length = k + 1) ∧
      (m0.Unvisited → m0.isOpen start = true →
        (∀ n, m0.StepsTo start n goal → ValidPath m0 start goal r.1) ∧
        ((∀ n, ¬ m0.StepsTo start n goal) →
          r.1 = [] ∧ s.nodesExplored = Set.ncard {c | m0.Reachable start c})) := by
  cases hfound : s.found with
  | true =>
    obtain ⟨k, l, hk, hlen, hhead, hlast, hadj, hopen, hfin⟩ :=
      h.finish hfound hv fuel elapsed hfuel
    rw [hfound] at hfin
    refine ⟨_, hfin, rfl, h.explored_le hv, rfl, by simp [hlen], ?_, ?_⟩
    · intro _
      exact ⟨k, hk, by simp [hlen]⟩
    · intro _ hs
      refine ⟨fun n _ => validPath_of_chain m0 s.maze start goal h.wall hs l hhead hlast hadj hopen,
        ?_⟩
      intro hno
      exact absurd (stepsTo_of_levels m0 start s.parent lvl h.root_only h.tree k goal hk) (hno k)
  | false =>
    refine ⟨([], ⟨0, s.nodesExplored, elapsed⟩), by simp [finishSearch], rfl,
      h.explored_le hv, rfl, rfl, by simp, ?_⟩
    intro hU hs
    refine ⟨?_, ?_⟩
    · intro n hn
      have := (hfresh hU).found_of_reachable h hend n hn
      rw [hfound] at this
      exact absurd this (by simp)
    · intro _
      have hempty : s.frontier = [] := by
        rcases hend with h' | h'
        · exact h'
        · rw [hfound] at h'; exact absurd h' (by simp)
      exact ⟨rfl, (hfresh hU).explored_eq h hU hs hfound hempty⟩

theorem BFSPathfinder.bfs_findPath_spec (maze : Maze) (start goal : Coordinate) (fuel elapsed : Nat)
    (hfuel : 2 * maze.area + 1 ≤ fuel) (hv : maze.isValid start.x start.y = true) :
    ∃ r, BFSPathfinder.findPath fuel elapsed maze (some start) (some goal) = some r ∧
      r.stats.nodesExplored ≤ maze.area ∧ r.stats.executionTime = elapsed ∧
      r.stats.pathLength = r.path.length ∧
      (maze.Unvisited → maze.isOpen start = true →
        (∀ n, maze.StepsTo start n goal →
          ValidPath maze start goal r.path ∧ r.path.length ≤ n + 1) ∧
        ((∀ n, ¬ maze.StepsTo start n goal) →
          r.path = [] ∧ r.stats.nodesExplored = Set.ncard {c | maze.Reachable start c})) := by
  obtain ⟨s, lvl, hsearch, hinv, hfresh, hend⟩ :=
    BFSPathfinder.bfs_search_spec maze start goal fuel hfuel
  obtain ⟨r, hr, hexp, hle, htime, hlen, hfk, hrest⟩ :=
    markSearch_outcome maze start goal lvl s.mark fuel elapsed (by omega) hv hinv
      (fun hU => (hfresh hU).1) hend
  refine ⟨⟨r.1, r.2, s.maze, s.notified⟩, ?_, ?_, htime, hlen, ?_⟩
  · simp only [BFSPathfinder.findPath, hsearch, Option.some_bind]
    have hr' : finishSearch s.maze s.parent s.found s.nodesExplored fuel elapsed goal = some r := hr
    rw [hr']
    rfl
  · show r.2.nodesExplored ≤ maze.area
    rw [hexp]; exact hle
  · intro hU hs
    obtain ⟨h1, h2⟩ := hrest hU hs
    refine ⟨?_, ?_⟩
    · intro n hn
      refine ⟨h1 n hn, ?_⟩
      have hfound : s.found = true := (hfresh hU).1.found_of_reachable hinv hend n hn
      obtain ⟨k, hk, hlk⟩ := hfk hfound
      have := (hfresh hU).2.level_le hinv (hinv.found_off hfound) k hk n hn
      show r.1.length ≤ n + 1
      omega
    · intro hno
      obtain ⟨h3, h4⟩ := h2 hno
      refine ⟨h3, ?_⟩
      show r.2.nodesExplored = _
      rw [hexp]; exact h4

theorem DFSPathfinder.dfs_findPath_spec (maze : Maze) (start goal : Coordinate) (fuel elapsed : Nat)
    (hfuel : 2 * maze.area + 1 ≤ fuel) (hv : maze.isValid start.x start.y = true) :
    ∃ r, DFSPathfinder.findPath fuel elapsed maze (some start) (some goal) = some r ∧
      r.stats.nodesExplored ≤ maze.area ∧ r.stats.executionTime = elapsed ∧
      r.stats.pathLength = r.path.length ∧
      (maze.Unvisited → maze.isOpen start = true →
        (∀ n, maze.StepsTo start n goal → ValidPath maze start goal r.path) ∧
        ((∀ n, ¬ maze.StepsTo start n goal) →
          r.path = [] ∧ r.stats.nodesExplored = Set.ncard {c | maze.Reachable start c})) := by
  obtain ⟨s, lvl, hsearch, hinv, hfresh, hend⟩ :=
    DFSPathfinder.dfs_search_spec maze start goal fuel hfuel
  obtain ⟨r, hr, hexp, hle, htime, hlen, _, hrest⟩ :=
    markSearch_outcome maze start goal lvl s.mark fuel elapsed (by omega) hv hinv hfresh hend
  refine ⟨⟨r.1, r.2, s.maze, s.notified⟩, ?_, ?_, htime, hlen, ?_⟩
  · simp only [DFSPathfinder.findPath, hsearch, Option.some_bind]
    have hr' : finishSearch s.maze s.parent s.found s.nodesExplored fuel elapsed goal = some r := hr
    rw [hr']
    rfl
  · show r.2.nodesExplored ≤ maze.area
    rw [hexp]; exact hle
  · intro hU hs
    obtain ⟨h1, h2⟩ := hrest hU hs
    refine ⟨h1, ?_⟩
    intro hno
    obtain ⟨h3, h4⟩ := h2 hno
    refine ⟨h3, ?_⟩
    show r.2.nodesExplored = _
    rw [hexp]; exact h4

/-! ## The priority queue -/

namespace PriorityQueue

theorem takeNth_spec {α : Type} (p : α → Bool) :
    ∀ (l : List α) (n : Nat) (a : α) (r : List α), takeNth p l n = some (a, r) →
      p a = true ∧ l.Perm (a :: r) := by
  intro l
  induction l with
  | nil => intro n a r h; simp [takeNth] at h
  | cons b l ih =>
    intro n a r h
    unfold takeNth at h
    by_cases hb : p b = true
    · rw [if_pos hb] at h
      cases n with
      | zero =>
        simp at h
        obtain ⟨h1, h2⟩ := h
        subst h1; subst h2
        exact ⟨hb, List.Perm.refl _⟩
      | succ k =>
        simp only [Option.map_eq_some'] at h
        obtain ⟨⟨a', r'⟩, hrec, heq⟩ := h
        simp at heq
        obtain ⟨h1, h2⟩ := heq
        subst h1; subst h2
        obtain ⟨hp, hperm⟩ := ih k a' r' hrec
        exact ⟨hp, (List.Perm.cons b hperm).trans (List.Perm.swap _ _ _)⟩
    · rw [if_neg hb] at h
      simp only [Option.map_eq_some'] at h
      obtain ⟨⟨a', r'⟩, hrec, heq⟩ := h
      simp at heq
      obtain ⟨h1, h2⟩ := heq
      subst h1; subst h2
      obtain ⟨hp, hperm⟩ := ih n a' r' hrec
      exact ⟨hp, (List.Perm.cons b hperm).trans (List.Perm.swap _ _ _)⟩

theorem takeNth_isSome {α : Type} (p : α → Bool) :
    ∀ (l : List α) (n : Nat), n < l.countP p → ∃ x, takeNth p l n = some x := by
  intro l
  induction l with
  | nil => intro n h; simp at h
  | cons b l ih =>
    intro n h
    unfold takeNth
    by_cases hb : p b = true
    · rw [if_pos hb]
      cases n with
      | zero => exact ⟨_, rfl⟩
      | succ k =>
        rw [List.countP_cons_of_pos _ _ hb] at h
        obtain ⟨x, hx⟩ := ih k (by omega)
        exact ⟨(x.1, b :: x.2), by simp [hx]⟩
    · rw [if_neg hb]
      rw [List.countP_cons_of_neg _ _ hb] at h
      obtain ⟨x, hx⟩ := ih n h
      exact ⟨(x.1, b :: x.2), by simp [hx]⟩

/-- What `pop` yields is an entry of least key; the other entries remain. -/
theorem pop_spec {α : Type} (key : α → Nat) (tie : Nat) (pq : List α) (a : α) (r : List α)
    (h : pop key tie pq = some (a, r)) :
    pq.Perm (a :: r) ∧ ∀ e ∈ pq, key a ≤ key e := by
  unfold pop at h
  cases hm : (pq.map key).min? with
  | none => simp [hm] at h
  | some m =>
    simp only [hm] at h
    obtain ⟨hp, hperm⟩ := takeNth_spec _ pq _ a r h
    refine ⟨hperm, ?_⟩
    intro e he
    rw [List.min?_eq_some_iff'] at hm
    have hkey : key a = m := by simpa using hp
    rw [hkey]
    exact hm.2 (key e) (List.mem_map_of_mem key he)

/-- A queue that is not empty yields an entry. -/
theorem pop_isSome {α : Type} (key : α → Nat) (tie : Nat) (pq : List α) (hne : pq ≠ []) :
    ∃ x, pop key tie pq = some x := by
  unfold pop
  cases hm : (pq.map key).min? with
  | none =>
    rw [List.min?_eq_none_iff] at hm
    simp at hm
    exact absurd hm hne
  | some m =>
    simp only
    apply takeNth_isSome
    rw [List.min?_eq_some_iff'] at hm
    have hpos : 0 < pq.countP (fun a => key a == m) := by
      rw [List.countP_pos_iff]
      obtain ⟨e, he, hk⟩ := List.mem_map.mp hm.1
      exact ⟨e, he, by simp [hk]⟩
    exact Nat.mod_lt _ hpos

end PriorityQueue

/-! ## The loops over the neighbours in the best-first searches -/

theorem DijkstraPathfinder.dijkstra_relax_eq (current : DijkstraPathfinder.Node)
    (s : DijkstraPathfinder.State) (n : Coordinate) :
    DijkstraPathfinder.relax current s n =
      if BestState.improves s.visited s.cost (current.cost + 1) n then
        { s with
          cost := fun k => if k = n then some (current.cost + 1) else s.cost k
          parent := fun k => if k = n then some current.cell else s.parent k
          pq := s.pq ++ [⟨n, current.cost + 1⟩] }
      else s := by
  unfold DijkstraPathfinder.relax BestState.improves
  by_cases hv : n ∈ s.visited
  · simp [hv]
  · cases hc : s.cost n with
    | none => simp [hv, hc]
    | some old =>
      by_cases hlt : current.cost + 1 < old
      · simp [hv, hc, hlt]
      · simp [hv, hc, hlt]

theorem DijkstraPathfinder.dijkstra_foldl_relax (current : DijkstraPathfinder.Node) :
    ∀ (l : List Coordinate) (s : DijkstraPathfinder.State), l.Nodup →
      (l.foldl (DijkstraPathfinder.relax current) s).pq =
        s.pq ++ (l.filter (BestState.improves s.visited s.cost (current.cost + 1))).map
          (fun n => ⟨n, current.cost + 1⟩) ∧
      (∀ c, (l.foldl (DijkstraPathfinder.relax current) s).cost c =
        if c ∈ l.filter (BestState.improves s.visited s.cost (current.cost + 1))
        then some (current.cost + 1) else s.cost c) ∧
      (∀ c, (l.foldl (DijkstraPathfinder.relax current) s).parent c =
        if c ∈ l.filter (BestState.improves s.visited s.cost (current.cost + 1))
        then some current.cell else s.parent c) ∧
      (l.foldl (DijkstraPathfinder.relax current) s).visited = s.visited ∧
      (l.foldl (DijkstraPathfinder.relax current) s).maze = s.maze ∧
      (l.foldl (DijkstraPathfinder.relax current) s).nodesExplored = s.nodesExplored ∧
      (l.foldl (DijkstraPathfinder.relax current) s).found = s.found ∧
      (l.foldl (DijkstraPathfinder.relax current) s).notified = s.notified ∧
      (l.foldl (DijkstraPathfinder.relax current) s).ties = s.ties := by
  intro l
  induction l with
  | nil => intro s _; simp
  | cons a l ih =>
    intro s hnd
    rw [List.nodup_cons] at hnd
    obtain ⟨hq, hcost, hpar, hvis, hmaze, hn, hf, hnot, hties⟩ :=
      ih (DijkstraPathfinder.relax current s a) hnd.2
    rw [List.foldl_cons]
    by_cases himp : BestState.improves s.visited s.cost (current.cost + 1) a = true
    · have hs' := DijkstraPathfinder.dijkstra_relax_eq current s a
      rw [if_pos himp] at hs'
      have hfilter : l.filter (BestState.improves (DijkstraPathfinder.relax current s a).visited
            (DijkstraPathfinder.relax current s a).cost (current.cost + 1)) =
          l.filter (BestState.improves s.visited s.cost (current.cost + 1)) := by
        apply List.filter_congr
        intro c hc
        have : c ≠ a := fun e => hnd.1 (e ▸ hc)
        rw [hs']
        simp [BestState.improves, this]
      rw [hfilter] at hq hcost hpar
      refine ⟨?_, ?_, ?_, ?_, ?_, ?_, ?_, ?_, ?_⟩
      · rw [hq, hs', List.filter_cons, if_pos himp]
        simp
      · intro c
        rw [hcost c, hs', List.filter_cons, if_pos himp]
        by_cases hca : c = a
        · subst hca; simp
        · simp [hca]
      · intro c
        rw [hpar c, hs', List.filter_cons, if_pos himp]
        by_cases hca : c = a
        · subst hca; simp
        · simp [hca]
      · rw [hvis, hs']
      · rw [hmaze, hs']
      · rw [hn, hs']
      · rw [hf, hs']
      · rw [hnot, hs']
      · rw [hties, hs']
    · have hs' := DijkstraPathfinder.dijkstra_relax_eq current s a
      rw [if_neg himp] at hs'
      rw [hs'] at hq hcost hpar hvis hmaze hn hf hnot hties ⊢
      rw [List.filter_cons, if_neg himp]
      exact ⟨hq, hcost, hpar, hvis, hmaze, hn, hf, hnot, hties⟩

theorem AStarPathfinder.astar_relax_eq (goal : Coordinate) (current : AStarPathfinder.Node)
    (s : AStarPathfinder.State) (n : Coordinate) :
    AStarPathfinder.relax goal current s n =
      if BestState.improves s.closedSet s.gScore ((s.gScore current.cell).getD 0 + 1) n then
        { s with
          gScore := fun k =>
            if k = n then some ((s.gScore current.cell).getD 0 + 1) else s.gScore k
          parent := fun k => if k = n then some current.cell else s.parent k
          openSet := s.openSet ++
            [⟨n, (s.gScore current.cell).getD 0 + 1 + AStarPathfinder.heuristic n goal⟩] }
      else s := by
  unfold AStarPathfinder.relax BestState.improves
  by_cases hv : n ∈ s.closedSet
  · simp [hv]
  · cases hc : s.gScore n with
    | none => simp [hv, hc]
    | some old =>
      by_cases hlt : (s.gScore current.cell).getD 0 + 1 < old
      · simp [hv, hc, hlt]
      · simp [hv, hc, hlt]

theorem AStarPathfinder.astar_foldl_relax (goal : Coordinate) (current : AStarPathfinder.Node) :
    ∀ (l : List Coordinate) (s : AStarPathfinder.State), l.Nodup → current.cell ∉ l →
      (l.foldl (AStarPathfinder.relax goal current) s).openSet =
        s.openSet ++ (l.filter (BestState.improves s.closedSet s.gScore
            ((s.gScore current.cell).getD 0 + 1))).map
          (fun n => ⟨n, (s.gScore current.cell).getD 0 + 1 + AStarPathfinder.heuristic n goal⟩) ∧
      (∀ c, (l.foldl (AStarPathfinder.relax goal current) s).gScore c =
        if c ∈ l.filter (BestState.improves s.closedSet s.gScore
            ((s.gScore current.cell).getD 0 + 1))
        then some ((s.gScore current.cell).getD 0 + 1) else s.gScore c) ∧
      (∀ c, (l.foldl (AStarPathfinder.relax goal current) s).parent c =
        if c ∈ l.filter (BestState.improves s.closedSet s.gScore
            ((s.gScore current.cell).getD 0 + 1))
        then some current.cell else s.parent c) ∧
      (l.foldl (AStarPathfinder.relax goal current) s).closedSet = s.closedSet ∧
      (l.foldl (AStarPathfinder.relax goal current) s).maze = s.maze ∧
      (l.foldl (AStarPathfinder.relax goal current) s).nodesExplored = s.nodesExplored ∧
      (l.foldl (AStarPathfinder.relax goal current) s).found = s.found ∧
      (l.foldl (AStarPathfinder.relax goal current) s).notified = s.notified ∧
      (l.foldl (AStarPathfinder.relax goal current) s).ties = s.ties := by
  intro l
  induction l with
  | nil => intro s _ _; simp
  | cons a l ih =>
    intro s hnd hcur
    rw [List.nodup_cons] at hnd
    have hcur' : current.cell ∉ l := fun hin => hcur (List.mem_cons_of_mem _ hin)
    have hcura : current.cell ≠ a := fun e => hcur (e ▸ List.mem_cons_self _ _)
    obtain ⟨hq, hcost, hpar, hvis, hmaze, hn, hf, hnot, hties⟩ :=
      ih (AStarPathfinder.relax goal current s a) hnd.2 hcur'
    rw [List.foldl_cons]
    by_cases himp : BestState.improves s.closedSet s.gScore
        ((s.gScore current.cell).getD 0 + 1) a = true
    · have hs' := AStarPathfinder.astar_relax_eq goal current s a
      rw [if_pos himp] at hs'
      have hg : (AStarPathfinder.relax goal current s a).gScore current.cell =
          s.gScore current.cell := by
        rw [hs']; simp [hcura]
      have hfilter : l.filter (BestState.improves
            (AStarPathfinder.relax goal current s a).closedSet
            (AStarPathfinder.relax goal current s a).gScore
            (((AStarPathfinder.relax goal current s a).gScore current.cell).getD 0 + 1)) =
          l.filter (BestState.improves s.closedSet s.gScore
            ((s.gScore current.cell).getD 0 + 1)) := by
        rw [hg]
        apply List.filter_congr
        intro c hc
        have : c ≠ a := fun e => hnd.1 (e ▸ hc)
        rw [hs']
        simp [BestState.improves, this]
      rw [hfilter] at hq hcost hpar
      rw [hg] at hq hcost
      refine ⟨?_, ?_, ?_, ?_, ?_, ?_, ?_, ?_, ?_⟩
      · rw [hq, hs', List.filter_cons, if_pos himp]
        simp
      · intro c
        rw [hcost c, hs', List.filter_cons, if_pos himp]
        by_cases hca : c = a
        · subst hca; simp
        · simp [hca]
      · intro c
        rw [hpar c, hs', List.filter_cons, if_pos himp]
        by_cases hca : c = a
        · subst hca; simp
        · simp [hca]
      · rw [hvis, hs']
      · rw [hmaze, hs']
      · rw [hn, hs']
      · rw [hf, hs']
      · rw [hnot, hs']
      · rw [hties, hs']
    · have hs' := AStarPathfinder.astar_relax_eq goal current s a
      rw [if_neg himp] at hs'
      rw [hs'] at hq hcost hpar hvis hmaze hn hf hnot hties ⊢
      rw [List.filter_cons, if_neg himp]
      exact ⟨hq, hcost, hpar, hvis, hmaze, hn, hf, hnot, hties⟩

/-! ## One iteration of the best-first searches -/

theorem Maze.not_mem_getNeighbors_self (m : Maze) (c : Coordinate) : c ∉ m.getNeighbors c := by
  intro h
  have := ((Maze.mem_getNeighbors m c c).mp h).2
  simp [manhattan] at this

theorem BestState.improved_of_stale (s : BestState) (goal current : Coordinate)
    (h : current ∈ s.closed ∨ current = goal) : s.improved goal current = [] := by
  simp [BestState.improved, h]

theorem BestState.improved_of_expand (s : BestState) (goal current : Coordinate)
    (h1 : current ∉ s.closed) (h2 : current ≠ goal) :
    s.improved goal current = (s.maze.getNeighbors current).filter
      (BestState.improves (current :: s.closed) s.g ((s.g current).getD 0 + 1)) := by
  simp [BestState.improved, h1, h2]

theorem DijkstraPathfinder.dijkstra_body_bestStep (goal : Coordinate) (s : DijkstraPathfinder.State)
    (current : DijkstraPathfinder.Node) (rest : List DijkstraPathfinder.Node)
    (hpop : PriorityQueue.pop DijkstraPathfinder.Node.cost (s.ties 0) s.pq = some (current, rest))
    (hcost : current.cell ∉ s.visited → (s.cost current.cell).getD 0 = current.cost) :
    BestStep (fun _ => 0) goal s.best (DijkstraPathfinder.body goal s).best
      current.cell current.cost (rest.map fun n => (n.cell, n.cost)) := by
  obtain ⟨hperm, hleast⟩ := PriorityQueue.pop_spec _ _ _ _ _ hpop
  have hperm' : s.best.openSet.Perm
      ((current.cell, current.cost) :: rest.map fun n => (n.cell, n.cost)) := by
    have := hperm.map (fun (n : DijkstraPathfinder.Node) => (n.cell, n.cost))
    simpa [DijkstraPathfinder.State.best] using this
  have hleast' : ∀ e ∈ s.best.openSet, current.cost ≤ e.2 := by
    intro e he
    simp only [DijkstraPathfinder.State.best, List.mem_map] at he
    obtain ⟨n, hn, rfl⟩ := he
    exact hleast n hn
  by_cases hstale : current.cell ∈ s.visited
  · have hb : DijkstraPathfinder.body goal s =
        { s with pq := rest, ties := fun n => s.ties (n + 1) } := by
      simp [DijkstraPathfinder.body, hpop, hstale]
    have himp : s.best.improved goal current.cell = [] :=
      BestState.improved_of_stale _ _ _ (Or.inl hstale)
    rw [hb]
    constructor
    · exact hperm'
    · exact hleast'
    · rfl
    · rfl
    · intro c; rfl
    · simp [DijkstraPathfinder.State.best, hstale]
    · simp [DijkstraPathfinder.State.best, hstale]
    · simp [DijkstraPathfinder.State.best, hstale]
    · intro c; rw [himp]; simp [DijkstraPathfinder.State.best]
    · intro c; rw [himp]; simp [DijkstraPathfinder.State.best]
    · rw [himp]; simp [DijkstraPathfinder.State.best]
  · by_cases hg : current.cell = goal
    · subst hg
      have hb : DijkstraPathfinder.body current.cell s =
          { s with pq := rest, ties := fun n => s.ties (n + 1),
                   visited := current.cell :: s.visited,
                   maze := s.maze.setVisited current.cell true,
                   nodesExplored := s.nodesExplored + 1,
                   notified := s.notified ++
                     [(s.maze.setVisited current.cell true).cellAt current.cell],
                   found := true } := by
        simp [DijkstraPathfinder.body, hpop, hstale]
      have himp : s.best.improved current.cell current.cell = [] :=
        BestState.improved_of_stale _ _ _ (Or.inr rfl)
      rw [hb]
      constructor
      · exact hperm'
      · exact hleast'
      · rfl
      · rfl
      · intro c; rfl
      · simp [DijkstraPathfinder.State.best, hstale]
      · simp [DijkstraPathfinder.State.best, hstale]
      · simp [DijkstraPathfinder.State.best, hstale]
      · intro c; rw [himp]; simp [DijkstraPathfinder.State.best]
      · intro c; rw [himp]; simp [DijkstraPathfinder.State.best]
      · rw [himp]; simp [DijkstraPathfinder.State.best]
    · have hb : DijkstraPathfinder.body goal s =
          (s.maze.getNeighbors current.cell).foldl (DijkstraPathfinder.relax current)
            { s with pq := rest, ties := fun n => s.ties (n + 1),
                     visited := current.cell :: s.visited,
                     maze := s.maze.setVisited current.cell true,
                     nodesExplored := s.nodesExplored + 1,
                     notified := s.notified ++
                       [(s.maze.setVisited current.cell true).cellAt current.cell] } := by
        simp [DijkstraPathfinder.body, hpop, hstale, hg]
        rfl
      obtain ⟨h1, h2, h3, h4, h5, h6, h7, _, _⟩ :=
        DijkstraPathfinder.dijkstra_foldl_relax current (s.maze.getNeighbors current.cell)
          { s with pq := rest, ties := fun n => s.ties (n + 1),
                   visited := current.cell :: s.visited,
                   maze := s.maze.setVisited current.cell true,
                   nodesExplored := s.nodesExplored + 1,
                   notified := s.notified ++
                     [(s.maze.setVisited current.cell true).cellAt current.cell] }
          (Maze.getNeighbors_nodup _ _)
      rw [← hb] at h1 h2 h3 h4 h5 h6 h7
      have himp : s.best.improved goal current.cell =
          (s.maze.getNeighbors current.cell).filter
            (BestState.improves (current.cell :: s.visited) s.cost (current.cost + 1)) := by
        rw [BestState.improved_of_expand _ _ _ hstale hg]
        simp only [DijkstraPathfinder.State.best]
        rw [hcost hstale]
      have hgc : (s.best.g current.cell).getD 0 = current.cost := hcost hstale
      constructor
      · exact hperm'
      · exact hleast'
      · simp [DijkstraPathfinder.State.best, h5, Maze.setVisited]
      · simp [DijkstraPathfinder.State.best, h5, Maze.setVisited]
      · simp [DijkstraPathfinder.State.best, h5, Maze.setVisited]
      · simp [DijkstraPathfinder.State.best, h4, hstale]
      · simp [DijkstraPathfinder.State.best, h6, hstale]
      · simp [DijkstraPathfinder.State.best, h7, hstale, hg]
      · intro c
        rw [himp, hgc]
        simpa [DijkstraPathfinder.State.best] using h2 c
      · intro c
        rw [himp]
        simpa [DijkstraPathfinder.State.best] using h3 c
      · rw [himp, hgc]
        simp [DijkstraPathfinder.State.best, h1, Function.comp_def]

theorem AStarPathfinder.astar_body_bestStep (goal : Coordinate) (s : AStarPathfinder.State)
    (current : AStarPathfinder.Node) (rest : List AStarPathfinder.Node)
    (hpop : PriorityQueue.pop AStarPathfinder.Node.fScore (s.ties 0) s.openSet =
      some (current, rest)) :
    BestStep (fun n => AStarPathfinder.heuristic n goal) goal s.best
      (AStarPathfinder.body goal s).best
      current.cell current.fScore (rest.map fun n => (n.cell, n.fScore)) := by
  obtain ⟨hperm, hleast⟩ := PriorityQueue.pop_spec _ _ _ _ _ hpop
  have hperm' : s.best.openSet.Perm
      ((current.cell, current.fScore) :: rest.map fun n => (n.cell, n.fScore)) := by
    have := hperm.map (fun (n : AStarPathfinder.Node) => (n.cell, n.fScore))
    simpa [AStarPathfinder.State.best] using this
  have hleast' : ∀ e ∈ s.best.openSet, current.fScore ≤ e.2 := by
    intro e he
    simp only [AStarPathfinder.State.best, List.mem_map] at he
    obtain ⟨n, hn, rfl⟩ := he
    exact hleast n hn
  by_cases hstale : current.cell ∈ s.closedSet
  · have hb : AStarPathfinder.body goal s =
        { s with openSet := rest, ties := fun n => s.ties (n + 1) } := by
      simp [AStarPathfinder.body, hpop, hstale]
    have himp : s.best.improved goal current.cell = [] :=
      BestState.improved_of_stale _ _ _ (Or.inl hstale)
    rw [hb]
    constructor
    · exact hperm'
    · exact hleast'
    · rfl
    · rfl
    · intro c; rfl
    · simp [AStarPathfinder.State.best, hstale]
    · simp [AStarPathfinder.State.best, hstale]
    · simp [AStarPathfinder.State.best, hstale]
    · intro c; rw [himp]; simp [AStarPathfinder.State.best]
    · intro c; rw [himp]; simp [AStarPathfinder.State.best]
    · rw [himp]; simp [AStarPathfinder.State.best]
  · by_cases hg : current.cell = goal
    · subst hg
      have hb : AStarPathfinder.body current.cell s =
          { s with openSet := rest, ties := fun n => s.ties (n + 1),
                   closedSet := current.cell :: s.closedSet,
                   maze := s.maze.setVisited current.cell true,
                   nodesExplored := s.nodesExplored + 1,
                   notified := s.notified ++
                     [(s.maze.setVisited current.cell true).cellAt current.cell],
                   found := true } := by
        simp [AStarPathfinder.body, hpop, hstale]
      have himp : s.best.improved current.cell current.cell = [] :=
        BestState.improved_of_stale _ _ _ (Or.inr rfl)
      rw [hb]
      constructor
      · exact hperm'
      · exact hleast'
      · rfl
      · rfl
      · intro c; rfl
      · simp [AStarPathfinder.State.best, hstale]
      · simp [AStarPathfinder.State.best, hstale]
      · simp [AStarPathfinder.State.best, hstale]
      · intro c; rw [himp]; simp [AStarPathfinder.State.best]
      · intro c; rw [himp]; simp [AStarPathfinder.State.best]
      · rw [himp]; simp [AStarPathfinder.State.best]
    · have hb : AStarPathfinder.body goal s =
          (s.maze.getNeighbors current.cell).foldl (AStarPathfinder.relax goal current)
            { s with openSet := rest, ties := fun n => s.ties (n + 1),
                     closedSet := current.cell :: s.closedSet,
                     maze := s.maze.setVisited current.cell true,
                     nodesExplored := s.nodesExplored + 1,
                     notified := s.notified ++
                       [(s.maze.setVisited current.cell true).cellAt current.cell] } := by
        simp [AStarPathfinder.body, hpop, hstale, hg]
        rfl
      obtain ⟨h1, h2, h3, h4, h5, h6, h7, _, _⟩ :=
        AStarPathfinder.astar_foldl_relax goal current (s.maze.getNeighbors current.cell)
          { s with openSet := rest, ties := fun n => s.ties (n + 1),
                   closedSet := current.cell :: s.closedSet,
                   maze := s.maze.setVisited current.cell true,
                   nodesExplored := s.nodesExplored + 1,
                   notified := s.notified ++
                     [(s.maze.setVisited current.cell true).cellAt current.cell] }
          (Maze.getNeighbors_nodup _ _) (Maze.not_mem_getNeighbors_self _ _)
      rw [← hb] at h1 h2 h3 h4 h5 h6 h7
      have himp : s.best.improved goal current.cell =
          (s.maze.getNeighbors current.cell).filter
            (BestState.improves (current.cell :: s.closedSet) s.gScore
              ((s.gScore current.cell).getD 0 + 1)) := by
        rw [BestState.improved_of_expand _ _ _ hstale hg]
        rfl
      have hgc : (s.best.g current.cell).getD 0 = (s.gScore current.cell).getD 0 := rfl
      constructor
      · exact hperm'
      · exact hleast'
      · simp [AStarPathfinder.State.best, h5, Maze.setVisited]
      · simp [AStarPathfinder.State.best, h5, Maze.setVisited]
      · simp [AStarPathfinder.State.best, h5, Maze.setVisited]
      · simp [AStarPathfinder.State.best, h4, hstale]
      · simp [AStarPathfinder.State.best, h6, hstale]
      · simp [AStarPathfinder.State.best, h7, hstale, hg]
      · intro c
        rw [himp, hgc]
        simpa [AStarPathfinder.State.best] using h2 c
      · intro c
        rw [himp]
        simpa [AStarPathfinder.State.best] using h3 c
      · rw [himp, hgc]
        simp [AStarPathfinder.State.best, h1, Function.comp_def]

/-! ## The invariant of the best-first searches -/

theorem BestState.mem_improved (s : BestState) (goal current c : Coordinate) :
    c ∈ s.improved goal current ↔
      current ∉ s.closed ∧ current ≠ goal ∧ c ∈ s.maze.getNeighbors current ∧
      c ≠ current ∧ c ∉ s.closed ∧
      ∀ old, s.g c = some old → (s.g current).getD 0 + 1 < old := by
  unfold BestState.improved
  by_cases h : current ∈ s.closed ∨ current = goal
  · rw [if_pos h]
    simp only [List.not_mem_nil, false_iff]
    rintro ⟨h1, h2, _⟩
    rcases h with h | h
    · exact h1 h
    · exact h2 h
  · rw [if_neg h]
    push_neg at h
    simp only [List.mem_filter, BestState.improves, List.mem_cons, not_or, Bool.and_eq_true,
      decide_eq_true_eq]
    cases hg : s.g c with
    | none => simp [h.1, h.2, and_assoc]
    | some old => simp [h.1, h.2, and_assoc]

theorem BestState.improved_length_le (s : BestState) (goal current : Coordinate) :
    (s.improved goal current).length ≤ 4 := by
  unfold BestState.improved
  split
  · simp
  · exact le_trans (List.length_filter_le _ _) (Maze.getNeighbors_length_le _ _)

theorem BestInv.sound {m0 : Maze} {h : Coordinate → Nat} {start goal : Coordinate}
    {s : BestState} (hinv : BestInv m0 h start goal s) (k : Nat) (c : Coordinate)
    (hc : s.g c = some k) : m0.StepsTo start k c :=
  stepsTo_of_levels m0 start s.parent s.g hinv.root_only
    (fun c k hck => by
      obtain ⟨p, h1, h2, h3, _⟩ := hinv.tree c k hck
      exact ⟨p, h1, h2, h3⟩) k c hc

/-- Along any sequence of moves from start, either the cell reached is closed
with a cost within the number of moves, or an earlier cell of the sequence is
not closed, has a cost within its number of moves, and its key does not
exceed the number of moves plus the heuristic of the cell reached. -/
theorem BestInv.frontier {m0 : Maze} {h : Coordinate → Nat} {start goal : Coordinate}
    {s : BestState} (hinv : BestInv m0 h start goal s)
    (hcons : ∀ a b, b ∈ m0.getNeighbors a → h a ≤ h b + 1)
    (hstart : start ∈ s.closed) (hfound : s.found = false) :
    ∀ n c, m0.StepsTo start n c →
      (c ∈ s.closed ∧ ∃ gv, s.g c = some gv ∧ gv ≤ n) ∨
        ∃ d i gd, d ∉ s.closed ∧ s.g d = some gd ∧ gd ≤ i ∧ h d + i ≤ n + h c := by
  intro n c hsteps
  induction hsteps with
  | zero => exact Or.inl ⟨hstart, 0, hinv.root.1, le_refl _⟩
  | @step n c d _ hd ih =>
    rcases ih with ⟨hcl, gv, hgv, hle⟩ | ⟨d', i, gd, h1, h2, h3, h4⟩
    · have hcg : c ≠ goal := by
        intro e
        have := hinv.goal_closed.mp (e ▸ hcl)
        rw [hfound] at this
        exact absurd this (by simp)
      obtain ⟨gd, ge, hgd, hge, hdle⟩ := hinv.near c hcl hcg d hd
      rw [hgv] at hge
      simp at hge
      by_cases hdc : d ∈ s.closed
      · exact Or.inl ⟨hdc, gd, hgd, by omega⟩
      · exact Or.inr ⟨d, n + 1, gd, hdc, hgd, by omega, by omega⟩
    · have := hcons c d hd
      exact Or.inr ⟨d', i, gd, h1, h2, h3, by omega⟩

/-- The cost of a cell at the moment it is closed is its least number of
moves from start. -/
theorem BestInv.closing {m0 : Maze} {h : Coordinate → Nat} {start goal : Coordinate}
    {s t : BestState} {current : Coordinate} {f : Nat} {rest : List (Coordinate × Nat)}
    (hinv : BestInv m0 h start goal s)
    (hcons : ∀ a b, b ∈ m0.getNeighbors a → h a ≤ h b + 1)
    (hfound : s.found = false)
    (hstep : BestStep h goal s t current f rest) (hnc : current ∉ s.closed)
    (gc : Nat) (hgc : s.g current = some gc) :
    ∀ n, m0.StepsTo start n current → gc ≤ n := by
  intro n hn
  have hmem : (current, f) ∈ s.openSet := hstep.perm.symm.subset (List.mem_cons_self _ _)
  obtain ⟨gv, hgv, hkey⟩ := hinv.entry_ge _ hmem
  simp only at hgv hkey
  rw [hgc] at hgv
  simp at hgv
  subst hgv
  rcases hinv.started with hstart | ⟨_, hopen⟩
  · rcases hinv.frontier hcons hstart hfound n current hn with ⟨hcl, _⟩ | ⟨d, i, gd, h1, h2, h3, h4⟩
    · exact absurd hcl hnc
    · have hentry := hinv.entry_of d gd h2 h1
      have := hstep.least _ hentry
      simp only at this
      omega
  · rw [hopen] at hmem
    simp at hmem
    have hcs : current = start := hmem.1
    rw [hcs, hinv.root.1] at hgc
    simp at hgc
    omega

theorem BestInv.bestInv_step {m0 : Maze} {h : Coordinate → Nat} {start goal : Coordinate}
    {s t : BestState} {current : Coordinate} {f : Nat} {rest : List (Coordinate × Nat)}
    (hinv : BestInv m0 h start goal s)
    (hcons : ∀ a b, b ∈ m0.getNeighbors a → h a ≤ h b + 1)
    (hfound : s.found = false)
    (hstep : BestStep h goal s t current f rest) :
    BestInv m0 h start goal t := by
  have hmem : (current, f) ∈ s.openSet := hstep.perm.symm.subset (List.mem_cons_self _ _)
  obtain ⟨gc, hgc, hkey⟩ := hinv.entry_ge _ hmem
  simp only at hgc hkey
  have hgetD : (s.g current).getD 0 = gc := by rw [hgc]; rfl
  have hnb : ∀ c, s.maze.getNeighbors c = m0.getNeighbors c :=
    Maze.getNeighbors_congr m0 s.maze hinv.width hinv.height hinv.wall
  have hrest_sub : ∀ e, e ∈ rest → e ∈ s.openSet :=
    fun e he => hstep.perm.symm.subset (List.mem_cons_of_mem _ he)
  have hopen_cases : ∀ e, e ∈ s.openSet → e = (current, f) ∨ e ∈ rest := by
    intro e he
    have := hstep.perm.subset he
    simpa using this
  have himp := s.mem_improved goal current
  rw [hgetD] at himp
  have hg' : ∀ c, t.g c = if c ∈ s.improved goal current then some (gc + 1) else s.g c := by
    intro c; rw [hstep.g c, hgetD]
  have hopen' : t.openSet = rest ++ (s.improved goal current).map fun n => (n, gc + 1 + h n) := by
    rw [hstep.openSet, hgetD]
  have hclosed_sub : ∀ c, c ∈ s.closed → c ∈ t.closed := by
    intro c hc
    rw [hstep.closed]
    split
    · exact hc
    · exact List.mem_cons_of_mem _ hc
  have hclosed_cases : ∀ c, c ∈ t.closed → c ∈ s.closed ∨ (c = current ∧ current ∉ s.closed) := by
    intro c hc
    rw [hstep.closed] at hc
    split at hc
    · exact Or.inl hc
    · rename_i hnc
      rcases List.mem_cons.mp hc with e | e
      · exact Or.inr ⟨e, hnc⟩
      · exact Or.inl e
  have hcur_closed : current ∈ t.closed := by
    rw [hstep.closed]
    split
    · assumption
    · exact List.mem_cons_self _ _
  -- closed cells and the popped cell keep their cost
  have hkeep : ∀ c, c ∈ t.closed → t.g c = s.g c := by
    intro c hc
    rw [hg' c, if_neg]
    intro hin
    obtain ⟨_, _, _, h4, h5, _⟩ := (himp c).mp hin
    rcases hclosed_cases c hc with e | e
    · exact h5 e
    · exact h4 e.1
  have hle : ∀ c gv, s.g c = some gv → ∃ gv', t.g c = some gv' ∧ gv' ≤ gv := by
    intro c gv hc
    rw [hg' c]
    by_cases hin : c ∈ s.improved goal current
    · rw [if_pos hin]
      have := ((himp c).mp hin).2.2.2.2.2 gv hc
      exact ⟨gc + 1, rfl, by omega⟩
    · rw [if_neg hin]
      exact ⟨gv, hc, le_refl _⟩
  have hcur_valid : m0.isValid current.x current.y = true := hinv.open_valid _ hmem
  constructor
  · rw [hstep.width, hinv.width]
  · rw [hstep.height, hinv.height]
  · intro c; rw [hstep.wall, hinv.wall]
  · -- root
    refine ⟨?_, ?_⟩
    · rw [hg' start, if_neg]
      · exact hinv.root.1
      · intro hin
        have := ((himp start).mp hin).2.2.2.2.2 0 hinv.root.1
        omega
    · rw [hstep.parent start, if_neg]
      · exact hinv.root.2
      · intro hin
        have := ((himp start).mp hin).2.2.2.2.2 0 hinv.root.1
        omega
  · -- root_only
    intro c hc
    rw [hg' c] at hc
    split at hc
    · simp at hc
    · exact hinv.root_only c hc
  · -- tree
    intro c k hc
    rw [hg' c] at hc
    by_cases hin : c ∈ s.improved goal current
    · rw [if_pos hin] at hc
      have hk : k = gc := by simp at hc; omega
      subst hk
      obtain ⟨h1, h2, h3, _, _, _⟩ := (himp c).mp hin
      refine ⟨current, ?_, ?_, ?_, hcur_closed⟩
      · rw [hstep.parent c, if_pos hin]
      · rw [hkeep current hcur_closed]; exact hgc
      · rw [← hnb]; exact h3
    · rw [if_neg hin] at hc
      obtain ⟨p, hp, hgp, hmemp, hpc⟩ := hinv.tree c k hc
      refine ⟨p, ?_, ?_, hmemp, hclosed_sub p hpc⟩
      · rw [hstep.parent c, if_neg hin]; exact hp
      · rw [hkeep p (hclosed_sub p hpc)]; exact hgp
  · -- closed_seen
    intro c hc
    rw [hkeep c hc]
    rcases hclosed_cases c hc with e | e
    · exact hinv.closed_seen c e
    · rw [e.1]; exact ⟨gc, hgc⟩
  · -- closed_nodup
    rw [hstep.closed]
    split
    · exact hinv.closed_nodup
    · rename_i hnc
      exact List.nodup_cons.mpr ⟨hnc, hinv.closed_nodup⟩
  · -- closed_valid
    intro c hc
    rcases hclosed_cases c hc with e | e
    · exact hinv.closed_valid c e
    · rw [e.1]; exact hcur_valid
  · -- open_valid
    intro e he
    rw [hopen', List.mem_append] at he
    rcases he with he | he
    · exact hinv.open_valid e (hrest_sub e he)
    · rw [List.mem_map] at he
      obtain ⟨n, hn, rfl⟩ := he
      have := ((himp n).mp hn).2.2.1
      exact ((Maze.isOpen_iff _ _).mp
        ((Maze.mem_getNeighbors m0 _ _).mp (by rw [← hnb]; exact this)).1).1
  · -- explored
    rw [hstep.explored, hstep.closed]
    split
    · exact hinv.explored
    · simp [hinv.explored]
  · -- entry_ge
    intro e he
    rw [hopen', List.mem_append] at he
    rcases he with he | he
    · obtain ⟨gv, hgv, hk⟩ := hinv.entry_ge e (hrest_sub e he)
      obtain ⟨gv', hgv', hle'⟩ := hle e.1 gv hgv
      exact ⟨gv', hgv', by omega⟩
    · rw [List.mem_map] at he
      obtain ⟨n, hn, rfl⟩ := he
      exact ⟨gc + 1, by rw [hg' n, if_pos hn], le_refl _⟩
  · -- entry_of
    intro c gv hc hcl
    rw [hopen', List.mem_append]
    rw [hg' c] at hc
    by_cases hin : c ∈ s.improved goal current
    · rw [if_pos hin] at hc
      simp at hc
      subst hc
      exact Or.inr (List.mem_map.mpr ⟨c, hin, rfl⟩)
    · rw [if_neg hin] at hc
      have hcs : c ∉ s.closed := fun e => hcl (hclosed_sub c e)
      have hne : c ≠ current := fun e => hcl (e ▸ hcur_closed)
      rcases hopen_cases _ (hinv.entry_of c gv hc hcs) with e | e
      · exact absurd (congrArg Prod.fst e) hne
      · exact Or.inl e
  · -- near
    intro e he heg v hv
    rcases hclosed_cases e he with hes | ⟨hec, hnc⟩
    · obtain ⟨gv, ge, hgv, hge, hvle⟩ := hinv.near e hes heg v hv
      obtain ⟨gv', hgv', hle'⟩ := hle v gv hgv
      exact ⟨gv', ge, hgv', by rw [hkeep e he]; exact hge, by omega⟩
    · subst hec
      refine ?_
      by_cases hin : v ∈ s.improved goal e
      · exact ⟨gc + 1, gc, by rw [hg' v, if_pos hin], by rw [hkeep e he]; exact hgc, le_refl _⟩
      · have hvs : s.g v = t.g v := by rw [hg' v, if_neg hin]
        have hve : v ≠ e := by
          intro e'
          rw [e'] at hv
          exact Maze.not_mem_getNeighbors_self m0 e hv
        by_cases hvc : v ∈ s.closed
        · obtain ⟨gv, hgv⟩ := hinv.closed_seen v hvc
          have hsteps : m0.StepsTo start (gc + 1) v :=
            Maze.StepsTo.step (hinv.sound gc e hgc) hv
          have := hinv.best v hvc (gc + 1) gv hsteps hgv
          exact ⟨gv, gc, by rw [← hvs]; exact hgv, by rw [hkeep e he]; exact hgc, this⟩
        · cases hgv : s.g v with
          | none =>
            exfalso
            apply hin
            rw [himp v]
            exact ⟨hnc, heg, by rw [hnb]; exact hv, hve, hvc, by simp [hgv]⟩
          | some gv =>
            refine ⟨gv, gc, by rw [← hvs]; exact hgv, by rw [hkeep e he]; exact hgc, ?_⟩
            by_contra hlt
            apply hin
            rw [himp v]
            refine ⟨hnc, heg, by rw [hnb]; exact hv, hve, hvc, ?_⟩
            intro old hold
            rw [hgv] at hold
            simp at hold
            omega
  · -- goal_closed
    rw [hstep.found, hfound, hstep.closed]
    by_cases hst : current ∈ s.closed
    · rw [if_pos hst]
      simp only [hst, not_true_eq_false, decide_False, Bool.false_and, Bool.or_false]
      rw [hinv.goal_closed, hfound]
    · rw [if_neg hst]
      have hgs : goal ∉ s.closed := by
        intro e
        have := hinv.goal_closed.mp e
        rw [hfound] at this
        exact absurd this (by simp)
      by_cases hg : current = goal
      · subst hg
        simp [hst]
      · have : goal ≠ current := fun e => hg e.symm
        simp [hst, hg, this, hgs]
  · -- best
    intro c hc n gv hn hgv
    rw [hkeep c hc] at hgv
    rcases hclosed_cases c hc with hcs | ⟨hcc, hnc⟩
    · exact hinv.best c hcs n gv hn hgv
    · subst hcc
      rw [hgc] at hgv
      simp at hgv
      subst hgv
      exact hinv.closing hcons hfound hstep hnc gc hgc n hn
  · -- started
    left
    rcases hinv.started with hs | ⟨_, hopen⟩
    · exact hclosed_sub start hs
    · rw [hopen] at hmem
      simp at hmem
      rw [← hmem.1]
      exact hcur_closed

/-- The measure that bounds the number of iterations of a best-first search. -/
theorem BestStep.best_measure_lt {m0 : Maze} {h : Coordinate → Nat} {start goal : Coordinate}
    {s t : BestState} {current : Coordinate} {f : Nat} {rest : List (Coordinate × Nat)}
    (hs : BestInv m0 h start goal s) (ht : BestInv m0 h start goal t)
    (hstep : BestStep h goal s t current f rest) :
    t.openSet.length + 5 * (m0.area - t.closed.length) <
      s.openSet.length + 5 * (m0.area - s.closed.length) := by
  have h1 : s.openSet.length = rest.length + 1 := by
    rw [hstep.perm.length_eq]; simp
  have h2 : t.openSet.length = rest.length + (s.improved goal current).length := by
    rw [hstep.openSet]; simp
  have h3 := s.improved_length_le goal current
  have h4 := Maze.nodup_valid_length_le m0 t.closed ht.closed_nodup ht.closed_valid
  have h5 := Maze.nodup_valid_length_le m0 s.closed hs.closed_nodup hs.closed_valid
  by_cases hst : current ∈ s.closed
  · have h6 : s.improved goal current = [] := BestState.improved_of_stale _ _ _ (Or.inl hst)
    have h7 : t.closed = s.closed := by rw [hstep.closed, if_pos hst]
    rw [h6] at h2
    rw [h7]
    simp at h2
    omega
  · have h7 : t.closed.length = s.closed.length + 1 := by
      rw [hstep.closed, if_neg hst]; simp
    omega

/-! ## The state in which the best-first searches begin -/

theorem bestInv_init (m0 : Maze) (h : Coordinate → Nat) (start goal : Coordinate)
    (hv : m0.isValid start.x start.y = true) :
    BestInv m0 h start goal
      ⟨m0, [(start, h start)], fun k => if k = start then some 0 else none,
        fun _ => none, [], 0, false⟩ := by
  constructor <;> simp
  exact hv

/-! ## What the invariant gives at the end of a best-first search -/

theorem BestInv.reach_closed {m0 : Maze} {h : Coordinate → Nat} {start goal : Coordinate}
    {s : BestState} (hinv : BestInv m0 h start goal s)
    (hfound : s.found = false) (hempty : s.openSet = []) :
    ∀ n c, m0.StepsTo start n c → c ∈ s.closed := by
  intro n c hsteps
  induction hsteps with
  | zero =>
    rcases hinv.started with hs | ⟨_, hopen⟩
    · exact hs
    · rw [hempty] at hopen
      simp at hopen
  | @step n c d _ hd ih =>
    have hcg : c ≠ goal := by
      intro e
      have := hinv.goal_closed.mp (e ▸ ih)
      rw [hfound] at this
      exact absurd this (by simp)
    obtain ⟨gd, _, hgd, _, _⟩ := hinv.near c ih hcg d hd
    by_contra hdc
    have := hinv.entry_of d gd hgd hdc
    rw [hempty] at this
    simp at this

theorem bestSearch_outcome (m0 : Maze) (h : Coordinate → Nat) (start goal : Coordinate)
    (s : BestState) (fuel elapsed : Nat) (hfuel : m0.area ≤ fuel)
    (hinv : BestInv m0 h start goal s) (hend : s.openSet = [] ∨ s.found = true) :
    ∃ r, finishSearch s.maze s.parent s.found s.nodesExplored fuel elapsed goal = some r ∧
      r.2.nodesExplored = s.nodesExplored ∧ s.nodesExplored ≤ m0.area ∧
      r.2.executionTime = elapsed ∧ r.2.pathLength = r.1.length ∧
      (m0.isOpen start = true →
        (∀ n, m0.StepsTo start n goal →
          ValidPath m0 start goal r.1 ∧ r.1.length ≤ n + 1) ∧
        ((∀ n, ¬ m0.StepsTo start n goal) →
          r.1 = [] ∧ s.nodesExplored = Set.ncard {c | m0.Reachable start c})) := by
  have hexp : s.nodesExplored ≤ m0.area := by
    rw [hinv.explored]
    exact Maze.nodup_valid_length_le m0 s.closed hinv.closed_nodup hinv.closed_valid
  cases hfound : s.found with
  | true =>
    have hgc := hinv.goal_closed.mpr hfound
    obtain ⟨k, hk⟩ := hinv.closed_seen goal hgc
    obtain ⟨l, hchain, hlen, hhead, hlast, hadj, hopen, _, hnd⟩ :=
      chain_of_levels m0 start s.parent s.g hinv.root.2 hinv.root_only
        (fun c k hck => by
          obtain ⟨p, h1, h2, h3, _⟩ := hinv.tree c k hck
          exact ⟨p, h1, h2, h3⟩) k goal hk
    have hsv : m0.isValid start.x start.y = true := by
      rcases hinv.started with hs | ⟨hcl, _⟩
      · exact hinv.closed_valid start hs
      · rw [hcl] at hgc
        simp at hgc
    have hvalid : ∀ x ∈ l, m0.isValid x.x x.y = true := by
      intro x hx
      rcases hopen x hx with hx' | hx'
      · rw [hx']; exact hsv
      · exact ((Maze.isOpen_iff _ _).mp hx').1
    have hle := Maze.nodup_valid_length_le m0 l hnd hvalid
    refine ⟨((l.map s.maze.cellAt).reverse, ⟨l.length, s.nodesExplored, elapsed⟩), ?_, rfl,
      hexp, rfl, by simp, ?_⟩
    · unfold finishSearch
      rw [if_pos rfl, reconstructPath_of_chain s.maze s.parent start goal l hchain fuel
        (le_trans hle hfuel)]
      simp
    · intro hs
      refine ⟨?_, ?_⟩
      · intro n hn
        refine ⟨validPath_of_chain m0 s.maze start goal hinv.wall hs l hhead hlast hadj hopen, ?_⟩
        have := hinv.best goal hgc n k hn hk
        simp [hlen]
        omega
      · intro hno
        exact absurd (hinv.sound k goal hk) (hno k)
  | false =>
    have hempty : s.openSet = [] := by
      rcases hend with h' | h'
      · exact h'
      · rw [hfound] at h'; exact absurd h' (by simp)
    have hgn : goal ∉ s.closed := by
      intro e
      have := hinv.goal_closed.mp e
      rw [hfound] at this
      exact absurd this (by simp)
    refine ⟨([], ⟨0, s.nodesExplored, elapsed⟩), by simp [finishSearch], rfl,
      hexp, rfl, rfl, ?_⟩
    intro hs
    refine ⟨?_, ?_⟩
    · intro n hn
      exact absurd (hinv.reach_closed hfound hempty n goal hn) hgn
    · intro _
      refine ⟨rfl, ?_⟩
      rw [hinv.explored]
      symm
      apply ncard_eq_length_of_nodup _ s.closed hinv.closed_nodup
      intro c
      simp only [Set.mem_setOf_eq]
      constructor
      · intro hc
        obtain ⟨k, hk⟩ := hinv.closed_seen c hc
        exact (Maze.reachable_iff_stepsTo m0 start c hs).mpr ⟨k, hinv.sound k c hk⟩
      · intro hr
        obtain ⟨n, hn⟩ := (Maze.reachable_iff_stepsTo m0 start c hs).mp hr
        exact hinv.reach_closed hfound hempty n c hn

/-! ## The main loops of the best-first searches -/

theorem DijkstraPathfinder.dijkstra_search_spec (maze : Maze) (start goal : Coordinate)
    (fuel : Nat) (ties : Nat → Nat)
    (hfuel : 5 * maze.area + 1 ≤ fuel) (hv : maze.isValid start.x start.y = true) :
    ∃ s, DijkstraPathfinder.search fuel ties maze start goal = some s ∧
      BestInv maze (fun _ => 0) start goal s.best ∧ (s.pq = [] ∨ s.found = true) := by
  have hloop := whileLoop_spec
    (fun (s : DijkstraPathfinder.State) => !s.pq.isEmpty && !s.found)
    (DijkstraPathfinder.body goal)
    (fun s => BestInv maze (fun _ => 0) start goal s.best)
    (fun s => s.pq.length + 5 * (maze.area - s.visited.length))
    (by
      intro s hinv hcond
      simp only [Bool.and_eq_true, Bool.not_eq_true', List.isEmpty_eq_false] at hcond
      obtain ⟨hne, hfound⟩ := hcond
      obtain ⟨⟨current, rest⟩, hpop⟩ :=
        PriorityQueue.pop_isSome DijkstraPathfinder.Node.cost (s.ties 0) s.pq hne
      obtain ⟨hperm, hleast⟩ := PriorityQueue.pop_spec _ _ _ _ _ hpop
      have hcur : current ∈ s.pq := hperm.symm.subset (List.mem_cons_self _ _)
      have hmem : (current.cell, current.cost) ∈ s.best.openSet := by
        simp only [DijkstraPathfinder.State.best, List.mem_map]
        exact ⟨current, hcur, rfl⟩
      have hcost : current.cell ∉ s.visited → (s.cost current.cell).getD 0 = current.cost := by
        intro hnc
        obtain ⟨gv, hgv, hk⟩ := hinv.entry_ge _ hmem
        have hentry := hinv.entry_of current.cell gv hgv hnc
        simp only [DijkstraPathfinder.State.best, List.mem_map] at hentry
        obtain ⟨n, hn, hneq⟩ := hentry
        have h1 := hleast n hn
        have h2 : n.cost = gv + 0 := by
          have := congrArg Prod.snd hneq
          simpa using this
        have hgv' : s.cost current.cell = some gv := hgv
        rw [hgv']
        simp only [Option.getD_some] at hk ⊢
        omega
      have hstep := DijkstraPathfinder.dijkstra_body_bestStep goal s current rest hpop hcost
      have hinv' := hinv.bestInv_step (fun _ _ _ => by omega) hfound hstep
      refine ⟨hinv', ?_⟩
      have := hstep.best_measure_lt hinv hinv'
      simpa [DijkstraPathfinder.State.best] using this)
    fuel (DijkstraPathfinder.init ties maze start)
    (bestInv_init maze (fun _ => 0) start goal hv)
    (by simp only [DijkstraPathfinder.init, List.length_singleton, List.length_nil]; omega)
  obtain ⟨s, hs, hinv, hcond⟩ := hloop
  refine ⟨s, hs, hinv, ?_⟩
  simp only [Bool.and_eq_false_iff, Bool.not_eq_false', List.isEmpty_iff] at hcond
  exact hcond

theorem AStarPathfinder.heuristic_consistent (m : Maze) (goal a b : Coordinate)
    (hb : b ∈ m.getNeighbors a) :
    AStarPathfinder.heuristic a goal ≤ AStarPathfinder.heuristic b goal + 1 := by
  have := ((Maze.mem_getNeighbors m a b).mp hb).2
  unfold manhattan at this
  unfold AStarPathfinder.heuristic
  omega

theorem AStarPathfinder.astar_search_spec (maze : Maze) (start goal : Coordinate)
    (fuel : Nat) (ties : Nat → Nat)
    (hfuel : 5 * maze.area + 1 ≤ fuel) (hv : maze.isValid start.x start.y = true) :
    ∃ s, AStarPathfinder.search fuel ties maze start goal = some s ∧
      BestInv maze (fun n => AStarPathfinder.heuristic n goal) start goal s.best ∧
      (s.openSet = [] ∨ s.found = true) := by
  have hloop := whileLoop_spec
    (fun (s : AStarPathfinder.State) => !s.openSet.isEmpty && !s.found)
    (AStarPathfinder.body goal)
    (fun s => BestInv maze (fun n => AStarPathfinder.heuristic n goal) start goal s.best)
    (fun s => s.openSet.length + 5 * (maze.area - s.closedSet.length))
    (by
      intro s hinv hcond
      simp only [Bool.and_eq_true, Bool.not_eq_true', List.isEmpty_eq_false] at hcond
      obtain ⟨hne, hfound⟩ := hcond
      obtain ⟨⟨current, rest⟩, hpop⟩ :=
        PriorityQueue.pop_isSome AStarPathfinder.Node.fScore (s.ties 0) s.openSet hne
      have hstep := AStarPathfinder.astar_body_bestStep goal s current rest hpop
      have hinv' := hinv.bestInv_step (AStarPathfinder.heuristic_consistent maze goal) hfound hstep
      refine ⟨hinv', ?_⟩
      have := hstep.best_measure_lt hinv hinv'
      simpa [AStarPathfinder.State.best] using this)
    fuel (AStarPathfinder.init ties maze start goal)
    (bestInv_init maze (fun n => AStarPathfinder.heuristic n goal) start goal hv)
    (by simp only [AStarPathfinder.init, List.length_singleton, List.length_nil]; omega)
  obtain ⟨s, hs, hinv, hcond⟩ := hloop
  refine ⟨s, hs, hinv, ?_⟩
  simp only [Bool.and_eq_false_iff, Bool.not_eq_false', List.isEmpty_iff] at hcond
  exact hcond

/-! ## The results of the best-first searches -/

theorem DijkstraPathfinder.dijkstra_findPath_spec (maze : Maze) (start goal : Coordinate)
    (fuel elapsed : Nat) (ties : Nat → Nat)
    (hfuel : 5 * maze.area + 1 ≤ fuel) (hv : maze.isValid start.x start.y = true) :
    ∃ r, DijkstraPathfinder.findPath fuel elapsed ties maze (some start) (some goal) = some r ∧
      r.stats.nodesExplored ≤ maze.area ∧ r.stats.executionTime = elapsed ∧
      r.stats.pathLength = r.path.length ∧
      (maze.isOpen start = true →
        (∀ n, maze.StepsTo start n goal →
          ValidPath maze start goal r.path ∧ r.path.length ≤ n + 1) ∧
        ((∀ n, ¬ maze.StepsTo start n goal) →
          r.path = [] ∧ r.stats.nodesExplored = Set.ncard {c | maze.Reachable start c})) := by
  obtain ⟨s, hsearch, hinv, hend⟩ :=
    DijkstraPathfinder.dijkstra_search_spec maze start goal fuel ties hfuel hv
  have hend' : s.best.openSet = [] ∨ s.best.found = true := by
    rcases hend with h | h
    · left; simp [DijkstraPathfinder.State.best, h]
    · right; exact h
  obtain ⟨r, hr, hexp, hle, htime, hlen, hrest⟩ :=
    bestSearch_outcome maze _ start goal s.best fuel elapsed (by omega) hinv hend'
  refine ⟨⟨r.1, r.2, s.maze, s.notified⟩, ?_, ?_, htime, hlen, ?_⟩
  · simp only [DijkstraPathfinder.findPath, hsearch, Option.some_bind]
    have hr' : finishSearch s.maze s.parent s.found s.nodesExplored fuel elapsed goal = some r := hr
    rw [hr']
    rfl
  · show r.2.nodesExplored ≤ maze.area
    rw [hexp]; exact hle
  · intro hs
    obtain ⟨h1, h2⟩ := hrest hs
    refine ⟨h1, ?_⟩
    intro hno
    obtain ⟨h3, h4⟩ := h2 hno
    refine ⟨h3, ?_⟩
    show r.2.nodesExplored = _
    rw [hexp]; exact h4

theorem AStarPathfinder.astar_findPath_spec (maze : Maze) (start goal : Coordinate)
    (fuel elapsed : Nat) (ties : Nat → Nat)
    (hfuel : 5 * maze.area + 1 ≤ fuel) (hv : maze.isValid start.x start.y = true) :
    ∃ r, AStarPathfinder.findPath fuel elapsed ties maze (some start) (some goal) = some r ∧
      r.stats.nodesExplored ≤ maze.area ∧ r.stats.executionTime = elapsed ∧
      r.stats.pathLength = r.path.length ∧
      (maze.isOpen start = true →
        (∀ n, maze.StepsTo start n goal →
          ValidPath maze start goal r.path ∧ r.path.length ≤ n + 1) ∧
        ((∀ n, ¬ maze.StepsTo start n goal) →
          r.path = [] ∧ r.stats.nodesExplored = Set.ncard {c | maze.Reachable start c})) := by
  obtain ⟨s, hsearch, hinv, hend⟩ :=
    AStarPathfinder.astar_search_spec maze start goal fuel ties hfuel hv
  have hend' : s.best.openSet = [] ∨ s.best.found = true := by
    rcases hend with h | h
    · left; simp [AStarPathfinder.State.best, h]
    · right; exact h
  obtain ⟨r, hr, hexp, hle, htime, hlen, hrest⟩ :=
    bestSearch_outcome maze _ start goal s.best fuel elapsed (by omega) hinv hend'
  refine ⟨⟨r.1, r.2, s.maze, s.notified⟩, ?_, ?_, htime, hlen, ?_⟩
  · simp only [AStarPathfinder.findPath, hsearch, Option.some_bind]
    have hr' : finishSearch s.maze s.parent s.found s.nodesExplored fuel elapsed goal = some r := hr
    rw [hr']
    rfl
  · show r.2.nodesExplored ≤ maze.area
    rw [hexp]; exact hle
  · intro hs
    obtain ⟨h1, h2⟩ := hrest hs
    refine ⟨h1, ?_⟩
    intro hno
    obtain ⟨h3, h4⟩ := h2 hno
    refine ⟨h3, ?_⟩
    show r.2.nodesExplored = _
    rw [hexp]; exact h4

/-! ## Facts about the example grids -/

theorem exampleMaze_unvisited : exampleMaze.Unvisited := fun _ _ => rfl

theorem exampleMaze_reachable : exampleMaze.Reachable ⟨1, 1⟩ ⟨3, 3⟩ :=
  ⟨[⟨1, 1⟩, ⟨2, 1⟩, ⟨3, 1⟩, ⟨3, 2⟩, ⟨3, 3⟩], ⟨by decide, by simp [manhattan]⟩, by decide, by decide⟩

theorem walledMaze_unvisited : walledMaze.Unvisited := fun _ _ => rfl

theorem walledMaze_unreachable : ¬ walledMaze.Reachable ⟨1, 1⟩ ⟨3, 3⟩ := by
  intro hr
  obtain ⟨n, hn⟩ := (Maze.reachable_iff_stepsTo walledMaze ⟨1, 1⟩ ⟨3, 3⟩ (by decide)).mp hr
  have key : ∀ n c, walledMaze.StepsTo ⟨1, 1⟩ n c → c ∈ walledMazeComponent := by
    intro n c h
    induction h with
    | zero => decide
    | @step n c d _ hd ih =>
      have hclosed : ∀ c ∈ walledMazeComponent, ∀ d ∈ walledMaze.getNeighbors c,
          d ∈ walledMazeComponent := by decide
      exact hclosed c ih d hd
  exact absurd (key n _ hn) (by decide)

theorem Maze.area_cast (m : Maze) (c : Coordinate) (hv : m.isValid c.x c.y = true) :
    (m.area : Int) = m.width * m.height := by
  rw [Maze.isValid_iff] at hv
  unfold Maze.area
  push_cast
  rw [Int.toNat_of_nonneg (by omega), Int.toNat_of_nonneg (by omega)]

theorem Maze.reachable_finite (m : Maze) (a : Coordinate) :
    {c | m.Reachable a c}.Finite := by
  apply Set.Finite.subset (List.toFinset m.cells).finite_toSet
  intro c hc
  obtain ⟨p, ⟨hopen, _⟩, _, hlast⟩ := hc
  have hmem : c ∈ p := List.mem_of_getLast?_eq_some hlast
  have := hopen c hmem
  simp only [Finset.mem_coe, List.mem_toFinset, Maze.mem_cells]
  exact ((Maze.isOpen_iff _ _).mp this).1

theorem Maze.reachable_self (m : Maze) (a : Coordinate) (ha : m.isOpen a = true) :
    m.Reachable a a :=
  (Maze.reachable_iff_stepsTo m a a ha).mpr ⟨0, Maze.StepsTo.zero⟩

theorem Maze.stepsTo_iff_nonempty (m : Maze) (a b : Coordinate) (ha : m.isOpen a = true)
    (r : ¬ m.Reachable a b) : ∀ n, ¬ m.StepsTo a n b :=
  fun n hn => r ((Maze.reachable_iff_stepsTo m a b ha).mpr ⟨n, hn⟩)

/-! ## Moves in a grid whose walls are taken away -/

theorem uniformInt_mem (a b : Int) (raw : Nat) (h : a ≤ b) :
    a ≤ uniformInt a b raw ∧ uniformInt a b raw ≤ b := by
  unfold uniformInt
  have h1 : (0 : Int) < b - a + 1 := by omega
  have h2 := Int.emod_nonneg (raw : Int) (ne_of_gt h1)
  have h3 := Int.emod_lt_of_pos (raw : Int) h1
  omega

namespace Maze

theorem StepsTo.mono (m m' : Maze) (hw : m'.width = m.width) (hh : m'.height = m.height)
    (hwall : ∀ c, m'.wall c = true → m.wall c = true) {a b : Coordinate} {n : Nat}
    (h : m.StepsTo a n b) : m'.StepsTo a n b := by
  induction h with
  | zero => exact StepsTo.zero
  | step _ hd ih =>
    refine StepsTo.step ih ?_
    rw [mem_getNeighbors, isOpen_iff, isValid_iff] at hd ⊢
    refine ⟨⟨by rw [hw, hh]; exact hd.1.1, ?_⟩, hd.2⟩
    cases hc : m'.wall _ with
    | false => rfl
    | true =>
      have := hwall _ hc
      rw [hd.1.2] at this
      exact absurd this (by simp)

theorem StepsTo.trans {m : Maze} {a b c : Coordinate} {n k : Nat}
    (h1 : m.StepsTo a n b) (h2 : m.StepsTo b k c) : m.StepsTo a (n + k) c := by
  induction h2 with
  | zero => exact h1
  | step _ hd ih => exact StepsTo.step ih hd

theorem manhattan_comm (a b : Coordinate) : manhattan a b = manhattan b a := by
  unfold manhattan
  omega

theorem StepsTo.symm {m : Maze} {a b : Coordinate} {n : Nat} (ha : m.isOpen a = true)
    (h : m.StepsTo a n b) : m.StepsTo b n a := by
  induction h with
  | zero => exact StepsTo.zero
  | @step n c d hc hd ih =>
    have hco := stepsTo_isOpen m a ha n c hc
    have hback : c ∈ m.getNeighbors d := by
      rw [mem_getNeighbors] at hd ⊢
      exact ⟨hco, by rw [manhattan_comm]; exact hd.2⟩
    have h1 : m.StepsTo d 1 c := StepsTo.step StepsTo.zero hback
    have := StepsTo.trans h1 ih
    rw [Nat.add_comm] at this
    exact this

end Maze

/-! ## The carving loop of the recursive backtracker -/

namespace Maze

theorem mem_twoAway (c d : Coordinate) :
    d ∈ twoAway c ↔
      d = ⟨c.x, c.y - 2⟩ ∨ d = ⟨c.x, c.y + 2⟩ ∨ d = ⟨c.x - 2, c.y⟩ ∨ d = ⟨c.x + 2, c.y⟩ := by
  obtain ⟨dx, dy⟩ := d
  simp only [twoAway, directions2, List.map, List.mem_cons, List.mem_singleton,
    List.not_mem_nil, or_false, Coordinate.mk.injEq]
  constructor <;> intro h <;> omega

/-- The unvisited candidates inside the grid at `current`. -/
theorem carveBody_pop (s : CarveState) (current : Coordinate) (rest : List Coordinate)
    (hs : s.stack = current :: rest)
    (hnone : (twoAway current).filter
      (fun n => s.maze.isValid n.x n.y && !s.maze.visited n) = []) :
    carveBody s = { s with stack := rest } := by
  unfold twoAway at hnone
  simp [carveBody, hs, hnone]

theorem carveBody_push (s : CarveState) (current : Coordinate) (rest : List Coordinate)
    (hs : s.stack = current :: rest)
    (hsome : (twoAway current).filter
      (fun n => s.maze.isValid n.x n.y && !s.maze.visited n) ≠ []) :
    ∃ chosen, chosen ∈ twoAway current ∧ s.maze.isValid chosen.x chosen.y = true ∧
      s.maze.visited chosen = false ∧
      carveBody s =
        { maze := ((s.maze.setWall chosen false).setVisited chosen true).setWall
            ⟨Int.tdiv (current.x + chosen.x) 2, Int.tdiv (current.y + chosen.y) 2⟩ false
          stack := chosen :: current :: rest
          rng := s.rng.drop 1 } := by
  have hlen : 0 < ((twoAway current).filter
      (fun n => s.maze.isValid n.x n.y && !s.maze.visited n)).length :=
    List.length_pos.mpr hsome
  have hidx : (uniformInt 0 (((twoAway current).filter
      (fun n => s.maze.isValid n.x n.y && !s.maze.visited n)).length - 1) (s.rng 0)).toNat <
      ((twoAway current).filter
        (fun n => s.maze.isValid n.x n.y && !s.maze.visited n)).length := by
    have := uniformInt_mem 0 (((twoAway current).filter
      (fun n => s.maze.isValid n.x n.y && !s.maze.visited n)).length - 1) (s.rng 0) (by omega)
    omega
  have hmem : ((twoAway current).filter
      (fun n => s.maze.isValid n.x n.y && !s.maze.visited n)).getD
        (uniformInt 0 (((twoAway current).filter
          (fun n => s.maze.isValid n.x n.y && !s.maze.visited n)).length - 1)
          (s.rng 0)).toNat current ∈
      (twoAway current).filter (fun n => s.maze.isValid n.x n.y && !s.maze.visited n) := by
    rw [List.getD_eq_getElem _ _ hidx]
    exact List.getElem_mem hidx
  refine ⟨_, (List.mem_filter.mp hmem).1, ?_, ?_, ?_⟩
  · have := (List.mem_filter.mp hmem).2
    simp only [Bool.and_eq_true] at this
    exact this.1
  · have := (List.mem_filter.mp hmem).2
    simp only [Bool.and_eq_true, Bool.not_eq_true'] at this
    exact this.2
  · unfold twoAway at hsome ⊢
    simp [carveBody, hs, hsome]

end Maze

theorem CarveInv.carveInv_step {w h : Int} {origin : Coordinate} {s : Maze.CarveState}
    (hinv : CarveInv w h origin s) (hne : s.stack ≠ []) :
    CarveInv w h origin (Maze.carveBody s) ∧
      2 * (Maze.carveBody s).maze.countUnvisited + (Maze.carveBody s).stack.length <
        2 * s.maze.countUnvisited + s.stack.length := by
  obtain ⟨current, rest, hs⟩ := List.exists_cons_of_ne_nil hne
  have hcur := hinv.stack_ok current (by rw [hs]; exact List.mem_cons_self _ _)
  by_cases hnone : (Maze.twoAway current).filter
      (fun n => s.maze.isValid n.x n.y && !s.maze.visited n) = []
  · rw [Maze.carveBody_pop s current rest hs hnone]
    refine ⟨?_, by simp [hs]⟩
    constructor
    · exact hinv.width
    · exact hinv.height
    · exact hinv.origin_ok
    · intro c hc
      exact hinv.stack_ok c (by rw [hs]; exact List.mem_cons_of_mem _ hc)
    · exact hinv.open_of_visited
    · exact hinv.connected
    · intro c hv hvis hc d hd hdv
      by_cases hcs : c ∈ s.stack
      · have hcc : c = current := by
          rw [hs] at hcs
          rcases List.mem_cons.mp hcs with e | e
          · exact e
          · exact absurd e hc
        subst hcc
        have := List.filter_eq_nil_iff.mp hnone d hd
        simp only [Bool.and_eq_true, Bool.not_eq_true', not_and, Bool.not_eq_false] at this
        exact this hdv
      · exact hinv.finished c hv hvis hcs d hd hdv
  · obtain ⟨chosen, hch, hchv, hchu, hbody⟩ := Maze.carveBody_push s current rest hs hnone
    rw [hbody]
    have hvalid := (Maze.isValid_iff s.maze _ _).mp hcur.1
    have hvalidc := (Maze.isValid_iff s.maze _ _).mp hchv
    rw [Maze.mem_twoAway] at hch
    -- the cell between `current` and `chosen`
    have hmid : manhattan current
          ⟨Int.tdiv (current.x + chosen.x) 2, Int.tdiv (current.y + chosen.y) 2⟩ = 1 ∧
        manhattan ⟨Int.tdiv (current.x + chosen.x) 2, Int.tdiv (current.y + chosen.y) 2⟩
          chosen = 1 ∧
        s.maze.isValid (Int.tdiv (current.x + chosen.x) 2)
          (Int.tdiv (current.y + chosen.y) 2) = true := by
      rw [Int.tdiv_eq_ediv (by omega) (by omega), Int.tdiv_eq_ediv (by omega) (by omega),
        Maze.isValid_iff]
      unfold manhattan
      simp only
      rcases hch with e | e | e | e <;> rw [e] <;> simp only <;> rw [e] at hvalidc <;>
        simp only at hvalidc <;> omega
    generalize hm : (⟨Int.tdiv (current.x + chosen.x) 2,
      Int.tdiv (current.y + chosen.y) 2⟩ : Coordinate) = mid at hmid ⊢
    have hmidv : s.maze.isValid mid.x mid.y = true := by rw [← hm]; exact hmid.2.2
    have hwall : ∀ k, (((s.maze.setWall chosen false).setVisited chosen true).setWall
        mid false).wall k = if k = mid then false else if k = chosen then false else
          s.maze.wall k := fun k => rfl
    have hvis : ∀ k, (((s.maze.setWall chosen false).setVisited chosen true).setWall
        mid false).visited k = if k = chosen then true else s.maze.visited k := fun k => rfl
    have hval : ∀ x y, (((s.maze.setWall chosen false).setVisited chosen true).setWall
        mid false).isValid x y = s.maze.isValid x y := fun x y => rfl
    have hmono : ∀ {a b : Coordinate} {n : Nat}, s.maze.StepsTo a n b →
        (((s.maze.setWall chosen false).setVisited chosen true).setWall mid false).StepsTo
          a n b := by
      intro a b n hab
      have hless : ∀ c, (((s.maze.setWall chosen false).setVisited chosen true).setWall
          mid false).wall c = true → s.maze.wall c = true := by
        intro c hc
        rw [hwall c] at hc
        split at hc
        · simp at hc
        · split at hc
          · simp at hc
          · exact hc
      exact Maze.StepsTo.mono s.maze
        (((s.maze.setWall chosen false).setVisited chosen true).setWall mid false)
        rfl rfl hless hab
    refine ⟨?_, ?_⟩
    · constructor
      · exact hinv.width
      · exact hinv.height
      · refine ⟨hinv.origin_ok.1, ?_⟩
        rw [hvis]
        split
        · rfl
        · exact hinv.origin_ok.2
      · intro c hc
        rw [hval, hvis]
        rcases List.mem_cons.mp hc with e | e
        · rw [e]; exact ⟨hchv, by simp⟩
        · have := hinv.stack_ok c (by rw [hs]; exact e)
          refine ⟨this.1, ?_⟩
          split
          · rfl
          · exact this.2
      · intro c hv hvs
        rw [hval] at hv
        rw [hvis] at hvs
        rw [hwall]
        by_cases h1 : c = mid
        · simp [h1]
        · by_cases h2 : c = chosen
          · simp [h2]
          · simp only [h1, h2, if_false] at hvs ⊢
            exact hinv.open_of_visited c hv hvs
      · intro c hc
        have hcuro : s.maze.isOpen current = true :=
          (Maze.isOpen_iff _ _).mpr ⟨hcur.1, hinv.open_of_visited current hcur.1 hcur.2⟩
        obtain ⟨n, hn⟩ := hinv.connected current hcuro
        have hn' := hmono hn
        have hmido : (((s.maze.setWall chosen false).setVisited chosen true).setWall
            mid false).isOpen mid = true := by
          rw [Maze.isOpen_iff, hval, hwall]
          exact ⟨hmidv, by simp⟩
        have hcho : (((s.maze.setWall chosen false).setVisited chosen true).setWall
            mid false).isOpen chosen = true := by
          rw [Maze.isOpen_iff, hval, hwall]
          refine ⟨hchv, ?_⟩
          split
          · rfl
          · simp
        have hstep1 := Maze.StepsTo.step hn'
          ((Maze.mem_getNeighbors _ current mid).mpr ⟨hmido, hmid.1⟩)
        have hstep2 := Maze.StepsTo.step hstep1
          ((Maze.mem_getNeighbors _ mid chosen).mpr ⟨hcho, hmid.2.1⟩)
        by_cases h1 : c = mid
        · rw [h1]; exact ⟨_, hstep1⟩
        · by_cases h2 : c = chosen
          · rw [h2]; exact ⟨_, hstep2⟩
          · rw [Maze.isOpen_iff, hval, hwall] at hc
            simp only [h1, h2, if_false] at hc
            obtain ⟨k, hk⟩ := hinv.connected c ((Maze.isOpen_iff _ _).mpr hc)
            exact ⟨k, hmono hk⟩
      · intro c hv hvs hc d hd hdv
        rw [hval] at hv hdv
        rw [hvis] at hvs ⊢
        have hcc : c ≠ chosen := fun e => hc (e ▸ List.mem_cons_self _ _)
        have hcs : c ∉ s.stack := by
          rw [hs]
          exact fun e => hc (List.mem_cons_of_mem _ e)
        simp only [hcc, if_false] at hvs
        split
        · rfl
        · exact hinv.finished c hv hvs hcs d hd hdv
    · have hcount : (((s.maze.setWall chosen false).setVisited chosen true).setWall
          mid false).countUnvisited + 1 = s.maze.countUnvisited := by
        unfold Maze.countUnvisited
        have hcells : (((s.maze.setWall chosen false).setVisited chosen true).setWall
            mid false).cells = s.maze.cells := rfl
        rw [hcells]
        apply countP_unset_point _ _ chosen s.maze.cells (Maze.cells_nodup _)
          ((Maze.mem_cells _ _).mpr hchv)
        · simp [hchu]
        · rw [hvis]; simp
        · intro k hk
          rw [hvis]; simp [hk]
      simp only [hs, List.length_cons]
      omega

/-! ## What the recursive backtracker has carved when its stack is empty -/

theorem CarveInv.line_x {w h : Int} {origin : Coordinate} {s : Maze.CarveState}
    (hinv : CarveInv w h origin s) (hempty : s.stack = []) (c : Coordinate)
    (hv : s.maze.isValid c.x c.y = true) (hvis : s.maze.visited c = true) :
    ∀ n : Nat,
      (s.maze.isValid (c.x + 2 * n) c.y = true → s.maze.visited ⟨c.x + 2 * n, c.y⟩ = true) ∧
      (s.maze.isValid (c.x - 2 * n) c.y = true → s.maze.visited ⟨c.x - 2 * n, c.y⟩ = true) := by
  intro n
  induction n with
  | zero =>
    obtain ⟨cx, cy⟩ := c
    simp only [Nat.cast_zero, mul_zero, add_zero, sub_zero]
    exact ⟨fun _ => hvis, fun _ => hvis⟩
  | succ n ih =>
    rw [Maze.isValid_iff] at hv
    refine ⟨?_, ?_⟩
    · intro hv'
      have hv'' := (Maze.isValid_iff _ _ _).mp hv'
      push_cast at hv''
      have hprev : s.maze.isValid (c.x + 2 * n) c.y = true := by
        rw [Maze.isValid_iff]; omega
      have := hinv.finished ⟨c.x + 2 * n, c.y⟩ hprev (ih.1 hprev) (by simp [hempty])
        ⟨c.x + 2 * (n + 1 : Nat), c.y⟩
        (by rw [Maze.mem_twoAway]; right; right; right; simp; omega) hv'
      exact this
    · intro hv'
      have hv'' := (Maze.isValid_iff _ _ _).mp hv'
      push_cast at hv''
      have hprev : s.maze.isValid (c.x - 2 * n) c.y = true := by
        rw [Maze.isValid_iff]; omega
      have := hinv.finished ⟨c.x - 2 * n, c.y⟩ hprev (ih.2 hprev) (by simp [hempty])
        ⟨c.x - 2 * (n + 1 : Nat), c.y⟩
        (by rw [Maze.mem_twoAway]; right; right; left; simp; omega) hv'
      exact this

theorem CarveInv.line_y {w h : Int} {origin : Coordinate} {s : Maze.CarveState}
    (hinv : CarveInv w h origin s) (hempty : s.stack = []) (c : Coordinate)
    (hv : s.maze.isValid c.x c.y = true) (hvis : s.maze.visited c = true) :
    ∀ n : Nat,
      (s.maze.isValid c.x (c.y + 2 * n) = true → s.maze.visited ⟨c.x, c.y + 2 * n⟩ = true) ∧
      (s.maze.isValid c.x (c.y - 2 * n) = true → s.maze.visited ⟨c.x, c.y - 2 * n⟩ = true) := by
  intro n
  induction n with
  | zero =>
    obtain ⟨cx, cy⟩ := c
    simp only [Nat.cast_zero, mul_zero, add_zero, sub_zero]
    exact ⟨fun _ => hvis, fun _ => hvis⟩
  | succ n ih =>
    rw [Maze.isValid_iff] at hv
    refine ⟨?_, ?_⟩
    · intro hv'
      have hv'' := (Maze.isValid_iff _ _ _).mp hv'
      push_cast at hv''
      have hprev : s.maze.isValid c.x (c.y + 2 * n) = true := by
        rw [Maze.isValid_iff]; omega
      have := hinv.finished ⟨c.x, c.y + 2 * n⟩ hprev (ih.1 hprev) (by simp [hempty])
        ⟨c.x, c.y + 2 * (n + 1 : Nat)⟩
        (by rw [Maze.mem_twoAway]; right; left; simp; omega) hv'
      exact this
    · intro hv'
      have hv'' := (Maze.isValid_iff _ _ _).mp hv'
      push_cast at hv''
      have hprev : s.maze.isValid c.x (c.y - 2 * n) = true := by
        rw [Maze.isValid_iff]; omega
      have := hinv.finished ⟨c.x, c.y - 2 * n⟩ hprev (ih.2 hprev) (by simp [hempty])
        ⟨c.x, c.y - 2 * (n + 1 : Nat)⟩
        (by rw [Maze.mem_twoAway]; left; simp; omega) hv'
      exact this

/-- When the stack is empty, every cell of the grid that lies an even number
of columns and of rows away from the origin has been visited. -/
theorem CarveInv.visited_all {w h : Int} {origin : Coordinate} {s : Maze.CarveState}
    (hinv : CarveInv w h origin s) (hempty : s.stack = []) (c : Coordinate)
    (hv : s.maze.isValid c.x c.y = true)
    (hx : (c.x - origin.x) % 2 = 0) (hy : (c.y - origin.y) % 2 = 0) :
    s.maze.visited c = true := by
  have hov := (Maze.isValid_iff _ _ _).mp hinv.origin_ok.1
  have hcv := (Maze.isValid_iff _ _ _).mp hv
  -- along the row of the origin
  have hrow : s.maze.visited ⟨c.x, origin.y⟩ = true := by
    have hline := hinv.line_x hempty origin hinv.origin_ok.1 hinv.origin_ok.2
      ((c.x - origin.x) / 2).natAbs
    rcases Int.natAbs_eq ((c.x - origin.x) / 2) with e | e
    · have hcx : origin.x + 2 * (((c.x - origin.x) / 2).natAbs : Int) = c.x := by omega
      rw [hcx] at hline
      exact hline.1 (by rw [Maze.isValid_iff]; omega)
    · have hcx : origin.x - 2 * (((c.x - origin.x) / 2).natAbs : Int) = c.x := by omega
      rw [hcx] at hline
      exact hline.2 (by rw [Maze.isValid_iff]; omega)
  have hrowv : s.maze.isValid c.x origin.y = true := by rw [Maze.isValid_iff]; omega
  have hline := hinv.line_y hempty ⟨c.x, origin.y⟩ hrowv hrow ((c.y - origin.y) / 2).natAbs
  simp only at hline
  obtain ⟨cx, cy⟩ := c
  simp only at hx hy hcv hline ⊢
  rcases Int.natAbs_eq ((cy - origin.y) / 2) with e | e
  · have hcy : origin.y + 2 * (((cy - origin.y) / 2).natAbs : Int) = cy := by omega
    rw [hcy] at hline
    exact hline.1 (by rw [Maze.isValid_iff]; omega)
  · have hcy : origin.y - 2 * (((cy - origin.y) / 2).natAbs : Int) = cy := by omega
    rw [hcy] at hline
    exact hline.2 (by rw [Maze.isValid_iff]; omega)

/-- A visited cell can be reached from the origin. -/
theorem CarveInv.reach_visited {w h : Int} {origin : Coordinate} {s : Maze.CarveState}
    (hinv : CarveInv w h origin s) (c : Coordinate)
    (hv : s.maze.isValid c.x c.y = true) (hvis : s.maze.visited c = true) :
    ∃ n, s.maze.StepsTo origin n c :=
  hinv.connected c ((Maze.isOpen_iff _ _).mpr ⟨hv, hinv.open_of_visited c hv hvis⟩)

theorem Maze.StepsTo.last_step {m : Maze} {a c : Coordinate} {n : Nat}
    (h : m.StepsTo a n c) : c = a ∨ ∃ k p, m.StepsTo a k p ∧ c ∈ m.getNeighbors p := by
  cases h with
  | zero => exact Or.inl rfl
  | step hp hd => exact Or.inr ⟨_, _, hp, hd⟩

/-- In any grid of the same size that has at most the walls left by the
recursive backtracker and whose cell `(w - 2, h - 2)` is open, that cell can
be reached from `(1, 1)`. -/
theorem CarveInv.goal_reachable {w h : Int} {origin : Coordinate} {s : Maze.CarveState}
    (hinv : CarveInv w h origin s) (hempty : s.stack = []) (hw : 5 ≤ w) (hh : 5 ≤ h)
    (hox : origin.x % 2 = 1) (hoy : origin.y % 2 = 1)
    (hoxle : origin.x ≤ w - 2)
    (F : Maze) (hFw : F.width = w) (hFh : F.height = h)
    (hFwall : ∀ c, F.wall c = true → s.maze.wall c = true)
    (hgoal : F.wall ⟨w - 2, h - 2⟩ = false) :
    ∃ n, F.StepsTo ⟨1, 1⟩ n ⟨w - 2, h - 2⟩ := by
  have hsw := hinv.width
  have hsh := hinv.height
  have hmono : ∀ {a b : Coordinate} {n : Nat}, s.maze.StepsTo a n b → F.StepsTo a n b :=
    fun hab => Maze.StepsTo.mono s.maze F (hFw.trans hsw.symm) (hFh.trans hsh.symm) hFwall hab
  have hov := (Maze.isValid_iff _ _ _).mp hinv.origin_ok.1
  rw [hsw, hsh] at hov
  have hvalid : ∀ x y : Int, 0 ≤ x → x < w → 0 ≤ y → y < h → s.maze.isValid x y = true := by
    intro x y h1 h2 h3 h4
    rw [Maze.isValid_iff, hsw, hsh]
    exact ⟨h1, h2, h3, h4⟩
  have hFvalid : ∀ x y : Int, 0 ≤ x → x < w → 0 ≤ y → y < h → F.isValid x y = true := by
    intro x y h1 h2 h3 h4
    rw [Maze.isValid_iff, hFw, hFh]
    exact ⟨h1, h2, h3, h4⟩
  have hoo : s.maze.isOpen origin = true :=
    (Maze.isOpen_iff _ _).mpr
      ⟨hinv.origin_ok.1, hinv.open_of_visited origin hinv.origin_ok.1 hinv.origin_ok.2⟩
  have hFoo : F.isOpen origin = true := by
    rw [Maze.isOpen_iff]
    refine ⟨hFvalid _ _ hov.1 hov.2.1 hov.2.2.1 hov.2.2.2, ?_⟩
    cases hc : F.wall origin with
    | false => rfl
    | true =>
      have := hFwall origin hc
      rw [((Maze.isOpen_iff _ _).mp hoo).2] at this
      exact absurd this (by simp)
  have hFgo : F.isOpen ⟨w - 2, h - 2⟩ = true :=
    (Maze.isOpen_iff _ _).mpr
      ⟨hFvalid (w - 2) (h - 2) (by omega) (by omega) (by omega) (by omega), hgoal⟩
  -- a visited node of the carving
  have hnode : ∀ x y : Int, 0 ≤ x → x < w → 0 ≤ y → y < h → x % 2 = 1 → y % 2 = 1 →
      ∃ n, s.maze.StepsTo origin n ⟨x, y⟩ := by
    intro x y h1 h2 h3 h4 h5 h6
    have hv := hvalid x y h1 h2 h3 h4
    exact hinv.reach_visited ⟨x, y⟩ hv
      (hinv.visited_all hempty ⟨x, y⟩ hv (by simp only; omega) (by simp only; omega))
  -- from start to the origin
  obtain ⟨n1, h1⟩ := hnode 1 1 (by omega) (by omega) (by omega) (by omega) (by omega) (by omega)
  have hback : F.StepsTo ⟨1, 1⟩ n1 origin := Maze.StepsTo.symm hFoo (hmono h1)
  -- from the origin to the goal
  have hfwd : ∃ n2, F.StepsTo origin n2 ⟨w - 2, h - 2⟩ := by
    have hpw : w % 2 = 1 ∨ w % 2 = 0 := by omega
    have hph : h % 2 = 1 ∨ h % 2 = 0 := by omega
    rcases hpw with hpw | hpw <;> rcases hph with hph | hph
    · obtain ⟨n, hn⟩ := hnode (w - 2) (h - 2) (by omega) (by omega) (by omega) (by omega)
        (by omega) (by omega)
      exact ⟨n, hmono hn⟩
    · obtain ⟨n, hn⟩ := hnode (w - 2) (h - 3) (by omega) (by omega) (by omega) (by omega)
        (by omega) (by omega)
      refine ⟨n + 1, Maze.StepsTo.step (hmono hn) ?_⟩
      rw [Maze.mem_getNeighbors]
      refine ⟨hFgo, ?_⟩
      unfold manhattan
      simp only
      omega
    · obtain ⟨n, hn⟩ := hnode (w - 3) (h - 2) (by omega) (by omega) (by omega) (by omega)
        (by omega) (by omega)
      refine ⟨n + 1, Maze.StepsTo.step (hmono hn) ?_⟩
      rw [Maze.mem_getNeighbors]
      refine ⟨hFgo, ?_⟩
      unfold manhattan
      simp only
      omega
    · obtain ⟨n, hn⟩ := hnode (w - 1) (h - 1) (by omega) (by omega) (by omega) (by omega)
        (by omega) (by omega)
      rcases hn.last_step with e | ⟨k, p, hp, hd⟩
      · have := congrArg Coordinate.x e
        simp only at this
        omega
      · have hpo := Maze.stepsTo_isOpen s.maze origin hoo k p hp
        have hpv := (Maze.isValid_iff _ _ _).mp ((Maze.isOpen_iff _ _).mp hpo).1
        rw [hsw, hsh] at hpv
        have hman := ((Maze.mem_getNeighbors _ _ _).mp hd).2
        refine ⟨k + 1, Maze.StepsTo.step (hmono hp) ?_⟩
        rw [Maze.mem_getNeighbors]
        refine ⟨hFgo, ?_⟩
        unfold manhattan at hman ⊢
        simp only at hman ⊢
        omega
  obtain ⟨n2, h2⟩ := hfwd
  exact ⟨n1 + n2, Maze.StepsTo.trans hback h2⟩

/-! ## The generators end -/

theorem Maze.generateRecursiveBacktracking_spec (m : Maze) (rng : Rng) (fuel : Nat)
    (hw : 5 ≤ m.width) (hh : 5 ≤ m.height)
    (hwalls : ∀ c, m.isValid c.x c.y = true → m.wall c = true)
    (hfresh : ∀ c, m.visited c = false) (hfuel : 2 * m.area + 1 ≤ fuel) :
    ∃ s origin, m.generateRecursiveBacktracking fuel rng = some (s.maze.clearVisited, s.rng) ∧
      CarveInv m.width m.height origin s ∧ s.stack = [] ∧
      origin.x % 2 = 1 ∧ origin.y % 2 = 1 ∧ origin.x ≤ m.width - 2 := by
  have hrx := uniformInt_mem 0 (Int.tdiv (m.width - 3) 2) (rng 0)
    (by rw [Int.tdiv_eq_ediv (by omega) (by omega)]; omega)
  have hry := uniformInt_mem 0 (Int.tdiv (m.height - 3) 2) (rng 1)
    (by rw [Int.tdiv_eq_ediv (by omega) (by omega)]; omega)
  rw [Int.tdiv_eq_ediv (by omega) (by omega)] at hrx hry
  generalize hox : 1 + uniformInt 0 (Int.tdiv (m.width - 3) 2) (rng 0) * 2 = ox at *
  generalize hoy : 1 + uniformInt 0 (Int.tdiv (m.height - 3) 2) (rng 1) * 2 = oy at *
  have hoxb : 1 ≤ ox ∧ ox ≤ m.width - 2 ∧ ox % 2 = 1 := by
    rw [Int.tdiv_eq_ediv (by omega) (by omega)] at hox
    omega
  have hoyb : 1 ≤ oy ∧ oy ≤ m.height - 2 ∧ oy % 2 = 1 := by
    rw [Int.tdiv_eq_ediv (by omega) (by omega)] at hoy
    omega
  have hov : m.isValid ox oy = true := by rw [Maze.isValid_iff]; omega
  have hinit : CarveInv m.width m.height ⟨ox, oy⟩
      ⟨(m.setWall ⟨ox, oy⟩ false).setVisited ⟨ox, oy⟩ true, [⟨ox, oy⟩], rng.drop 2⟩ := by
    constructor
    · rfl
    · rfl
    · exact ⟨hov, by simp [Maze.setVisited]⟩
    · intro c hc
      simp only [List.mem_singleton] at hc
      subst hc
      exact ⟨hov, by simp [Maze.setVisited]⟩
    · intro c hv hvis
      by_cases hc : c = ⟨ox, oy⟩
      · simp [Maze.setVisited, Maze.setWall, hc]
      · simp [Maze.setVisited, Maze.setWall, hc, hfresh c] at hvis
    · intro c hc
      rw [Maze.isOpen_iff] at hc
      by_cases hcc : c = ⟨ox, oy⟩
      · rw [hcc]; exact ⟨0, Maze.StepsTo.zero⟩
      · have hv : m.isValid c.x c.y = true := hc.1
        have := hc.2
        simp [Maze.setVisited, Maze.setWall, hcc, hwalls c hv] at this
    · intro c hv hvis hc
      by_cases hcc : c = ⟨ox, oy⟩
      · simp [hcc] at hc
      · simp [Maze.setVisited, Maze.setWall, hcc, hfresh c] at hvis
  have hloop := whileLoop_spec (fun (s : Maze.CarveState) => !s.stack.isEmpty) Maze.carveBody
    (CarveInv m.width m.height ⟨ox, oy⟩)
    (fun s => 2 * s.maze.countUnvisited + s.stack.length)
    (by
      intro s hinv hcond
      simp only [Bool.not_eq_true', List.isEmpty_eq_false] at hcond
      exact hinv.carveInv_step hcond)
    fuel _ hinit
    (by
      have := Maze.countUnvisited_le_area ((m.setWall ⟨ox, oy⟩ false).setVisited ⟨ox, oy⟩ true)
      have harea : ((m.setWall ⟨ox, oy⟩ false).setVisited ⟨ox, oy⟩ true).area = m.area := rfl
      simp only [List.length_singleton]
      omega)
  obtain ⟨s, hs, hinv, hcond⟩ := hloop
  refine ⟨s, ⟨ox, oy⟩, ?_, hinv, ?_, hoxb.2.2, hoyb.2.2, hoxb.2.1⟩
  · unfold Maze.generateRecursiveBacktracking
    simp only [hox, hoy, hs, Option.map_some']
  · simpa using hcond

theorem Maze.foldl_primPush_closed :
    ∀ (l : List Coordinate) (s : Maze.PrimState), (∀ n ∈ l, s.maze.wall n = false) →
      l.foldl (Maze.primPush false) s = s := by
  intro l
  induction l with
  | nil => intro s _; rfl
  | cons a l ih =>
    intro s h
    have ha : Maze.primPush false s a = s := by
      simp [Maze.primPush, h a (List.mem_cons_self _ _)]
    rw [List.foldl_cons, ha]
    exact ih s (fun n hn => h n (List.mem_cons_of_mem _ hn))

/-- Randomized Prim's puts nothing on its frontier: the neighbour query only
yields cells that are not walls, and only walls are put on the frontier.  The
grid it leaves is the one it was given with the drawn cell opened. -/
theorem Maze.generateRandomizedPrims_eq (m : Maze) (rng : Rng) (fuel : Nat) :
    m.generateRandomizedPrims fuel rng =
      some ((((m.setWall ⟨uniformInt 1 (m.width - 2) (rng 1),
          uniformInt 1 (m.height - 2) (rng 0)⟩ false).setVisited
          ⟨uniformInt 1 (m.width - 2) (rng 1), uniformInt 1 (m.height - 2) (rng 0)⟩
          true).clearVisited), rng.drop 2) := by
  unfold Maze.generateRandomizedPrims
  simp only
  rw [Maze.foldl_primPush_closed]
  · rw [whileLoop_of_not_cond _ _ _ _ (by simp)]
    rfl
  · intro n hn
    have := ((Maze.mem_getNeighbors _ _ _).mp hn).1
    exact ((Maze.isOpen_iff _ _).mp this).2

theorem Maze.divide_isSome :
    ∀ (fuel : Nat) (mr : Maze × Rng) (x y w h : Int), (w + h).toNat ≤ fuel →
      ∃ r, Maze.divide fuel mr x y w h = some r := by
  intro fuel
  induction fuel with
  | zero =>
    intro mr x y w h hf
    obtain ⟨m, rng⟩ := mr
    unfold Maze.divide
    by_cases hsmall : w < 2 ∨ h < 2
    · exact ⟨_, by rw [if_pos hsmall]⟩
    · exfalso
      omega
  | succ fuel ih =>
    intro mr x y w h hf
    obtain ⟨m, rng⟩ := mr
    unfold Maze.divide
    by_cases hsmall : w < 2 ∨ h < 2
    · exact ⟨_, by rw [if_pos hsmall]⟩
    · rw [if_neg hsmall]
      simp only
      split
      · have hb := uniformInt_mem y (y + h - 1) ((if h = w then rng.drop 1 else rng) 0)
          (by omega)
        obtain ⟨r1, hr1⟩ := ih (Maze.drawHorizontal m x w
            (uniformInt y (y + h - 1) ((if h = w then rng.drop 1 else rng) 0))
            (uniformInt x (x + w - 1) ((if h = w then rng.drop 1 else rng) 1)),
            (if h = w then rng.drop 1 else rng).drop 2) x y w
          (uniformInt y (y + h - 1) ((if h = w then rng.drop 1 else rng) 0) - y) (by omega)
        obtain ⟨r2, hr2⟩ := ih r1 x
          (uniformInt y (y + h - 1) ((if h = w then rng.drop 1 else rng) 0) + 1) w
          (y + h - uniformInt y (y + h - 1) ((if h = w then rng.drop 1 else rng) 0) - 1)
          (by omega)
        exact ⟨r2, by rw [hr1]; exact hr2⟩
      · have hb := uniformInt_mem x (x + w - 1) ((if h = w then rng.drop 1 else rng) 0)
          (by omega)
        obtain ⟨r1, hr1⟩ := ih (Maze.drawVertical m y h
            (uniformInt x (x + w - 1) ((if h = w then rng.drop 1 else rng) 0))
            (uniformInt y (y + h - 1) ((if h = w then rng.drop 1 else rng) 1)),
            (if h = w then rng.drop 1 else rng).drop 2) x y
          (uniformInt x (x + w - 1) ((if h = w then rng.drop 1 else rng) 0) - x) h (by omega)
        obtain ⟨r2, hr2⟩ := ih r1
          (uniformInt x (x + w - 1) ((if h = w then rng.drop 1 else rng) 0) + 1) y
          (x + w - uniformInt x (x + w - 1) ((if h = w then rng.drop 1 else rng) 0) - 1) h
          (by omega)
        exact ⟨r2, by rw [hr1]; exact hr2⟩

/-! ## The grid that `generatePerfectMaze` leaves -/

namespace Maze

theorem drawHorizontal_size (m : Maze) (x w wallY gapX : Int) :
    (m.drawHorizontal x w wallY gapX).width = m.width ∧
    (m.drawHorizontal x w wallY gapX).height = m.height := by
  unfold drawHorizontal
  generalize List.range w.toNat = l
  induction l generalizing m with
  | nil => exact ⟨rfl, rfl⟩
  | cons k l ih =>
    rw [List.foldl_cons]
    refine ⟨(ih _).1.trans ?_, (ih _).2.trans ?_⟩ <;> (simp only; split <;> rfl)

theorem drawVertical_size (m : Maze) (y h wallX gapY : Int) :
    (m.drawVertical y h wallX gapY).width = m.width ∧
    (m.drawVertical y h wallX gapY).height = m.height := by
  unfold drawVertical
  generalize List.range h.toNat = l
  induction l generalizing m with
  | nil => exact ⟨rfl, rfl⟩
  | cons k l ih =>
    rw [List.foldl_cons]
    refine ⟨(ih _).1.trans ?_, (ih _).2.trans ?_⟩ <;> (simp only; split <;> rfl)

theorem divide_size :
    ∀ (fuel : Nat) (mr r : Maze × Rng) (x y w h : Int), divide fuel mr x y w h = some r →
      r.1.width = mr.1.width ∧ r.1.height = mr.1.height := by
  intro fuel
  induction fuel with
  | zero =>
    intro mr r x y w h hr
    obtain ⟨m, rng⟩ := mr
    unfold divide at hr
    by_cases hsmall : w < 2 ∨ h < 2
    · rw [if_pos hsmall] at hr
      simp at hr
      subst hr
      exact ⟨rfl, rfl⟩
    · rw [if_neg hsmall] at hr
      simp at hr
  | succ fuel ih =>
    intro mr r x y w h hr
    obtain ⟨m, rng⟩ := mr
    unfold divide at hr
    by_cases hsmall : w < 2 ∨ h < 2
    · rw [if_pos hsmall] at hr
      simp at hr
      subst hr
      exact ⟨rfl, rfl⟩
    · rw [if_neg hsmall] at hr
      simp only at hr
      split at hr
      · rw [Option.bind_eq_some] at hr
        obtain ⟨r1, hr1, hr2⟩ := hr
        have h1 := ih _ _ _ _ _ _ hr1
        have h2 := ih _ _ _ _ _ _ hr2
        have h3 := drawHorizontal_size m x w
          (uniformInt y (y + h - 1) ((if h = w then rng.drop 1 else rng) 0))
          (uniformInt x (x + w - 1) ((if h = w then rng.drop 1 else rng) 1))
        simp only at h1 h2 ⊢
        exact ⟨by rw [h2.1, h1.1, h3.1], by rw [h2.2, h1.2, h3.2]⟩
      · rw [Option.bind_eq_some] at hr
        obtain ⟨r1, hr1, hr2⟩ := hr
        have h1 := ih _ _ _ _ _ _ hr1
        have h2 := ih _ _ _ _ _ _ hr2
        have h3 := drawVertical_size m y h
          (uniformInt x (x + w - 1) ((if h = w then rng.drop 1 else rng) 0))
          (uniformInt y (y + h - 1) ((if h = w then rng.drop 1 else rng) 1))
        simp only at h1 h2 ⊢
        exact ⟨by rw [h2.1, h1.1, h3.1], by rw [h2.2, h1.2, h3.2]⟩

theorem validateDimensions_ok (w h : Int) (hw : 5 ≤ w ∧ w ≤ 100) (hh : 5 ≤ h ∧ h ≤ 100) :
    validateDimensions w h = .ok () := by
  unfold validateDimensions
  rw [if_neg (by omega), if_neg (by omega)]

/-- The grid on which the generators that carve are started: every cell of
the grid a wall, no visited flag set. -/
theorem carveStart_props (m : Maze) (w h : Int) :
    ((({ m with width := w, height := h } : Maze).initializeGrid).setAllWalls true).width = w ∧
    ((({ m with width := w, height := h } : Maze).initializeGrid).setAllWalls true).height = h ∧
    (∀ c, ((({ m with width := w, height := h } : Maze).initializeGrid).setAllWalls
      true).isValid c.x c.y = true →
      ((({ m with width := w, height := h } : Maze).initializeGrid).setAllWalls true).wall c =
        true) ∧
    (∀ c, ((({ m with width := w, height := h } : Maze).initializeGrid).setAllWalls
      true).visited c = false) := by
  refine ⟨rfl, rfl, ?_, fun _ => rfl⟩
  intro c hc
  have hc' : ({ m with width := w, height := h } : Maze).initializeGrid.isValid c.x c.y = true :=
    hc
  simp [setAllWalls, hc']

/-- The grid that the recursive backtracker leaves through
`generatePerfectMaze`: no visited flag is set, start and goal are open cells
of the grid, and the goal can be reached from start. -/
theorem generatePerfectMaze_backtracking (w h : Int) (rng : Rng) (m : Maze) (fuel : Nat)
    (hw : 5 ≤ w ∧ w ≤ 100) (hh : 5 ≤ h ∧ h ≤ 100)
    (hfuel : 2 * (w.toNat * h.toNat) + 1 ≤ fuel) :
    ∃ m', generatePerfectMaze fuel rng m w h .RECURSIVE_BACKTRACKING = .ok (some m') ∧
      m'.width = w ∧ m'.height = h ∧
      m'.start = some ⟨1, 1⟩ ∧ m'.goal = some ⟨w - 2, h - 2⟩ ∧
      m'.wall ⟨1, 1⟩ = false ∧ m'.wall ⟨w - 2, h - 2⟩ = false ∧
      m'.Unvisited ∧ ∃ n, m'.StepsTo ⟨1, 1⟩ n ⟨w - 2, h - 2⟩ := by
  obtain ⟨h1, h2, h3, h4⟩ := carveStart_props m w h
  generalize hm1 : (({ m with width := w, height := h } : Maze).initializeGrid).setAllWalls
    true = m1 at h1 h2 h3 h4
  obtain ⟨s, origin, hgen, hinv, hempty, hox, hoy, hoxle⟩ :=
    generateRecursiveBacktracking_spec m1 rng fuel (by rw [h1]; exact hw.1)
      (by rw [h2]; exact hh.1) h3 h4 (by unfold area; rw [h1, h2]; exact hfuel)
  rw [h1, h2] at hinv
  rw [h1] at hoxle
  have hsw := hinv.width
  have hsh := hinv.height
  refine ⟨(({ s.maze.clearVisited with start := some ⟨1, 1⟩, goal := some ⟨w - 2, h - 2⟩ } :
    Maze).setWall ⟨1, 1⟩ false).setWall ⟨w - 2, h - 2⟩ false, ?_, hsw, hsh, rfl, rfl, ?_, ?_,
    ?_, ?_⟩
  · unfold generatePerfectMaze
    rw [validateDimensions_ok w h hw hh]
    simp only [ne_eq, reduceCtorEq, not_false_eq_true, if_true]
    rw [hm1, hgen]
    rfl
  · simp [setWall]
  · simp [setWall]
  · intro c hc
    have hc' : s.maze.isValid c.x c.y = true := hc
    simp [setWall, clearVisited, hc']
  · refine hinv.goal_reachable hempty hw.1 hh.1 hox hoy hoxle _ hsw hsh ?_ (by simp [setWall])
    intro c hc
    simp only [setWall, clearVisited] at hc
    split at hc
    · simp at hc
    · split at hc
      · simp at hc
      · exact hc

/-- Whatever the generator, `generatePerfectMaze` ends on a valid size and
leaves a grid of that size whose start `(1, 1)` and goal `(w - 2, h - 2)` are
set and not walls. -/
theorem generatePerfectMaze_endpoints (w h : Int) (algorithm : MazeGenerationAlgorithm)
    (rng : Rng) (m : Maze) (fuel : Nat)
    (hw : 5 ≤ w ∧ w ≤ 100) (hh : 5 ≤ h ∧ h ≤ 100)
    (hfuel : 2 * (w.toNat * h.toNat) + 1 ≤ fuel) :
    ∃ m', generatePerfectMaze fuel rng m w h algorithm = .ok (some m') ∧
      m'.width = w ∧ m'.height = h ∧
      m'.start = some ⟨1, 1⟩ ∧ m'.goal = some ⟨w - 2, h - 2⟩ ∧
      m'.wall ⟨1, 1⟩ = false ∧ m'.wall ⟨w - 2, h - 2⟩ = false := by
  cases algorithm with
  | RECURSIVE_BACKTRACKING =>
    obtain ⟨m', h1, h2, h3, h4, h5, h6, h7, _⟩ :=
      generatePerfectMaze_backtracking w h rng m fuel hw hh hfuel
    exact ⟨m', h1, h2, h3, h4, h5, h6, h7⟩
  | RANDOMIZED_PRIMS =>
    unfold generatePerfectMaze
    rw [validateDimensions_ok w h hw hh]
    simp only [ne_eq, reduceCtorEq, not_false_eq_true, if_true]
    rw [generateRandomizedPrims_eq]
    refine ⟨_, rfl, rfl, rfl, rfl, rfl, ?_, ?_⟩
    · simp [setWall]
    · simp [setWall]
  | RECURSIVE_DIVISION =>
    obtain ⟨r, hr⟩ := divide_isSome fuel
      (((({ m with width := w, height := h } : Maze).initializeGrid).setAllWalls false).addBorder,
        rng) 1 1 (w - 2) (h - 2) (by
          have : (w.toNat : Int) = w := Int.toNat_of_nonneg (by omega)
          have : (h.toNat : Int) = h := Int.toNat_of_nonneg (by omega)
          have : 5 ≤ w.toNat := by omega
          have : 5 ≤ h.toNat := by omega
          have : 5 * 5 ≤ w.toNat * h.toNat := Nat.mul_le_mul ‹5 ≤ w.toNat› ‹5 ≤ h.toNat›
          have : w.toNat ≤ 100 := by omega
          have : h.toNat ≤ 100 := by omega
          have hlin : w.toNat + h.toNat ≤ w.toNat * h.toNat + 25 := by nlinarith
          omega)
    have hsize := divide_size _ _ _ _ _ _ _ hr
    refine ⟨(({ r.1 with start := some ⟨1, 1⟩, goal := some ⟨w - 2, h - 2⟩ } :
      Maze).setWall ⟨1, 1⟩ false).setWall ⟨w - 2, h - 2⟩ false, ?_, ?_, ?_, rfl, rfl, ?_, ?_⟩
    · unfold generatePerfectMaze
      rw [validateDimensions_ok w h hw hh]
      simp only [ne_eq, not_true_eq_false, if_false]
      have hr' : generateRecursiveDivision fuel rng
          (({ m with width := w, height := h } : Maze).initializeGrid) = some r := hr
      rw [hr']
      rfl
    · exact hsize.1
    · exact hsize.2
    · simp [setWall]
    · simp [setWall]

end Maze

/-! ## The grid that randomized Prim's leaves -/

namespace Maze

/-- For every valid size and every sequence of draws, the grid that
`generatePerfectMaze` leaves with `RANDOMIZED_PRIMS` has no visited flag set,
its open cells are among the drawn cell, `(1, 1)` and `(w - 2, h - 2)`, and
the last cannot be reached from `(1, 1)`. -/
theorem generatePerfectMaze_prims (w h : Int) (rng : Rng) (m : Maze) (fuel : Nat)
    (hw : 5 ≤ w ∧ w ≤ 100) (hh : 5 ≤ h ∧ h ≤ 100) :
    ∃ m' origin, generatePerfectMaze fuel rng m w h .RANDOMIZED_PRIMS = .ok (some m') ∧
      m'.width = w ∧ m'.height = h ∧
      m'.start = some ⟨1, 1⟩ ∧ m'.goal = some ⟨w - 2, h - 2⟩ ∧ m'.Unvisited ∧
      (∀ c, m'.isOpen c = true ↔
        m'.isValid c.x c.y = true ∧ (c = origin ∨ c = ⟨1, 1⟩ ∨ c = ⟨w - 2, h - 2⟩)) ∧
      ¬ m'.Reachable ⟨1, 1⟩ ⟨w - 2, h - 2⟩ := by
  have hox := uniformInt_mem 1 (w - 2) (rng 1) (by omega)
  have hoy := uniformInt_mem 1 (h - 2) (rng 0) (by omega)
  generalize hgx : uniformInt 1 (w - 2) (rng 1) = ox at hox
  generalize hgy : uniformInt 1 (h - 2) (rng 0) = oy at hoy
  have hgen : generatePerfectMaze fuel rng m w h .RANDOMIZED_PRIMS =
      .ok (some ((({ ((((({ m with width := w, height := h } : Maze).initializeGrid).setAllWalls
        true).setWall ⟨ox, oy⟩ false).setVisited ⟨ox, oy⟩ true).clearVisited with
        start := some ⟨1, 1⟩, goal := some ⟨w - 2, h - 2⟩ } : Maze).setWall ⟨1, 1⟩
        false).setWall ⟨w - 2, h - 2⟩ false)) := by
    unfold generatePerfectMaze
    rw [validateDimensions_ok w h hw hh]
    simp only [ne_eq, reduceCtorEq, not_false_eq_true, if_true]
    rw [generateRandomizedPrims_eq]
    have e1 : (({ m with width := w, height := h } : Maze).initializeGrid.setAllWalls
        true).width = w := rfl
    have e2 : (({ m with width := w, height := h } : Maze).initializeGrid.setAllWalls
        true).height = h := rfl
    rw [e1, e2, hgx, hgy]
    rfl
  generalize hm' : (({ ((((({ m with width := w, height := h } : Maze).initializeGrid).setAllWalls
        true).setWall ⟨ox, oy⟩ false).setVisited ⟨ox, oy⟩ true).clearVisited with
        start := some ⟨1, 1⟩, goal := some ⟨w - 2, h - 2⟩ } : Maze).setWall ⟨1, 1⟩
        false).setWall ⟨w - 2, h - 2⟩ false = m' at hgen
  have hwid : m'.width = w := by rw [← hm']; rfl
  have hhei : m'.height = h := by rw [← hm']; rfl
  have hvalid : ∀ x y, m'.isValid x y = true ↔ 0 ≤ x ∧ x < w ∧ 0 ≤ y ∧ y < h := by
    intro x y
    rw [isValid_iff, hwid, hhei]
  have hwall : ∀ c, m'.isValid c.x c.y = true →
      (m'.wall c = false ↔ (c = ⟨ox, oy⟩ ∨ c = ⟨1, 1⟩ ∨ c = ⟨w - 2, h - 2⟩)) := by
    intro c hc
    have hc' : (({ m with width := w, height := h } : Maze).initializeGrid).isValid c.x c.y =
        true := by
      rw [isValid_iff]
      exact (hvalid c.x c.y).mp hc
    rw [← hm']
    simp only [setWall, clearVisited, setVisited, setAllWalls, hc', if_true]
    by_cases h1 : c = ⟨w - 2, h - 2⟩
    · simp [h1]
    · by_cases h2 : c = ⟨1, 1⟩
      · simp [h2]
      · by_cases h3 : c = ⟨ox, oy⟩
        · simp [h3]
        · simp [h1, h2, h3]
  have hopen : ∀ c, m'.isOpen c = true ↔
      m'.isValid c.x c.y = true ∧ (c = ⟨ox, oy⟩ ∨ c = ⟨1, 1⟩ ∨ c = ⟨w - 2, h - 2⟩) := by
    intro c
    rw [isOpen_iff]
    constructor
    · rintro ⟨h1, h2⟩
      exact ⟨h1, (hwall c h1).mp h2⟩
    · rintro ⟨h1, h2⟩
      exact ⟨h1, (hwall c h1).mpr h2⟩
  have hso : m'.isOpen ⟨1, 1⟩ = true :=
    (hopen _).mpr ⟨(hvalid 1 1).mpr (by omega), Or.inr (Or.inl rfl)⟩
  refine ⟨m', ⟨ox, oy⟩, hgen, hwid, hhei, by rw [← hm']; rfl, by rw [← hm']; rfl, ?_, hopen, ?_⟩
  · intro c hc
    rw [← hm'] at hc ⊢
    have hc' : ((((({ m with width := w, height := h } : Maze).initializeGrid).setAllWalls
        true).setWall ⟨ox, oy⟩ false).setVisited ⟨ox, oy⟩ true).isValid c.x c.y = true := hc
    show (if ((((({ m with width := w, height := h } : Maze).initializeGrid).setAllWalls
        true).setWall ⟨ox, oy⟩ false).setVisited ⟨ox, oy⟩ true).isValid c.x c.y = true
      then false else _) = false
    rw [if_pos hc']
  · intro hr
    obtain ⟨n, hn⟩ := (reachable_iff_stepsTo m' _ _ hso).mp hr
    have key : ∀ n c, m'.StepsTo ⟨1, 1⟩ n c →
        (c.x = 1 ∧ c.y = 1) ∨ (c.x = ox ∧ c.y = oy ∧ manhattan ⟨1, 1⟩ ⟨ox, oy⟩ = 1) := by
      intro n c hc
      induction hc with
      | zero => exact Or.inl ⟨rfl, rfl⟩
      | @step n c d _ hd ih =>
        rw [mem_getNeighbors, hopen] at hd
        obtain ⟨⟨_, hd1⟩, hd2⟩ := hd
        obtain ⟨cx, cy⟩ := c
        obtain ⟨dx, dy⟩ := d
        simp only [Coordinate.mk.injEq, manhattan] at hd1 hd2 ih ⊢
        omega
    have := key n _ hn
    simp only [manhattan] at this
    omega

/-- For every valid size and every sequence of draws, the breadth-first search
from start to goal on the grid that randomized Prim's leaves returns the
empty path. -/
theorem generatePerfectMaze_prims_bfs (w h : Int) (rng : Rng) (m : Maze) (fuel elapsed : Nat)
    (hw : 5 ≤ w ∧ w ≤ 100) (hh : 5 ≤ h ∧ h ≤ 100)
    (hfuel : 2 * (w.toNat * h.toNat) + 1 ≤ fuel) :
    ∃ m', generatePerfectMaze fuel rng m w h .RANDOMIZED_PRIMS = .ok (some m') ∧
      ∃ r, BFSPathfinder.findPath fuel elapsed m' m'.start m'.goal = some r ∧ r.path = [] := by
  obtain ⟨m', origin, hgen, hwid, hhei, hstart, hgoal, hun, hopen, hunreach⟩ :=
    generatePerfectMaze_prims w h rng m fuel hw hh
  have hv : m'.isValid 1 1 = true := by
    rw [isValid_iff, hwid, hhei]; omega
  have hso : m'.isOpen ⟨1, 1⟩ = true := (hopen _).mpr ⟨hv, Or.inr (Or.inl rfl)⟩
  obtain ⟨r, hr, _, _, _, hspec⟩ :=
    BFSPathfinder.bfs_findPath_spec m' ⟨1, 1⟩ ⟨w - 2, h - 2⟩ fuel elapsed
      (by unfold area; rw [hwid, hhei]; exact hfuel) hv
  refine ⟨m', hgen, r, by rw [hstart, hgoal]; exact hr, ?_⟩
  exact ((hspec hun hso).2
    (fun n hn => hunreach ((reachable_iff_stepsTo m' _ _ hso).mpr ⟨n, hn⟩))).1

end Maze

/-! ## The claims about the four searches -/

/-- C1: for each of the four strategies, on a grid with no visited flag set,
with a non-wall start cell of the grid and a goal reachable from it through
4-adjacent non-wall cells, `findPath` (run with enough iterations, whatever
the clock and the order among equal keys) returns a non-empty path that begins
at start, ends at goal, moves by Manhattan distance exactly 1 between
consecutive cells and holds no wall.  That the goal is a non-wall cell of the
grid follows from its being reachable. -/
theorem findPath_returns_valid_path (maze : Maze) (start goal : Coordinate)
    (fuel elapsed : Nat) (ties : Nat → Nat)
    (hfresh : maze.Unvisited) (hstart : maze.isOpen start = true)
    (hreach : maze.Reachable start goal) (hfuel : 5 * maze.area + 1 ≤ fuel) :
    (∃ r, BFSPathfinder.findPath fuel elapsed maze (some start) (some goal) = some r ∧
      ValidPath maze start goal r.path) ∧
    (∃ r, DFSPathfinder.findPath fuel elapsed maze (some start) (some goal) = some r ∧
      ValidPath maze start goal r.path) ∧
    (∃ r, DijkstraPathfinder.findPath fuel elapsed ties maze (some start) (some goal) = some r ∧
      ValidPath maze start goal r.path) ∧
    (∃ r, AStarPathfinder.findPath fuel elapsed ties maze (some start) (some goal) = some r ∧
      ValidPath maze start goal r.path) := by
  have hv : maze.isValid start.x start.y = true := ((Maze.isOpen_iff _ _).mp hstart).1
  obtain ⟨n, hn⟩ := (Maze.reachable_iff_stepsTo maze start goal hstart).mp hreach
  refine ⟨?_, ?_, ?_, ?_⟩
  · obtain ⟨r, hr, _, _, _, h⟩ :=
      BFSPathfinder.bfs_findPath_spec maze start goal fuel elapsed (by omega) hv
    exact ⟨r, hr, ((h hfresh hstart).1 n hn).1⟩
  · obtain ⟨r, hr, _, _, _, h⟩ :=
      DFSPathfinder.dfs_findPath_spec maze start goal fuel elapsed (by omega) hv
    exact ⟨r, hr, (h hfresh hstart).1 n hn⟩
  · obtain ⟨r, hr, _, _, _, h⟩ :=
      DijkstraPathfinder.dijkstra_findPath_spec maze start goal fuel elapsed ties hfuel hv
    exact ⟨r, hr, ((h hstart).1 n hn).1⟩
  · obtain ⟨r, hr, _, _, _, h⟩ :=
      AStarPathfinder.astar_findPath_spec maze start goal fuel elapsed ties hfuel hv
    exact ⟨r, hr, ((h hstart).1 n hn).1⟩

/-- C1 at `exampleMaze`, from `(1, 1)` to `(3, 3)`. -/
theorem findPath_returns_valid_path_witness :
    exampleMaze.Unvisited ∧ exampleMaze.isOpen ⟨1, 1⟩ = true ∧
    exampleMaze.Reachable ⟨1, 1⟩ ⟨3, 3⟩ ∧ 5 * exampleMaze.area + 1 ≤ 126 ∧
    ((∃ r, BFSPathfinder.findPath 126 0 exampleMaze (some ⟨1, 1⟩) (some ⟨3, 3⟩) = some r ∧
      ValidPath exampleMaze ⟨1, 1⟩ ⟨3, 3⟩ r.path) ∧
    (∃ r, DFSPathfinder.findPath 126 0 exampleMaze (some ⟨1, 1⟩) (some ⟨3, 3⟩) = some r ∧
      ValidPath exampleMaze ⟨1, 1⟩ ⟨3, 3⟩ r.path) ∧
    (∃ r, DijkstraPathfinder.findPath 126 0 (fun _ => 0) exampleMaze (some ⟨1, 1⟩)
        (some ⟨3, 3⟩) = some r ∧
      ValidPath exampleMaze ⟨1, 1⟩ ⟨3, 3⟩ r.path) ∧
    (∃ r, AStarPathfinder.findPath 126 0 (fun _ => 0) exampleMaze (some ⟨1, 1⟩)
        (some ⟨3, 3⟩) = some r ∧
      ValidPath exampleMaze ⟨1, 1⟩ ⟨3, 3⟩ r.path)) :=
  ⟨exampleMaze_unvisited, by decide, exampleMaze_reachable, by decide,
    findPath_returns_valid_path exampleMaze ⟨1, 1⟩ ⟨3, 3⟩ 126 0 (fun _ => 0)
      exampleMaze_unvisited (by decide) exampleMaze_reachable (by decide)⟩

/-- C2: on a grid with no visited flag set, with a non-wall start and a goal
reachable from it, the path that `BFSPathfinder::findPath` returns is a path
of the grid from start to goal, and its edge count (cells minus one) is at
most that of every path of 4-adjacent non-wall cells from start to goal: it
is the least number of steps. -/
theorem bfs_path_is_shortest (maze : Maze) (start goal : Coordinate) (fuel elapsed : Nat)
    (hfresh : maze.Unvisited) (hstart : maze.isOpen start = true)
    (hreach : maze.Reachable start goal) (hfuel : 2 * maze.area + 1 ≤ fuel) :
    ∃ r, BFSPathfinder.findPath fuel elapsed maze (some start) (some goal) = some r ∧
      maze.Connects start goal (r.path.map Cell.coords) ∧
      ∀ q, maze.Connects start goal q → r.path.length - 1 ≤ q.length - 1 := by
  have hv : maze.isValid start.x start.y = true := ((Maze.isOpen_iff _ _).mp hstart).1
  obtain ⟨n, hn⟩ := (Maze.reachable_iff_stepsTo maze start goal hstart).mp hreach
  obtain ⟨r, hr, _, _, _, h⟩ := BFSPathfinder.bfs_findPath_spec maze start goal fuel elapsed hfuel hv
  refine ⟨r, hr, ((h hfresh hstart).1 n hn).1.2.1, ?_⟩
  intro q hq
  have := ((h hfresh hstart).1 _ (Maze.stepsTo_of_connects maze start goal q hq)).2
  omega

/-- C2 at `exampleMaze`, from `(1, 1)` to `(3, 3)`. -/
theorem bfs_path_is_shortest_witness :
    exampleMaze.Unvisited ∧ exampleMaze.isOpen ⟨1, 1⟩ = true ∧
    exampleMaze.Reachable ⟨1, 1⟩ ⟨3, 3⟩ ∧ 2 * exampleMaze.area + 1 ≤ 51 ∧
    ∃ r, BFSPathfinder.findPath 51 0 exampleMaze (some ⟨1, 1⟩) (some ⟨3, 3⟩) = some r ∧
      exampleMaze.Connects ⟨1, 1⟩ ⟨3, 3⟩ (r.path.map Cell.coords) ∧
      ∀ q, exampleMaze.Connects ⟨1, 1⟩ ⟨3, 3⟩ q → r.path.length - 1 ≤ q.length - 1 :=
  ⟨exampleMaze_unvisited, by decide, exampleMaze_reachable, by decide,
    bfs_path_is_shortest exampleMaze ⟨1, 1⟩ ⟨3, 3⟩ 51 0
      exampleMaze_unvisited (by decide) exampleMaze_reachable (by decide)⟩

/-- C3: on every grid, whatever its visited flags, with a non-wall start and a
goal reachable from it, the path that `DijkstraPathfinder::findPath` returns
is a path of the grid from start to goal whose edge count is at most that of
every path of 4-adjacent non-wall cells from start to goal, whichever entry
of least cost the heap yields at each pop. -/
theorem dijkstra_path_is_shortest (maze : Maze) (start goal : Coordinate)
    (fuel elapsed : Nat) (ties : Nat → Nat) (hstart : maze.isOpen start = true)
    (hreach : maze.Reachable start goal) (hfuel : 5 * maze.area + 1 ≤ fuel) :
    ∃ r, DijkstraPathfinder.findPath fuel elapsed ties maze (some start) (some goal) = some r ∧
      maze.Connects start goal (r.path.map Cell.coords) ∧
      ∀ q, maze.Connects start goal q → r.path.length - 1 ≤ q.length - 1 := by
  have hv : maze.isValid start.x start.y = true := ((Maze.isOpen_iff _ _).mp hstart).1
  obtain ⟨n, hn⟩ := (Maze.reachable_iff_stepsTo maze start goal hstart).mp hreach
  obtain ⟨r, hr, _, _, _, h⟩ :=
    DijkstraPathfinder.dijkstra_findPath_spec maze start goal fuel elapsed ties hfuel hv
  refine ⟨r, hr, ((h hstart).1 n hn).1.2.1, ?_⟩
  intro q hq
  have := ((h hstart).1 _ (Maze.stepsTo_of_connects maze start goal q hq)).2
  omega

/-- C3 at `exampleMaze`, from `(1, 1)` to `(3, 3)`. -/
theorem dijkstra_path_is_shortest_witness :
    exampleMaze.isOpen ⟨1, 1⟩ = true ∧
    exampleMaze.Reachable ⟨1, 1⟩ ⟨3, 3⟩ ∧ 5 * exampleMaze.area + 1 ≤ 126 ∧
    ∃ r, DijkstraPathfinder.findPath 126 0 (fun n => n) exampleMaze (some ⟨1, 1⟩)
        (some ⟨3, 3⟩) = some r ∧
      exampleMaze.Connects ⟨1, 1⟩ ⟨3, 3⟩ (r.path.map Cell.coords) ∧
      ∀ q, exampleMaze.Connects ⟨1, 1⟩ ⟨3, 3⟩ q → r.path.length - 1 ≤ q.length - 1 :=
  ⟨by decide, exampleMaze_reachable, by decide,
    dijkstra_path_is_shortest exampleMaze ⟨1, 1⟩ ⟨3, 3⟩ 126 0 (fun n => n)
      (by decide) exampleMaze_reachable (by decide)⟩

/-- C4: on every grid, with a non-wall start and a goal reachable from it,
the path that `AStarPathfinder::findPath` returns (priority `f = g` plus the
Manhattan distance to the goal, closed cells never re-opened) is a path of
the grid from start to goal whose edge count is at most that of every path of
4-adjacent non-wall cells from start to goal, whatever order the heap uses
among entries of equal `f`. -/
theorem astar_path_is_shortest (maze : Maze) (start goal : Coordinate)
    (fuel elapsed : Nat) (ties : Nat → Nat) (hstart : maze.isOpen start = true)
    (hreach : maze.Reachable start goal) (hfuel : 5 * maze.area + 1 ≤ fuel) :
    ∃ r, AStarPathfinder.findPath fuel elapsed ties maze (some start) (some goal) = some r ∧
      maze.Connects start goal (r.path.map Cell.coords) ∧
      ∀ q, maze.Connects start goal q → r.path.length - 1 ≤ q.length - 1 := by
  have hv : maze.isValid start.x start.y = true := ((Maze.isOpen_iff _ _).mp hstart).1
  obtain ⟨n, hn⟩ := (Maze.reachable_iff_stepsTo maze start goal hstart).mp hreach
  obtain ⟨r, hr, _, _, _, h⟩ :=
    AStarPathfinder.astar_findPath_spec maze start goal fuel elapsed ties hfuel hv
  refine ⟨r, hr, ((h hstart).1 n hn).1.2.1, ?_⟩
  intro q hq
  have := ((h hstart).1 _ (Maze.stepsTo_of_connects maze start goal q hq)).2
  omega

/-- C4 at `exampleMaze`, from `(1, 1)` to `(3, 3)`. -/
theorem astar_path_is_shortest_witness :
    exampleMaze.isOpen ⟨1, 1⟩ = true ∧
    exampleMaze.Reachable ⟨1, 1⟩ ⟨3, 3⟩ ∧ 5 * exampleMaze.area + 1 ≤ 126 ∧
    ∃ r, AStarPathfinder.findPath 126 0 (fun n => 2 * n) exampleMaze (some ⟨1, 1⟩)
        (some ⟨3, 3⟩) = some r ∧
      exampleMaze.Connects ⟨1, 1⟩ ⟨3, 3⟩ (r.path.map Cell.coords) ∧
      ∀ q, exampleMaze.Connects ⟨1, 1⟩ ⟨3, 3⟩ q → r.path.length - 1 ≤ q.length - 1 :=
  ⟨by decide, exampleMaze_reachable, by decide,
    astar_path_is_shortest exampleMaze ⟨1, 1⟩ ⟨3, 3⟩ 126 0 (fun n => 2 * n)
      (by decide) exampleMaze_reachable (by decide)⟩

/-- C5: for every strategy, every grid whatever its residual visited flags,
every start cell of the grid and every goal, `findPath` ends and leaves
`nodesExplored` at most `width * height`. -/
theorem nodesExplored_le_width_mul_height (maze : Maze) (start goal : Coordinate)
    (fuel elapsed : Nat) (ties : Nat → Nat)
    (hstart : maze.isValid start.x start.y = true) (hfuel : 5 * maze.area + 1 ≤ fuel) :
    (∃ r, BFSPathfinder.findPath fuel elapsed maze (some start) (some goal) = some r ∧
      (r.stats.nodesExplored : Int) ≤ maze.width * maze.height) ∧
    (∃ r, DFSPathfinder.findPath fuel elapsed maze (some start) (some goal) = some r ∧
      (r.stats.nodesExplored : Int) ≤ maze.width * maze.height) ∧
    (∃ r, DijkstraPathfinder.findPath fuel elapsed ties maze (some start) (some goal) = some r ∧
      (r.stats.nodesExplored : Int) ≤ maze.width * maze.height) ∧
    (∃ r, AStarPathfinder.findPath fuel elapsed ties maze (some start) (some goal) = some r ∧
      (r.stats.nodesExplored : Int) ≤ maze.width * maze.height) := by
  have harea := Maze.area_cast maze start hstart
  refine ⟨?_, ?_, ?_, ?_⟩
  · obtain ⟨r, hr, h, _⟩ :=
      BFSPathfinder.bfs_findPath_spec maze start goal fuel elapsed (by omega) hstart
    exact ⟨r, hr, by rw [← harea]; exact_mod_cast h⟩
  · obtain ⟨r, hr, h, _⟩ :=
      DFSPathfinder.dfs_findPath_spec maze start goal fuel elapsed (by omega) hstart
    exact ⟨r, hr, by rw [← harea]; exact_mod_cast h⟩
  · obtain ⟨r, hr, h, _⟩ :=
      DijkstraPathfinder.dijkstra_findPath_spec maze start goal fuel elapsed ties hfuel hstart
    exact ⟨r, hr, by rw [← harea]; exact_mod_cast h⟩
  · obtain ⟨r, hr, h, _⟩ :=
      AStarPathfinder.astar_findPath_spec maze start goal fuel elapsed ties hfuel hstart
    exact ⟨r, hr, by rw [← harea]; exact_mod_cast h⟩

/-- C5 at `exampleMaze` with every visited flag set beforehand, from `(1, 1)`
to `(3, 3)`. -/
theorem nodesExplored_le_width_mul_height_witness :
    ({ exampleMaze with visited := fun _ => true } : Maze).isValid 1 1 = true ∧
    5 * ({ exampleMaze with visited := fun _ => true } : Maze).area + 1 ≤ 126 ∧
    ((∃ r, BFSPathfinder.findPath 126 0 { exampleMaze with visited := fun _ => true }
        (some ⟨1, 1⟩) (some ⟨3, 3⟩) = some r ∧ (r.stats.nodesExplored : Int) ≤ 5 * 5) ∧
    (∃ r, DFSPathfinder.findPath 126 0 { exampleMaze with visited := fun _ => true }
        (some ⟨1, 1⟩) (some ⟨3, 3⟩) = some r ∧ (r.stats.nodesExplored : Int) ≤ 5 * 5) ∧
    (∃ r, DijkstraPathfinder.findPath 126 0 (fun _ => 0)
        { exampleMaze with visited := fun _ => true }
        (some ⟨1, 1⟩) (some ⟨3, 3⟩) = some r ∧ (r.stats.nodesExplored : Int) ≤ 5 * 5) ∧
    (∃ r, AStarPathfinder.findPath 126 0 (fun _ => 0)
        { exampleMaze with visited := fun _ => true }
        (some ⟨1, 1⟩) (some ⟨3, 3⟩) = some r ∧ (r.stats.nodesExplored : Int) ≤ 5 * 5)) :=
  ⟨by decide, by decide,
    nodesExplored_le_width_mul_height { exampleMaze with visited := fun _ => true }
      ⟨1, 1⟩ ⟨3, 3⟩ 126 0 (fun _ => 0) (by decide) (by decide)⟩

/-- C6: for every strategy, when start is absent or goal is absent `findPath`
returns, whatever the iteration budget and the clock, an empty path with
`pathLength = 0`, `nodesExplored = 0` and `executionTime = 0`; the grid is
returned as it was and nothing is handed to the visit callback. -/
theorem findPath_absent_endpoint (maze : Maze) (start goal : Option Coordinate)
    (fuel elapsed : Nat) (ties : Nat → Nat) :
    BFSPathfinder.findPath fuel elapsed maze none goal = some ⟨[], ⟨0, 0, 0⟩, maze, []⟩ ∧
    BFSPathfinder.findPath fuel elapsed maze start none = some ⟨[], ⟨0, 0, 0⟩, maze, []⟩ ∧
    DFSPathfinder.findPath fuel elapsed maze none goal = some ⟨[], ⟨0, 0, 0⟩, maze, []⟩ ∧
    DFSPathfinder.findPath fuel elapsed maze start none = some ⟨[], ⟨0, 0, 0⟩, maze, []⟩ ∧
    DijkstraPathfinder.findPath fuel elapsed ties maze none goal =
      some ⟨[], ⟨0, 0, 0⟩, maze, []⟩ ∧
    DijkstraPathfinder.findPath fuel elapsed ties maze start none =
      some ⟨[], ⟨0, 0, 0⟩, maze, []⟩ ∧
    AStarPathfinder.findPath fuel elapsed ties maze none goal =
      some ⟨[], ⟨0, 0, 0⟩, maze, []⟩ ∧
    AStarPathfinder.findPath fuel elapsed ties maze start none =
      some ⟨[], ⟨0, 0, 0⟩, maze, []⟩ := by
  refine ⟨?_, ?_, ?_, ?_, ?_, ?_, ?_, ?_⟩ <;> first | rfl | (cases start <;> rfl)

/-- C7: for each of the four strategies, on a grid with no visited flag set,
with a non-wall start and a goal that cannot be reached from it, `findPath`
returns an empty path with `pathLength = 0` and with `nodesExplored` equal to
the number of cells that can be reached from start through 4-adjacent
non-wall cells, which is not zero. -/
theorem unreachable_goal_explores_component (maze : Maze) (start goal : Coordinate)
    (fuel elapsed : Nat) (ties : Nat → Nat)
    (hfresh : maze.Unvisited) (hstart : maze.isOpen start = true)
    (hunreach : ¬ maze.Reachable start goal) (hfuel : 5 * maze.area + 1 ≤ fuel) :
    (∃ r, BFSPathfinder.findPath fuel elapsed maze (some start) (some goal) = some r ∧
      r.path = [] ∧ r.stats.pathLength = 0 ∧
      r.stats.nodesExplored = Set.ncard {c | maze.Reachable start c} ∧
      r.stats.nodesExplored ≠ 0) ∧
    (∃ r, DFSPathfinder.findPath fuel elapsed maze (some start) (some goal) = some r ∧
      r.path = [] ∧ r.stats.pathLength = 0 ∧
      r.stats.nodesExplored = Set.ncard {c | maze.Reachable start c} ∧
      r.stats.nodesExplored ≠ 0) ∧
    (∃ r, DijkstraPathfinder.findPath fuel elapsed ties maze (some start) (some goal) = some r ∧
      r.path = [] ∧ r.stats.pathLength = 0 ∧
      r.stats.nodesExplored = Set.ncard {c | maze.Reachable start c} ∧
      r.stats.nodesExplored ≠ 0) ∧
    (∃ r, AStarPathfinder.findPath fuel elapsed ties maze (some start) (some goal) = some r ∧
      r.path = [] ∧ r.stats.pathLength = 0 ∧
      r.stats.nodesExplored = Set.ncard {c | maze.Reachable start c} ∧
      r.stats.nodesExplored ≠ 0) := by
  have hv : maze.isValid start.x start.y = true := ((Maze.isOpen_iff _ _).mp hstart).1
  have hno := Maze.stepsTo_iff_nonempty maze start goal hstart hunreach
  have hpos : Set.ncard {c | maze.Reachable start c} ≠ 0 :=
    Set.ncard_ne_zero_of_mem (a := start) (Maze.reachable_self maze start hstart)
      (Maze.reachable_finite maze start)
  refine ⟨?_, ?_, ?_, ?_⟩
  · obtain ⟨r, hr, _, _, hlen, h⟩ :=
      BFSPathfinder.bfs_findPath_spec maze start goal fuel elapsed (by omega) hv
    obtain ⟨h1, h2⟩ := (h hfresh hstart).2 hno
    exact ⟨r, hr, h1, by rw [hlen, h1]; rfl, h2, by rw [h2]; exact hpos⟩
  · obtain ⟨r, hr, _, _, hlen, h⟩ :=
      DFSPathfinder.dfs_findPath_spec maze start goal fuel elapsed (by omega) hv
    obtain ⟨h1, h2⟩ := (h hfresh hstart).2 hno
    exact ⟨r, hr, h1, by rw [hlen, h1]; rfl, h2, by rw [h2]; exact hpos⟩
  · obtain ⟨r, hr, _, _, hlen, h⟩ :=
      DijkstraPathfinder.dijkstra_findPath_spec maze start goal fuel elapsed ties hfuel hv
    obtain ⟨h1, h2⟩ := (h hstart).2 hno
    exact ⟨r, hr, h1, by rw [hlen, h1]; rfl, h2, by rw [h2]; exact hpos⟩
  · obtain ⟨r, hr, _, _, hlen, h⟩ :=
      AStarPathfinder.astar_findPath_spec maze start goal fuel elapsed ties hfuel hv
    obtain ⟨h1, h2⟩ := (h hstart).2 hno
    exact ⟨r, hr, h1, by rw [hlen, h1]; rfl, h2, by rw [h2]; exact hpos⟩

/-- C7 at `walledMaze`, whose goal `(3, 3)` is walled off from `(1, 1)`. -/
theorem unreachable_goal_explores_component_witness :
    walledMaze.Unvisited ∧ walledMaze.isOpen ⟨1, 1⟩ = true ∧
    ¬ walledMaze.Reachable ⟨1, 1⟩ ⟨3, 3⟩ ∧ 5 * walledMaze.area + 1 ≤ 126 ∧
    ((∃ r, BFSPathfinder.findPath 126 0 walledMaze (some ⟨1, 1⟩) (some ⟨3, 3⟩) = some r ∧
      r.path = [] ∧ r.stats.pathLength = 0 ∧
      r.stats.nodesExplored = Set.ncard {c | walledMaze.Reachable ⟨1, 1⟩ c} ∧
      r.stats.nodesExplored ≠ 0) ∧
    (∃ r, DFSPathfinder.findPath 126 0 walledMaze (some ⟨1, 1⟩) (some ⟨3, 3⟩) = some r ∧
      r.path = [] ∧ r.stats.pathLength = 0 ∧
      r.stats.nodesExplored = Set.ncard {c | walledMaze.Reachable ⟨1, 1⟩ c} ∧
      r.stats.nodesExplored ≠ 0) ∧
    (∃ r, DijkstraPathfinder.findPath 126 0 (fun _ => 0) walledMaze (some ⟨1, 1⟩)
        (some ⟨3, 3⟩) = some r ∧
      r.path = [] ∧ r.stats.pathLength = 0 ∧
      r.stats.nodesExplored = Set.ncard {c | walledMaze.Reachable ⟨1, 1⟩ c} ∧
      r.stats.nodesExplored ≠ 0) ∧
    (∃ r, AStarPathfinder.findPath 126 0 (fun _ => 0) walledMaze (some ⟨1, 1⟩)
        (some ⟨3, 3⟩) = some r ∧
      r.path = [] ∧ r.stats.pathLength = 0 ∧
      r.stats.nodesExplored = Set.ncard {c | walledMaze.Reachable ⟨1, 1⟩ c} ∧
      r.stats.nodesExplored ≠ 0)) :=
  ⟨walledMaze_unvisited, by decide, walledMaze_unreachable, by decide,
    unreachable_goal_explores_component walledMaze ⟨1, 1⟩ ⟨3, 3⟩ 126 0 (fun _ => 0)
      walledMaze_unvisited (by decide) walledMaze_unreachable (by decide)⟩

/-! ## The claims about the generators -/

/-- C8: for every valid width and height (both in `[5, 100]`), each of the
three generation algorithms and every sequence of random draws,
`generatePerfectMaze` ends and leaves a grid of that size whose start is the
cell `(1, 1)`, whose goal is the cell `(width - 2, height - 2)`, and in which
both cells are cells of the grid that are not walls. -/
theorem generatePerfectMaze_start_goal (w h : Int) (algorithm : MazeGenerationAlgorithm)
    (rng : Rng) (m : Maze) (fuel : Nat)
    (hw : 5 ≤ w ∧ w ≤ 100) (hh : 5 ≤ h ∧ h ≤ 100)
    (hfuel : 2 * (w.toNat * h.toNat) + 1 ≤ fuel) :
    ∃ m', Maze.generatePerfectMaze fuel rng m w h algorithm = .ok (some m') ∧
      m'.start = some ⟨1, 1⟩ ∧ m'.goal = some ⟨w - 2, h - 2⟩ ∧
      m'.isOpen ⟨1, 1⟩ = true ∧ m'.isOpen ⟨w - 2, h - 2⟩ = true := by
  obtain ⟨m', h1, h2, h3, h4, h5, h6, h7⟩ :=
    Maze.generatePerfectMaze_endpoints w h algorithm rng m fuel hw hh hfuel
  refine ⟨m', h1, h4, h5, ?_, ?_⟩
  · rw [Maze.isOpen_iff, Maze.isValid_iff, h2, h3]
    exact ⟨by simp only; omega, h6⟩
  · rw [Maze.isOpen_iff, Maze.isValid_iff, h2, h3]
    exact ⟨by simp only; omega, h7⟩

/-- C8 at width 7 and height 5, for recursive division on the
default-constructed grid. -/
theorem generatePerfectMaze_start_goal_witness :
    ((5 : Int) ≤ 7 ∧ (7 : Int) ≤ 100) ∧ ((5 : Int) ≤ 5 ∧ (5 : Int) ≤ 100) ∧
    2 * ((7 : Int).toNat * (5 : Int).toNat) + 1 ≤ 71 ∧
    ∃ m', Maze.generatePerfectMaze 71 (fun n => n) defaultMaze 7 5 .RECURSIVE_DIVISION =
        .ok (some m') ∧
      m'.start = some ⟨1, 1⟩ ∧ m'.goal = some ⟨7 - 2, 5 - 2⟩ ∧
      m'.isOpen ⟨1, 1⟩ = true ∧ m'.isOpen ⟨7 - 2, 5 - 2⟩ = true :=
  ⟨by decide, by decide, by decide,
    generatePerfectMaze_start_goal 7 5 .RECURSIVE_DIVISION (fun n => n) defaultMaze 71
      (by decide) (by decide) (by decide)⟩

/-- C9: for every width and height in `[5, 100]`, even as well as odd, and
every sequence of random draws, `generatePerfectMaze` with
`RECURSIVE_BACKTRACKING` ends and leaves a grid in which the goal
`(width - 2, height - 2)` can be reached from the start `(1, 1)`; the
breadth-first search from its start to its goal returns a path that is not
empty, a valid path from start to goal. -/
theorem recursive_backtracking_goal_reachable (w h : Int) (rng : Rng) (m : Maze)
    (fuel elapsed : Nat) (hw : 5 ≤ w ∧ w ≤ 100) (hh : 5 ≤ h ∧ h ≤ 100)
    (hfuel : 2 * (w.toNat * h.toNat) + 1 ≤ fuel) :
    ∃ m', Maze.generatePerfectMaze fuel rng m w h .RECURSIVE_BACKTRACKING = .ok (some m') ∧
      m'.Reachable ⟨1, 1⟩ ⟨w - 2, h - 2⟩ ∧
      ∃ r, BFSPathfinder.findPath fuel elapsed m' m'.start m'.goal = some r ∧
        r.path ≠ [] ∧ ValidPath m' ⟨1, 1⟩ ⟨w - 2, h - 2⟩ r.path := by
  obtain ⟨m', h1, h2, h3, h4, h5, h6, _, h8, n, hn⟩ :=
    Maze.generatePerfectMaze_backtracking w h rng m fuel hw hh hfuel
  have hv : m'.isValid 1 1 = true := by
    rw [Maze.isValid_iff, h2, h3]; omega
  have hopen : m'.isOpen ⟨1, 1⟩ = true := (Maze.isOpen_iff _ _).mpr ⟨hv, h6⟩
  obtain ⟨r, hr, _, _, _, hspec⟩ :=
    BFSPathfinder.bfs_findPath_spec m' ⟨1, 1⟩ ⟨w - 2, h - 2⟩ fuel elapsed
      (by unfold Maze.area; rw [h2, h3]; exact hfuel) hv
  have hvalid := ((hspec h8 hopen).1 n hn).1
  refine ⟨m', h1, (Maze.reachable_iff_stepsTo m' _ _ hopen).mpr ⟨n, hn⟩, r, ?_, hvalid.1, hvalid⟩
  rw [h4, h5]
  exact hr

/-- C9 at width 6 and height 8, on the default-constructed grid. -/
theorem recursive_backtracking_goal_reachable_witness :
    ((5 : Int) ≤ 6 ∧ (6 : Int) ≤ 100) ∧ ((5 : Int) ≤ 8 ∧ (8 : Int) ≤ 100) ∧
    2 * ((6 : Int).toNat * (8 : Int).toNat) + 1 ≤ 97 ∧
    ∃ m', Maze.generatePerfectMaze 97 (fun n => 3 * n) defaultMaze 6 8
        .RECURSIVE_BACKTRACKING = .ok (some m') ∧
      m'.Reachable ⟨1, 1⟩ ⟨6 - 2, 8 - 2⟩ ∧
      ∃ r, BFSPathfinder.findPath 97 0 m' m'.start m'.goal = some r ∧
        r.path ≠ [] ∧ ValidPath m' ⟨1, 1⟩ ⟨6 - 2, 8 - 2⟩ r.path :=
  ⟨by decide, by decide, by decide,
    recursive_backtracking_goal_reachable 6 8 (fun n => 3 * n) defaultMaze 97 0
      (by decide) (by decide) (by decide)⟩

/-- C10, the code at a failing input: `generatePerfectMaze(5, 5,
RANDOMIZED_PRIMS)` with the raw draws 1, 2, 3, ... leaves a grid whose only
open cells are the drawn cell `(3, 2)`, the start `(1, 1)` and the goal
`(3, 3)`; the breadth-first search from start to goal explores one cell and
returns the empty path. -/
theorem prims_leaves_goal_unreachable :
    primsExample.map (fun m' =>
      (m'.cells.filter (fun c => !m'.wall c),
        (BFSPathfinder.findPath 51 0 m' m'.start m'.goal).map fun r => (r.path, r.stats))) =
      some ([⟨1, 1⟩, ⟨3, 2⟩, ⟨3, 3⟩], some ([], ⟨0, 1, 0⟩)) := by
  decide

/-! ## The constructor, the neighbours and `reset` -/

namespace Maze

theorem grid_length (m : Maze) : m.grid.length = m.height.toNat := by
  simp [grid]

theorem grid_row_length (m : Maze) (row : List Cell) (h : row ∈ m.grid) :
    row.length = m.width.toNat := by
  simp only [grid, List.mem_map, List.mem_range] at h
  obtain ⟨y, _, rfl⟩ := h
  simp

theorem grid_get (m : Maze) (x y : Nat) (hx : (x : Int) < m.width) (hy : (y : Int) < m.height) :
    (m.grid[y]?).bind (fun row => row[x]?) = some (m.cellAt ⟨x, y⟩) := by
  have hy' : y < m.height.toNat := by omega
  have hx' : x < m.width.toNat := by omega
  simp [grid, List.getElem?_map, List.getElem?_range hy', List.getElem?_range hx']

theorem reset_reset (m : Maze) : m.reset.reset = m.reset := by
  simp only [reset, isValid]
  congr 1 <;> funext c <;> split <;> rfl

end Maze

/-! ## What a search changes in the grid -/

namespace Maze

theorem MarkedFrom.refl (m : Maze) : MarkedFrom m m :=
  ⟨rfl, rfl, rfl, rfl, rfl, rfl, fun _ h => h, fun _ h => Or.inl h⟩

theorem MarkedFrom.mark {m0 m : Maze} (h : MarkedFrom m0 m) (c : Coordinate)
    (hc : m0.isValid c.x c.y = true) : MarkedFrom m0 (m.setVisited c true) := by
  refine ⟨h.width, h.height, h.wall, h.path, h.start, h.goal, ?_, ?_⟩
  · intro k hk
    simp only [setVisited]
    split
    · rfl
    · exact h.kept k hk
  · intro k hk
    simp only [setVisited] at hk
    split at hk
    · rename_i hkc
      subst hkc
      exact Or.inr hc
    · exact h.inside k hk

theorem MarkedFrom.isValid {m0 m : Maze} (h : MarkedFrom m0 m) (x y : Int) :
    m.isValid x y = m0.isValid x y := by
  simp [Maze.isValid, h.width, h.height]

theorem MarkedFrom.neighbors_valid {m0 m : Maze} (h : MarkedFrom m0 m) (c n : Coordinate)
    (hn : n ∈ m.getNeighbors c) : m0.isValid n.x n.y = true := by
  rw [← h.isValid]
  exact ((isOpen_iff _ _).mp ((mem_getNeighbors _ _ _).mp hn).1).1

/-- After a search, `reset` gives back the grid that `reset` gave before it. -/
theorem MarkedFrom.reset_eq {m0 m : Maze} (h : MarkedFrom m0 m) : m.reset = m0.reset := by
  have hv := h.isValid
  obtain ⟨hw, hh, hwall, hpath, hs, hg, hkept, hin⟩ := h
  obtain ⟨w, ht, wa, vi, pa, st, go⟩ := m
  obtain ⟨w0, ht0, wa0, vi0, pa0, st0, go0⟩ := m0
  simp only at hw hh hwall hpath hs hg hkept hin
  subst hw hh hwall hpath hs hg
  simp only [reset, mk.injEq, true_and, and_true]
  refine ⟨?_, ?_⟩
  · funext c
    show (if Maze.isValid ⟨w, ht, wa, vi0, pa, st, go⟩ c.x c.y = true then false else vi c) =
      (if Maze.isValid ⟨w, ht, wa, vi0, pa, st, go⟩ c.x c.y = true then false else vi0 c)
    by_cases hc : Maze.isValid ⟨w, ht, wa, vi0, pa, st, go⟩ c.x c.y = true
    · rw [if_pos hc, if_pos hc]
    · rw [if_neg hc, if_neg hc]
      cases h1 : vi c with
      | true =>
        rcases hin c h1 with h2 | h2
        · exact h2.symm
        · exact absurd h2 hc
      | false =>
        cases h2 : vi0 c with
        | true => rw [hkept c h2] at h1; cases h1
        | false => rfl
  · rfl

end Maze

/-! ## The searches only set visited flags -/

theorem BFSPathfinder.bfs_foldl_markedFrom (m0 : Maze) (cur : Coordinate) :
    ∀ (l : List Coordinate) (s : BFSPathfinder.State),
      (∀ n ∈ l, m0.isValid n.x n.y = true) → m0.MarkedFrom s.maze →
      m0.MarkedFrom (l.foldl (BFSPathfinder.visitNeighbor cur) s).maze := by
  intro l
  induction l with
  | nil => intro s _ h; exact h
  | cons a l ih =>
    intro s hl h
    rw [List.foldl_cons]
    apply ih _ (fun n hn => hl n (List.mem_cons_of_mem _ hn))
    unfold BFSPathfinder.visitNeighbor
    split
    · exact h.mark a (hl a (List.mem_cons_self _ _))
    · exact h

theorem BFSPathfinder.bfs_body_markedFrom (m0 : Maze) (goal : Coordinate)
    (s : BFSPathfinder.State) (h : m0.MarkedFrom s.maze) :
    m0.MarkedFrom (BFSPathfinder.body goal s).maze := by
  unfold BFSPathfinder.body
  split
  · exact h
  · rename_i current rest _
    simp only
    split
    · exact h
    · exact BFSPathfinder.bfs_foldl_markedFrom m0 current _ _
        (fun n hn => h.neighbors_valid current n hn) h

theorem BFSPathfinder.bfs_findPath_markedFrom (maze : Maze) (start goal : Coordinate)
    (fuel elapsed : Nat) (r : SearchResult) (hv : maze.isValid start.x start.y = true)
    (hr : BFSPathfinder.findPath fuel elapsed maze (some start) (some goal) = some r) :
    maze.MarkedFrom r.maze := by
  simp only [BFSPathfinder.findPath, Option.bind_eq_some, Option.map_eq_some'] at hr
  obtain ⟨s, hs, p, _, rfl⟩ := hr
  exact (whileLoop_inv _ _ (fun (s : BFSPathfinder.State) => maze.MarkedFrom s.maze)
    (fun s h _ => BFSPathfinder.bfs_body_markedFrom maze goal s h) fuel _ s
    ((Maze.MarkedFrom.refl maze).mark start hv) hs).1

theorem DFSPathfinder.dfs_foldl_markedFrom (m0 : Maze) (cur : Coordinate) :
    ∀ (l : List Coordinate) (s : DFSPathfinder.State),
      (∀ n ∈ l, m0.isValid n.x n.y = true) → m0.MarkedFrom s.maze →
      m0.MarkedFrom (l.foldl (DFSPathfinder.visitNeighbor cur) s).maze := by
  intro l
  induction l with
  | nil => intro s _ h; exact h
  | cons a l ih =>
    intro s hl h
    rw [List.foldl_cons]
    apply ih _ (fun n hn => hl n (List.mem_cons_of_mem _ hn))
    unfold DFSPathfinder.visitNeighbor
    split
    · exact h.mark a (hl a (List.mem_cons_self _ _))
    · exact h

theorem DFSPathfinder.dfs_body_markedFrom (m0 : Maze) (goal : Coordinate)
    (s : DFSPathfinder.State) (h : m0.MarkedFrom s.maze) :
    m0.MarkedFrom (DFSPathfinder.body goal s).maze := by
  unfold DFSPathfinder.body
  split
  · exact h
  · rename_i current rest _
    simp only
    split
    · exact h
    · exact DFSPathfinder.dfs_foldl_markedFrom m0 current _ _
        (fun n hn => h.neighbors_valid current n hn) h

theorem DFSPathfinder.dfs_findPath_markedFrom (maze : Maze) (start goal : Coordinate)
    (fuel elapsed : Nat) (r : SearchResult) (hv : maze.isValid start.x start.y = true)
    (hr : DFSPathfinder.findPath fuel elapsed maze (some start) (some goal) = some r) :
    maze.MarkedFrom r.maze := by
  simp only [DFSPathfinder.findPath, Option.bind_eq_some, Option.map_eq_some'] at hr
  obtain ⟨s, hs, p, _, rfl⟩ := hr
  exact (whileLoop_inv _ _ (fun (s : DFSPathfinder.State) => maze.MarkedFrom s.maze)
    (fun s h _ => DFSPathfinder.dfs_body_markedFrom maze goal s h) fuel _ s
    ((Maze.MarkedFrom.refl maze).mark start hv) hs).1

theorem DijkstraPathfinder.dijkstra_foldl_keeps (current : DijkstraPathfinder.Node) :
    ∀ (l : List Coordinate) (s : DijkstraPathfinder.State),
      (l.foldl (DijkstraPathfinder.relax current) s).maze = s.maze ∧
      (l.foldl (DijkstraPathfinder.relax current) s).visited = s.visited ∧
      (l.foldl (DijkstraPathfinder.relax current) s).nodesExplored = s.nodesExplored ∧
      (l.foldl (DijkstraPathfinder.relax current) s).found = s.found ∧
      (l.foldl (DijkstraPathfinder.relax current) s).notified = s.notified ∧
      ∀ n ∈ (l.foldl (DijkstraPathfinder.relax current) s).pq, n ∈ s.pq ∨ n.cell ∈ l := by
  intro l
  induction l with
  | nil => intro s; simp
  | cons a l ih =>
    intro s
    rw [List.foldl_cons]
    obtain ⟨h1, h2, h3, h4, h5, h6⟩ := ih (DijkstraPathfinder.relax current s a)
    rw [h1, h2, h3, h4, h5]
    rw [DijkstraPathfinder.dijkstra_relax_eq] at h6 ⊢
    split
    · refine ⟨rfl, rfl, rfl, rfl, rfl, ?_⟩
      intro n hn
      rename_i himp
      rw [if_pos himp] at h6
      rcases h6 n hn with h | h
      · simp only [List.mem_append, List.mem_singleton] at h
        rcases h with h | h
        · exact Or.inl h
        · subst h; exact Or.inr (List.mem_cons_self _ _)
      · exact Or.inr (List.mem_cons_of_mem _ h)
    · rename_i himp
      rw [if_neg himp] at h6
      refine ⟨rfl, rfl, rfl, rfl, rfl, ?_⟩
      intro n hn
      rcases h6 n hn with h | h
      · exact Or.inl h
      · exact Or.inr (List.mem_cons_of_mem _ h)

theorem AStarPathfinder.astar_foldl_keeps (goal : Coordinate) (current : AStarPathfinder.Node) :
    ∀ (l : List Coordinate) (s : AStarPathfinder.State),
      (l.foldl (AStarPathfinder.relax goal current) s).maze = s.maze ∧
      (l.foldl (AStarPathfinder.relax goal current) s).closedSet = s.closedSet ∧
      (l.foldl (AStarPathfinder.relax goal current) s).nodesExplored = s.nodesExplored ∧
      (l.foldl (AStarPathfinder.relax goal current) s).found = s.found ∧
      (l.foldl (AStarPathfinder.relax goal current) s).notified = s.notified ∧
      ∀ n ∈ (l.foldl (AStarPathfinder.relax goal current) s).openSet,
        n ∈ s.openSet ∨ n.cell ∈ l := by
  intro l
  induction l with
  | nil => intro s; simp
  | cons a l ih =>
    intro s
    rw [List.foldl_cons]
    obtain ⟨h1, h2, h3, h4, h5, h6⟩ := ih (AStarPathfinder.relax goal current s a)
    rw [h1, h2, h3, h4, h5]
    rw [AStarPathfinder.astar_relax_eq] at h6 ⊢
    split
    · refine ⟨rfl, rfl, rfl, rfl, rfl, ?_⟩
      intro n hn
      rename_i himp
      rw [if_pos himp] at h6
      rcases h6 n hn with h | h
      · simp only [List.mem_append, List.mem_singleton] at h
        rcases h with h | h
        · exact Or.inl h
        · subst h; exact Or.inr (List.mem_cons_self _ _)
      · exact Or.inr (List.mem_cons_of_mem _ h)
    · rename_i himp
      rw [if_neg himp] at h6
      refine ⟨rfl, rfl, rfl, rfl, rfl, ?_⟩
      intro n hn
      rcases h6 n hn with h | h
      · exact Or.inl h
      · exact Or.inr (List.mem_cons_of_mem _ h)

theorem DijkstraPathfinder.dijkstra_body_markedFrom (m0 : Maze) (goal : Coordinate)
    (s : DijkstraPathfinder.State)
    (h : m0.MarkedFrom s.maze ∧ ∀ n ∈ s.pq, m0.isValid n.cell.x n.cell.y = true) :
    m0.MarkedFrom (DijkstraPathfinder.body goal s).maze ∧
      ∀ n ∈ (DijkstraPathfinder.body goal s).pq, m0.isValid n.cell.x n.cell.y = true := by
  obtain ⟨hm, hq⟩ := h
  unfold DijkstraPathfinder.body
  split
  · exact ⟨hm, hq⟩
  · rename_i current rest hpop
    have hperm := (PriorityQueue.pop_spec _ _ _ _ _ hpop).1
    have hcur : m0.isValid current.cell.x current.cell.y = true :=
      hq current (hperm.mem_iff.mpr (List.mem_cons_self _ _))
    have hrest : ∀ n ∈ rest, m0.isValid n.cell.x n.cell.y = true :=
      fun n hn => hq n (hperm.mem_iff.mpr (List.mem_cons_of_mem _ hn))
    simp only
    split
    · exact ⟨hm, hrest⟩
    · have hm1 := hm.mark current.cell hcur
      split
      · exact ⟨hm1, hrest⟩
      · obtain ⟨h1, _, _, _, _, h6⟩ := DijkstraPathfinder.dijkstra_foldl_keeps current
          ((s.maze.setVisited current.cell true).getNeighbors current.cell)
          { s with pq := rest, ties := fun n => s.ties (n + 1)
                   visited := current.cell :: s.visited
                   maze := s.maze.setVisited current.cell true
                   nodesExplored := s.nodesExplored + 1
                   notified := s.notified ++
                    [(s.maze.setVisited current.cell true).cellAt current.cell] }
        refine ⟨by rw [h1]; exact hm1, ?_⟩
        intro n hn
        rcases h6 n hn with h | h
        · exact hrest n h
        · exact hm1.neighbors_valid current.cell n.cell h

theorem DijkstraPathfinder.dijkstra_findPath_markedFrom (maze : Maze) (start goal : Coordinate)
    (fuel elapsed : Nat) (ties : Nat → Nat) (r : SearchResult)
    (hv : maze.isValid start.x start.y = true)
    (hr : DijkstraPathfinder.findPath fuel elapsed ties maze (some start) (some goal) = some r) :
    maze.MarkedFrom r.maze := by
  simp only [DijkstraPathfinder.findPath, Option.bind_eq_some, Option.map_eq_some'] at hr
  obtain ⟨s, hs, p, _, rfl⟩ := hr
  exact (whileLoop_inv _ _
    (fun (s : DijkstraPathfinder.State) =>
      maze.MarkedFrom s.maze ∧ ∀ n ∈ s.pq, maze.isValid n.cell.x n.cell.y = true)
    (fun s h _ => DijkstraPathfinder.dijkstra_body_markedFrom maze goal s h) fuel _ s
    ⟨Maze.MarkedFrom.refl maze, by
      intro n hn
      simp only [DijkstraPathfinder.init, List.mem_singleton] at hn
      subst hn
      exact hv⟩ hs).1.1

theorem AStarPathfinder.astar_body_markedFrom (m0 : Maze) (goal : Coordinate)
    (s : AStarPathfinder.State)
    (h : m0.MarkedFrom s.maze ∧ ∀ n ∈ s.openSet, m0.isValid n.cell.x n.cell.y = true) :
    m0.MarkedFrom (AStarPathfinder.body goal s).maze ∧
      ∀ n ∈ (AStarPathfinder.body goal s).openSet, m0.isValid n.cell.x n.cell.y = true := by
  obtain ⟨hm, hq⟩ := h
  unfold AStarPathfinder.body
  split
  · exact ⟨hm, hq⟩
  · rename_i current rest hpop
    have hperm := (PriorityQueue.pop_spec _ _ _ _ _ hpop).1
    have hcur : m0.isValid current.cell.x current.cell.y = true :=
      hq current (hperm.mem_iff.mpr (List.mem_cons_self _ _))
    have hrest : ∀ n ∈ rest, m0.isValid n.cell.x n.cell.y = true :=
      fun n hn => hq n (hperm.mem_iff.mpr (List.mem_cons_of_mem _ hn))
    simp only
    split
    · exact ⟨hm, hrest⟩
    · have hm1 := hm.mark current.cell hcur
      split
      · exact ⟨hm1, hrest⟩
      · obtain ⟨h1, _, _, _, _, h6⟩ := AStarPathfinder.astar_foldl_keeps goal current
          ((s.maze.setVisited current.cell true).getNeighbors current.cell)
          { s with openSet := rest, ties := fun n => s.ties (n + 1)
                   closedSet := current.cell :: s.closedSet
                   maze := s.maze.setVisited current.cell true
                   nodesExplored := s.nodesExplored + 1
                   notified := s.notified ++
                    [(s.maze.setVisited current.cell true).cellAt current.cell] }
        refine ⟨by rw [h1]; exact hm1, ?_⟩
        intro n hn
        rcases h6 n hn with h | h
        · exact hrest n h
        · exact hm1.neighbors_valid current.cell n.cell h

theorem AStarPathfinder.astar_findPath_markedFrom (maze : Maze) (start goal : Coordinate)
    (fuel elapsed : Nat) (ties : Nat → Nat) (r : SearchResult)
    (hv : maze.isValid start.x start.y = true)
    (hr : AStarPathfinder.findPath fuel elapsed ties maze (some start) (some goal) = some r) :
    maze.MarkedFrom r.maze := by
  simp only [AStarPathfinder.findPath, Option.bind_eq_some, Option.map_eq_some'] at hr
  obtain ⟨s, hs, p, _, rfl⟩ := hr
  exact (whileLoop_inv _ _
    (fun (s : AStarPathfinder.State) =>
      maze.MarkedFrom s.maze ∧ ∀ n ∈ s.openSet, maze.isValid n.cell.x n.cell.y = true)
    (fun s h _ => AStarPathfinder.astar_body_markedFrom maze goal s h) fuel _ s
    ⟨Maze.MarkedFrom.refl maze, by
      intro n hn
      simp only [AStarPathfinder.init, List.mem_singleton] at hn
      subst hn
      exact hv⟩ hs).1.1

/-! ## Runs that differ in the measured time only -/

theorem finishSearch_elapsed (maze : Maze) (parent : Coordinate → Option Coordinate)
    (found : Bool) (n fuel e1 e2 : Nat) (goal : Coordinate) (r : List Cell × PathStats)
    (h : finishSearch maze parent found n fuel e1 goal = some r) :
    finishSearch maze parent found n fuel e2 goal = some (r.1, ⟨r.2.pathLength, r.2.nodesExplored, e2⟩) := by
  unfold finishSearch at h ⊢
  cases found with
  | false =>
    simp only [Bool.false_eq_true, if_false, Option.some.injEq] at h ⊢
    subst h
    rfl
  | true =>
    simp only [if_true, Option.map_eq_some'] at h ⊢
    obtain ⟨p, hp, rfl⟩ := h
    exact ⟨p, hp, rfl⟩

theorem BFSPathfinder.bfs_findPath_elapsed (maze : Maze) (start goal : Option Coordinate)
    (fuel e1 e2 : Nat) (r : SearchResult)
    (h : BFSPathfinder.findPath fuel e1 maze start goal = some r) :
    BFSPathfinder.findPath fuel e2 maze start goal =
      some ⟨r.path, ⟨r.stats.pathLength, r.stats.nodesExplored,
        if start.isSome && goal.isSome then e2 else 0⟩, r.maze, r.notified⟩ := by
  unfold BFSPathfinder.findPath at h ⊢
  cases start with
  | none => simp only [Option.some.injEq] at h ⊢; subst h; rfl
  | some start =>
    cases goal with
    | none => simp only [Option.some.injEq] at h ⊢; subst h; rfl
    | some goal =>
      simp only [Option.bind_eq_some, Option.map_eq_some'] at h ⊢
      obtain ⟨s, hs, p, hp, rfl⟩ := h
      exact ⟨s, hs, _, finishSearch_elapsed _ _ _ _ _ e1 e2 _ p hp, rfl⟩

theorem DFSPathfinder.dfs_findPath_elapsed (maze : Maze) (start goal : Option Coordinate)
    (fuel e1 e2 : Nat) (r : SearchResult)
    (h : DFSPathfinder.findPath fuel e1 maze start goal = some r) :
    DFSPathfinder.findPath fuel e2 maze start goal =
      some ⟨r.path, ⟨r.stats.pathLength, r.stats.nodesExplored,
        if start.isSome && goal.isSome then e2 else 0⟩, r.maze, r.notified⟩ := by
  unfold DFSPathfinder.findPath at h ⊢
  cases start with
  | none => simp only [Option.some.injEq] at h ⊢; subst h; rfl
  | some start =>
    cases goal with
    | none => simp only [Option.some.injEq] at h ⊢; subst h; rfl
    | some goal =>
      simp only [Option.bind_eq_some, Option.map_eq_some'] at h ⊢
      obtain ⟨s, hs, p, hp, rfl⟩ := h
      exact ⟨s, hs, _, finishSearch_elapsed _ _ _ _ _ e1 e2 _ p hp, rfl⟩

theorem DijkstraPathfinder.dijkstra_findPath_elapsed (maze : Maze)
    (start goal : Option Coordinate) (fuel e1 e2 : Nat) (ties : Nat → Nat) (r : SearchResult)
    (h : DijkstraPathfinder.findPath fuel e1 ties maze start goal = some r) :
    DijkstraPathfinder.findPath fuel e2 ties maze start goal =
      some ⟨r.path, ⟨r.stats.pathLength, r.stats.nodesExplored,
        if start.isSome && goal.isSome then e2 else 0⟩, r.maze, r.notified⟩ := by
  unfold DijkstraPathfinder.findPath at h ⊢
  cases start with
  | none => simp only [Option.some.injEq] at h ⊢; subst h; rfl
  | some start =>
    cases goal with
    | none => simp only [Option.some.injEq] at h ⊢; subst h; rfl
    | some goal =>
      simp only [Option.bind_eq_some, Option.map_eq_some'] at h ⊢
      obtain ⟨s, hs, p, hp, rfl⟩ := h
      exact ⟨s, hs, _, finishSearch_elapsed _ _ _ _ _ e1 e2 _ p hp, rfl⟩

theorem AStarPathfinder.astar_findPath_elapsed (maze : Maze)
    (start goal : Option Coordinate) (fuel e1 e2 : Nat) (ties : Nat → Nat) (r : SearchResult)
    (h : AStarPathfinder.findPath fuel e1 ties maze start goal = some r) :
    AStarPathfinder.findPath fuel e2 ties maze start goal =
      some ⟨r.path, ⟨r.stats.pathLength, r.stats.nodesExplored,
        if start.isSome && goal.isSome then e2 else 0⟩, r.maze, r.notified⟩ := by
  unfold AStarPathfinder.findPath at h ⊢
  cases start with
  | none => simp only [Option.some.injEq] at h ⊢; subst h; rfl
  | some start =>
    cases goal with
    | none => simp only [Option.some.injEq] at h ⊢; subst h; rfl
    | some goal =>
      simp only [Option.bind_eq_some, Option.map_eq_some'] at h ⊢
      obtain ⟨s, hs, p, hp, rfl⟩ := h
      exact ⟨s, hs, _, finishSearch_elapsed _ _ _ _ _ e1 e2 _ p hp, rfl⟩

/-! ## Every run ends and only sets visited flags -/

theorem BFSPathfinder.bfs_findPath_total (maze : Maze) (start goal : Option Coordinate)
    (fuel elapsed : Nat) (hstart : ∀ s, start = some s → maze.isValid s.x s.y = true)
    (hfuel : 2 * maze.area + 1 ≤ fuel) :
    ∃ r, BFSPathfinder.findPath fuel elapsed maze start goal = some r ∧
      maze.MarkedFrom r.maze := by
  cases start with
  | none => exact ⟨_, rfl, Maze.MarkedFrom.refl maze⟩
  | some start =>
    cases goal with
    | none => exact ⟨_, rfl, Maze.MarkedFrom.refl maze⟩
    | some goal =>
      obtain ⟨r, hr, _⟩ :=
        BFSPathfinder.bfs_findPath_spec maze start goal fuel elapsed hfuel (hstart start rfl)
      exact ⟨r, hr, BFSPathfinder.bfs_findPath_markedFrom maze start goal fuel elapsed r
        (hstart start rfl) hr⟩

theorem DFSPathfinder.dfs_findPath_total (maze : Maze) (start goal : Option Coordinate)
    (fuel elapsed : Nat) (hstart : ∀ s, start = some s → maze.isValid s.x s.y = true)
    (hfuel : 2 * maze.area + 1 ≤ fuel) :
    ∃ r, DFSPathfinder.findPath fuel elapsed maze start goal = some r ∧
      maze.MarkedFrom r.maze := by
  cases start with
  | none => exact ⟨_, rfl, Maze.MarkedFrom.refl maze⟩
  | some start =>
    cases goal with
    | none => exact ⟨_, rfl, Maze.MarkedFrom.refl maze⟩
    | some goal =>
      obtain ⟨r, hr, _⟩ :=
        DFSPathfinder.dfs_findPath_spec maze start goal fuel elapsed hfuel (hstart start rfl)
      exact ⟨r, hr, DFSPathfinder.dfs_findPath_markedFrom maze start goal fuel elapsed r
        (hstart start rfl) hr⟩

theorem DijkstraPathfinder.dijkstra_findPath_total (maze : Maze)
    (start goal : Option Coordinate) (fuel elapsed : Nat) (ties : Nat → Nat)
    (hstart : ∀ s, start = some s → maze.isValid s.x s.y = true)
    (hfuel : 5 * maze.area + 1 ≤ fuel) :
    ∃ r, DijkstraPathfinder.findPath fuel elapsed ties maze start goal = some r ∧
      maze.MarkedFrom r.maze := by
  cases start with
  | none => exact ⟨_, rfl, Maze.MarkedFrom.refl maze⟩
  | some start =>
    cases goal with
    | none => exact ⟨_, rfl, Maze.MarkedFrom.refl maze⟩
    | some goal =>
      obtain ⟨r, hr, _⟩ := DijkstraPathfinder.dijkstra_findPath_spec maze start goal fuel
        elapsed ties hfuel (hstart start rfl)
      exact ⟨r, hr, DijkstraPathfinder.dijkstra_findPath_markedFrom maze start goal fuel
        elapsed ties r (hstart start rfl) hr⟩

theorem AStarPathfinder.astar_findPath_total (maze : Maze)
    (start goal : Option Coordinate) (fuel elapsed : Nat) (ties : Nat → Nat)
    (hstart : ∀ s, start = some s → maze.isValid s.x s.y = true)
    (hfuel : 5 * maze.area + 1 ≤ fuel) :
    ∃ r, AStarPathfinder.findPath fuel elapsed ties maze start goal = some r ∧
      maze.MarkedFrom r.maze := by
  cases start with
  | none => exact ⟨_, rfl, Maze.MarkedFrom.refl maze⟩
  | some start =>
    cases goal with
    | none => exact ⟨_, rfl, Maze.MarkedFrom.refl maze⟩
    | some goal =>
      obtain ⟨r, hr, _⟩ := AStarPathfinder.astar_findPath_spec maze start goal fuel
        elapsed ties hfuel (hstart start rfl)
      exact ⟨r, hr, AStarPathfinder.astar_findPath_markedFrom maze start goal fuel
        elapsed ties r (hstart start rfl) hr⟩

/-! ## Lengths of paths -/

theorem manhattan_triangle (a b c : Coordinate) : manhattan a c ≤ manhattan a b + manhattan b c := by
  unfold manhattan
  omega

theorem Maze.StepsTo.manhattan_le {m : Maze} {a b : Coordinate} {n : Nat}
    (h : m.StepsTo a n b) : manhattan a b ≤ n := by
  induction h with
  | zero => simp [manhattan]
  | @step n c d _ hd ih =>
    have h1 := ((Maze.mem_getNeighbors m c d).mp hd).2
    have := manhattan_triangle a c d
    omega

/-- A valid path has at least one cell more than the Manhattan distance of
its ends. -/
theorem ValidPath.length_ge {m : Maze} {a b : Coordinate} {path : List Cell}
    (h : ValidPath m a b path) : manhattan a b + 1 ≤ path.length := by
  obtain ⟨hne, hc, _⟩ := h
  have h1 := (Maze.stepsTo_of_connects m a b _ hc).manhattan_le
  have h2 : 0 < path.length := List.length_pos.mpr hne
  rw [List.length_map] at h1
  omega

/-! ## The empty 7x7 room -/

theorem emptyRoom_unvisited : emptyRoom.Unvisited := fun _ _ => rfl

theorem emptyRoom_stepsTo : emptyRoom.StepsTo ⟨1, 1⟩ 8 ⟨5, 5⟩ :=
  Maze.stepsTo_of_connects emptyRoom ⟨1, 1⟩ ⟨5, 5⟩
    [⟨1, 1⟩, ⟨2, 1⟩, ⟨3, 1⟩, ⟨4, 1⟩, ⟨5, 1⟩, ⟨5, 2⟩, ⟨5, 3⟩, ⟨5, 4⟩, ⟨5, 5⟩]
    ⟨⟨by decide, by simp [manhattan]⟩, by decide, by decide⟩

theorem emptyRoom_bfs (fuel elapsed : Nat) (hfuel : 99 ≤ fuel) :
    ∃ r, BFSPathfinder.findPath fuel elapsed emptyRoom (some ⟨1, 1⟩) (some ⟨5, 5⟩) = some r ∧
      ValidPath emptyRoom ⟨1, 1⟩ ⟨5, 5⟩ r.path ∧ r.path.length = 9 ∧
      r.stats.pathLength = 9 := by
  obtain ⟨r, hr, _, _, hlen, h⟩ := BFSPathfinder.bfs_findPath_spec emptyRoom ⟨1, 1⟩ ⟨5, 5⟩
    fuel elapsed (by simpa [Maze.area, emptyRoom] using hfuel) (by decide)
  obtain ⟨hvalid, hle⟩ := (h emptyRoom_unvisited (by decide)).1 8 emptyRoom_stepsTo
  have hge := hvalid.length_ge
  have hm : manhattan ⟨1, 1⟩ ⟨5, 5⟩ = 8 := by decide
  have : r.path.length = 9 := by omega
  exact ⟨r, hr, hvalid, this, by rw [hlen, this]⟩

theorem emptyRoom_dfs (fuel elapsed : Nat) (hfuel : 99 ≤ fuel) :
    ∃ r, DFSPathfinder.findPath fuel elapsed emptyRoom (some ⟨1, 1⟩) (some ⟨5, 5⟩) = some r ∧
      ValidPath emptyRoom ⟨1, 1⟩ ⟨5, 5⟩ r.path ∧ 9 ≤ r.path.length ∧
      9 ≤ r.stats.pathLength := by
  obtain ⟨r, hr, _, _, hlen, h⟩ := DFSPathfinder.dfs_findPath_spec emptyRoom ⟨1, 1⟩ ⟨5, 5⟩
    fuel elapsed (by simpa [Maze.area, emptyRoom] using hfuel) (by decide)
  have hvalid := (h emptyRoom_unvisited (by decide)).1 8 emptyRoom_stepsTo
  have hge := hvalid.length_ge
  have hm : manhattan ⟨1, 1⟩ ⟨5, 5⟩ = 8 := by decide
  have : 9 ≤ r.path.length := by omega
  exact ⟨r, hr, hvalid, this, by rw [hlen]; exact this⟩

theorem emptyRoom_dijkstra (fuel elapsed : Nat) (ties : Nat → Nat) (hfuel : 246 ≤ fuel) :
    ∃ r, DijkstraPathfinder.findPath fuel elapsed ties emptyRoom (some ⟨1, 1⟩) (some ⟨5, 5⟩) =
        some r ∧
      ValidPath emptyRoom ⟨1, 1⟩ ⟨5, 5⟩ r.path ∧ r.path.length = 9 ∧
      r.stats.pathLength = 9 := by
  obtain ⟨r, hr, _, _, hlen, h⟩ := DijkstraPathfinder.dijkstra_findPath_spec emptyRoom
    ⟨1, 1⟩ ⟨5, 5⟩ fuel elapsed ties (by simpa [Maze.area, emptyRoom] using hfuel) (by decide)
  obtain ⟨hvalid, hle⟩ := (h (by decide)).1 8 emptyRoom_stepsTo
  have hge := hvalid.length_ge
  have hm : manhattan ⟨1, 1⟩ ⟨5, 5⟩ = 8 := by decide
  have : r.path.length = 9 := by omega
  exact ⟨r, hr, hvalid, this, by rw [hlen, this]⟩

theorem emptyRoom_astar (fuel elapsed : Nat) (ties : Nat → Nat) (hfuel : 246 ≤ fuel) :
    ∃ r, AStarPathfinder.findPath fuel elapsed ties emptyRoom (some ⟨1, 1⟩) (some ⟨5, 5⟩) =
        some r ∧
      ValidPath emptyRoom ⟨1, 1⟩ ⟨5, 5⟩ r.path ∧ r.path.length = 9 ∧
      r.stats.pathLength = 9 := by
  obtain ⟨r, hr, _, _, hlen, h⟩ := AStarPathfinder.astar_findPath_spec emptyRoom
    ⟨1, 1⟩ ⟨5, 5⟩ fuel elapsed ties (by simpa [Maze.area, emptyRoom] using hfuel) (by decide)
  obtain ⟨hvalid, hle⟩ := (h (by decide)).1 8 emptyRoom_stepsTo
  have hge := hvalid.length_ge
  have hm : manhattan ⟨1, 1⟩ ⟨5, 5⟩ = 8 := by decide
  have : r.path.length = 9 := by omega
  exact ⟨r, hr, hvalid, this, by rw [hlen, this]⟩

/-! ## The calls of the visit callback in the marking searches -/

theorem MarkStep.frontier_perm {fifo : Bool} {goal : Coordinate} {s t : MarkState}
    {current : Coordinate} {rest : List Coordinate}
    (hstep : MarkStep fifo goal s t current rest) :
    t.frontier.Perm (rest ++ if current = goal then [] else s.fresh current) := by
  rw [hstep.frontier]
  by_cases hg : current = goal
  · simp [hg]
  · simp only [hg, if_false]
    cases fifo with
    | true => simp
    | false =>
      simp only [Bool.false_eq_true, if_false]
      exact List.perm_append_comm.trans (List.Perm.append_left _ (List.reverse_perm _))

theorem MarkNotified.mark_notified_step {fifo : Bool} {start goal : Coordinate} {s t : MarkState}
    {current : Coordinate} {rest : List Coordinate} {notified : List Cell}
    (hstep : MarkStep fifo goal s t current rest) (h : MarkNotified start goal s notified)
    (hnf : s.found = false) :
    MarkNotified start goal t (notified ++ [s.maze.cellAt current]) := by
  have hold := h.nodup
  have hmarked := h.marked
  rw [hstep.frontier_eq] at hold hmarked
  have hcur : s.maze.visited current = true := hmarked current (by simp)
  have hmono : ∀ c, s.maze.visited c = true → t.maze.visited c = true := by
    intro c hc
    rw [hstep.visited c, hc]
    rfl
  have hnew : ∀ c ∈ (if current = goal then [] else s.fresh current),
      s.maze.visited c = false ∧ t.maze.visited c = true := by
    intro c hc
    by_cases hg : current = goal
    · simp [hg] at hc
    · simp only [hg, if_false] at hc
      refine ⟨((s.mem_fresh current c).mp hc).2, ?_⟩
      rw [hstep.visited c]
      simp [hg, hc]
  have hperm : ((notified ++ [s.maze.cellAt current]).map Cell.coords ++ t.frontier).Perm
      ((notified.map Cell.coords ++ current :: rest) ++
        if current = goal then [] else s.fresh current) := by
    have h1 : (notified ++ [s.maze.cellAt current]).map Cell.coords =
        notified.map Cell.coords ++ [current] := by simp [Maze.cellAt]
    rw [h1]
    refine (List.Perm.append_left _ hstep.frontier_perm).trans ?_
    simp
  refine ⟨?_, ?_, ?_, ?_, ?_, ?_⟩
  · rw [List.length_append, h.count, hstep.explored]
    rfl
  · intro c hc
    rcases List.mem_append.mp (hperm.mem_iff.mp hc) with hc | hc
    · exact hmono c (hmarked c hc)
    · exact (hnew c hc).2
  · rw [hperm.nodup_iff]
    refine List.Nodup.append hold ?_ ?_
    · by_cases hg : current = goal
      · simp [hg]
      · simp only [hg, if_false]
        exact s.fresh_nodup current
    · intro c hc1 hc2
      have := hmarked c hc1
      rw [(hnew c hc2).1] at this
      cases this
  · intro c hc
    rcases List.mem_append.mp hc with hc | hc
    · exact h.flagged c hc
    · rw [List.mem_singleton] at hc
      subst hc
      exact hcur
  · left
    rcases h.first with hf | ⟨hn, hfr, _⟩
    · cases notified with
      | nil => simp at hf
      | cons a l => simpa using hf
    · rw [hstep.frontier_eq] at hfr
      simp only [List.cons.injEq] at hfr
      subst hn
      simp [Maze.cellAt, hfr.1]
  · intro hf
    rw [hstep.found, hnf] at hf
    simp only [Bool.false_or, decide_eq_true_eq] at hf
    simp [Maze.cellAt, hf]

theorem MarkNotified.mark_notified_init (maze : Maze) (start goal : Coordinate) :
    MarkNotified start goal ⟨maze.setVisited start true, [start], fun _ => none, 0, false⟩ [] := by
  refine ⟨rfl, ?_, ?_, ?_, Or.inr ⟨rfl, rfl, rfl⟩, ?_⟩
  · intro c hc
    simp only [List.map_nil, List.nil_append, List.mem_singleton] at hc
    subst hc
    simp [Maze.setVisited]
  · simp
  · simp
  · intro hf
    cases hf

/-- What the invariant gives when the loop has ended. -/
theorem MarkNotified.mark_notified_final {start goal : Coordinate} {s : MarkState} {notified : List Cell}
    (h : MarkNotified start goal s notified) (hend : s.frontier = [] ∨ s.found = true) :
    notified.length = s.nodesExplored ∧ (notified.map Cell.coords).Nodup ∧
    notified.head?.map Cell.coords = some start ∧ (∀ c ∈ notified, c.visited = true) ∧
    (s.found = true → notified.getLast?.map Cell.coords = some goal) := by
  refine ⟨h.count, (List.nodup_append.mp h.nodup).1, ?_, h.flagged, h.last⟩
  rcases h.first with hf | ⟨_, hfr, hnf⟩
  · exact hf
  · rcases hend with he | he
    · rw [he] at hfr; cases hfr
    · rw [he] at hnf; cases hnf

theorem finishSearch_explored (maze : Maze) (parent : Coordinate → Option Coordinate)
    (found : Bool) (n fuel elapsed : Nat) (goal : Coordinate) (p : List Cell × PathStats)
    (h : finishSearch maze parent found n fuel elapsed goal = some p) :
    p.2.nodesExplored = n ∧ (p.1 ≠ [] → found = true) := by
  unfold finishSearch at h
  cases found with
  | false =>
    simp only [Bool.false_eq_true, if_false, Option.some.injEq] at h
    subst h
    exact ⟨rfl, fun hne => absurd rfl hne⟩
  | true =>
    simp only [if_true, Option.map_eq_some'] at h
    obtain ⟨path, _, rfl⟩ := h
    exact ⟨rfl, fun _ => rfl⟩

theorem BFSPathfinder.bfs_body_notified (goal : Coordinate) (s : BFSPathfinder.State)
    (current : Coordinate) (rest : List Coordinate) (hq : s.queue = current :: rest) :
    (BFSPathfinder.body goal s).notified = s.notified ++ [s.maze.cellAt current] := by
  by_cases hg : current = goal
  · simp [BFSPathfinder.body, hq, hg]
  · have hb : BFSPathfinder.body goal s =
        (s.maze.getNeighbors current).foldl (BFSPathfinder.visitNeighbor current)
          { s with queue := rest, nodesExplored := s.nodesExplored + 1,
                   notified := s.notified ++ [s.maze.cellAt current] } := by
      simp [BFSPathfinder.body, hq, hg]
    rw [hb]
    exact (BFSPathfinder.bfs_foldl_visitNeighbor current (s.maze.getNeighbors current) _
      (Maze.getNeighbors_nodup _ _)).2.2.2.2.2.2.2.2

theorem DFSPathfinder.dfs_body_notified (goal : Coordinate) (s : DFSPathfinder.State)
    (current : Coordinate) (rest : List Coordinate) (hq : s.stack = current :: rest) :
    (DFSPathfinder.body goal s).notified = s.notified ++ [s.maze.cellAt current] := by
  by_cases hg : current = goal
  · simp [DFSPathfinder.body, hq, hg]
  · have hb : DFSPathfinder.body goal s =
        (s.maze.getNeighbors current).foldl (DFSPathfinder.visitNeighbor current)
          { s with stack := rest, nodesExplored := s.nodesExplored + 1,
                   notified := s.notified ++ [s.maze.cellAt current] } := by
      simp [DFSPathfinder.body, hq, hg]
    rw [hb]
    exact (DFSPathfinder.dfs_foldl_visitNeighbor current (s.maze.getNeighbors current) _
      (Maze.getNeighbors_nodup _ _)).2.2.2.2.2.2.2.2

theorem BFSPathfinder.bfs_findPath_notified (maze : Maze) (start goal : Coordinate)
    (fuel elapsed : Nat) (r : SearchResult)
    (hr : BFSPathfinder.findPath fuel elapsed maze (some start) (some goal) = some r) :
    r.notified.length = r.stats.nodesExplored ∧ (r.notified.map Cell.coords).Nodup ∧
    r.notified.head?.map Cell.coords = some start ∧ (∀ c ∈ r.notified, c.visited = true) ∧
    (r.path ≠ [] → r.notified.getLast?.map Cell.coords = some goal) := by
  simp only [BFSPathfinder.findPath, Option.bind_eq_some, Option.map_eq_some'] at hr
  obtain ⟨s, hs, p, hp, rfl⟩ := hr
  obtain ⟨hinv, hend⟩ := whileLoop_inv (fun (s : BFSPathfinder.State) => !s.queue.isEmpty && !s.found)
    (BFSPathfinder.body goal)
    (fun (s : BFSPathfinder.State) => MarkNotified start goal s.mark s.notified)
    (by
      intro s h hcond
      simp only [Bool.and_eq_true, Bool.not_eq_true', List.isEmpty_eq_false] at hcond
      obtain ⟨hne, hnf⟩ := hcond
      obtain ⟨current, rest, hq⟩ := List.exists_cons_of_ne_nil hne
      have hstep := BFSPathfinder.bfs_body_markStep goal s current rest hq
      have := MarkNotified.mark_notified_step hstep h hnf
      rw [BFSPathfinder.bfs_body_notified goal s current rest hq]
      exact this)
    fuel (BFSPathfinder.init maze start) s (MarkNotified.mark_notified_init maze start goal) hs
  have hend' : s.mark.frontier = [] ∨ s.mark.found = true := by
    simp only [Bool.and_eq_false_iff, Bool.not_eq_false', List.isEmpty_iff] at hend
    exact hend
  obtain ⟨h1, h2, h3, h4, h5⟩ := hinv.mark_notified_final hend'
  obtain ⟨hp1, hp2⟩ := finishSearch_explored _ _ _ _ _ _ _ p hp
  exact ⟨h1.trans hp1.symm, h2, h3, h4, fun hne => h5 (hp2 hne)⟩

theorem DFSPathfinder.dfs_findPath_notified (maze : Maze) (start goal : Coordinate)
    (fuel elapsed : Nat) (r : SearchResult)
    (hr : DFSPathfinder.findPath fuel elapsed maze (some start) (some goal) = some r) :
    r.notified.length = r.stats.nodesExplored ∧ (r.notified.map Cell.coords).Nodup ∧
    r.notified.head?.map Cell.coords = some start ∧ (∀ c ∈ r.notified, c.visited = true) ∧
    (r.path ≠ [] → r.notified.getLast?.map Cell.coords = some goal) := by
  simp only [DFSPathfinder.findPath, Option.bind_eq_some, Option.map_eq_some'] at hr
  obtain ⟨s, hs, p, hp, rfl⟩ := hr
  obtain ⟨hinv, hend⟩ := whileLoop_inv (fun (s : DFSPathfinder.State) => !s.stack.isEmpty && !s.found)
    (DFSPathfinder.body goal)
    (fun (s : DFSPathfinder.State) => MarkNotified start goal s.mark s.notified)
    (by
      intro s h hcond
      simp only [Bool.and_eq_true, Bool.not_eq_true', List.isEmpty_eq_false] at hcond
      obtain ⟨hne, hnf⟩ := hcond
      obtain ⟨current, rest, hq⟩ := List.exists_cons_of_ne_nil hne
      have hstep := DFSPathfinder.dfs_body_markStep goal s current rest hq
      have := MarkNotified.mark_notified_step hstep h hnf
      rw [DFSPathfinder.dfs_body_notified goal s current rest hq]
      exact this)
    fuel (DFSPathfinder.init maze start) s (MarkNotified.mark_notified_init maze start goal) hs
  have hend' : s.mark.frontier = [] ∨ s.mark.found = true := by
    simp only [Bool.and_eq_false_iff, Bool.not_eq_false', List.isEmpty_iff] at hend
    exact hend
  obtain ⟨h1, h2, h3, h4, h5⟩ := hinv.mark_notified_final hend'
  obtain ⟨hp1, hp2⟩ := finishSearch_explored _ _ _ _ _ _ _ p hp
  exact ⟨h1.trans hp1.symm, h2, h3, h4, fun hne => h5 (hp2 hne)⟩

/-! ## The calls of the visit callback in the best-first searches -/

theorem BestNotified.best_notified_step {start goal : Coordinate} {pending closed : List Coordinate}
    {n : Nat} {found : Bool} {notified : List Cell}
    (h : BestNotified start goal pending closed n found notified) (hnf : found = false)
    (current : Coordinate) (rest pending2 : List Coordinate)
    (hperm : pending.Perm (current :: rest)) (cell : Cell)
    (hcoords : cell.coords = current) (hflag : cell.visited = true) :
    BestNotified start goal pending2
      (if current ∈ closed then closed else current :: closed)
      (if current ∈ closed then n else n + 1)
      (found || (decide (current ∉ closed) && decide (current = goal)))
      (if current ∈ closed then notified else notified ++ [cell]) := by
  subst hnf
  by_cases hst : current ∈ closed
  · simp only [hst, if_true, not_true_eq_false, decide_False, Bool.false_and, Bool.or_false]
    refine ⟨h.count, h.coords, h.nodup, h.flagged, ?_, h.last⟩
    rcases h.first with hf | ⟨hn, _, _⟩
    · exact Or.inl hf
    · have := h.coords
      rw [hn] at this
      simp only [List.map_nil] at this
      have hc : closed = [] := by simpa using this.symm
      rw [hc] at hst
      cases hst
  · simp only [hst, if_false, not_false_eq_true, decide_True, Bool.true_and, Bool.false_or]
    refine ⟨?_, ?_, ?_, ?_, ?_, ?_⟩
    · rw [List.length_append, h.count]
      rfl
    · rw [List.map_append, h.coords]
      simp [hcoords]
    · exact List.nodup_cons.mpr ⟨hst, h.nodup⟩
    · intro c hc
      rcases List.mem_append.mp hc with hc | hc
      · exact h.flagged c hc
      · rw [List.mem_singleton] at hc
        subst hc
        exact hflag
    · left
      rcases h.first with hf | ⟨hn, hp, _⟩
      · cases notified with
        | nil => simp at hf
        | cons a l => simpa using hf
      · rw [hp] at hperm
        have : current ∈ [start] := hperm.mem_iff.mpr (List.mem_cons_self _ _)
        rw [List.mem_singleton] at this
        subst hn
        simp [hcoords, this]
    · intro hf
      simp only [decide_eq_true_eq] at hf
      simp [hcoords, hf]

theorem BestNotified.best_notified_final {start goal : Coordinate} {pending closed : List Coordinate}
    {n : Nat} {found : Bool} {notified : List Cell}
    (h : BestNotified start goal pending closed n found notified)
    (hend : pending = [] ∨ found = true) :
    notified.length = n ∧ (notified.map Cell.coords).Nodup ∧
    notified.head?.map Cell.coords = some start ∧ (∀ c ∈ notified, c.visited = true) ∧
    (found = true → notified.getLast?.map Cell.coords = some goal) := by
  refine ⟨h.count, ?_, ?_, h.flagged, h.last⟩
  · rw [h.coords]
    exact List.nodup_reverse.mpr h.nodup
  · rcases h.first with hf | ⟨_, hp, hnf⟩
    · exact hf
    · rcases hend with he | he
      · rw [he] at hp; cases hp
      · rw [he] at hnf; cases hnf

theorem DijkstraPathfinder.dijkstra_body_facts (goal : Coordinate)
    (s : DijkstraPathfinder.State) (current : DijkstraPathfinder.Node)
    (rest : List DijkstraPathfinder.Node)
    (hpop : PriorityQueue.pop DijkstraPathfinder.Node.cost (s.ties 0) s.pq = some (current, rest)) :
    (DijkstraPathfinder.body goal s).visited =
      (if current.cell ∈ s.visited then s.visited else current.cell :: s.visited) ∧
    (DijkstraPathfinder.body goal s).nodesExplored =
      (if current.cell ∈ s.visited then s.nodesExplored else s.nodesExplored + 1) ∧
    (DijkstraPathfinder.body goal s).found =
      (s.found || (decide (current.cell ∉ s.visited) && decide (current.cell = goal))) ∧
    (DijkstraPathfinder.body goal s).notified =
      (if current.cell ∈ s.visited then s.notified
        else s.notified ++ [(s.maze.setVisited current.cell true).cellAt current.cell]) := by
  unfold DijkstraPathfinder.body
  rw [hpop]
  simp only
  by_cases hst : current.cell ∈ s.visited
  · simp [hst]
  · simp only [hst, if_false, not_false_eq_true, decide_True, Bool.true_and]
    by_cases hg : current.cell = goal
    · simp [hg]
    · simp only [hg, if_false, decide_False, Bool.or_false]
      obtain ⟨_, h2, h3, h4, h5, _⟩ := DijkstraPathfinder.dijkstra_foldl_keeps current
        ((s.maze.setVisited current.cell true).getNeighbors current.cell)
        { s with pq := rest, ties := fun n => s.ties (n + 1)
                 visited := current.cell :: s.visited
                 maze := s.maze.setVisited current.cell true
                 nodesExplored := s.nodesExplored + 1
                 notified := s.notified ++
                  [(s.maze.setVisited current.cell true).cellAt current.cell] }
      exact ⟨h2, h3, h4, h5⟩

theorem AStarPathfinder.astar_body_facts (goal : Coordinate)
    (s : AStarPathfinder.State) (current : AStarPathfinder.Node)
    (rest : List AStarPathfinder.Node)
    (hpop : PriorityQueue.pop AStarPathfinder.Node.fScore (s.ties 0) s.openSet =
      some (current, rest)) :
    (AStarPathfinder.body goal s).closedSet =
      (if current.cell ∈ s.closedSet then s.closedSet else current.cell :: s.closedSet) ∧
    (AStarPathfinder.body goal s).nodesExplored =
      (if current.cell ∈ s.closedSet then s.nodesExplored else s.nodesExplored + 1) ∧
    (AStarPathfinder.body goal s).found =
      (s.found || (decide (current.cell ∉ s.closedSet) && decide (current.cell = goal))) ∧
    (AStarPathfinder.body goal s).notified =
      (if current.cell ∈ s.closedSet then s.notified
        else s.notified ++ [(s.maze.setVisited current.cell true).cellAt current.cell]) := by
  unfold AStarPathfinder.body
  rw [hpop]
  simp only
  by_cases hst : current.cell ∈ s.closedSet
  · simp [hst]
  · simp only [hst, if_false, not_false_eq_true, decide_True, Bool.true_and]
    by_cases hg : current.cell = goal
    · simp [hg]
    · simp only [hg, if_false, decide_False, Bool.or_false]
      obtain ⟨_, h2, h3, h4, h5, _⟩ := AStarPathfinder.astar_foldl_keeps goal current
        ((s.maze.setVisited current.cell true).getNeighbors current.cell)
        { s with openSet := rest, ties := fun n => s.ties (n + 1)
                 closedSet := current.cell :: s.closedSet
                 maze := s.maze.setVisited current.cell true
                 nodesExplored := s.nodesExplored + 1
                 notified := s.notified ++
                  [(s.maze.setVisited current.cell true).cellAt current.cell] }
      exact ⟨h2, h3, h4, h5⟩

theorem DijkstraPathfinder.dijkstra_findPath_notified (maze : Maze) (start goal : Coordinate)
    (fuel elapsed : Nat) (ties : Nat → Nat) (r : SearchResult)
    (hr : DijkstraPathfinder.findPath fuel elapsed ties maze (some start) (some goal) = some r) :
    r.notified.length = r.stats.nodesExplored ∧ (r.notified.map Cell.coords).Nodup ∧
    r.notified.head?.map Cell.coords = some start ∧ (∀ c ∈ r.notified, c.visited = true) ∧
    (r.path ≠ [] → r.notified.getLast?.map Cell.coords = some goal) := by
  simp only [DijkstraPathfinder.findPath, Option.bind_eq_some, Option.map_eq_some'] at hr
  obtain ⟨s, hs, p, hp, rfl⟩ := hr
  obtain ⟨hinv, hend⟩ := whileLoop_inv
    (fun (s : DijkstraPathfinder.State) => !s.pq.isEmpty && !s.found)
    (DijkstraPathfinder.body goal)
    (fun (s : DijkstraPathfinder.State) =>
      BestNotified start goal (s.pq.map DijkstraPathfinder.Node.cell) s.visited
        s.nodesExplored s.found s.notified)
    (by
      intro s h hcond
      simp only [Bool.and_eq_true, Bool.not_eq_true', List.isEmpty_eq_false] at hcond
      obtain ⟨hne, hnf⟩ := hcond
      obtain ⟨⟨current, rest⟩, hpop⟩ :=
        PriorityQueue.pop_isSome DijkstraPathfinder.Node.cost (s.ties 0) s.pq hne
      obtain ⟨h1, h2, h3, h4⟩ := DijkstraPathfinder.dijkstra_body_facts goal s current rest hpop
      have hperm := ((PriorityQueue.pop_spec _ _ _ _ _ hpop).1).map DijkstraPathfinder.Node.cell
      have := h.best_notified_step hnf current.cell (rest.map DijkstraPathfinder.Node.cell)
        ((DijkstraPathfinder.body goal s).pq.map DijkstraPathfinder.Node.cell) hperm
        ((s.maze.setVisited current.cell true).cellAt current.cell) rfl
        (by simp [Maze.cellAt, Maze.setVisited])
      rw [h1, h2, h3, h4]
      exact this)
    fuel (DijkstraPathfinder.init ties maze start) s
    ⟨rfl, rfl, List.nodup_nil, by simp [DijkstraPathfinder.init],
      Or.inr ⟨rfl, rfl, rfl⟩, by simp [DijkstraPathfinder.init]⟩ hs
  have hend' : s.pq.map DijkstraPathfinder.Node.cell = [] ∨ s.found = true := by
    simp only [Bool.and_eq_false_iff, Bool.not_eq_false', List.isEmpty_iff] at hend
    rcases hend with h | h
    · exact Or.inl (by rw [h]; rfl)
    · exact Or.inr h
  obtain ⟨h1, h2, h3, h4, h5⟩ := hinv.best_notified_final hend'
  obtain ⟨hp1, hp2⟩ := finishSearch_explored _ _ _ _ _ _ _ p hp
  exact ⟨h1.trans hp1.symm, h2, h3, h4, fun hne => h5 (hp2 hne)⟩

theorem AStarPathfinder.astar_findPath_notified (maze : Maze) (start goal : Coordinate)
    (fuel elapsed : Nat) (ties : Nat → Nat) (r : SearchResult)
    (hr : AStarPathfinder.findPath fuel elapsed ties maze (some start) (some goal) = some r) :
    r.notified.length = r.stats.nodesExplored ∧ (r.notified.map Cell.coords).Nodup ∧
    r.notified.head?.map Cell.coords = some start ∧ (∀ c ∈ r.notified, c.visited = true) ∧
    (r.path ≠ [] → r.notified.getLast?.map Cell.coords = some goal) := by
  simp only [AStarPathfinder.findPath, Option.bind_eq_some, Option.map_eq_some'] at hr
  obtain ⟨s, hs, p, hp, rfl⟩ := hr
  obtain ⟨hinv, hend⟩ := whileLoop_inv
    (fun (s : AStarPathfinder.State) => !s.openSet.isEmpty && !s.found)
    (AStarPathfinder.body goal)
    (fun (s : AStarPathfinder.State) =>
      BestNotified start goal (s.openSet.map AStarPathfinder.Node.cell) s.closedSet
        s.nodesExplored s.found s.notified)
    (by
      intro s h hcond
      simp only [Bool.and_eq_true, Bool.not_eq_true', List.isEmpty_eq_false] at hcond
      obtain ⟨hne, hnf⟩ := hcond
      obtain ⟨⟨current, rest⟩, hpop⟩ :=
        PriorityQueue.pop_isSome AStarPathfinder.Node.fScore (s.ties 0) s.openSet hne
      obtain ⟨h1, h2, h3, h4⟩ := AStarPathfinder.astar_body_facts goal s current rest hpop
      have hperm := ((PriorityQueue.pop_spec _ _ _ _ _ hpop).1).map AStarPathfinder.Node.cell
      have := h.best_notified_step hnf current.cell (rest.map AStarPathfinder.Node.cell)
        ((AStarPathfinder.body goal s).openSet.map AStarPathfinder.Node.cell) hperm
        ((s.maze.setVisited current.cell true).cellAt current.cell) rfl
        (by simp [Maze.cellAt, Maze.setVisited])
      rw [h1, h2, h3, h4]
      exact this)
    fuel (AStarPathfinder.init ties maze start goal) s
    ⟨rfl, rfl, List.nodup_nil, by simp [AStarPathfinder.init],
      Or.inr ⟨rfl, rfl, rfl⟩, by simp [AStarPathfinder.init]⟩ hs
  have hend' : s.openSet.map AStarPathfinder.Node.cell = [] ∨ s.found = true := by
    simp only [Bool.and_eq_false_iff, Bool.not_eq_false', List.isEmpty_iff] at hend
    rcases hend with h | h
    · exact Or.inl (by rw [h]; rfl)
    · exact Or.inr h
  obtain ⟨h1, h2, h3, h4, h5⟩ := hinv.best_notified_final hend'
  obtain ⟨hp1, hp2⟩ := finishSearch_explored _ _ _ _ _ _ _ p hp
  exact ⟨h1.trans hp1.symm, h2, h3, h4, fun hne => h5 (hp2 hne)⟩

/-! ## Grids that are not perfect mazes -/

namespace Maze

/-- A cell without neighbours reaches no other cell. -/
theorem not_reachable_of_isolated (m : Maze) (a b : Coordinate)
    (hiso : m.getNeighbors a = []) (hne : a ≠ b) : ¬ m.Reachable a b := by
  rintro ⟨p, ⟨hopen, hchain⟩, hhead, hlast⟩
  cases p with
  | nil => simp at hhead
  | cons x rest =>
    simp only [List.head?_cons, Option.some.injEq] at hhead
    subst hhead
    cases rest with
    | nil =>
      simp only [List.getLast?_singleton, Option.some.injEq] at hlast
      exact hne hlast
    | cons y rest2 =>
      have hstep : manhattan x y = 1 := (List.chain'_cons.mp hchain).1
      have hy : m.isOpen y = true := hopen y (by simp)
      have : y ∈ m.getNeighbors x := (m.mem_getNeighbors x y).mpr ⟨hy, hstep⟩
      rw [hiso] at this
      cases this

theorem not_perfect_of_isolated (m : Maze) (a b : Coordinate)
    (ha : m.isOpen a = true) (hb : m.isOpen b = true)
    (hiso : m.getNeighbors a = []) (hne : a ≠ b) : ¬ m.Perfect := by
  intro hP
  obtain ⟨p, ⟨hp, _⟩, _⟩ := hP a b ha hb
  exact m.not_reachable_of_isolated a b hiso hne ⟨p, hp⟩

theorem not_perfect_of_two_paths (m : Maze) (a b : Coordinate) (p q : List Coordinate)
    (ha : m.isOpen a = true) (hb : m.isOpen b = true)
    (hp : m.Connects a b p ∧ p.Nodup) (hq : m.Connects a b q ∧ q.Nodup) (hne : p ≠ q) :
    ¬ m.Perfect := by
  intro hP
  exact hne ((hP a b ha hb).unique hp hq)

end Maze

/-! ## The claims about the grid -/

/-- C13: for every grid and every cell `c`, `getNeighbors(c)` is the list of
the positions `(x, y-1)`, `(x, y+1)`, `(x-1, y)`, `(x+1, y)` in this order
(UP, DOWN, LEFT, RIGHT) from which the positions out of bounds and the wall
cells are removed; it has at most 4 elements, no duplicates, and contains
every in-bounds non-wall cell at Manhattan distance 1 from `c`. -/
theorem getNeighbors_up_down_left_right (m : Maze) (c : Coordinate) :
    m.getNeighbors c =
      ([⟨c.x, c.y - 1⟩, ⟨c.x, c.y + 1⟩, ⟨c.x - 1, c.y⟩, ⟨c.x + 1, c.y⟩] : List Coordinate).filter
        (fun n => m.isValid n.x n.y && !m.wall n) ∧
    (m.getNeighbors c).length ≤ 4 ∧ (m.getNeighbors c).Nodup ∧
    ∀ n, m.isValid n.x n.y = true → m.wall n = false → manhattan c n = 1 →
      n ∈ m.getNeighbors c := by
  refine ⟨?_, m.getNeighbors_length_le c, m.getNeighbors_nodup c, ?_⟩
  · simp [Maze.getNeighbors, Maze.directions, Int.sub_eq_add_neg]
  · intro n hv hw hd
    exact (m.mem_getNeighbors c n).mpr ⟨(m.isOpen_iff n).mpr ⟨hv, hw⟩, hd⟩

/-- C14, the claim refuted: the constructor does not fail on a zero or a
negative size; `Maze(0, 0)` and `Maze(-3, 50)` build a grid without cells. -/
theorem new_accepts_nonpositive_size :
    Maze.new 0 0 ≠ .error .invalidDimensions ∧ Maze.new (-3) 50 ≠ .error .invalidDimensions := by
  constructor <;> simp [Maze.new]

/-- C14 as amended: when width and height are both positive and one of them
lies outside `[5, 100]` the constructor fails with `InvalidDimensions`; when
width or height is zero or negative it does not fail and leaves a grid
without cells, start and goal absent; when both lie in `[5, 100]` it yields a
grid of exactly `height` rows of `width` cells in which the cell stored at
row `y`, column `x` has the coordinates `(x, y)` and is non-wall, unvisited
and on no path. -/
theorem new_validates_positive_size (width height : Int) :
    (0 < width ∧ 0 < height ∧ (width < 5 ∨ 100 < width ∨ height < 5 ∨ 100 < height) →
      Maze.new width height = .error .invalidDimensions) ∧
    (width ≤ 0 ∨ height ≤ 0 →
      ∃ m, Maze.new width height = .ok m ∧ m.width = width ∧ m.height = height ∧
        m.grid.flatten = [] ∧ (∀ x y, m.isValid x y = false) ∧ m.start = none ∧ m.goal = none) ∧
    (5 ≤ width ∧ width ≤ 100 ∧ 5 ≤ height ∧ height ≤ 100 →
      ∃ m, Maze.new width height = .ok m ∧ m.width = width ∧ m.height = height ∧
        m.start = none ∧ m.goal = none ∧
        (m.grid.length : Int) = height ∧ (∀ row ∈ m.grid, (row.length : Int) = width) ∧
        ∀ x y : Nat, (x : Int) < width → (y : Int) < height →
          (m.grid[y]?).bind (fun row => row[x]?) = some (Cell.new x y) ∧
          m.getCell x y = .ok (Cell.new x y)) := by
  refine ⟨?_, ?_, ?_⟩
  · rintro ⟨hw, hh, hbad⟩
    simp only [Maze.new, Maze.validateDimensions, hw, hh, and_self, if_true, gt_iff_lt]
    by_cases h5 : width < 5 ∨ height < 5
    · simp [h5]
    · have : width > 100 ∨ height > 100 := by omega
      simp [h5, this]
  · intro hbad
    have hnot : ¬ (width > 0 ∧ height > 0) := by omega
    refine ⟨⟨width, height, fun _ => false, fun _ => false, fun _ => false, none, none⟩,
      by simp only [Maze.new, hnot, if_false], rfl, rfl, ?_, ?_, rfl, rfl⟩
    · simp only [Maze.grid, List.flatten_eq_nil_iff, List.mem_map, List.mem_range]
      rintro row ⟨y, hy, rfl⟩
      rcases hbad with h | h
      · have : width.toNat = 0 := by omega
        simp [this]
      · omega
    · intro x y
      simp only [Maze.isValid, Bool.and_eq_false_iff, decide_eq_false_iff_not]
      omega
  · rintro ⟨h1, h2, h3, h4⟩
    have hpos : width > 0 ∧ height > 0 := by omega
    have hv : Maze.validateDimensions width height = .ok () := by
      simp only [Maze.validateDimensions]
      rw [if_neg (by omega), if_neg (by omega)]
    refine ⟨Maze.initializeGrid
        ⟨width, height, fun _ => false, fun _ => false, fun _ => false, none, none⟩,
      by simp only [Maze.new, hpos, and_self, if_true, hv], rfl, rfl, rfl, rfl, ?_, ?_, ?_⟩
    · rw [Maze.grid_length]
      show ((height.toNat : Nat) : Int) = height
      omega
    · intro row hrow
      rw [Maze.grid_row_length _ row hrow]
      show ((width.toNat : Nat) : Int) = width
      omega
    · intro x y hx hy
      refine ⟨?_, ?_⟩
      · rw [Maze.grid_get _ x y hx hy]
        rfl
      · have : (Maze.initializeGrid
            ⟨width, height, fun _ => false, fun _ => false, fun _ => false, none, none⟩).isValid
              x y = true := by
          simp only [Maze.isValid_iff, Maze.initializeGrid]
          omega
        simp only [Maze.getCell, this, if_true]
        rfl

/-- C18: for every grid, `Maze::reset` leaves every cell with its visited and
path flags cleared (the cell as `Cell::reset` leaves it), with its wall flag
and coordinates as they were, leaves width, height, start and goal as they
were, and a second `reset` changes nothing more. -/
theorem reset_clears_visited_and_path (m : Maze) :
    (∀ c, m.isValid c.x c.y = true →
      m.reset.cellAt c = (m.cellAt c).reset ∧
      (m.reset.cellAt c).visited = false ∧ (m.reset.cellAt c).path = false ∧
      (m.reset.cellAt c).wall = (m.cellAt c).wall ∧
      (m.reset.cellAt c).coords = (m.cellAt c).coords) ∧
    m.reset.wall = m.wall ∧ m.reset.grid.length = m.grid.length ∧
    m.reset.width = m.width ∧ m.reset.height = m.height ∧
    m.reset.start = m.start ∧ m.reset.goal = m.goal ∧
    m.reset.reset = m.reset := by
  refine ⟨?_, rfl, ?_, rfl, rfl, rfl, rfl, m.reset_reset⟩
  · intro c hc
    simp [Maze.reset, Maze.cellAt, Cell.reset, hc]
  · simp [Maze.grid, Maze.reset]

/-! ## The claims that compare runs -/

/-- C15: for each of the four strategies, every grid and every start and
goal (present or absent): on the grid as `reset()` leaves it, `findPath` ends;
when the grid is `reset()` after that run and the same strategy is run again
with the same start and goal, that run ends too and returns the same path
(the same cells in the same order) with the same `nodesExplored` and
`pathLength`.  The heap being a deterministic structure, both runs of
Dijkstra's search and of A* resolve equal keys alike. -/
theorem rerun_after_reset_same_path (m0 : Maze) (start goal : Option Coordinate)
    (fuel elapsed elapsed2 : Nat) (ties : Nat → Nat)
    (hstart : ∀ s, start = some s → m0.isValid s.x s.y = true)
    (hfuel : 5 * m0.area + 1 ≤ fuel) :
    (∃ r r2, BFSPathfinder.findPath fuel elapsed m0.reset start goal = some r ∧
      BFSPathfinder.findPath fuel elapsed2 r.maze.reset start goal = some r2 ∧
      r2.path = r.path ∧ r2.stats.nodesExplored = r.stats.nodesExplored ∧
      r2.stats.pathLength = r.stats.pathLength) ∧
    (∃ r r2, DFSPathfinder.findPath fuel elapsed m0.reset start goal = some r ∧
      DFSPathfinder.findPath fuel elapsed2 r.maze.reset start goal = some r2 ∧
      r2.path = r.path ∧ r2.stats.nodesExplored = r.stats.nodesExplored ∧
      r2.stats.pathLength = r.stats.pathLength) ∧
    (∃ r r2, DijkstraPathfinder.findPath fuel elapsed ties m0.reset start goal = some r ∧
      DijkstraPathfinder.findPath fuel elapsed2 ties r.maze.reset start goal = some r2 ∧
      r2.path = r.path ∧ r2.stats.nodesExplored = r.stats.nodesExplored ∧
      r2.stats.pathLength = r.stats.pathLength) ∧
    (∃ r r2, AStarPathfinder.findPath fuel elapsed ties m0.reset start goal = some r ∧
      AStarPathfinder.findPath fuel elapsed2 ties r.maze.reset start goal = some r2 ∧
      r2.path = r.path ∧ r2.stats.nodesExplored = r.stats.nodesExplored ∧
      r2.stats.pathLength = r.stats.pathLength) := by
  have hstart' : ∀ s, start = some s → m0.reset.isValid s.x s.y = true := hstart
  have hfuel' : 5 * m0.reset.area + 1 ≤ fuel := hfuel
  refine ⟨?_, ?_, ?_, ?_⟩
  · obtain ⟨r, hr, hm⟩ :=
      BFSPathfinder.bfs_findPath_total m0.reset start goal fuel elapsed hstart' (by omega)
    refine ⟨r, ⟨r.path, ⟨r.stats.pathLength, r.stats.nodesExplored,
      if start.isSome && goal.isSome then elapsed2 else 0⟩, r.maze, r.notified⟩,
      hr, ?_, rfl, rfl, rfl⟩
    rw [hm.reset_eq, Maze.reset_reset]
    exact BFSPathfinder.bfs_findPath_elapsed _ _ _ _ _ _ r hr
  · obtain ⟨r, hr, hm⟩ :=
      DFSPathfinder.dfs_findPath_total m0.reset start goal fuel elapsed hstart' (by omega)
    refine ⟨r, ⟨r.path, ⟨r.stats.pathLength, r.stats.nodesExplored,
      if start.isSome && goal.isSome then elapsed2 else 0⟩, r.maze, r.notified⟩,
      hr, ?_, rfl, rfl, rfl⟩
    rw [hm.reset_eq, Maze.reset_reset]
    exact DFSPathfinder.dfs_findPath_elapsed _ _ _ _ _ _ r hr
  · obtain ⟨r, hr, hm⟩ :=
      DijkstraPathfinder.dijkstra_findPath_total m0.reset start goal fuel elapsed ties
        hstart' hfuel'
    refine ⟨r, ⟨r.path, ⟨r.stats.pathLength, r.stats.nodesExplored,
      if start.isSome && goal.isSome then elapsed2 else 0⟩, r.maze, r.notified⟩,
      hr, ?_, rfl, rfl, rfl⟩
    rw [hm.reset_eq, Maze.reset_reset]
    exact DijkstraPathfinder.dijkstra_findPath_elapsed _ _ _ _ _ _ _ r hr
  · obtain ⟨r, hr, hm⟩ :=
      AStarPathfinder.astar_findPath_total m0.reset start goal fuel elapsed ties
        hstart' hfuel'
    refine ⟨r, ⟨r.path, ⟨r.stats.pathLength, r.stats.nodesExplored,
      if start.isSome && goal.isSome then elapsed2 else 0⟩, r.maze, r.notified⟩,
      hr, ?_, rfl, rfl, rfl⟩
    rw [hm.reset_eq, Maze.reset_reset]
    exact AStarPathfinder.astar_findPath_elapsed _ _ _ _ _ _ _ r hr

/-- C15 at `exampleMaze` with every visited flag set before the first
`reset()`, from `(1, 1)` to `(3, 3)`, the two runs timed differently. -/
theorem rerun_after_reset_same_path_witness :
    (∀ s, some (⟨1, 1⟩ : Coordinate) = some s →
      ({ exampleMaze with visited := fun _ => true } : Maze).isValid s.x s.y = true) ∧
    5 * ({ exampleMaze with visited := fun _ => true } : Maze).area + 1 ≤ 126 ∧
    ((∃ r r2, BFSPathfinder.findPath 126 3 ({ exampleMaze with visited := fun _ => true } : Maze).reset
        (some ⟨1, 1⟩) (some ⟨3, 3⟩) = some r ∧
      BFSPathfinder.findPath 126 4 r.maze.reset (some ⟨1, 1⟩) (some ⟨3, 3⟩) = some r2 ∧
      r2.path = r.path ∧ r2.stats.nodesExplored = r.stats.nodesExplored ∧
      r2.stats.pathLength = r.stats.pathLength) ∧
    (∃ r r2, DFSPathfinder.findPath 126 3 ({ exampleMaze with visited := fun _ => true } : Maze).reset
        (some ⟨1, 1⟩) (some ⟨3, 3⟩) = some r ∧
      DFSPathfinder.findPath 126 4 r.maze.reset (some ⟨1, 1⟩) (some ⟨3, 3⟩) = some r2 ∧
      r2.path = r.path ∧ r2.stats.nodesExplored = r.stats.nodesExplored ∧
      r2.stats.pathLength = r.stats.pathLength) ∧
    (∃ r r2, DijkstraPathfinder.findPath 126 3 (fun n => n)
        ({ exampleMaze with visited := fun _ => true } : Maze).reset
        (some ⟨1, 1⟩) (some ⟨3, 3⟩) = some r ∧
      DijkstraPathfinder.findPath 126 4 (fun n => n) r.maze.reset (some ⟨1, 1⟩) (some ⟨3, 3⟩) =
        some r2 ∧
      r2.path = r.path ∧ r2.stats.nodesExplored = r.stats.nodesExplored ∧
      r2.stats.pathLength = r.stats.pathLength) ∧
    (∃ r r2, AStarPathfinder.findPath 126 3 (fun n => n)
        ({ exampleMaze with visited := fun _ => true } : Maze).reset
        (some ⟨1, 1⟩) (some ⟨3, 3⟩) = some r ∧
      AStarPathfinder.findPath 126 4 (fun n => n) r.maze.reset (some ⟨1, 1⟩) (some ⟨3, 3⟩) =
        some r2 ∧
      r2.path = r.path ∧ r2.stats.nodesExplored = r.stats.nodesExplored ∧
      r2.stats.pathLength = r.stats.pathLength)) :=
  ⟨by intro s h; cases h; decide, by decide,
    rerun_after_reset_same_path { exampleMaze with visited := fun _ => true }
      (some ⟨1, 1⟩) (some ⟨3, 3⟩) 126 3 4 (fun n => n)
      (by intro s h; cases h; decide) (by decide)⟩

/-- C16, the claim refuted: on the 7x7 grid whose only walls are the 24
border cells, with no visited flag set, BFS from `(1, 1)` to `(5, 5)` reports
`stats.pathLength = 9`, not 8: the statistic counts the cells of the path. -/
theorem emptyRoom_bfs_reports_nine_cells :
    (BFSPathfinder.findPath 99 0 emptyRoom (some ⟨1, 1⟩) (some ⟨5, 5⟩)).map
      (fun r => r.stats.pathLength) = some 9 ∧
    (BFSPathfinder.findPath 99 0 emptyRoom (some ⟨1, 1⟩) (some ⟨5, 5⟩)).map
      (fun r => r.stats.pathLength) ≠ some 8 := by decide

/-- C16 as amended: on the 7x7 grid whose only walls are the 24 border cells,
with start `(1, 1)`, goal `(5, 5)` and no visited flag set, BFS, Dijkstra and
A* (whatever the order among equal keys) each return a valid path of 9 cells,
that is of 8 moves, and report `stats.pathLength = 9`; DFS returns a valid
path whose reported length is at least 9. -/
theorem emptyRoom_shortest_path_has_nine_cells (k elapsed : Nat) (ties : Nat → Nat) :
    (∃ r, BFSPathfinder.findPath (246 + k) elapsed emptyRoom (some ⟨1, 1⟩) (some ⟨5, 5⟩) =
        some r ∧
      ValidPath emptyRoom ⟨1, 1⟩ ⟨5, 5⟩ r.path ∧ r.path.length = 9 ∧
      r.stats.pathLength = 9) ∧
    (∃ r, DijkstraPathfinder.findPath (246 + k) elapsed ties emptyRoom (some ⟨1, 1⟩)
        (some ⟨5, 5⟩) = some r ∧
      ValidPath emptyRoom ⟨1, 1⟩ ⟨5, 5⟩ r.path ∧ r.path.length = 9 ∧
      r.stats.pathLength = 9) ∧
    (∃ r, AStarPathfinder.findPath (246 + k) elapsed ties emptyRoom (some ⟨1, 1⟩)
        (some ⟨5, 5⟩) = some r ∧
      ValidPath emptyRoom ⟨1, 1⟩ ⟨5, 5⟩ r.path ∧ r.path.length = 9 ∧
      r.stats.pathLength = 9) ∧
    (∃ r, DFSPathfinder.findPath (246 + k) elapsed emptyRoom (some ⟨1, 1⟩) (some ⟨5, 5⟩) =
        some r ∧
      ValidPath emptyRoom ⟨1, 1⟩ ⟨5, 5⟩ r.path ∧ 9 ≤ r.path.length ∧
      9 ≤ r.stats.pathLength) :=
  ⟨emptyRoom_bfs _ elapsed (by omega), emptyRoom_dijkstra _ elapsed ties (by omega),
    emptyRoom_astar _ elapsed ties (by omega), emptyRoom_dfs _ elapsed (by omega)⟩

/-- C17: on a grid with no visited flag set, with a non-wall start and a goal
reachable from it, BFS and DFS both end, and the path that DFS returns has at
least as many cells as the path that BFS returns on the same grid, start and
goal; so for the reported `pathLength`. -/
theorem dfs_path_not_shorter_than_bfs_path (maze : Maze) (start goal : Coordinate)
    (fuel elapsed : Nat)
    (hfresh : maze.Unvisited) (hstart : maze.isOpen start = true)
    (hreach : maze.Reachable start goal) (hfuel : 2 * maze.area + 1 ≤ fuel) :
    ∃ rb rd, BFSPathfinder.findPath fuel elapsed maze (some start) (some goal) = some rb ∧
      DFSPathfinder.findPath fuel elapsed maze (some start) (some goal) = some rd ∧
      rb.path.length ≤ rd.path.length ∧ rb.stats.pathLength ≤ rd.stats.pathLength := by
  have hv : maze.isValid start.x start.y = true := ((Maze.isOpen_iff _ _).mp hstart).1
  obtain ⟨n, hn⟩ := (Maze.reachable_iff_stepsTo maze start goal hstart).mp hreach
  obtain ⟨rb, hrb, _, _, hlenb, hb⟩ :=
    BFSPathfinder.bfs_findPath_spec maze start goal fuel elapsed hfuel hv
  obtain ⟨rd, hrd, _, _, hlend, hd⟩ :=
    DFSPathfinder.dfs_findPath_spec maze start goal fuel elapsed hfuel hv
  have hvd : ValidPath maze start goal rd.path := (hd hfresh hstart).1 n hn
  have hsteps := Maze.stepsTo_of_connects maze start goal _ hvd.2.1
  have hle := ((hb hfresh hstart).1 _ hsteps).2
  have hpos : 0 < rd.path.length := List.length_pos.mpr hvd.1
  rw [List.length_map] at hle
  have : rb.path.length ≤ rd.path.length := by omega
  exact ⟨rb, rd, hrb, hrd, this, by rw [hlenb, hlend]; exact this⟩

/-- C17 at `exampleMaze`, from `(1, 1)` to `(3, 3)`. -/
theorem dfs_path_not_shorter_than_bfs_path_witness :
    exampleMaze.Unvisited ∧ exampleMaze.isOpen ⟨1, 1⟩ = true ∧
    exampleMaze.Reachable ⟨1, 1⟩ ⟨3, 3⟩ ∧ 2 * exampleMaze.area + 1 ≤ 51 ∧
    ∃ rb rd, BFSPathfinder.findPath 51 0 exampleMaze (some ⟨1, 1⟩) (some ⟨3, 3⟩) = some rb ∧
      DFSPathfinder.findPath 51 0 exampleMaze (some ⟨1, 1⟩) (some ⟨3, 3⟩) = some rd ∧
      rb.path.length ≤ rd.path.length ∧ rb.stats.pathLength ≤ rd.stats.pathLength :=
  ⟨exampleMaze_unvisited, by decide, exampleMaze_reachable, by decide,
    dfs_path_not_shorter_than_bfs_path exampleMaze ⟨1, 1⟩ ⟨3, 3⟩ 51 0
      exampleMaze_unvisited (by decide) exampleMaze_reachable (by decide)⟩

/-- C19: for each of the four strategies, every grid whatever its flags and
every start and goal (present or absent), `findPath` ends and leaves the grid
with the width, height, start, goal, wall flags and path flags it had; the
only change is that visited flags of cells of the grid that were unset may be
set: no visited flag is cleared. -/
theorem findPath_only_sets_visited_flags (maze : Maze) (start goal : Option Coordinate)
    (fuel elapsed : Nat) (ties : Nat → Nat)
    (hstart : ∀ s, start = some s → maze.isValid s.x s.y = true)
    (hfuel : 5 * maze.area + 1 ≤ fuel) :
    (∃ r, BFSPathfinder.findPath fuel elapsed maze start goal = some r ∧
      maze.MarkedFrom r.maze ∧ ∀ c, (r.maze.cellAt c).coords = (maze.cellAt c).coords) ∧
    (∃ r, DFSPathfinder.findPath fuel elapsed maze start goal = some r ∧
      maze.MarkedFrom r.maze ∧ ∀ c, (r.maze.cellAt c).coords = (maze.cellAt c).coords) ∧
    (∃ r, DijkstraPathfinder.findPath fuel elapsed ties maze start goal = some r ∧
      maze.MarkedFrom r.maze ∧ ∀ c, (r.maze.cellAt c).coords = (maze.cellAt c).coords) ∧
    (∃ r, AStarPathfinder.findPath fuel elapsed ties maze start goal = some r ∧
      maze.MarkedFrom r.maze ∧ ∀ c, (r.maze.cellAt c).coords = (maze.cellAt c).coords) := by
  refine ⟨?_, ?_, ?_, ?_⟩
  · obtain ⟨r, hr, hm⟩ :=
      BFSPathfinder.bfs_findPath_total maze start goal fuel elapsed hstart (by omega)
    exact ⟨r, hr, hm, fun _ => rfl⟩
  · obtain ⟨r, hr, hm⟩ :=
      DFSPathfinder.dfs_findPath_total maze start goal fuel elapsed hstart (by omega)
    exact ⟨r, hr, hm, fun _ => rfl⟩
  · obtain ⟨r, hr, hm⟩ :=
      DijkstraPathfinder.dijkstra_findPath_total maze start goal fuel elapsed ties hstart hfuel
    exact ⟨r, hr, hm, fun _ => rfl⟩
  · obtain ⟨r, hr, hm⟩ :=
      AStarPathfinder.astar_findPath_total maze start goal fuel elapsed ties hstart hfuel
    exact ⟨r, hr, hm, fun _ => rfl⟩

/-- C19 at `exampleMaze`, from `(1, 1)` to `(3, 3)`. -/
theorem findPath_only_sets_visited_flags_witness :
    (∀ s, some (⟨1, 1⟩ : Coordinate) = some s → exampleMaze.isValid s.x s.y = true) ∧
    5 * exampleMaze.area + 1 ≤ 126 ∧
    ((∃ r, BFSPathfinder.findPath 126 0 exampleMaze (some ⟨1, 1⟩) (some ⟨3, 3⟩) = some r ∧
      exampleMaze.MarkedFrom r.maze ∧
      ∀ c, (r.maze.cellAt c).coords = (exampleMaze.cellAt c).coords) ∧
    (∃ r, DFSPathfinder.findPath 126 0 exampleMaze (some ⟨1, 1⟩) (some ⟨3, 3⟩) = some r ∧
      exampleMaze.MarkedFrom r.maze ∧
      ∀ c, (r.maze.cellAt c).coords = (exampleMaze.cellAt c).coords) ∧
    (∃ r, DijkstraPathfinder.findPath 126 0 (fun _ => 0) exampleMaze (some ⟨1, 1⟩)
        (some ⟨3, 3⟩) = some r ∧
      exampleMaze.MarkedFrom r.maze ∧
      ∀ c, (r.maze.cellAt c).coords = (exampleMaze.cellAt c).coords) ∧
    (∃ r, AStarPathfinder.findPath 126 0 (fun _ => 0) exampleMaze (some ⟨1, 1⟩)
        (some ⟨3, 3⟩) = some r ∧
      exampleMaze.MarkedFrom r.maze ∧
      ∀ c, (r.maze.cellAt c).coords = (exampleMaze.cellAt c).coords)) :=
  ⟨by intro s h; cases h; decide, by decide,
    findPath_only_sets_visited_flags exampleMaze (some ⟨1, 1⟩) (some ⟨3, 3⟩) 126 0 (fun _ => 0)
      (by intro s h; cases h; decide) (by decide)⟩

/-- C20: for each of the four strategies, on every grid whatever its flags,
with a start cell of the grid and any goal, `findPath` ends; the visit
callback is called exactly `nodesExplored` times, never twice for the same
cell, first for start; every cell has its visited flag set when it is handed
to the callback; and when a path is returned the last call is for the goal. -/
theorem visit_callback_once_per_explored_cell (maze : Maze) (start goal : Coordinate)
    (fuel elapsed : Nat) (ties : Nat → Nat)
    (hstart : maze.isValid start.x start.y = true) (hfuel : 5 * maze.area + 1 ≤ fuel) :
    (∃ r, BFSPathfinder.findPath fuel elapsed maze (some start) (some goal) = some r ∧
      r.notified.length = r.stats.nodesExplored ∧ (r.notified.map Cell.coords).Nodup ∧
      r.notified.head?.map Cell.coords = some start ∧ (∀ c ∈ r.notified, c.visited = true) ∧
      (r.path ≠ [] → r.notified.getLast?.map Cell.coords = some goal)) ∧
    (∃ r, DFSPathfinder.findPath fuel elapsed maze (some start) (some goal) = some r ∧
      r.notified.length = r.stats.nodesExplored ∧ (r.notified.map Cell.coords).Nodup ∧
      r.notified.head?.map Cell.coords = some start ∧ (∀ c ∈ r.notified, c.visited = true) ∧
      (r.path ≠ [] → r.notified.getLast?.map Cell.coords = some goal)) ∧
    (∃ r, DijkstraPathfinder.findPath fuel elapsed ties maze (some start) (some goal) = some r ∧
      r.notified.length = r.stats.nodesExplored ∧ (r.notified.map Cell.coords).Nodup ∧
      r.notified.head?.map Cell.coords = some start ∧ (∀ c ∈ r.notified, c.visited = true) ∧
      (r.path ≠ [] → r.notified.getLast?.map Cell.coords = some goal)) ∧
    (∃ r, AStarPathfinder.findPath fuel elapsed ties maze (some start) (some goal) = some r ∧
      r.notified.length = r.stats.nodesExplored ∧ (r.notified.map Cell.coords).Nodup ∧
      r.notified.head?.map Cell.coords = some start ∧ (∀ c ∈ r.notified, c.visited = true) ∧
      (r.path ≠ [] → r.notified.getLast?.map Cell.coords = some goal)) := by
  refine ⟨?_, ?_, ?_, ?_⟩
  · obtain ⟨r, hr, _⟩ :=
      BFSPathfinder.bfs_findPath_spec maze start goal fuel elapsed (by omega) hstart
    exact ⟨r, hr, BFSPathfinder.bfs_findPath_notified maze start goal fuel elapsed r hr⟩
  · obtain ⟨r, hr, _⟩ :=
      DFSPathfinder.dfs_findPath_spec maze start goal fuel elapsed (by omega) hstart
    exact ⟨r, hr, DFSPathfinder.dfs_findPath_notified maze start goal fuel elapsed r hr⟩
  · obtain ⟨r, hr, _⟩ :=
      DijkstraPathfinder.dijkstra_findPath_spec maze start goal fuel elapsed ties hfuel hstart
    exact ⟨r, hr,
      DijkstraPathfinder.dijkstra_findPath_notified maze start goal fuel elapsed ties r hr⟩
  · obtain ⟨r, hr, _⟩ :=
      AStarPathfinder.astar_findPath_spec maze start goal fuel elapsed ties hfuel hstart
    exact ⟨r, hr, AStarPathfinder.astar_findPath_notified maze start goal fuel elapsed ties r hr⟩

/-- C20 at `exampleMaze`, from `(1, 1)` to `(3, 3)`. -/
theorem visit_callback_once_per_explored_cell_witness :
    exampleMaze.isValid 1 1 = true ∧ 5 * exampleMaze.area + 1 ≤ 126 ∧
    ((∃ r, BFSPathfinder.findPath 126 0 exampleMaze (some ⟨1, 1⟩) (some ⟨3, 3⟩) = some r ∧
      r.notified.length = r.stats.nodesExplored ∧ (r.notified.map Cell.coords).Nodup ∧
      r.notified.head?.map Cell.coords = some ⟨1, 1⟩ ∧ (∀ c ∈ r.notified, c.visited = true) ∧
      (r.path ≠ [] → r.notified.getLast?.map Cell.coords = some ⟨3, 3⟩)) ∧
    (∃ r, DFSPathfinder.findPath 126 0 exampleMaze (some ⟨1, 1⟩) (some ⟨3, 3⟩) = some r ∧
      r.notified.length = r.stats.nodesExplored ∧ (r.notified.map Cell.coords).Nodup ∧
      r.notified.head?.map Cell.coords = some ⟨1, 1⟩ ∧ (∀ c ∈ r.notified, c.visited = true) ∧
      (r.path ≠ [] → r.notified.getLast?.map Cell.coords = some ⟨3, 3⟩)) ∧
    (∃ r, DijkstraPathfinder.findPath 126 0 (fun _ => 0) exampleMaze (some ⟨1, 1⟩)
        (some ⟨3, 3⟩) = some r ∧
      r.notified.length = r.stats.nodesExplored ∧ (r.notified.map Cell.coords).Nodup ∧
      r.notified.head?.map Cell.coords = some ⟨1, 1⟩ ∧ (∀ c ∈ r.notified, c.visited = true) ∧
      (r.path ≠ [] → r.notified.getLast?.map Cell.coords = some ⟨3, 3⟩)) ∧
    (∃ r, AStarPathfinder.findPath 126 0 (fun _ => 0) exampleMaze (some ⟨1, 1⟩)
        (some ⟨3, 3⟩) = some r ∧
      r.notified.length = r.stats.nodesExplored ∧ (r.notified.map Cell.coords).Nodup ∧
      r.notified.head?.map Cell.coords = some ⟨1, 1⟩ ∧ (∀ c ∈ r.notified, c.visited = true) ∧
      (r.path ≠ [] → r.notified.getLast?.map Cell.coords = some ⟨3, 3⟩))) :=
  ⟨by decide, by decide,
    visit_callback_once_per_explored_cell exampleMaze ⟨1, 1⟩ ⟨3, 3⟩ 126 0 (fun _ => 0)
      (by decide) (by decide)⟩

/-! ## The claims about the generated grids -/

/-- C11, the code at a failing input: `generatePerfectMaze(5, 5,
RECURSIVE_DIVISION)` with the raw draws 0, 0, 2, 2, 1, 0, 0, 1 ends and leaves
exactly the cells `(1,1)`, `(3,1)`, `(2,2)`, `(1,3)`, `(2,3)`, `(3,3)` open; the
start `(1, 1)` has no open neighbour, the goal `(3, 3)` cannot be reached from
it, and BFS from start to goal explores one cell and returns the empty
path. -/
theorem division_leaves_goal_unreachable :
    ∃ m, divisionExample = some m ∧ m.start = some ⟨1, 1⟩ ∧ m.goal = some ⟨3, 3⟩ ∧
      m.cells.filter (fun c => !m.wall c) = [⟨1, 1⟩, ⟨3, 1⟩, ⟨2, 2⟩, ⟨1, 3⟩, ⟨2, 3⟩, ⟨3, 3⟩] ∧
      ¬ m.Reachable ⟨1, 1⟩ ⟨3, 3⟩ ∧
      (BFSPathfinder.findPath 51 0 m m.start m.goal).map (fun r => (r.path, r.stats)) =
        some ([], ⟨0, 1, 0⟩) := by
  have hsome : divisionExample.isSome = true := by decide
  obtain ⟨m, hm⟩ := Option.isSome_iff_exists.mp hsome
  have h : divisionExample.map (fun m => (m.start, m.goal, m.getNeighbors ⟨1, 1⟩)) =
      some (some ⟨1, 1⟩, some ⟨3, 3⟩, []) := by decide
  have hc : divisionExample.map (fun m => m.cells.filter (fun c => !m.wall c)) =
      some [⟨1, 1⟩, ⟨3, 1⟩, ⟨2, 2⟩, ⟨1, 3⟩, ⟨2, 3⟩, ⟨3, 3⟩] := by decide
  have hb : divisionExample.map (fun m =>
      (BFSPathfinder.findPath 51 0 m m.start m.goal).map (fun r => (r.path, r.stats))) =
      some (some ([], ⟨0, 1, 0⟩)) := by decide
  rw [hm] at h hc hb
  simp only [Option.map_some', Option.some.injEq, Prod.mk.injEq] at h hc hb
  obtain ⟨h1, h2, h4⟩ := h
  have h3 := hc
  have h5 := hb
  exact ⟨m, hm, h1, h2, h3, m.not_reachable_of_isolated _ _ h4 (by decide), h5⟩

/-- C12, the code at failing inputs, one for each generator: the grids that
`generatePerfectMaze` leaves for `(6, 5, RECURSIVE_BACKTRACKING)` with every draw
0, for `(5, 5, RANDOMIZED_PRIMS)` with the draws 1, 2, 3, ... and for `(5, 5,
RECURSIVE_DIVISION)` with the draws 0, 0, 2, 2, 1, 0, 0, 1 are not perfect mazes.
In the first there are two paths without repetition from `(3, 3)` to
`(5, 3)`; in the other two the open cell `(1, 1)` has no path to the open
cell `(3, 3)`. -/
theorem generated_grids_are_not_perfect :
    (∃ m, backtrackingExample = some m ∧ ¬ m.Perfect) ∧
    (∃ m, primsExample = some m ∧ ¬ m.Perfect) ∧
    (∃ m, divisionExample = some m ∧ ¬ m.Perfect) := by
  refine ⟨?_, ?_, ?_⟩
  · have hsome : backtrackingExample.isSome = true := by decide
    obtain ⟨m, hm⟩ := Option.isSome_iff_exists.mp hsome
    have h : backtrackingExample.map (fun m =>
        ([⟨3, 3⟩, ⟨4, 3⟩, ⟨5, 3⟩, ⟨3, 2⟩, ⟨3, 1⟩, ⟨4, 1⟩, ⟨5, 1⟩, ⟨5, 2⟩] :
          List Coordinate).all m.isOpen) = some true := by decide
    rw [hm] at h
    simp only [Option.map_some', Option.some.injEq, List.all_eq_true] at h
    refine ⟨m, hm, m.not_perfect_of_two_paths ⟨3, 3⟩ ⟨5, 3⟩
      [⟨3, 3⟩, ⟨4, 3⟩, ⟨5, 3⟩]
      [⟨3, 3⟩, ⟨3, 2⟩, ⟨3, 1⟩, ⟨4, 1⟩, ⟨5, 1⟩, ⟨5, 2⟩, ⟨5, 3⟩]
      (h _ (by decide)) (h _ (by decide)) ⟨⟨⟨?_, by simp [manhattan]⟩, rfl, rfl⟩, by decide⟩
      ⟨⟨⟨?_, by simp [manhattan]⟩, rfl, rfl⟩, by decide⟩ (by decide)⟩
    · intro c hc
      exact h c (by revert c; decide)
    · intro c hc
      exact h c (by revert c; decide)
  · have hsome : primsExample.isSome = true := by decide
    obtain ⟨m, hm⟩ := Option.isSome_iff_exists.mp hsome
    have h : primsExample.map (fun m =>
        (m.isOpen ⟨1, 1⟩, m.isOpen ⟨3, 3⟩, m.getNeighbors ⟨1, 1⟩)) = some (true, true, []) := by
      decide
    rw [hm] at h
    simp only [Option.map_some', Option.some.injEq, Prod.mk.injEq] at h
    exact ⟨m, hm, m.not_perfect_of_isolated ⟨1, 1⟩ ⟨3, 3⟩ h.1 h.2.1 h.2.2 (by decide)⟩
  · have hsome : divisionExample.isSome = true := by decide
    obtain ⟨m, hm⟩ := Option.isSome_iff_exists.mp hsome
    have h : divisionExample.map (fun m =>
        (m.isOpen ⟨1, 1⟩, m.isOpen ⟨3, 3⟩, m.getNeighbors ⟨1, 1⟩)) = some (true, true, []) := by
      decide
    rw [hm] at h
    simp only [Option.map_some', Option.some.injEq, Prod.mk.injEq] at h
    exact ⟨m, hm, m.not_perfect_of_isolated ⟨1, 1⟩ ⟨3, 3⟩ h.1 h.2.1 h.2.2 (by decide)⟩

/-! ## The drawing loops of the recursive division -/

namespace Maze

theorem eq_of_fields (a b : Maze) (h1 : a.width = b.width) (h2 : a.height = b.height)
    (h3 : ∀ c, a.wall c = b.wall c) (h4 : a.visited = b.visited) (h5 : a.path = b.path)
    (h6 : a.start = b.start) (h7 : a.goal = b.goal) : a = b := by
  obtain ⟨w, h, wa, vi, pa, st, go⟩ := a
  obtain ⟨w2, h2', wa2, vi2, pa2, st2, go2⟩ := b
  simp only at h1 h2 h3 h4 h5 h6 h7
  have : wa = wa2 := funext h3
  subst h1 h2 h4 h5 h6 h7 this
  rfl

/-- A loop that sets the wall flag of the cell `pos k` for the indices `k`
that pass a test: the test being blind to wall flags, the walls afterwards
are the walls before and the cells of the indices that pass. -/
theorem foldl_setWall_spec (pos : Nat → Coordinate) (cond : Maze → Nat → Bool)
    (hcond : ∀ (a : Maze) (c : Coordinate) (k : Nat), cond (a.setWall c true) k = cond a k) :
    ∀ (l : List Nat) (m : Maze),
      (l.foldl (fun acc k => if cond acc k then acc.setWall (pos k) true else acc) m).width =
        m.width ∧
      (l.foldl (fun acc k => if cond acc k then acc.setWall (pos k) true else acc) m).height =
        m.height ∧
      (l.foldl (fun acc k => if cond acc k then acc.setWall (pos k) true else acc) m).visited =
        m.visited ∧
      (l.foldl (fun acc k => if cond acc k then acc.setWall (pos k) true else acc) m).path =
        m.path ∧
      (l.foldl (fun acc k => if cond acc k then acc.setWall (pos k) true else acc) m).start =
        m.start ∧
      (l.foldl (fun acc k => if cond acc k then acc.setWall (pos k) true else acc) m).goal =
        m.goal ∧
      ∀ c, (l.foldl (fun acc k => if cond acc k then acc.setWall (pos k) true else acc) m).wall
          c = true ↔ m.wall c = true ∨ ∃ k ∈ l, cond m k = true ∧ c = pos k := by
  intro l
  induction l with
  | nil => intro m; simp
  | cons a l ih =>
    intro m
    rw [List.foldl_cons]
    obtain ⟨h1, h2, h3, h4, h5, h6, h7⟩ := ih (if cond m a then m.setWall (pos a) true else m)
    by_cases ha : cond m a = true
    · simp only [ha, if_true] at h1 h2 h3 h4 h5 h6 h7 ⊢
      refine ⟨h1, h2, h3, h4, h5, h6, ?_⟩
      intro c
      rw [h7 c]
      simp only [hcond, List.mem_cons, exists_eq_or_imp, ha, true_and]
      have : (m.setWall (pos a) true).wall c = true ↔ m.wall c = true ∨ c = pos a := by
        simp only [setWall]
        by_cases hc : c = pos a
        · simp [hc]
        · simp [hc]
      rw [this]
      tauto
    · simp only [ha, Bool.false_eq_true, if_false] at h1 h2 h3 h4 h5 h6 h7 ⊢
      refine ⟨h1, h2, h3, h4, h5, h6, ?_⟩
      intro c
      rw [h7 c]
      simp only [List.mem_cons, exists_eq_or_imp, ha, Bool.false_eq_true, false_and, false_or]

theorem drawHorizontal_eq_foldl (m : Maze) (x w wallY gapX : Int) :
    m.drawHorizontal x w wallY gapX =
      (List.range w.toNat).foldl (fun (acc : Maze) (k : Nat) =>
        if (decide (x + (k : Int) ≠ gapX) && acc.isValid (x + (k : Int)) wallY) then
          acc.setWall ⟨x + (k : Int), wallY⟩ true else acc) m := by
  unfold drawHorizontal
  congr 1
  funext acc k
  simp only [ne_eq, Bool.and_eq_true, decide_eq_true_eq]

theorem drawVertical_eq_foldl (m : Maze) (y h wallX gapY : Int) :
    m.drawVertical y h wallX gapY =
      (List.range h.toNat).foldl (fun (acc : Maze) (k : Nat) =>
        if (decide (y + (k : Int) ≠ gapY) && acc.isValid wallX (y + (k : Int))) then
          acc.setWall ⟨wallX, y + (k : Int)⟩ true else acc) m := by
  unfold drawVertical
  congr 1
  funext acc k
  simp only [ne_eq, Bool.and_eq_true, decide_eq_true_eq]

theorem drawHorizontalAll_eq_foldl (m : Maze) (x w wallY gapX : Int) :
    m.drawHorizontalAll x w wallY gapX =
      (List.range w.toNat).foldl (fun (acc : Maze) (k : Nat) =>
        if (fun (_ : Maze) (k : Nat) => decide (x + (k : Int) ≠ gapX)) acc k then
          acc.setWall ⟨x + (k : Int), wallY⟩ true else acc) m := by
  unfold drawHorizontalAll
  congr 1
  funext acc k
  simp only [ne_eq, decide_eq_true_eq]

theorem drawVerticalAll_eq_foldl (m : Maze) (y h wallX gapY : Int) :
    m.drawVerticalAll y h wallX gapY =
      (List.range h.toNat).foldl (fun (acc : Maze) (k : Nat) =>
        if (fun (_ : Maze) (k : Nat) => decide (y + (k : Int) ≠ gapY)) acc k then
          acc.setWall ⟨wallX, y + (k : Int)⟩ true else acc) m := by
  unfold drawVerticalAll
  congr 1
  funext acc k
  simp only [ne_eq, decide_eq_true_eq]

/-- What `drawHorizontal` changes: only wall flags, and it sets those of the
cells of the grid in row `wallY` between `x` and `x + w - 1` other than
`gapX`. -/
theorem drawHorizontal_spec (m : Maze) (x w wallY gapX : Int) :
    (m.drawHorizontal x w wallY gapX).visited = m.visited ∧
    (m.drawHorizontal x w wallY gapX).path = m.path ∧
    (m.drawHorizontal x w wallY gapX).start = m.start ∧
    (m.drawHorizontal x w wallY gapX).goal = m.goal ∧
    ∀ c, (m.drawHorizontal x w wallY gapX).wall c = true ↔
      m.wall c = true ∨ (c.y = wallY ∧ x ≤ c.x ∧ c.x < x + w ∧ c.x ≠ gapX ∧
        m.isValid c.x c.y = true) := by
  rw [drawHorizontal_eq_foldl]
  obtain ⟨_, _, h3, h4, h5, h6, h7⟩ := foldl_setWall_spec
    (fun k => (⟨x + (k : Int), wallY⟩ : Coordinate))
    (fun acc k => decide (x + (k : Int) ≠ gapX) && acc.isValid (x + (k : Int)) wallY)
    (fun _ _ _ => rfl) (List.range w.toNat) m
  refine ⟨h3, h4, h5, h6, ?_⟩
  intro c
  rw [h7 c]
  apply or_congr Iff.rfl
  obtain ⟨cx, cy⟩ := c
  simp only [List.mem_range, Bool.and_eq_true, decide_eq_true_eq, Coordinate.mk.injEq, ne_eq]
  constructor
  · rintro ⟨k, hk, ⟨h1, h2⟩, rfl, rfl⟩
    exact ⟨rfl, by omega, by omega, h1, h2⟩
  · rintro ⟨rfl, h1, h2, h3, h4⟩
    exact ⟨(cx - x).toNat, by omega, ⟨by rw [Int.toNat_of_nonneg (by omega)]; omega,
      by rw [Int.toNat_of_nonneg (by omega)]; simpa using h4⟩,
      by rw [Int.toNat_of_nonneg (by omega)]; omega, rfl⟩

/-- What `drawVertical` changes: only wall flags, and it sets those of the
cells of the grid in column `wallX` between `y` and `y + h - 1` other than
`gapY`. -/
theorem drawVertical_spec (m : Maze) (y h wallX gapY : Int) :
    (m.drawVertical y h wallX gapY).visited = m.visited ∧
    (m.drawVertical y h wallX gapY).path = m.path ∧
    (m.drawVertical y h wallX gapY).start = m.start ∧
    (m.drawVertical y h wallX gapY).goal = m.goal ∧
    ∀ c, (m.drawVertical y h wallX gapY).wall c = true ↔
      m.wall c = true ∨ (c.x = wallX ∧ y ≤ c.y ∧ c.y < y + h ∧ c.y ≠ gapY ∧
        m.isValid c.x c.y = true) := by
  rw [drawVertical_eq_foldl]
  obtain ⟨_, _, h3, h4, h5, h6, h7⟩ := foldl_setWall_spec
    (fun k => (⟨wallX, y + (k : Int)⟩ : Coordinate))
    (fun acc k => decide (y + (k : Int) ≠ gapY) && acc.isValid wallX (y + (k : Int)))
    (fun _ _ _ => rfl) (List.range h.toNat) m
  refine ⟨h3, h4, h5, h6, ?_⟩
  intro c
  rw [h7 c]
  apply or_congr Iff.rfl
  obtain ⟨cx, cy⟩ := c
  simp only [List.mem_range, Bool.and_eq_true, decide_eq_true_eq, Coordinate.mk.injEq, ne_eq]
  constructor
  · rintro ⟨k, hk, ⟨h1, h2⟩, rfl, rfl⟩
    exact ⟨rfl, by omega, by omega, h1, h2⟩
  · rintro ⟨rfl, h1, h2, h3, h4⟩
    exact ⟨(cy - y).toNat, by omega, ⟨by rw [Int.toNat_of_nonneg (by omega)]; omega,
      by rw [Int.toNat_of_nonneg (by omega)]; simpa using h4⟩, rfl,
      by rw [Int.toNat_of_nonneg (by omega)]; omega⟩

theorem drawHorizontalAll_spec (m : Maze) (x w wallY gapX : Int) :
    (m.drawHorizontalAll x w wallY gapX).width = m.width ∧
    (m.drawHorizontalAll x w wallY gapX).height = m.height ∧
    (m.drawHorizontalAll x w wallY gapX).visited = m.visited ∧
    (m.drawHorizontalAll x w wallY gapX).path = m.path ∧
    (m.drawHorizontalAll x w wallY gapX).start = m.start ∧
    (m.drawHorizontalAll x w wallY gapX).goal = m.goal ∧
    ∀ c, (m.drawHorizontalAll x w wallY gapX).wall c = true ↔
      m.wall c = true ∨ (c.y = wallY ∧ x ≤ c.x ∧ c.x < x + w ∧ c.x ≠ gapX) := by
  rw [drawHorizontalAll_eq_foldl]
  obtain ⟨h1, h2, h3, h4, h5, h6, h7⟩ := foldl_setWall_spec
    (fun k => (⟨x + (k : Int), wallY⟩ : Coordinate))
    (fun _ k => decide (x + (k : Int) ≠ gapX))
    (fun _ _ _ => rfl) (List.range w.toNat) m
  refine ⟨h1, h2, h3, h4, h5, h6, ?_⟩
  intro c
  rw [h7 c]
  apply or_congr Iff.rfl
  obtain ⟨cx, cy⟩ := c
  simp only [List.mem_range, decide_eq_true_eq, Coordinate.mk.injEq, ne_eq]
  constructor
  · rintro ⟨k, hk, hne, rfl, rfl⟩
    exact ⟨rfl, by omega, by omega, hne⟩
  · rintro ⟨rfl, h1, h2, h3⟩
    exact ⟨(cx - x).toNat, by omega, by rw [Int.toNat_of_nonneg (by omega)]; omega,
      by rw [Int.toNat_of_nonneg (by omega)]; omega, rfl⟩

theorem drawVerticalAll_spec (m : Maze) (y h wallX gapY : Int) :
    (m.drawVerticalAll y h wallX gapY).width = m.width ∧
    (m.drawVerticalAll y h wallX gapY).height = m.height ∧
    (m.drawVerticalAll y h wallX gapY).visited = m.visited ∧
    (m.drawVerticalAll y h wallX gapY).path = m.path ∧
    (m.drawVerticalAll y h wallX gapY).start = m.start ∧
    (m.drawVerticalAll y h wallX gapY).goal = m.goal ∧
    ∀ c, (m.drawVerticalAll y h wallX gapY).wall c = true ↔
      m.wall c = true ∨ (c.x = wallX ∧ y ≤ c.y ∧ c.y < y + h ∧ c.y ≠ gapY) := by
  rw [drawVerticalAll_eq_foldl]
  obtain ⟨h1, h2, h3, h4, h5, h6, h7⟩ := foldl_setWall_spec
    (fun k => (⟨wallX, y + (k : Int)⟩ : Coordinate))
    (fun _ k => decide (y + (k : Int) ≠ gapY))
    (fun _ _ _ => rfl) (List.range h.toNat) m
  refine ⟨h1, h2, h3, h4, h5, h6, ?_⟩
  intro c
  rw [h7 c]
  apply or_congr Iff.rfl
  obtain ⟨cx, cy⟩ := c
  simp only [List.mem_range, decide_eq_true_eq, Coordinate.mk.injEq, ne_eq]
  constructor
  · rintro ⟨k, hk, hne, rfl, rfl⟩
    exact ⟨rfl, by omega, by omega, hne⟩
  · rintro ⟨rfl, h1, h2, h3⟩
    exact ⟨(cy - y).toNat, by omega, by rw [Int.toNat_of_nonneg (by omega)]; omega, rfl,
      by rw [Int.toNat_of_nonneg (by omega)]; omega⟩

end Maze

/-! ## The recursion of the recursive division -/

namespace Maze

theorem drawHorizontal_eq_all (m : Maze) (x w wallY gapX : Int)
    (hx : 0 ≤ x) (hw : x + w ≤ m.width) (hy : 0 ≤ wallY) (hy2 : wallY < m.height) :
    m.drawHorizontal x w wallY gapX = m.drawHorizontalAll x w wallY gapX := by
  obtain ⟨h3, h4, h5, h6, h7⟩ := drawHorizontal_spec m x w wallY gapX
  obtain ⟨g1, g2, g3, g4, g5, g6, g7⟩ := drawHorizontalAll_spec m x w wallY gapX
  obtain ⟨s1, s2⟩ := drawHorizontal_size m x w wallY gapX
  refine eq_of_fields _ _ (s1.trans g1.symm) (s2.trans g2.symm) ?_ (h3.trans g3.symm)
    (h4.trans g4.symm) (h5.trans g5.symm) (h6.trans g6.symm)
  intro c
  rw [Bool.eq_iff_iff, h7 c, g7 c]
  apply or_congr Iff.rfl
  rw [isValid_iff]
  constructor
  · rintro ⟨a, b, c1, d, _⟩
    exact ⟨a, b, c1, d⟩
  · rintro ⟨a, b, c1, d⟩
    exact ⟨a, b, c1, d, by omega⟩

theorem drawVertical_eq_all (m : Maze) (y h wallX gapY : Int)
    (hy : 0 ≤ y) (hh : y + h ≤ m.height) (hx : 0 ≤ wallX) (hx2 : wallX < m.width) :
    m.drawVertical y h wallX gapY = m.drawVerticalAll y h wallX gapY := by
  obtain ⟨h3, h4, h5, h6, h7⟩ := drawVertical_spec m y h wallX gapY
  obtain ⟨g1, g2, g3, g4, g5, g6, g7⟩ := drawVerticalAll_spec m y h wallX gapY
  obtain ⟨s1, s2⟩ := drawVertical_size m y h wallX gapY
  refine eq_of_fields _ _ (s1.trans g1.symm) (s2.trans g2.symm) ?_ (h3.trans g3.symm)
    (h4.trans g4.symm) (h5.trans g5.symm) (h6.trans g6.symm)
  intro c
  rw [Bool.eq_iff_iff, h7 c, g7 c]
  apply or_congr Iff.rfl
  rw [isValid_iff]
  constructor
  · rintro ⟨a, b, c1, d, _⟩
    exact ⟨a, b, c1, d⟩
  · rintro ⟨a, b, c1, d⟩
    exact ⟨a, b, c1, d, by omega⟩

/-- One level of `divide` on a region that is not too small to be divided. -/
theorem divide_succ (fuel : Nat) (m : Maze) (rng : Rng) (x y w h : Int)
    (hw : 2 ≤ w) (hh : 2 ≤ h) :
    divide (fuel + 1) (m, rng) x y w h =
      if (decide (h > w) || (decide (h = w) && rng 0 % 2 == 0)) = true then
        (divide fuel (drawHorizontal m x w
            (uniformInt y (y + h - 1) ((if h = w then rng.drop 1 else rng) 0))
            (uniformInt x (x + w - 1) ((if h = w then rng.drop 1 else rng) 1)),
          (if h = w then rng.drop 1 else rng).drop 2) x y w
          (uniformInt y (y + h - 1) ((if h = w then rng.drop 1 else rng) 0) - y)).bind fun r =>
        divide fuel r x (uniformInt y (y + h - 1) ((if h = w then rng.drop 1 else rng) 0) + 1) w
          (y + h - uniformInt y (y + h - 1) ((if h = w then rng.drop 1 else rng) 0) - 1)
      else
        (divide fuel (drawVertical m y h
            (uniformInt x (x + w - 1) ((if h = w then rng.drop 1 else rng) 0))
            (uniformInt y (y + h - 1) ((if h = w then rng.drop 1 else rng) 1)),
          (if h = w then rng.drop 1 else rng).drop 2) x y
          (uniformInt x (x + w - 1) ((if h = w then rng.drop 1 else rng) 0) - x) h).bind fun r =>
        divide fuel r (uniformInt x (x + w - 1) ((if h = w then rng.drop 1 else rng) 0) + 1) y
          (x + w - uniformInt x (x + w - 1) ((if h = w then rng.drop 1 else rng) 0) - 1) h := by
  rw [divide]
  rw [if_neg (by omega)]

theorem divideAll_succ (fuel : Nat) (m : Maze) (rng : Rng) (x y w h : Int)
    (hw : 2 ≤ w) (hh : 2 ≤ h) :
    divideAll (fuel + 1) (m, rng) x y w h =
      if (decide (h > w) || (decide (h = w) && rng 0 % 2 == 0)) = true then
        (divideAll fuel (drawHorizontalAll m x w
            (uniformInt y (y + h - 1) ((if h = w then rng.drop 1 else rng) 0))
            (uniformInt x (x + w - 1) ((if h = w then rng.drop 1 else rng) 1)),
          (if h = w then rng.drop 1 else rng).drop 2) x y w
          (uniformInt y (y + h - 1) ((if h = w then rng.drop 1 else rng) 0) - y)).bind fun r =>
        divideAll fuel r x
          (uniformInt y (y + h - 1) ((if h = w then rng.drop 1 else rng) 0) + 1) w
          (y + h - uniformInt y (y + h - 1) ((if h = w then rng.drop 1 else rng) 0) - 1)
      else
        (divideAll fuel (drawVerticalAll m y h
            (uniformInt x (x + w - 1) ((if h = w then rng.drop 1 else rng) 0))
            (uniformInt y (y + h - 1) ((if h = w then rng.drop 1 else rng) 1)),
          (if h = w then rng.drop 1 else rng).drop 2) x y
          (uniformInt x (x + w - 1) ((if h = w then rng.drop 1 else rng) 0) - x) h).bind fun r =>
        divideAll fuel r
          (uniformInt x (x + w - 1) ((if h = w then rng.drop 1 else rng) 0) + 1) y
          (x + w - uniformInt x (x + w - 1) ((if h = w then rng.drop 1 else rng) 0) - 1) h := by
  rw [divideAll]
  rw [if_neg (by omega)]

theorem divide_small (fuel : Nat) (mr : Maze × Rng) (x y w h : Int) (hs : w < 2 ∨ h < 2) :
    divide fuel mr x y w h = some mr := by
  obtain ⟨m, rng⟩ := mr
  unfold divide
  rw [if_pos hs]

theorem divideAll_small (fuel : Nat) (mr : Maze × Rng) (x y w h : Int) (hs : w < 2 ∨ h < 2) :
    divideAll fuel mr x y w h = some mr := by
  obtain ⟨m, rng⟩ := mr
  unfold divideAll
  rw [if_pos hs]

end Maze

namespace Maze

/-- On a region inside the grid, `divide` computes what the recursion without
the bounds guard computes; it changes only wall flags, clears none, and sets
them inside the region only. -/
theorem divide_inside :
    ∀ (fuel : Nat) (m : Maze) (rng : Rng) (r : Maze × Rng) (x y w h : Int),
      0 ≤ x → 0 ≤ y → 0 ≤ w → 0 ≤ h → x + w ≤ m.width → y + h ≤ m.height →
      divide fuel (m, rng) x y w h = some r →
      divideAll fuel (m, rng) x y w h = some r ∧
      r.1.visited = m.visited ∧ r.1.path = m.path ∧ r.1.start = m.start ∧
      r.1.goal = m.goal ∧
      (∀ c, m.wall c = true → r.1.wall c = true) ∧
      (∀ c, r.1.wall c = true →
        m.wall c = true ∨ (x ≤ c.x ∧ c.x < x + w ∧ y ≤ c.y ∧ c.y < y + h)) := by
  intro fuel
  induction fuel with
  | zero =>
    intro m rng r x y w h _ _ _ _ _ _ hr
    by_cases hs : w < 2 ∨ h < 2
    · rw [divide_small _ _ _ _ _ _ hs] at hr
      simp only [Option.some.injEq] at hr
      subst hr
      exact ⟨divideAll_small _ _ _ _ _ _ hs, rfl, rfl, rfl, rfl, fun _ hc => hc,
        fun _ hc => Or.inl hc⟩
    · unfold divide at hr
      rw [if_neg hs] at hr
      simp at hr
  | succ fuel ih =>
    intro m rng r x y w h hx hy hw0 hh0 hxw hyh hr
    by_cases hs : w < 2 ∨ h < 2
    · rw [divide_small _ _ _ _ _ _ hs] at hr
      simp only [Option.some.injEq] at hr
      subst hr
      exact ⟨divideAll_small _ _ _ _ _ _ hs, rfl, rfl, rfl, rfl, fun _ hc => hc,
        fun _ hc => Or.inl hc⟩
    · have hw : 2 ≤ w := by omega
      have hh : 2 ≤ h := by omega
      rw [divide_succ fuel m rng x y w h hw hh] at hr
      rw [divideAll_succ fuel m rng x y w h hw hh]
      generalize (if h = w then rng.drop 1 else rng) = rng1 at hr ⊢
      by_cases hor : (decide (h > w) || (decide (h = w) && rng 0 % 2 == 0)) = true
      · rw [if_pos hor] at hr ⊢
        have hwy := uniformInt_mem y (y + h - 1) (rng1 0) (by omega)
        generalize uniformInt y (y + h - 1) (rng1 0) = wy at hr hwy ⊢
        generalize uniformInt x (x + w - 1) (rng1 1) = gx at hr ⊢
        rw [Option.bind_eq_some] at hr
        obtain ⟨⟨m2, rng2⟩, hr1, hr2⟩ := hr
        obtain ⟨s1, s2⟩ := drawHorizontal_size m x w wy gx
        obtain ⟨d3, d4, d5, d6, d7⟩ := drawHorizontal_spec m x w wy gx
        obtain ⟨a1, a2, a3, a4, a5, a6, a7⟩ := ih (m.drawHorizontal x w wy gx) _ _ x y w (wy - y)
          hx hy hw0 (by omega) (by rw [s1]; exact hxw) (by rw [s2]; omega) hr1
        obtain ⟨t1, t2⟩ := divide_size fuel _ _ _ _ _ _ hr1
        simp only at t1 t2 a2 a3 a4 a5 a6 a7
        obtain ⟨b1, b2, b3, b4, b5, b6, b7⟩ := ih m2 rng2 r x (wy + 1) w (y + h - wy - 1)
          hx (by omega) hw0 (by omega) (by rw [t1, s1]; exact hxw) (by rw [t2, s2]; omega) hr2
        refine ⟨?_, by rw [b2, a2, d3], by rw [b3, a3, d4], by rw [b4, a4, d5],
          by rw [b5, a5, d6], ?_, ?_⟩
        · rw [← drawHorizontal_eq_all m x w wy gx hx hxw (by omega) (by omega), a1]
          exact b1
        · intro c hc
          exact b6 c (a6 c ((d7 c).mpr (Or.inl hc)))
        · intro c hc
          rcases b7 c hc with h1 | h1
          · rcases a7 c h1 with h2 | h2
            · rcases (d7 c).mp h2 with h3 | h3
              · exact Or.inl h3
              · exact Or.inr (by omega)
            · exact Or.inr (by omega)
          · exact Or.inr (by omega)
      · rw [if_neg hor] at hr ⊢
        have hwx := uniformInt_mem x (x + w - 1) (rng1 0) (by omega)
        generalize uniformInt x (x + w - 1) (rng1 0) = wx at hr hwx ⊢
        generalize uniformInt y (y + h - 1) (rng1 1) = gy at hr ⊢
        rw [Option.bind_eq_some] at hr
        obtain ⟨⟨m2, rng2⟩, hr1, hr2⟩ := hr
        obtain ⟨s1, s2⟩ := drawVertical_size m y h wx gy
        obtain ⟨d3, d4, d5, d6, d7⟩ := drawVertical_spec m y h wx gy
        obtain ⟨a1, a2, a3, a4, a5, a6, a7⟩ := ih (m.drawVertical y h wx gy) _ _ x y (wx - x) h
          hx hy (by omega) hh0 (by rw [s1]; omega) (by rw [s2]; exact hyh) hr1
        obtain ⟨t1, t2⟩ := divide_size fuel _ _ _ _ _ _ hr1
        simp only at t1 t2 a2 a3 a4 a5 a6 a7
        obtain ⟨b1, b2, b3, b4, b5, b6, b7⟩ := ih m2 rng2 r (wx + 1) y (x + w - wx - 1) h
          (by omega) hy (by omega) hh0 (by rw [t1, s1]; omega) (by rw [t2, s2]; exact hyh) hr2
        refine ⟨?_, by rw [b2, a2, d3], by rw [b3, a3, d4], by rw [b4, a4, d5],
          by rw [b5, a5, d6], ?_, ?_⟩
        · rw [← drawVertical_eq_all m y h wx gy hy hyh (by omega) (by omega), a1]
          exact b1
        · intro c hc
          exact b6 c (a6 c ((d7 c).mpr (Or.inl hc)))
        · intro c hc
          rcases b7 c hc with h1 | h1
          · rcases a7 c h1 with h2 | h2
            · rcases (d7 c).mp h2 with h3 | h3
              · exact Or.inl h3
              · exact Or.inr (by omega)
            · exact Or.inr (by omega)
          · exact Or.inr (by omega)

end Maze

/-! ## Refused sizes -/

namespace Maze

theorem validateDimensions_error (w h : Int)
    (hbad : ¬ (5 ≤ w ∧ w ≤ 100 ∧ 5 ≤ h ∧ h ≤ 100)) :
    validateDimensions w h = .error .invalidDimensions := by
  unfold validateDimensions
  by_cases h5 : w < 5 ∨ h < 5
  · rw [if_pos h5]
  · rw [if_neg h5, if_pos (by omega)]

theorem generate_error_iff (m : Maze) (w h : Int) :
    (m.generate w h).1 = .error .invalidDimensions ↔
      ¬ (5 ≤ w ∧ w ≤ 100 ∧ 5 ≤ h ∧ h ≤ 100) := by
  unfold generate
  by_cases hok : 5 ≤ w ∧ w ≤ 100 ∧ 5 ≤ h ∧ h ≤ 100
  · rw [validateDimensions_ok w h ⟨hok.1, hok.2.1⟩ ⟨hok.2.2.1, hok.2.2.2⟩]
    simp [hok]
  · rw [validateDimensions_error w h hok]
    simp [hok]

theorem generate_error_keeps (m : Maze) (w h : Int)
    (hbad : ¬ (5 ≤ w ∧ w ≤ 100 ∧ 5 ≤ h ∧ h ≤ 100)) : (m.generate w h).2 = m := by
  unfold generate
  rw [validateDimensions_error w h hbad]

theorem generatePerfectMaze_error (fuel : Nat) (rng : Rng) (m : Maze) (w h : Int)
    (algorithm : MazeGenerationAlgorithm) (hbad : ¬ (5 ≤ w ∧ w ≤ 100 ∧ 5 ≤ h ∧ h ≤ 100)) :
    generatePerfectMaze fuel rng m w h algorithm = .error .invalidDimensions := by
  unfold generatePerfectMaze
  rw [validateDimensions_error w h hbad]

theorem generatePerfectMaze_ok (fuel : Nat) (rng : Rng) (m : Maze) (w h : Int)
    (algorithm : MazeGenerationAlgorithm) (hok : 5 ≤ w ∧ w ≤ 100 ∧ 5 ≤ h ∧ h ≤ 100) :
    ∃ r, generatePerfectMaze fuel rng m w h algorithm = .ok r := by
  unfold generatePerfectMaze
  rw [validateDimensions_ok w h ⟨hok.1, hok.2.1⟩ ⟨hok.2.2.1, hok.2.2.2⟩]
  exact ⟨_, rfl⟩

theorem generatePerfectMazeCall_error_iff (fuel : Nat) (rng : Rng) (m : Maze) (w h : Int)
    (algorithm : MazeGenerationAlgorithm) :
    (generatePerfectMazeCall fuel rng m w h algorithm).1 = .error .invalidDimensions ↔
      ¬ (5 ≤ w ∧ w ≤ 100 ∧ 5 ≤ h ∧ h ≤ 100) := by
  unfold generatePerfectMazeCall
  by_cases hok : 5 ≤ w ∧ w ≤ 100 ∧ 5 ≤ h ∧ h ≤ 100
  · obtain ⟨r, hr⟩ := generatePerfectMaze_ok fuel rng m w h algorithm hok
    rw [hr]
    simp [hok]
  · rw [generatePerfectMaze_error fuel rng m w h algorithm hok]
    simp [hok]

theorem generatePerfectMazeCall_error_keeps (fuel : Nat) (rng : Rng) (m : Maze) (w h : Int)
    (algorithm : MazeGenerationAlgorithm) (hbad : ¬ (5 ≤ w ∧ w ≤ 100 ∧ 5 ≤ h ∧ h ≤ 100)) :
    (generatePerfectMazeCall fuel rng m w h algorithm).2 = some m := by
  unfold generatePerfectMazeCall
  rw [generatePerfectMaze_error fuel rng m w h algorithm hbad]

/-! ## The frontier of randomized Prim's -/

theorem generateRandomizedPrims_seed (m : Maze) (rng : Rng) (fuel : Nat) :
    m.generateRandomizedPrims fuel rng =
      (whileLoop (fun s => !s.frontier.isEmpty) primBody fuel (primSeed rng m)).map
        fun s => (s.maze.clearVisited, s.rng) := rfl

theorem generateRecursiveBacktracking_seed (m : Maze) (rng : Rng) (fuel : Nat) :
    m.generateRecursiveBacktracking fuel rng =
      (whileLoop (fun s => !s.stack.isEmpty) carveBody fuel (carveSeed rng m)).map
        fun s => (s.maze.clearVisited, s.rng) := rfl

/-- The loop over `getNeighbors(start)` puts nothing on the frontier: the neighbour
query yields no wall, and only walls are put on the frontier. -/
theorem primSeed_eq (m : Maze) (rng : Rng) :
    primSeed rng m =
      ⟨(m.setWall ⟨uniformInt 1 (m.width - 2) (rng 1), uniformInt 1 (m.height - 2) (rng 0)⟩
          false).setVisited
          ⟨uniformInt 1 (m.width - 2) (rng 1), uniformInt 1 (m.height - 2) (rng 0)⟩ true,
        [], rng.drop 2⟩ := by
  unfold primSeed
  simp only
  rw [foldl_primPush_closed]
  intro n hn
  have := ((Maze.mem_getNeighbors _ _ _).mp hn).1
  exact ((Maze.isOpen_iff _ _).mp this).2

/-- The grid on which randomized Prim's is started, after the origin has been
opened: the frontier is empty although the four cells next to the origin are
walls of the grid that are not marked. -/
theorem primSeed_frontier (w h : Int) (rng : Rng) (m : Maze)
    (hw : 5 ≤ w ∧ w ≤ 100) (hh : 5 ≤ h ∧ h ≤ 100) :
    (primSeed rng ((({ m with width := w, height := h } : Maze).initializeGrid).setAllWalls
      true)).frontier = [] ∧
    (primSeed rng ((({ m with width := w, height := h } : Maze).initializeGrid).setAllWalls
      true)).maze.wall ⟨uniformInt 1 (w - 2) (rng 1), uniformInt 1 (h - 2) (rng 0)⟩ = false ∧
    ∀ n, manhattan ⟨uniformInt 1 (w - 2) (rng 1), uniformInt 1 (h - 2) (rng 0)⟩ n = 1 →
      (primSeed rng ((({ m with width := w, height := h } : Maze).initializeGrid).setAllWalls
        true)).maze.isValid n.x n.y = true ∧
      (primSeed rng ((({ m with width := w, height := h } : Maze).initializeGrid).setAllWalls
        true)).maze.wall n = true ∧
      (primSeed rng ((({ m with width := w, height := h } : Maze).initializeGrid).setAllWalls
        true)).maze.visited n = false := by
  rw [primSeed_eq]
  have e1 : (({ m with width := w, height := h } : Maze).initializeGrid.setAllWalls
      true).width = w := rfl
  have e2 : (({ m with width := w, height := h } : Maze).initializeGrid.setAllWalls
      true).height = h := rfl
  rw [e1, e2]
  have hox := uniformInt_mem 1 (w - 2) (rng 1) (by omega)
  have hoy := uniformInt_mem 1 (h - 2) (rng 0) (by omega)
  generalize uniformInt 1 (w - 2) (rng 1) = ox at hox
  generalize uniformInt 1 (h - 2) (rng 0) = oy at hoy
  refine ⟨rfl, by simp [setVisited, setWall], ?_⟩
  intro n hn
  obtain ⟨nx, ny⟩ := n
  simp only [manhattan] at hn
  have hv : (({ m with width := w, height := h } : Maze).initializeGrid).isValid nx ny = true := by
    rw [isValid_iff]
    show 0 ≤ nx ∧ nx < w ∧ 0 ≤ ny ∧ ny < h
    omega
  have hne : (⟨nx, ny⟩ : Coordinate) ≠ ⟨ox, oy⟩ := by
    intro e
    simp only [Coordinate.mk.injEq] at e
    omega
  refine ⟨hv, ?_, ?_⟩
  · simp [setVisited, setWall, setAllWalls, hne, hv]
  · simp [setVisited, setWall, setAllWalls, initializeGrid, hne]

end Maze

/-! ## Counting the cells of a wall line -/

theorem segment_ncard (f : Int → Coordinate) (hf : Function.Injective f) (x w gap : Int)
    (hg : x ≤ gap ∧ gap < x + w) :
    Set.ncard {c : Coordinate | ∃ i, x ≤ i ∧ i < x + w ∧ i ≠ gap ∧ c = f i} = (w - 1).toNat := by
  have hnd : (((List.range w.toNat).erase (gap - x).toNat).map
      fun (k : Nat) => f (x + (k : Int))).Nodup := by
    apply List.Nodup.map
    · intro a b hab
      have := hf hab
      omega
    · exact (List.nodup_range _).erase _
  rw [ncard_eq_length_of_nodup _ _ hnd]
  · rw [List.length_map, List.length_erase_of_mem (List.mem_range.mpr (by omega)),
      List.length_range]
    omega
  · intro c
    simp only [List.mem_map, (List.nodup_range _).mem_erase_iff, List.mem_range,
      Set.mem_setOf_eq]
    constructor
    · rintro ⟨k, ⟨hk1, hk2⟩, rfl⟩
      exact ⟨x + k, by omega, by omega, by omega, rfl⟩
    · rintro ⟨i, h1, h2, h3, rfl⟩
      exact ⟨(i - x).toNat, ⟨by omega, by omega⟩, by rw [Int.toNat_of_nonneg (by omega)]; congr 1; omega⟩

theorem row_segment_ncard (x w line gap : Int) (hg : x ≤ gap ∧ gap < x + w) :
    Set.ncard {c : Coordinate | c.y = line ∧ x ≤ c.x ∧ c.x < x + w ∧ c.x ≠ gap} =
      (w - 1).toNat := by
  rw [← segment_ncard (fun i => (⟨i, line⟩ : Coordinate))
    (fun a b hab => by simpa using hab) x w gap hg]
  congr 1
  ext c
  obtain ⟨cx, cy⟩ := c
  simp only [Set.mem_setOf_eq, Coordinate.mk.injEq]
  constructor
  · rintro ⟨rfl, h1, h2, h3⟩
    exact ⟨cx, h1, h2, h3, rfl, rfl⟩
  · rintro ⟨i, h1, h2, h3, rfl, rfl⟩
    exact ⟨rfl, h1, h2, h3⟩

theorem column_segment_ncard (y h line gap : Int) (hg : y ≤ gap ∧ gap < y + h) :
    Set.ncard {c : Coordinate | c.x = line ∧ y ≤ c.y ∧ c.y < y + h ∧ c.y ≠ gap} =
      (h - 1).toNat := by
  rw [← segment_ncard (fun i => (⟨line, i⟩ : Coordinate))
    (fun a b hab => by simpa using hab) y h gap hg]
  congr 1
  ext c
  obtain ⟨cx, cy⟩ := c
  simp only [Set.mem_setOf_eq, Coordinate.mk.injEq]
  constructor
  · rintro ⟨rfl, h1, h2, h3⟩
    exact ⟨cy, h1, h2, h3, rfl, rfl⟩
  · rintro ⟨i, h1, h2, h3, rfl, rfl⟩
    exact ⟨rfl, h1, h2, h3⟩

namespace Maze

/-! ## The grid that the recursive division leaves -/

/-- For every valid size and every sequence of draws the recursive division
ends; it computes what the recursion without the bounds guard computes; the
border of the grid it leaves is walled, and every wall lies in the grid. -/
theorem generatePerfectMaze_division (w h : Int) (rng : Rng) (m : Maze) (fuel : Nat)
    (hw : 5 ≤ w ∧ w ≤ 100) (hh : 5 ≤ h ∧ h ≤ 100) (hfuel : (w + h).toNat ≤ fuel) :
    ∃ m' r, generatePerfectMaze fuel rng m w h .RECURSIVE_DIVISION = .ok (some m') ∧
      generateRecursiveDivision fuel rng (({ m with width := w, height := h } : Maze).initializeGrid)
        = some r ∧
      divideAll fuel
        (((({ m with width := w, height := h } : Maze).initializeGrid).setAllWalls false).addBorder,
          rng) 1 1 (w - 2) (h - 2) = some r ∧
      m'.width = w ∧ m'.height = h ∧
      (∀ c, m'.isValid c.x c.y = true →
        (c.x = 0 ∨ c.x = w - 1 ∨ c.y = 0 ∨ c.y = h - 1) → m'.wall c = true) ∧
      (∀ c, m'.wall c = true → m'.isValid c.x c.y = true) ∧
      (∀ c, m'.wall c = true → ¬ (c.x = 0 ∨ c.x = w - 1 ∨ c.y = 0 ∨ c.y = h - 1) →
        1 ≤ c.x ∧ c.x ≤ w - 2 ∧ 1 ≤ c.y ∧ c.y ≤ h - 2) := by
  obtain ⟨r, hr⟩ := divide_isSome fuel
    (((({ m with width := w, height := h } : Maze).initializeGrid).setAllWalls false).addBorder,
      rng) 1 1 (w - 2) (h - 2) (by omega)
  have hsize := divide_size _ _ _ _ _ _ _ hr
  obtain ⟨hall, _, _, _, _, hmono, hin⟩ := divide_inside fuel _ _ _ 1 1 (w - 2) (h - 2)
    (by omega) (by omega) (by omega) (by omega)
    (by show 1 + (w - 2) ≤ w; omega) (by show 1 + (h - 2) ≤ h; omega) hr
  have hrw : r.1.width = w := hsize.1
  have hrh : r.1.height = h := hsize.2
  have hm0 : ∀ c, ((({ m with width := w, height := h } : Maze).initializeGrid).setAllWalls
      false).addBorder.wall c = true ↔
      (0 ≤ c.x ∧ c.x < w ∧ 0 ≤ c.y ∧ c.y < h) ∧
        (c.x = 0 ∨ c.x = w - 1 ∨ c.y = 0 ∨ c.y = h - 1) := by
    intro c
    have hv : ((({ m with width := w, height := h } : Maze).initializeGrid).setAllWalls
        false).isValid c.x c.y = true ↔ (0 ≤ c.x ∧ c.x < w ∧ 0 ≤ c.y ∧ c.y < h) := by
      rw [isValid_iff]; rfl
    simp only [addBorder, hv]
    have hf : ((({ m with width := w, height := h } : Maze).initializeGrid).setAllWalls
        false).wall c = false := by
      simp [setAllWalls, initializeGrid]
    have e1 : ((({ m with width := w, height := h } : Maze).initializeGrid).setAllWalls
        false).width = w := rfl
    have e2 : ((({ m with width := w, height := h } : Maze).initializeGrid).setAllWalls
        false).height = h := rfl
    rw [hf, e1, e2]
    constructor
    · intro hc
      by_contra hcon
      rw [if_neg hcon] at hc
      cases hc
    · intro hc
      rw [if_pos hc]
  have hwall : ∀ c, ((({ r.1 with start := some ⟨1, 1⟩, goal := some ⟨w - 2, h - 2⟩ } :
      Maze).setWall ⟨1, 1⟩ false).setWall ⟨w - 2, h - 2⟩ false).wall c =
      if c = ⟨w - 2, h - 2⟩ then false else if c = ⟨1, 1⟩ then false else r.1.wall c := by
    intro c
    simp [setWall]
  have hvalid : ∀ c : Coordinate, ((({ r.1 with start := some ⟨1, 1⟩, goal := some ⟨w - 2, h - 2⟩ } :
      Maze).setWall ⟨1, 1⟩ false).setWall ⟨w - 2, h - 2⟩ false).isValid c.x c.y = true ↔
      (0 ≤ c.x ∧ c.x < w ∧ 0 ≤ c.y ∧ c.y < h) := by
    intro c
    rw [isValid_iff]
    show 0 ≤ c.x ∧ c.x < r.1.width ∧ 0 ≤ c.y ∧ c.y < r.1.height ↔ _
    rw [hrw, hrh]
  refine ⟨(({ r.1 with start := some ⟨1, 1⟩, goal := some ⟨w - 2, h - 2⟩ } :
      Maze).setWall ⟨1, 1⟩ false).setWall ⟨w - 2, h - 2⟩ false, r, ?_, hr, hall, hrw, hrh,
      ?_, ?_, ?_⟩
  · unfold generatePerfectMaze
    rw [validateDimensions_ok w h hw hh]
    simp only [ne_eq, not_true_eq_false, if_false]
    have hr' : generateRecursiveDivision fuel rng
        (({ m with width := w, height := h } : Maze).initializeGrid) = some r := hr
    rw [hr']
    rfl
  · intro c hc hb
    rw [hvalid] at hc
    rw [hwall]
    have h1 : c ≠ ⟨w - 2, h - 2⟩ := by
      intro e; rw [e] at hb; simp only at hb; omega
    have h2 : c ≠ ⟨1, 1⟩ := by
      intro e; rw [e] at hb; simp only at hb; omega
    rw [if_neg h1, if_neg h2]
    exact hmono c ((hm0 c).mpr ⟨hc, hb⟩)
  · intro c hc
    rw [hwall] at hc
    rw [hvalid]
    by_cases h1 : c = ⟨w - 2, h - 2⟩
    · rw [if_pos h1] at hc; cases hc
    · rw [if_neg h1] at hc
      by_cases h2 : c = ⟨1, 1⟩
      · rw [if_pos h2] at hc; cases hc
      · rw [if_neg h2] at hc
        rcases hin c hc with h3 | h3
        · exact ((hm0 c).mp h3).1
        · omega
  · intro c hc hnb
    rw [hwall] at hc
    by_cases h1 : c = ⟨w - 2, h - 2⟩
    · rw [if_pos h1] at hc; cases hc
    · rw [if_neg h1] at hc
      by_cases h2 : c = ⟨1, 1⟩
      · rw [if_pos h2] at hc; cases hc
      · rw [if_neg h2] at hc
        rcases hin c hc with h3 | h3
        · exact absurd ((hm0 c).mp h3).2 hnb
        · omega

/-! ## The open cells that randomized Prim's leaves -/

theorem generatePerfectMaze_prims_open (w h : Int) (rng : Rng) (m : Maze) (fuel : Nat)
    (hw : 5 ≤ w ∧ w ≤ 100) (hh : 5 ≤ h ∧ h ≤ 100) :
    ∃ m', generatePerfectMaze fuel rng m w h .RANDOMIZED_PRIMS = .ok (some m') ∧
      m'.width = w ∧ m'.height = h ∧
      ∀ c, m'.isOpen c = true ↔
        (c = ⟨uniformInt 1 (w - 2) (rng 1), uniformInt 1 (h - 2) (rng 0)⟩ ∨ c = ⟨1, 1⟩ ∨
          c = ⟨w - 2, h - 2⟩) := by
  have hox := uniformInt_mem 1 (w - 2) (rng 1) (by omega)
  have hoy := uniformInt_mem 1 (h - 2) (rng 0) (by omega)
  have hgen : generatePerfectMaze fuel rng m w h .RANDOMIZED_PRIMS =
      .ok (some ((({ ((((({ m with width := w, height := h } : Maze).initializeGrid).setAllWalls
        true).setWall ⟨uniformInt 1 (w - 2) (rng 1), uniformInt 1 (h - 2) (rng 0)⟩
        false).setVisited ⟨uniformInt 1 (w - 2) (rng 1), uniformInt 1 (h - 2) (rng 0)⟩
        true).clearVisited with
        start := some ⟨1, 1⟩, goal := some ⟨w - 2, h - 2⟩ } : Maze).setWall ⟨1, 1⟩
        false).setWall ⟨w - 2, h - 2⟩ false)) := by
    unfold generatePerfectMaze
    rw [validateDimensions_ok w h hw hh]
    simp only [ne_eq, reduceCtorEq, not_false_eq_true, if_true]
    rw [generateRandomizedPrims_eq]
    rfl
  generalize uniformInt 1 (w - 2) (rng 1) = ox at hox hgen ⊢
  generalize uniformInt 1 (h - 2) (rng 0) = oy at hoy hgen ⊢
  refine ⟨_, hgen, rfl, rfl, ?_⟩
  intro c
  rw [isOpen_iff, isValid_iff]
  show (0 ≤ c.x ∧ c.x < w ∧ 0 ≤ c.y ∧ c.y < h) ∧ _ ↔ _
  have hc' : (0 ≤ c.x ∧ c.x < w ∧ 0 ≤ c.y ∧ c.y < h) →
      (({ m with width := w, height := h } : Maze).initializeGrid).isValid c.x c.y = true := by
    intro hc
    rw [isValid_iff]
    exact hc
  constructor
  · rintro ⟨hv, hwall⟩
    by_contra hcon
    push_neg at hcon
    simp [setWall, clearVisited, setVisited, setAllWalls, hc' hv, hcon.1, hcon.2.1,
      hcon.2.2] at hwall
  · intro hc
    obtain ⟨cx, cy⟩ := c
    refine ⟨?_, ?_⟩
    · simp only [Coordinate.mk.injEq] at hc
      show 0 ≤ cx ∧ cx < w ∧ 0 ≤ cy ∧ cy < h
      omega
    · rcases hc with h1 | h1 | h1
      · by_cases h2 : (⟨cx, cy⟩ : Coordinate) = ⟨w - 2, h - 2⟩
        · simp [setWall, h2]
        · by_cases h3 : (⟨cx, cy⟩ : Coordinate) = ⟨1, 1⟩
          · simp [setWall, h3]
          · simp [setWall, clearVisited, setVisited, h1]
      · by_cases h2 : (⟨cx, cy⟩ : Coordinate) = ⟨w - 2, h - 2⟩
        · simp [setWall, h2]
        · simp [setWall, h1]
      · simp [setWall, h1]

theorem open_cells_length_le_three (m : Maze) (a b c : Coordinate)
    (h : ∀ k, m.isOpen k = true → k = a ∨ k = b ∨ k = c) :
    (m.cells.filter m.isOpen).length ≤ 3 := by
  have hnd : (m.cells.filter m.isOpen).Nodup := List.Nodup.filter _ m.cells_nodup
  have hsub : (m.cells.filter m.isOpen) ⊆ [a, b, c] := by
    intro k hk
    have := h k (List.mem_filter.mp hk).2
    simp only [List.mem_cons, List.mem_singleton, List.not_mem_nil, or_false]
    exact this
  exact (List.subperm_of_subset hnd hsub).length_le

end Maze

/-! ## The claims about look-ups and refused sizes -/

/-- C22: `getCell(x, y)` fails with `OutOfBounds` exactly when not `0 <= x < width` and
`0 <= y < height`; otherwise it returns the cell stored at row `y`, column `x`,
whose coordinates are `(x, y)`.  The method reads the grid only: the model is
a function of the grid that yields no new grid. -/
theorem getCell_fails_iff_out_of_bounds (m : Maze) (x y : Int) :
    (m.getCell x y = .error .outOfBounds ↔
      ¬ (0 ≤ x ∧ x < m.width ∧ 0 ≤ y ∧ y < m.height)) ∧
    ((0 ≤ x ∧ x < m.width ∧ 0 ≤ y ∧ y < m.height) →
      ∃ c, m.getCell x y = .ok c ∧ c.coords = ⟨x, y⟩ ∧ c = m.cellAt ⟨x, y⟩ ∧
        (m.grid[y.toNat]?).bind (fun row => row[x.toNat]?) = some c) := by
  by_cases hv : 0 ≤ x ∧ x < m.width ∧ 0 ≤ y ∧ y < m.height
  · have hv' : m.isValid x y = true := (m.isValid_iff x y).mpr hv
    refine ⟨?_, ?_⟩
    · simp [Maze.getCell, hv', hv]
    · intro _
      refine ⟨m.cellAt ⟨x, y⟩, by simp [Maze.getCell, hv'], rfl, rfl, ?_⟩
      have hx : ((x.toNat : Nat) : Int) = x := Int.toNat_of_nonneg hv.1
      have hy : ((y.toNat : Nat) : Int) = y := Int.toNat_of_nonneg hv.2.2.1
      have := m.grid_get x.toNat y.toNat (by omega) (by omega)
      rw [hx, hy] at this
      exact this
  · have hv' : m.isValid x y = false := by
      rw [← Bool.not_eq_true, m.isValid_iff x y]
      exact hv
    refine ⟨?_, fun h => absurd h hv⟩
    simp [Maze.getCell, hv', hv]

/-- C23: `generatePerfectMaze(w, h, algorithm)` and `generate(w, h)` fail with
`InvalidDimensions` exactly when `w` or `h` lies outside `[5, 100]`, and then the
object holds the grid it held before the call: its width, height, cells, start
and goal are as they were. -/
theorem generation_refuses_bad_size_unchanged (fuel : Nat) (rng : Rng) (m : Maze)
    (w h : Int) (algorithm : MazeGenerationAlgorithm) :
    ((Maze.generatePerfectMazeCall fuel rng m w h algorithm).1 = .error .invalidDimensions ↔
      ¬ (5 ≤ w ∧ w ≤ 100 ∧ 5 ≤ h ∧ h ≤ 100)) ∧
    ((m.generate w h).1 = .error .invalidDimensions ↔
      ¬ (5 ≤ w ∧ w ≤ 100 ∧ 5 ≤ h ∧ h ≤ 100)) ∧
    (¬ (5 ≤ w ∧ w ≤ 100 ∧ 5 ≤ h ∧ h ≤ 100) →
      Maze.generatePerfectMaze fuel rng m w h algorithm = .error .invalidDimensions ∧
      (Maze.generatePerfectMazeCall fuel rng m w h algorithm).2 = some m ∧
      (m.generate w h).2 = m) :=
  ⟨Maze.generatePerfectMazeCall_error_iff fuel rng m w h algorithm,
    Maze.generate_error_iff m w h,
    fun hbad => ⟨Maze.generatePerfectMaze_error fuel rng m w h algorithm hbad,
      Maze.generatePerfectMazeCall_error_keeps fuel rng m w h algorithm hbad,
      Maze.generate_error_keeps m w h hbad⟩⟩

/-! ## The claims about randomized Prim's -/

/-- C25, what the code does instead: for every width and height in `[5, 100]`
and every sequence of draws, when the origin has been opened and the loop
over `getNeighbors(start)` has run, the frontier is empty, although each of the
four cells next to the origin is a cell of the grid, is a wall and is not
marked. -/
theorem prims_frontier_stays_empty (w h : Int) (rng : Rng) (m : Maze)
    (hw : 5 ≤ w ∧ w ≤ 100) (hh : 5 ≤ h ∧ h ≤ 100) :
    (Maze.primSeed rng ((({ m with width := w, height := h } : Maze).initializeGrid).setAllWalls
      true)).frontier = [] ∧
    (Maze.primSeed rng ((({ m with width := w, height := h } : Maze).initializeGrid).setAllWalls
      true)).maze.wall ⟨uniformInt 1 (w - 2) (rng 1), uniformInt 1 (h - 2) (rng 0)⟩ = false ∧
    ∀ n, manhattan ⟨uniformInt 1 (w - 2) (rng 1), uniformInt 1 (h - 2) (rng 0)⟩ n = 1 →
      (Maze.primSeed rng ((({ m with width := w, height := h } : Maze).initializeGrid).setAllWalls
        true)).maze.isValid n.x n.y = true ∧
      (Maze.primSeed rng ((({ m with width := w, height := h } : Maze).initializeGrid).setAllWalls
        true)).maze.wall n = true ∧
      (Maze.primSeed rng ((({ m with width := w, height := h } : Maze).initializeGrid).setAllWalls
        true)).maze.visited n = false :=
  Maze.primSeed_frontier w h rng m hw hh

/-- C25 at the 5x5 grid with the draws 1, 2, 3, ... -/
theorem prims_frontier_stays_empty_witness :
    ((5 : Int) ≤ 5 ∧ (5 : Int) ≤ 100) ∧ ((5 : Int) ≤ 5 ∧ (5 : Int) ≤ 100) ∧
    ((Maze.primSeed (fun n => n + 1)
      ((({ defaultMaze with width := 5, height := 5 } : Maze).initializeGrid).setAllWalls
        true)).frontier = [] ∧
    (Maze.primSeed (fun n => n + 1)
      ((({ defaultMaze with width := 5, height := 5 } : Maze).initializeGrid).setAllWalls
        true)).maze.wall ⟨uniformInt 1 (5 - 2) ((fun n => n + 1) 1),
          uniformInt 1 (5 - 2) ((fun n => n + 1) 0)⟩ = false ∧
    ∀ n, manhattan ⟨uniformInt 1 (5 - 2) ((fun n => n + 1) 1),
        uniformInt 1 (5 - 2) ((fun n => n + 1) 0)⟩ n = 1 →
      (Maze.primSeed (fun n => n + 1)
        ((({ defaultMaze with width := 5, height := 5 } : Maze).initializeGrid).setAllWalls
          true)).maze.isValid n.x n.y = true ∧
      (Maze.primSeed (fun n => n + 1)
        ((({ defaultMaze with width := 5, height := 5 } : Maze).initializeGrid).setAllWalls
          true)).maze.wall n = true ∧
      (Maze.primSeed (fun n => n + 1)
        ((({ defaultMaze with width := 5, height := 5 } : Maze).initializeGrid).setAllWalls
          true)).maze.visited n = false) :=
  ⟨by decide, by decide,
    prims_frontier_stays_empty 5 5 (fun n => n + 1) defaultMaze (by decide) (by decide)⟩

/-- C26: for every width and height in `[5, 100]`, every sequence of draws and
every iteration budget, `generatePerfectMaze` with `RANDOMIZED_PRIMS` ends and the
non-wall cells of the grid it leaves are exactly the drawn origin, the start
`(1, 1)` and the goal `(width - 2, height - 2)`: at most three cells are open.
The loop is entered with an empty frontier and its body is never run. -/
theorem prims_opens_origin_start_goal_only (w h : Int) (rng : Rng) (m : Maze) (fuel : Nat)
    (hw : 5 ≤ w ∧ w ≤ 100) (hh : 5 ≤ h ∧ h ≤ 100) :
    ∃ m', Maze.generatePerfectMaze fuel rng m w h .RANDOMIZED_PRIMS = .ok (some m') ∧
      (∀ c, m'.isOpen c = true ↔
        (c = ⟨uniformInt 1 (w - 2) (rng 1), uniformInt 1 (h - 2) (rng 0)⟩ ∨ c = ⟨1, 1⟩ ∨
          c = ⟨w - 2, h - 2⟩)) ∧
      (m'.cells.filter m'.isOpen).length ≤ 3 ∧
      (Maze.primSeed rng ((({ m with width := w, height := h } : Maze).initializeGrid).setAllWalls
        true)).frontier = [] ∧
      whileLoop (fun s => !s.frontier.isEmpty) Maze.primBody 0
        (Maze.primSeed rng ((({ m with width := w, height := h } :
          Maze).initializeGrid).setAllWalls true)) =
        some (Maze.primSeed rng ((({ m with width := w, height := h } :
          Maze).initializeGrid).setAllWalls true)) := by
  obtain ⟨m', hgen, _, _, hopen⟩ := Maze.generatePerfectMaze_prims_open w h rng m fuel hw hh
  have hfr := (Maze.primSeed_frontier w h rng m hw hh).1
  refine ⟨m', hgen, hopen, ?_, hfr, ?_⟩
  · exact m'.open_cells_length_le_three _ _ _ (fun k hk => (hopen k).mp hk)
  · exact whileLoop_of_not_cond _ _ _ _ (by rw [hfr]; rfl)

/-- C26 at the 5x5 grid with the draws 1, 2, 3, ... and no iteration at all. -/
theorem prims_opens_origin_start_goal_only_witness :
    ((5 : Int) ≤ 5 ∧ (5 : Int) ≤ 100) ∧ ((5 : Int) ≤ 5 ∧ (5 : Int) ≤ 100) ∧
    ∃ m', Maze.generatePerfectMaze 0 (fun n => n + 1) defaultMaze 5 5 .RANDOMIZED_PRIMS =
        .ok (some m') ∧
      (∀ c, m'.isOpen c = true ↔
        (c = ⟨uniformInt 1 (5 - 2) ((fun n => n + 1) 1),
            uniformInt 1 (5 - 2) ((fun n => n + 1) 0)⟩ ∨ c = ⟨1, 1⟩ ∨
          c = ⟨5 - 2, 5 - 2⟩)) ∧
      (m'.cells.filter m'.isOpen).length ≤ 3 ∧
      (Maze.primSeed (fun n => n + 1)
        ((({ defaultMaze with width := 5, height := 5 } : Maze).initializeGrid).setAllWalls
          true)).frontier = [] ∧
      whileLoop (fun s => !s.frontier.isEmpty) Maze.primBody 0
        (Maze.primSeed (fun n => n + 1) ((({ defaultMaze with width := 5, height := 5 } :
          Maze).initializeGrid).setAllWalls true)) =
        some (Maze.primSeed (fun n => n + 1) ((({ defaultMaze with width := 5, height := 5 } :
          Maze).initializeGrid).setAllWalls true)) :=
  ⟨by decide, by decide,
    prims_opens_origin_start_goal_only 5 5 (fun n => n + 1) defaultMaze 0 (by decide)
      (by decide)⟩

/-! ## The claims about the recursive division -/

/-- C28: for every width and height, those of `[5, 100]` among them, and every
sequence of draws, `divide(1, 1, width - 2, height - 2)` ends (a recursion depth of
`width + height` suffices).  The recursion stops at once on a region with a dimension below 2;
on any other region it calls itself on two regions that keep the undivided
dimension and whose sizes along the divided one are not negative and add up
to the size of the region minus one, so that both are smaller. -/
theorem division_terminates (w h : Int) (rng : Rng) (m : Maze) (fuel : Nat)
    (hfuel : (w + h).toNat ≤ fuel) :
    (∃ r, Maze.generateRecursiveDivision fuel rng
      (({ m with width := w, height := h } : Maze).initializeGrid) = some r) ∧
    (∀ (k : Nat) (mr : Maze × Rng) (x y rw rh : Int), rw < 2 ∨ rh < 2 →
      Maze.divide k mr x y rw rh = some mr) ∧
    (∀ (k : Nat) (g : Maze) (gen : Rng) (x y rw rh : Int), 2 ≤ rw → 2 ≤ rh →
      (∃ (line : Int) (g1 : Maze) (gen1 : Rng),
        0 ≤ line - y ∧ 0 ≤ y + rh - line - 1 ∧ (line - y) + (y + rh - line - 1) = rh - 1 ∧
        line - y < rh ∧ y + rh - line - 1 < rh ∧
        Maze.divide (k + 1) (g, gen) x y rw rh =
          (Maze.divide k (g1, gen1) x y rw (line - y)).bind fun r =>
            Maze.divide k r x (line + 1) rw (y + rh - line - 1)) ∨
      (∃ (line : Int) (g1 : Maze) (gen1 : Rng),
        0 ≤ line - x ∧ 0 ≤ x + rw - line - 1 ∧ (line - x) + (x + rw - line - 1) = rw - 1 ∧
        line - x < rw ∧ x + rw - line - 1 < rw ∧
        Maze.divide (k + 1) (g, gen) x y rw rh =
          (Maze.divide k (g1, gen1) x y (line - x) rh).bind fun r =>
            Maze.divide k r (line + 1) y (x + rw - line - 1) rh)) := by
  refine ⟨?_, fun k mr x y rw rh hs => Maze.divide_small k mr x y rw rh hs, ?_⟩
  · exact Maze.divide_isSome fuel _ 1 1 (w - 2) (h - 2) (by
      show ((w - 2) + (h - 2)).toNat ≤ fuel
      omega)
  · intro k g gen x y rw rh h1 h2
    rw [Maze.divide_succ k g gen x y rw rh h1 h2]
    by_cases hor : (decide (rh > rw) || (decide (rh = rw) && gen 0 % 2 == 0)) = true
    · left
      rw [if_pos hor]
      have hb := uniformInt_mem y (y + rh - 1) ((if rh = rw then gen.drop 1 else gen) 0) (by omega)
      exact ⟨_, _, _, by omega, by omega, by omega, by omega, by omega, rfl⟩
    · right
      rw [if_neg hor]
      have hb := uniformInt_mem x (x + rw - 1) ((if rh = rw then gen.drop 1 else gen) 0) (by omega)
      exact ⟨_, _, _, by omega, by omega, by omega, by omega, by omega, rfl⟩

/-- C28 at the 5x5 grid with every draw 0. -/
theorem division_terminates_witness :
    ((5 : Int) + 5).toNat ≤ 10 ∧
    ((∃ r, Maze.generateRecursiveDivision 10 (fun _ => 0)
      (({ defaultMaze with width := 5, height := 5 } : Maze).initializeGrid) = some r) ∧
    (∀ (k : Nat) (mr : Maze × Rng) (x y rw rh : Int), rw < 2 ∨ rh < 2 →
      Maze.divide k mr x y rw rh = some mr) ∧
    (∀ (k : Nat) (g : Maze) (gen : Rng) (x y rw rh : Int), 2 ≤ rw → 2 ≤ rh →
      (∃ (line : Int) (g1 : Maze) (gen1 : Rng),
        0 ≤ line - y ∧ 0 ≤ y + rh - line - 1 ∧ (line - y) + (y + rh - line - 1) = rh - 1 ∧
        line - y < rh ∧ y + rh - line - 1 < rh ∧
        Maze.divide (k + 1) (g, gen) x y rw rh =
          (Maze.divide k (g1, gen1) x y rw (line - y)).bind fun r =>
            Maze.divide k r x (line + 1) rw (y + rh - line - 1)) ∨
      (∃ (line : Int) (g1 : Maze) (gen1 : Rng),
        0 ≤ line - x ∧ 0 ≤ x + rw - line - 1 ∧ (line - x) + (x + rw - line - 1) = rw - 1 ∧
        line - x < rw ∧ x + rw - line - 1 < rw ∧
        Maze.divide (k + 1) (g, gen) x y rw rh =
          (Maze.divide k (g1, gen1) x y (line - x) rh).bind fun r =>
            Maze.divide k r (line + 1) y (x + rw - line - 1) rh))) :=
  ⟨by decide, division_terminates 5 5 (fun _ => 0) defaultMaze 10 (by decide)⟩

/-- C29: for every width and height in `[5, 100]` and every sequence of draws,
`generatePerfectMaze` with `RECURSIVE_DIVISION` ends and leaves every border cell
(`x = 0`, `x = width - 1`, `y = 0` or `y = height - 1`) a wall; every wall is a cell of
the grid, and a wall that is not a border cell lies strictly inside the
border.  The bounds guard of the drawing loops never fails: the recursion
without the guard computes the same grid. -/
theorem division_keeps_border_walled (w h : Int) (rng : Rng) (m : Maze) (fuel : Nat)
    (hw : 5 ≤ w ∧ w ≤ 100) (hh : 5 ≤ h ∧ h ≤ 100) (hfuel : (w + h).toNat ≤ fuel) :
    ∃ m' r, Maze.generatePerfectMaze fuel rng m w h .RECURSIVE_DIVISION = .ok (some m') ∧
      Maze.generateRecursiveDivision fuel rng
        (({ m with width := w, height := h } : Maze).initializeGrid) = some r ∧
      Maze.divideAll fuel
        (((({ m with width := w, height := h } : Maze).initializeGrid).setAllWalls
          false).addBorder, rng) 1 1 (w - 2) (h - 2) = some r ∧
      m'.width = w ∧ m'.height = h ∧
      (∀ c, m'.isValid c.x c.y = true →
        (c.x = 0 ∨ c.x = w - 1 ∨ c.y = 0 ∨ c.y = h - 1) → m'.wall c = true) ∧
      (∀ c, m'.wall c = true → m'.isValid c.x c.y = true) ∧
      (∀ c, m'.wall c = true → ¬ (c.x = 0 ∨ c.x = w - 1 ∨ c.y = 0 ∨ c.y = h - 1) →
        1 ≤ c.x ∧ c.x ≤ w - 2 ∧ 1 ≤ c.y ∧ c.y ≤ h - 2) :=
  Maze.generatePerfectMaze_division w h rng m fuel hw hh hfuel

/-- C29 at the 5x5 grid with every draw 0. -/
theorem division_keeps_border_walled_witness :
    ((5 : Int) ≤ 5 ∧ (5 : Int) ≤ 100) ∧ ((5 : Int) ≤ 5 ∧ (5 : Int) ≤ 100) ∧
    ((5 : Int) + 5).toNat ≤ 10 ∧
    ∃ m' r, Maze.generatePerfectMaze 10 (fun _ => 0) defaultMaze 5 5 .RECURSIVE_DIVISION =
        .ok (some m') ∧
      Maze.generateRecursiveDivision 10 (fun _ => 0)
        (({ defaultMaze with width := 5, height := 5 } : Maze).initializeGrid) = some r ∧
      Maze.divideAll 10
        (((({ defaultMaze with width := 5, height := 5 } : Maze).initializeGrid).setAllWalls
          false).addBorder, fun _ => 0) 1 1 (5 - 2) (5 - 2) = some r ∧
      m'.width = 5 ∧ m'.height = 5 ∧
      (∀ c, m'.isValid c.x c.y = true →
        (c.x = 0 ∨ c.x = 5 - 1 ∨ c.y = 0 ∨ c.y = 5 - 1) → m'.wall c = true) ∧
      (∀ c, m'.wall c = true → m'.isValid c.x c.y = true) ∧
      (∀ c, m'.wall c = true → ¬ (c.x = 0 ∨ c.x = 5 - 1 ∨ c.y = 0 ∨ c.y = 5 - 1) →
        1 ≤ c.x ∧ c.x ≤ 5 - 2 ∧ 1 ≤ c.y ∧ c.y ≤ 5 - 2) :=
  ⟨by decide, by decide, by decide,
    division_keeps_border_walled 5 5 (fun _ => 0) defaultMaze 10 (by decide) (by decide)
      (by decide)⟩

/-- C30: one step of the recursive division on a region of the grid of width
`w >= 2` and height `h >= 2` whose cells are all open draws one wall line inside
the region before it recurses into the two parts.  When the line is
horizontal, the cells set to wall are exactly the `w - 1` cells of one row of
the region other than the gap, the gap stays open, and no other wall flag and
no other flag changes; when it is vertical, they are the `h - 1` cells of one
column of the region other than the gap. -/
theorem division_step_draws_one_line (fuel : Nat) (m : Maze) (rng : Rng) (x y w h : Int)
    (hw : 2 ≤ w) (hh : 2 ≤ h) (hx : 0 ≤ x) (hy : 0 ≤ y)
    (hxw : x + w ≤ m.width) (hyh : y + h ≤ m.height)
    (hopen : ∀ c : Coordinate, x ≤ c.x → c.x < x + w → y ≤ c.y → c.y < y + h →
      m.wall c = false) :
    ∃ (m1 : Maze) (rng1 : Rng) (line gap : Int),
      m1.width = m.width ∧ m1.height = m.height ∧ m1.visited = m.visited ∧
      m1.path = m.path ∧ m1.start = m.start ∧ m1.goal = m.goal ∧
      ((y ≤ line ∧ line < y + h ∧ x ≤ gap ∧ gap < x + w ∧
        Maze.divide (fuel + 1) (m, rng) x y w h =
          ((Maze.divide fuel (m1, rng1) x y w (line - y)).bind fun r =>
            Maze.divide fuel r x (line + 1) w (y + h - line - 1)) ∧
        (∀ c, m1.wall c = true ↔
          m.wall c = true ∨ (c.y = line ∧ x ≤ c.x ∧ c.x < x + w ∧ c.x ≠ gap)) ∧
        m1.wall ⟨gap, line⟩ = false ∧
        Set.ncard {c | m1.wall c = true ∧ m.wall c = false} = (w - 1).toNat) ∨
      (x ≤ line ∧ line < x + w ∧ y ≤ gap ∧ gap < y + h ∧
        Maze.divide (fuel + 1) (m, rng) x y w h =
          ((Maze.divide fuel (m1, rng1) x y (line - x) h).bind fun r =>
            Maze.divide fuel r (line + 1) y (x + w - line - 1) h) ∧
        (∀ c, m1.wall c = true ↔
          m.wall c = true ∨ (c.x = line ∧ y ≤ c.y ∧ c.y < y + h ∧ c.y ≠ gap)) ∧
        m1.wall ⟨line, gap⟩ = false ∧
        Set.ncard {c | m1.wall c = true ∧ m.wall c = false} = (h - 1).toNat)) := by
  rw [Maze.divide_succ fuel m rng x y w h hw hh]
  generalize (if h = w then rng.drop 1 else rng) = rng1
  by_cases hor : (decide (h > w) || (decide (h = w) && rng 0 % 2 == 0)) = true
  · rw [if_pos hor]
    have hl := uniformInt_mem y (y + h - 1) (rng1 0) (by omega)
    have hg := uniformInt_mem x (x + w - 1) (rng1 1) (by omega)
    generalize uniformInt y (y + h - 1) (rng1 0) = line at hl ⊢
    generalize uniformInt x (x + w - 1) (rng1 1) = gap at hg ⊢
    obtain ⟨s1, s2⟩ := Maze.drawHorizontal_size m x w line gap
    obtain ⟨d3, d4, d5, d6, d7⟩ := Maze.drawHorizontal_spec m x w line gap
    have hwall : ∀ c, (m.drawHorizontal x w line gap).wall c = true ↔
        m.wall c = true ∨ (c.y = line ∧ x ≤ c.x ∧ c.x < x + w ∧ c.x ≠ gap) := by
      intro c
      rw [d7 c, Maze.isValid_iff]
      apply or_congr Iff.rfl
      constructor
      · rintro ⟨a, b, c1, d, _⟩
        exact ⟨a, b, c1, d⟩
      · rintro ⟨a, b, c1, d⟩
        exact ⟨a, b, c1, d, by omega⟩
    refine ⟨m.drawHorizontal x w line gap, rng1.drop 2, line, gap, s1, s2, d3, d4, d5, d6,
      Or.inl ⟨hl.1, by omega, hg.1, by omega, rfl, hwall, ?_, ?_⟩⟩
    · rw [← Bool.not_eq_true, hwall]
      rintro (h1 | h1)
      · rw [hopen ⟨gap, line⟩ hg.1 (by show gap < x + w; omega) hl.1
          (by show line < y + h; omega)] at h1
        cases h1
      · exact h1.2.2.2 rfl
    · rw [← row_segment_ncard x w line gap ⟨hg.1, by omega⟩]
      congr 1
      ext c
      simp only [Set.mem_setOf_eq]
      rw [hwall]
      constructor
      · rintro ⟨h1 | h1, h2⟩
        · rw [h1] at h2; cases h2
        · exact h1
      · intro h1
        exact ⟨Or.inr h1, hopen c h1.2.1 h1.2.2.1 (by omega) (by omega)⟩
  · rw [if_neg hor]
    have hl := uniformInt_mem x (x + w - 1) (rng1 0) (by omega)
    have hg := uniformInt_mem y (y + h - 1) (rng1 1) (by omega)
    generalize uniformInt x (x + w - 1) (rng1 0) = line at hl ⊢
    generalize uniformInt y (y + h - 1) (rng1 1) = gap at hg ⊢
    obtain ⟨s1, s2⟩ := Maze.drawVertical_size m y h line gap
    obtain ⟨d3, d4, d5, d6, d7⟩ := Maze.drawVertical_spec m y h line gap
    have hwall : ∀ c, (m.drawVertical y h line gap).wall c = true ↔
        m.wall c = true ∨ (c.x = line ∧ y ≤ c.y ∧ c.y < y + h ∧ c.y ≠ gap) := by
      intro c
      rw [d7 c, Maze.isValid_iff]
      apply or_congr Iff.rfl
      constructor
      · rintro ⟨a, b, c1, d, _⟩
        exact ⟨a, b, c1, d⟩
      · rintro ⟨a, b, c1, d⟩
        exact ⟨a, b, c1, d, by omega⟩
    refine ⟨m.drawVertical y h line gap, rng1.drop 2, line, gap, s1, s2, d3, d4, d5, d6,
      Or.inr ⟨hl.1, by omega, hg.1, by omega, rfl, hwall, ?_, ?_⟩⟩
    · rw [← Bool.not_eq_true, hwall]
      rintro (h1 | h1)
      · rw [hopen ⟨line, gap⟩ hl.1 (by show line < x + w; omega) hg.1
          (by show gap < y + h; omega)] at h1
        cases h1
      · exact h1.2.2.2 rfl
    · rw [← column_segment_ncard y h line gap ⟨hg.1, by omega⟩]
      congr 1
      ext c
      simp only [Set.mem_setOf_eq]
      rw [hwall]
      constructor
      · rintro ⟨h1 | h1, h2⟩
        · rw [h1] at h2; cases h2
        · exact h1
      · intro h1
        exact ⟨Or.inr h1, hopen c (by omega) (by omega) h1.2.1 h1.2.2.1⟩

/-- C30 at the open 5x5 interior of the 7x7 room, with every draw 0. -/
theorem division_step_draws_one_line_witness :
    (2 : Int) ≤ 5 ∧ (2 : Int) ≤ 5 ∧ (0 : Int) ≤ 1 ∧ (0 : Int) ≤ 1 ∧
    (1 : Int) + 5 ≤ emptyRoom.width ∧ (1 : Int) + 5 ≤ emptyRoom.height ∧
    (∀ c : Coordinate, 1 ≤ c.x → c.x < 1 + 5 → 1 ≤ c.y → c.y < 1 + 5 →
      emptyRoom.wall c = false) ∧
    ∃ (m1 : Maze) (rng1 : Rng) (line gap : Int),
      m1.width = emptyRoom.width ∧ m1.height = emptyRoom.height ∧
      m1.visited = emptyRoom.visited ∧
      m1.path = emptyRoom.path ∧ m1.start = emptyRoom.start ∧ m1.goal = emptyRoom.goal ∧
      ((1 ≤ line ∧ line < 1 + 5 ∧ 1 ≤ gap ∧ gap < 1 + 5 ∧
        Maze.divide (0 + 1) (emptyRoom, fun _ => 0) 1 1 5 5 =
          ((Maze.divide 0 (m1, rng1) 1 1 5 (line - 1)).bind fun r =>
            Maze.divide 0 r 1 (line + 1) 5 (1 + 5 - line - 1)) ∧
        (∀ c, m1.wall c = true ↔
          emptyRoom.wall c = true ∨ (c.y = line ∧ 1 ≤ c.x ∧ c.x < 1 + 5 ∧ c.x ≠ gap)) ∧
        m1.wall ⟨gap, line⟩ = false ∧
        Set.ncard {c | m1.wall c = true ∧ emptyRoom.wall c = false} = ((5 : Int) - 1).toNat) ∨
      (1 ≤ line ∧ line < 1 + 5 ∧ 1 ≤ gap ∧ gap < 1 + 5 ∧
        Maze.divide (0 + 1) (emptyRoom, fun _ => 0) 1 1 5 5 =
          ((Maze.divide 0 (m1, rng1) 1 1 (line - 1) 5).bind fun r =>
            Maze.divide 0 r (line + 1) 1 (1 + 5 - line - 1) 5) ∧
        (∀ c, m1.wall c = true ↔
          emptyRoom.wall c = true ∨ (c.x = line ∧ 1 ≤ c.y ∧ c.y < 1 + 5 ∧ c.y ≠ gap)) ∧
        m1.wall ⟨line, gap⟩ = false ∧
        Set.ncard {c | m1.wall c = true ∧ emptyRoom.wall c = false} = ((5 : Int) - 1).toNat)) :=
  have hopen : ∀ c : Coordinate, 1 ≤ c.x → c.x < 1 + 5 → 1 ≤ c.y → c.y < 1 + 5 →
      emptyRoom.wall c = false := by
    intro c h1 h2 h3 h4
    simp only [emptyRoom, Bool.or_eq_false_iff, decide_eq_false_iff_not]
    omega
  ⟨by decide, by decide, by decide, by decide, by decide, by decide, hopen,
    division_step_draws_one_line 0 emptyRoom (fun _ => 0) 1 1 5 5 (by decide) (by decide)
      (by decide) (by decide) (by decide) (by decide) hopen⟩

/-! ## Runs on grids that differ in visited and path flags only -/

theorem whileLoop_rel {σ τ : Type} (R : σ → τ → Prop) (c1 : σ → Bool) (b1 : σ → σ)
    (c2 : τ → Bool) (b2 : τ → τ) (hc : ∀ s t, R s t → c1 s = c2 t)
    (hb : ∀ s t, R s t → R (b1 s) (b2 t)) :
    ∀ (n : Nat) (s : σ) (t : τ) (s' : σ), R s t → whileLoop c1 b1 n s = some s' →
      ∃ t', whileLoop c2 b2 n t = some t' ∧ R s' t' := by
  intro n
  induction n with
  | zero =>
    intro s t s' hR h
    have hct := hc s t hR
    cases hcs : c1 s with
    | true => simp [whileLoop, hcs] at h
    | false =>
      simp [whileLoop, hcs] at h
      subst h
      exact ⟨t, by simp [whileLoop, ← hct, hcs], hR⟩
  | succ n ih =>
    intro s t s' hR h
    have hct := hc s t hR
    cases hcs : c1 s with
    | true =>
      simp [whileLoop, hcs] at h
      obtain ⟨t', ht', hR'⟩ := ih (b1 s) (b2 t) s' (hb s t hR) h
      exact ⟨t', by simp [whileLoop, ← hct, hcs, ht'], hR'⟩
    | false =>
      simp [whileLoop, hcs] at h
      subst h
      exact ⟨t, by simp [whileLoop, ← hct, hcs], hR⟩

namespace Maze

theorem SameWalls.getNeighbors_eq {a b : Maze} (h : a.SameWalls b) (c : Coordinate) :
    a.getNeighbors c = b.getNeighbors c := by
  obtain ⟨hw, hh, hwall⟩ := h
  unfold getNeighbors
  apply List.filter_congr
  intro n _
  have hv : b.isValid n.x n.y = a.isValid n.x n.y := by simp [isValid, hw, hh]
  rw [hv]
  cases hva : a.isValid n.x n.y with
  | false => rfl
  | true => rw [hwall n hva]

theorem SameWalls.sameWalls_mark {a b : Maze} (h : a.SameWalls b) (c : Coordinate) :
    (a.setVisited c true).SameWalls (b.setVisited c true) := h

end Maze

/-- The rebuilt paths on two grids visit the same positions. -/
theorem reconstructPath_coords (m1 m2 : Maze) (parent : Coordinate → Option Coordinate)
    (fuel : Nat) (goal : Coordinate) (p1 : List Cell)
    (h : reconstructPath m1 parent fuel goal = some p1) :
    ∃ p2, reconstructPath m2 parent fuel goal = some p2 ∧
      p1.map Cell.coords = p2.map Cell.coords := by
  unfold reconstructPath at h ⊢
  rw [Option.map_eq_some'] at h
  obtain ⟨s1, hs1, rfl⟩ := h
  obtain ⟨s2, hs2, hR⟩ := whileLoop_rel
    (fun (s t : Option Coordinate × List Cell) =>
      s.1 = t.1 ∧ s.2.map Cell.coords = t.2.map Cell.coords)
    (fun s => s.1.isSome) (reconstructStep m1 parent)
    (fun s => s.1.isSome) (reconstructStep m2 parent)
    (fun s t hR => congrArg Option.isSome hR.1)
    (by
      rintro ⟨a, l⟩ ⟨b, l2⟩ ⟨hab, hl⟩
      simp only at hab hl
      subst hab
      cases a with
      | none => exact ⟨rfl, hl⟩
      | some cur =>
        refine ⟨rfl, ?_⟩
        simp [reconstructStep, hl, Maze.cellAt])
    fuel (some goal, []) (some goal, []) s1 ⟨rfl, rfl⟩ hs1
  refine ⟨s2.2.reverse, by rw [hs2]; rfl, ?_⟩
  rw [List.map_reverse, List.map_reverse, hR.2]

theorem finishSearch_coords (m1 m2 : Maze) (parent : Coordinate → Option Coordinate)
    (found : Bool) (n fuel elapsed : Nat) (goal : Coordinate) (p1 : List Cell × PathStats)
    (h : finishSearch m1 parent found n fuel elapsed goal = some p1) :
    ∃ p2, finishSearch m2 parent found n fuel elapsed goal = some p2 ∧
      p1.1.map Cell.coords = p2.1.map Cell.coords ∧ p1.2 = p2.2 := by
  unfold finishSearch at h ⊢
  cases found with
  | false =>
    simp only [Bool.false_eq_true, if_false, Option.some.injEq] at h ⊢
    subst h
    exact ⟨_, rfl, rfl, rfl⟩
  | true =>
    simp only [if_true, Option.map_eq_some'] at h ⊢
    obtain ⟨path, hpath, rfl⟩ := h
    obtain ⟨path2, hpath2, hco⟩ := reconstructPath_coords m1 m2 parent fuel goal path hpath
    refine ⟨_, ⟨path2, hpath2, rfl⟩, hco, ?_⟩
    have : path.length = path2.length := by
      have := congrArg List.length hco
      simpa using this
    simp [this]

theorem DijkstraPathfinder.dijkstra_relax_alike (current : DijkstraPathfinder.Node)
    (s t : DijkstraPathfinder.State) (n : Coordinate) (h : DijkstraPathfinder.Alike s t) :
    DijkstraPathfinder.Alike (DijkstraPathfinder.relax current s n)
      (DijkstraPathfinder.relax current t n) := by
  obtain ⟨hw, hpq, hcost, hpar, hvis, hne, hf, hties, hnot⟩ := h
  obtain ⟨m1, pq, cost, parent, visited, ne, found, n1, ties⟩ := s
  obtain ⟨m2, pq2, cost2, parent2, visited2, ne2, found2, n2, ties2⟩ := t
  simp only at hw hpq hcost hpar hvis hne hf hties hnot
  subst hpq hcost hpar hvis hne hf hties
  rw [DijkstraPathfinder.dijkstra_relax_eq, DijkstraPathfinder.dijkstra_relax_eq]
  simp only
  split
  · exact ⟨hw, rfl, rfl, rfl, rfl, rfl, rfl, rfl, hnot⟩
  · exact ⟨hw, rfl, rfl, rfl, rfl, rfl, rfl, rfl, hnot⟩

theorem DijkstraPathfinder.dijkstra_foldl_alike (current : DijkstraPathfinder.Node) :
    ∀ (l : List Coordinate) (s t : DijkstraPathfinder.State), DijkstraPathfinder.Alike s t →
      DijkstraPathfinder.Alike (l.foldl (DijkstraPathfinder.relax current) s)
        (l.foldl (DijkstraPathfinder.relax current) t) := by
  intro l
  induction l with
  | nil => intro s t h; exact h
  | cons a l ih =>
    intro s t h
    rw [List.foldl_cons, List.foldl_cons]
    exact ih _ _ (DijkstraPathfinder.dijkstra_relax_alike current s t a h)

theorem DijkstraPathfinder.dijkstra_body_alike (goal : Coordinate) (s t : DijkstraPathfinder.State)
    (h : DijkstraPathfinder.Alike s t) :
    DijkstraPathfinder.Alike (DijkstraPathfinder.body goal s)
      (DijkstraPathfinder.body goal t) := by
  obtain ⟨hw, hpq, hcost, hpar, hvis, hne, hf, hties, hnot⟩ := h
  obtain ⟨m1, pq, cost, parent, visited, ne, found, n1, ties⟩ := s
  obtain ⟨m2, pq2, cost2, parent2, visited2, ne2, found2, n2, ties2⟩ := t
  simp only at hw hpq hcost hpar hvis hne hf hties hnot
  subst hpq hcost hpar hvis hne hf hties
  unfold DijkstraPathfinder.body
  simp only
  cases hpop : PriorityQueue.pop DijkstraPathfinder.Node.cost (ties 0) pq with
  | none => exact ⟨hw, rfl, rfl, rfl, rfl, rfl, rfl, rfl, hnot⟩
  | some x =>
    obtain ⟨current, rest⟩ := x
    simp only
    by_cases hst : current.cell ∈ visited
    · rw [if_pos hst, if_pos hst]
      exact ⟨hw, rfl, rfl, rfl, rfl, rfl, rfl, rfl, hnot⟩
    · rw [if_neg hst, if_neg hst]
      have hnot1 : (n1 ++ [(m1.setVisited current.cell true).cellAt current.cell]).map
          Cell.coords =
          (n2 ++ [(m2.setVisited current.cell true).cellAt current.cell]).map Cell.coords := by
        simp only [List.map_append, hnot, List.map_cons, List.map_nil, Maze.cellAt]
      by_cases hg : current.cell = goal
      · rw [if_pos hg, if_pos hg]
        exact ⟨hw, rfl, rfl, rfl, rfl, rfl, rfl, rfl, hnot1⟩
      · rw [if_neg hg, if_neg hg]
        have hn : (m1.setVisited current.cell true).getNeighbors current.cell =
            (m2.setVisited current.cell true).getNeighbors current.cell :=
          (Maze.SameWalls.sameWalls_mark hw current.cell).getNeighbors_eq current.cell
        rw [← hn]
        exact DijkstraPathfinder.dijkstra_foldl_alike current _ _ _
          ⟨hw, rfl, rfl, rfl, rfl, rfl, rfl, rfl, hnot1⟩

theorem AStarPathfinder.astar_relax_alike (goal : Coordinate) (current : AStarPathfinder.Node)
    (s t : AStarPathfinder.State) (n : Coordinate) (h : AStarPathfinder.Alike s t) :
    AStarPathfinder.Alike (AStarPathfinder.relax goal current s n)
      (AStarPathfinder.relax goal current t n) := by
  obtain ⟨hw, hpq, hcost, hpar, hvis, hne, hf, hties, hnot⟩ := h
  obtain ⟨m1, pq, cost, parent, visited, ne, found, n1, ties⟩ := s
  obtain ⟨m2, pq2, cost2, parent2, visited2, ne2, found2, n2, ties2⟩ := t
  simp only at hw hpq hcost hpar hvis hne hf hties hnot
  subst hpq hcost hpar hvis hne hf hties
  rw [AStarPathfinder.astar_relax_eq, AStarPathfinder.astar_relax_eq]
  simp only
  split
  · exact ⟨hw, rfl, rfl, rfl, rfl, rfl, rfl, rfl, hnot⟩
  · exact ⟨hw, rfl, rfl, rfl, rfl, rfl, rfl, rfl, hnot⟩

theorem AStarPathfinder.astar_foldl_alike (goal : Coordinate) (current : AStarPathfinder.Node) :
    ∀ (l : List Coordinate) (s t : AStarPathfinder.State), AStarPathfinder.Alike s t →
      AStarPathfinder.Alike (l.foldl (AStarPathfinder.relax goal current) s)
        (l.foldl (AStarPathfinder.relax goal current) t) := by
  intro l
  induction l with
  | nil => intro s t h; exact h
  | cons a l ih =>
    intro s t h
    rw [List.foldl_cons, List.foldl_cons]
    exact ih _ _ (AStarPathfinder.astar_relax_alike goal current s t a h)

theorem AStarPathfinder.astar_body_alike (goal : Coordinate) (s t : AStarPathfinder.State)
    (h : AStarPathfinder.Alike s t) :
    AStarPathfinder.Alike (AStarPathfinder.body goal s) (AStarPathfinder.body goal t) := by
  obtain ⟨hw, hpq, hcost, hpar, hvis, hne, hf, hties, hnot⟩ := h
  obtain ⟨m1, pq, cost, parent, visited, ne, found, n1, ties⟩ := s
  obtain ⟨m2, pq2, cost2, parent2, visited2, ne2, found2, n2, ties2⟩ := t
  simp only at hw hpq hcost hpar hvis hne hf hties hnot
  subst hpq hcost hpar hvis hne hf hties
  unfold AStarPathfinder.body
  simp only
  cases hpop : PriorityQueue.pop AStarPathfinder.Node.fScore (ties 0) pq with
  | none => exact ⟨hw, rfl, rfl, rfl, rfl, rfl, rfl, rfl, hnot⟩
  | some x =>
    obtain ⟨current, rest⟩ := x
    simp only
    by_cases hst : current.cell ∈ visited
    · rw [if_pos hst, if_pos hst]
      exact ⟨hw, rfl, rfl, rfl, rfl, rfl, rfl, rfl, hnot⟩
    · rw [if_neg hst, if_neg hst]
      have hnot1 : (n1 ++ [(m1.setVisited current.cell true).cellAt current.cell]).map
          Cell.coords =
          (n2 ++ [(m2.setVisited current.cell true).cellAt current.cell]).map Cell.coords := by
        simp only [List.map_append, hnot, List.map_cons, List.map_nil, Maze.cellAt]
      by_cases hg : current.cell = goal
      · rw [if_pos hg, if_pos hg]
        exact ⟨hw, rfl, rfl, rfl, rfl, rfl, rfl, rfl, hnot1⟩
      · rw [if_neg hg, if_neg hg]
        have hn : (m1.setVisited current.cell true).getNeighbors current.cell =
            (m2.setVisited current.cell true).getNeighbors current.cell :=
          (Maze.SameWalls.sameWalls_mark hw current.cell).getNeighbors_eq current.cell
        rw [← hn]
        exact AStarPathfinder.astar_foldl_alike goal current _ _ _
          ⟨hw, rfl, rfl, rfl, rfl, rfl, rfl, rfl, hnot1⟩

theorem DijkstraPathfinder.dijkstra_findPath_alike (m1 m2 : Maze) (hsame : m1.SameWalls m2)
    (start goal : Coordinate) (fuel elapsed : Nat) (ties : Nat → Nat) (r1 : SearchResult)
    (h1 : DijkstraPathfinder.findPath fuel elapsed ties m1 (some start) (some goal) = some r1) :
    ∃ r2, DijkstraPathfinder.findPath fuel elapsed ties m2 (some start) (some goal) = some r2 ∧
      r1.path.map Cell.coords = r2.path.map Cell.coords ∧ r1.stats = r2.stats ∧
      r1.notified.map Cell.coords = r2.notified.map Cell.coords := by
  simp only [DijkstraPathfinder.findPath, Option.bind_eq_some, Option.map_eq_some'] at h1 ⊢
  obtain ⟨s, hs, p, hp, rfl⟩ := h1
  obtain ⟨t, ht, hst⟩ := whileLoop_rel DijkstraPathfinder.Alike
    (fun (s : DijkstraPathfinder.State) => !s.pq.isEmpty && !s.found)
    (DijkstraPathfinder.body goal)
    (fun (s : DijkstraPathfinder.State) => !s.pq.isEmpty && !s.found)
    (DijkstraPathfinder.body goal)
    (fun s t h => by simp only [h.pq, h.found])
    (fun s t h => DijkstraPathfinder.dijkstra_body_alike goal s t h)
    fuel (DijkstraPathfinder.init ties m1 start) (DijkstraPathfinder.init ties m2 start) s
    ⟨hsame, rfl, rfl, rfl, rfl, rfl, rfl, rfl, rfl⟩ hs
  obtain ⟨p2, hp2, hco, hstats⟩ := finishSearch_coords s.maze t.maze s.parent s.found
    s.nodesExplored fuel elapsed goal p hp
  rw [hst.parent, hst.found, hst.nodesExplored] at hp2
  exact ⟨_, ⟨t, ht, p2, hp2, rfl⟩, hco, hstats, hst.notified⟩

theorem AStarPathfinder.astar_findPath_alike (m1 m2 : Maze) (hsame : m1.SameWalls m2)
    (start goal : Coordinate) (fuel elapsed : Nat) (ties : Nat → Nat) (r1 : SearchResult)
    (h1 : AStarPathfinder.findPath fuel elapsed ties m1 (some start) (some goal) = some r1) :
    ∃ r2, AStarPathfinder.findPath fuel elapsed ties m2 (some start) (some goal) = some r2 ∧
      r1.path.map Cell.coords = r2.path.map Cell.coords ∧ r1.stats = r2.stats ∧
      r1.notified.map Cell.coords = r2.notified.map Cell.coords := by
  simp only [AStarPathfinder.findPath, Option.bind_eq_some, Option.map_eq_some'] at h1 ⊢
  obtain ⟨s, hs, p, hp, rfl⟩ := h1
  obtain ⟨t, ht, hst⟩ := whileLoop_rel AStarPathfinder.Alike
    (fun (s : AStarPathfinder.State) => !s.openSet.isEmpty && !s.found)
    (AStarPathfinder.body goal)
    (fun (s : AStarPathfinder.State) => !s.openSet.isEmpty && !s.found)
    (AStarPathfinder.body goal)
    (fun s t h => by simp only [h.openSet, h.found])
    (fun s t h => AStarPathfinder.astar_body_alike goal s t h)
    fuel (AStarPathfinder.init ties m1 start goal) (AStarPathfinder.init ties m2 start goal) s
    ⟨hsame, rfl, rfl, rfl, rfl, rfl, rfl, rfl, rfl⟩ hs
  obtain ⟨p2, hp2, hco, hstats⟩ := finishSearch_coords s.maze t.maze s.parent s.found
    s.nodesExplored fuel elapsed goal p hp
  rw [hst.parent, hst.found, hst.nodesExplored] at hp2
  exact ⟨_, ⟨t, ht, p2, hp2, rfl⟩, hco, hstats, hst.notified⟩

/-! ## The cells with two odd coordinates -/

namespace Maze

theorem mem_oddCells (m : Maze) (c : Coordinate) :
    c ∈ m.oddCells ↔ m.isValid c.x c.y = true ∧ c.x % 2 = 1 ∧ c.y % 2 = 1 := by
  unfold oddCells
  rw [List.mem_filter, mem_cells]
  simp

theorem oddCells_nodup (m : Maze) : m.oddCells.Nodup :=
  List.Nodup.filter _ (cells_nodup m)

theorem oddCells_eq_of_size (m m' : Maze) (hw : m'.width = m.width)
    (hh : m'.height = m.height) : m'.oddCells = m.oddCells := by
  unfold oddCells
  rw [cells_eq_of_size m m' hw hh]

theorem countP_odd_range (n : Nat) :
    (List.range n).countP (fun k => decide (k % 2 = 1)) = n / 2 := by
  induction n with
  | zero => rfl
  | succ n ih =>
    rw [List.range_succ, List.countP_append, ih]
    by_cases hn : n % 2 = 1
    · simp [hn]; omega
    · simp [hn]; omega

theorem oddCells_length (m : Maze) :
    m.oddCells.length = (m.width.toNat / 2) * (m.height.toNat / 2) := by
  unfold oddCells cells
  rw [← List.countP_eq_length_filter]
  generalize m.height.toNat = H
  generalize m.width.toNat = W
  induction H with
  | zero => simp
  | succ H ih =>
    rw [List.range_succ, List.flatMap_append, List.countP_append, ih]
    have hrow : List.countP (fun (c : Coordinate) => decide (c.x % 2 = 1) && decide (c.y % 2 = 1))
        ((List.range W).map fun (x : Nat) => (⟨(x : Int), (H : Int)⟩ : Coordinate)) =
        if H % 2 = 1 then W / 2 else 0 := by
      rw [List.countP_map]
      by_cases hH : H % 2 = 1
      · rw [if_pos hH, ← countP_odd_range W]
        apply List.countP_congr
        intro x _
        simp only [Function.comp, Bool.and_eq_true, decide_eq_true_eq]
        omega
      · rw [if_neg hH]
        rw [List.countP_eq_zero]
        intro x _
        simp only [Function.comp, Bool.and_eq_true, decide_eq_true_eq]
        omega
    simp only [List.flatMap_cons, List.flatMap_nil, List.append_nil]
    rw [hrow]
    by_cases hH : H % 2 = 1
    · rw [if_pos hH]
      have : (H + 1) / 2 = H / 2 + 1 := by omega
      rw [this, Nat.mul_add, Nat.mul_one]
    · rw [if_neg hH]
      have : (H + 1) / 2 = H / 2 := by omega
      rw [this, Nat.add_zero]

theorem countUnvisitedOdd_le (m : Maze) : m.countUnvisitedOdd ≤ m.oddCells.length :=
  List.countP_le_length _

end Maze

/-! ## The carving loop on a grid of any size -/

theorem CarveOdd.carveOdd_step {w h : Int} {s : Maze.CarveState}
    (hinv : CarveOdd w h s) (hne : s.stack ≠ []) :
    CarveOdd w h (Maze.carveBody s) ∧
      2 * (Maze.carveBody s).maze.countUnvisitedOdd + (Maze.carveBody s).stack.length + 1 =
        2 * s.maze.countUnvisitedOdd + s.stack.length := by
  obtain ⟨current, rest, hs⟩ := List.exists_cons_of_ne_nil hne
  have hcur := hinv.stack_odd current (by rw [hs]; exact List.mem_cons_self _ _)
  by_cases hnone : (Maze.twoAway current).filter
      (fun n => s.maze.isValid n.x n.y && !s.maze.visited n) = []
  · rw [Maze.carveBody_pop s current rest hs hnone]
    refine ⟨⟨hinv.width, hinv.height, ?_⟩, by simp only [hs, List.length_cons]; omega⟩
    intro c hc
    exact hinv.stack_odd c (by rw [hs]; exact List.mem_cons_of_mem _ hc)
  · obtain ⟨chosen, hch, hchv, hchu, hbody⟩ := Maze.carveBody_push s current rest hs hnone
    rw [hbody]
    rw [Maze.mem_twoAway] at hch
    have hodd : chosen.x % 2 = 1 ∧ chosen.y % 2 = 1 := by
      rcases hch with e | e | e | e <;> rw [e] <;> simp only <;> omega
    generalize (⟨Int.tdiv (current.x + chosen.x) 2,
      Int.tdiv (current.y + chosen.y) 2⟩ : Coordinate) = mid
    refine ⟨⟨hinv.width, hinv.height, ?_⟩, ?_⟩
    · intro c hc
      rcases List.mem_cons.mp hc with e | hc
      · rw [e]; exact ⟨hchv, hodd⟩
      · exact hinv.stack_odd c (by rw [hs]; exact hc)
    · have hcount := countP_unset_point (fun c => !s.maze.visited c)
        (fun c => !(((s.maze.setWall chosen false).setVisited chosen true).setWall
          mid false).visited c) chosen s.maze.oddCells (Maze.oddCells_nodup _)
        ((Maze.mem_oddCells _ _).mpr ⟨hchv, hodd⟩) (by simp [hchu])
        (by simp [Maze.setWall, Maze.setVisited])
        (by intro k hk; simp [Maze.setWall, Maze.setVisited, hk])
      have hodds : (((s.maze.setWall chosen false).setVisited chosen true).setWall
          mid false).oddCells = s.maze.oddCells := Maze.oddCells_eq_of_size _ _ rfl rfl
      unfold Maze.countUnvisitedOdd
      rw [hodds]
      simp only [hs, List.length_cons]
      omega

/-- An iteration of the carving loop either pops the stack and leaves the grid
alone, or marks a cell of the grid that was not visited and pushes it. -/
theorem Maze.carveBody_cases (s : Maze.CarveState) (current : Coordinate)
    (rest : List Coordinate) (hs : s.stack = current :: rest) :
    ((Maze.carveBody s).stack = rest ∧ (Maze.carveBody s).maze = s.maze) ∨
    ∃ chosen, s.maze.isValid chosen.x chosen.y = true ∧ s.maze.visited chosen = false ∧
      (Maze.carveBody s).maze.visited chosen = true ∧
      (Maze.carveBody s).stack = chosen :: current :: rest := by
  by_cases hnone : (Maze.twoAway current).filter
      (fun n => s.maze.isValid n.x n.y && !s.maze.visited n) = []
  · left
    rw [Maze.carveBody_pop s current rest hs hnone]
    exact ⟨rfl, rfl⟩
  · right
    obtain ⟨chosen, _, hchv, hchu, hbody⟩ := Maze.carveBody_push s current rest hs hnone
    refine ⟨chosen, hchv, hchu, ?_, ?_⟩
    · rw [hbody]; simp [Maze.setWall, Maze.setVisited]
    · rw [hbody]

/-- The state in which the carving loop is entered, on a grid of width and
height at least 3 with no visited flag set. -/
theorem Maze.carveSeed_odd (m : Maze) (rng : Rng) (hw : 3 ≤ m.width) (hh : 3 ≤ m.height)
    (hfresh : ∀ c, m.visited c = false) :
    CarveOdd m.width m.height (Maze.carveSeed rng m) ∧
      2 * (Maze.carveSeed rng m).maze.countUnvisitedOdd + (Maze.carveSeed rng m).stack.length + 1 =
        2 * m.oddCells.length := by
  have hrx := uniformInt_mem 0 (Int.tdiv (m.width - 3) 2) (rng 0)
    (by rw [Int.tdiv_eq_ediv (by omega) (by omega)]; omega)
  have hry := uniformInt_mem 0 (Int.tdiv (m.height - 3) 2) (rng 1)
    (by rw [Int.tdiv_eq_ediv (by omega) (by omega)]; omega)
  rw [Int.tdiv_eq_ediv (by omega) (by omega)] at hrx hry
  unfold Maze.carveSeed
  simp only
  generalize hox : 1 + uniformInt 0 (Int.tdiv (m.width - 3) 2) (rng 0) * 2 = ox at *
  generalize hoy : 1 + uniformInt 0 (Int.tdiv (m.height - 3) 2) (rng 1) * 2 = oy at *
  have hoxb : 1 ≤ ox ∧ ox ≤ m.width - 2 ∧ ox % 2 = 1 := by
    rw [Int.tdiv_eq_ediv (by omega) (by omega)] at hox
    omega
  have hoyb : 1 ≤ oy ∧ oy ≤ m.height - 2 ∧ oy % 2 = 1 := by
    rw [Int.tdiv_eq_ediv (by omega) (by omega)] at hoy
    omega
  have hov : m.isValid ox oy = true := by rw [Maze.isValid_iff]; omega
  refine ⟨⟨rfl, rfl, ?_⟩, ?_⟩
  · intro c hc
    simp only [List.mem_singleton] at hc
    subst hc
    exact ⟨hov, hoxb.2.2, hoyb.2.2⟩
  · have hcount := countP_unset_point (fun _ => true)
      (fun c => !((m.setWall ⟨ox, oy⟩ false).setVisited ⟨ox, oy⟩ true).visited c) ⟨ox, oy⟩
      m.oddCells (Maze.oddCells_nodup _)
      ((Maze.mem_oddCells _ _).mpr ⟨hov, hoxb.2.2, hoyb.2.2⟩) rfl
      (by simp [Maze.setWall, Maze.setVisited])
      (by intro k hk; simp [Maze.setWall, Maze.setVisited, hk, hfresh k])
    have hodds : ((m.setWall ⟨ox, oy⟩ false).setVisited ⟨ox, oy⟩ true).oddCells = m.oddCells :=
      Maze.oddCells_eq_of_size _ _ rfl rfl
    unfold Maze.countUnvisitedOdd
    rw [hodds]
    simp only [List.countP_true, List.length_singleton] at hcount ⊢
    omega

/-- The carving loop ends within twice the number of cells with two odd
coordinates, with an empty stack. -/
theorem Maze.carveLoop_terminates (m : Maze) (rng : Rng) (fuel : Nat)
    (hw : 3 ≤ m.width) (hh : 3 ≤ m.height) (hfresh : ∀ c, m.visited c = false)
    (hfuel : 2 * m.oddCells.length ≤ fuel) :
    ∃ s, whileLoop (fun (s : Maze.CarveState) => !s.stack.isEmpty) Maze.carveBody fuel
        (Maze.carveSeed rng m) = some s ∧ s.stack = [] := by
  obtain ⟨hinit, hmu⟩ := Maze.carveSeed_odd m rng hw hh hfresh
  obtain ⟨s, hs, _, hcond⟩ := whileLoop_spec (fun (s : Maze.CarveState) => !s.stack.isEmpty)
    Maze.carveBody (CarveOdd m.width m.height)
    (fun s => 2 * s.maze.countUnvisitedOdd + s.stack.length)
    (by
      intro s hinv hcond
      simp only [Bool.not_eq_true', List.isEmpty_eq_false] at hcond
      have := hinv.carveOdd_step hcond
      exact ⟨this.1, by show 2 * _ + _ < 2 * _ + _; omega⟩)
    fuel _ hinit (by show 2 * _ + _ ≤ fuel; omega)
  exact ⟨s, hs, by simpa using hcond⟩

/-! ## The carving loop on a grid of odd width and height -/

/-- Carving from a visited cell to an unvisited cell two steps away keeps the
tree shape of the carved cells. -/
theorem CarveTree.push {w h : Int} {s : Maze.CarveState} (htree : CarveTree w h s)
    (hsw : s.maze.width = w) (hsh : s.maze.height = h) (hw : w % 2 = 1) (hh : h % 2 = 1)
    (current chosen mid : Coordinate) (stack : List Coordinate) (rng : Rng)
    (hcur : s.maze.visited current = true)
    (hchv : s.maze.isValid chosen.x chosen.y = true) (hchu : s.maze.visited chosen = false)
    (hgeo : (mid.y = current.y ∧ chosen.y = current.y ∧
        ((mid.x = current.x - 1 ∧ chosen.x = current.x - 2) ∨
          (mid.x = current.x + 1 ∧ chosen.x = current.x + 2))) ∨
      (mid.x = current.x ∧ chosen.x = current.x ∧
        ((mid.y = current.y - 1 ∧ chosen.y = current.y - 2) ∨
          (mid.y = current.y + 1 ∧ chosen.y = current.y + 2)))) :
    CarveTree w h
      ⟨((s.maze.setWall chosen false).setVisited chosen true).setWall mid false, stack, rng⟩ := by
  have hcodd := htree.odd_visited current hcur
  have hchb := (Maze.isValid_iff _ _ _).mp hchv
  rw [hsw, hsh] at hchb
  have hchodd : chosen.x % 2 = 1 ∧ chosen.y % 2 = 1 := by omega
  have hmv : s.maze.isValid mid.x mid.y = true := by
    rw [Maze.isValid_iff, hsw, hsh]; omega
  have hmpar : ¬ (mid.x % 2 = 1 ∧ mid.y % 2 = 1) := by omega
  have hmc : mid ≠ chosen := by
    intro e
    rw [e] at hmpar
    exact hmpar hchodd
  -- the chosen cell and the cell between were walls
  have hchw : s.maze.wall chosen = true := by
    cases hwl : s.maze.wall chosen with
    | true => rfl
    | false =>
      rcases htree.open_kind chosen hchv hwl with e | e | e
      · rw [hchu] at e; cases e
      · omega
      · omega
  have hends : ∀ a b : Coordinate, s.maze.visited a = true → s.maze.visited b = true →
      ¬ (a = chosen ∨ b = chosen) := by
    intro a b ha hb e
    rcases e with e | e
    · rw [e, hchu] at ha; cases ha
    · rw [e, hchu] at hb; cases hb
  have hmw : s.maze.wall mid = true := by
    cases hwl : s.maze.wall mid with
    | true => rfl
    | false =>
      exfalso
      rcases htree.open_kind mid hmv hwl with e | ⟨e1, e2, e3, e4⟩ | ⟨e1, e2, e3, e4⟩
      · have := htree.odd_visited mid e
        omega
      · apply hends _ _ e3 e4
        obtain ⟨kx, ky⟩ := chosen
        obtain ⟨mx, my⟩ := mid
        simp only [Coordinate.mk.injEq] at hgeo hchodd e1 e2 ⊢
        omega
      · apply hends _ _ e3 e4
        obtain ⟨kx, ky⟩ := chosen
        obtain ⟨mx, my⟩ := mid
        simp only [Coordinate.mk.injEq] at hgeo hchodd e1 e2 ⊢
        omega
  have hwall : ∀ k, (((s.maze.setWall chosen false).setVisited chosen true).setWall
      mid false).wall k = if k = mid then false else if k = chosen then false else
        s.maze.wall k := fun k => rfl
  have hvis : ∀ k, (((s.maze.setWall chosen false).setVisited chosen true).setWall
      mid false).visited k = if k = chosen then true else s.maze.visited k := fun k => rfl
  have hvmono : ∀ k, s.maze.visited k = true →
      (((s.maze.setWall chosen false).setVisited chosen true).setWall mid false).visited k =
        true := by
    intro k hk
    rw [hvis]
    split
    · rfl
    · exact hk
  constructor
  · intro c hc
    rw [hvis] at hc
    by_cases hcc : c = chosen
    · rw [hcc]; omega
    · rw [if_neg hcc] at hc
      exact htree.odd_visited c hc
  · intro c hcv hcw
    rw [hwall] at hcw
    by_cases hcm : c = mid
    · right
      have hchosen : (((s.maze.setWall chosen false).setVisited chosen true).setWall
          mid false).visited chosen = true := by rw [hvis, if_pos rfl]
      have hcurrent := hvmono current hcur
      rw [hcm]
      obtain ⟨kx, ky⟩ := chosen
      obtain ⟨mx, my⟩ := mid
      obtain ⟨cx, cy⟩ := current
      simp only at hgeo hcodd hchodd ⊢
      rcases hgeo with ⟨e1, e2, (⟨e3, e4⟩ | ⟨e3, e4⟩)⟩ | ⟨e1, e2, (⟨e3, e4⟩ | ⟨e3, e4⟩)⟩
      · left
        have h1 : (⟨mx - 1, my⟩ : Coordinate) = ⟨kx, ky⟩ := by
          rw [Coordinate.mk.injEq]; omega
        have h2 : (⟨mx + 1, my⟩ : Coordinate) = ⟨cx, cy⟩ := by
          rw [Coordinate.mk.injEq]; omega
        rw [h1, h2]
        exact ⟨by omega, by omega, hchosen, hcurrent⟩
      · left
        have h1 : (⟨mx - 1, my⟩ : Coordinate) = ⟨cx, cy⟩ := by
          rw [Coordinate.mk.injEq]; omega
        have h2 : (⟨mx + 1, my⟩ : Coordinate) = ⟨kx, ky⟩ := by
          rw [Coordinate.mk.injEq]; omega
        rw [h1, h2]
        exact ⟨by omega, by omega, hcurrent, hchosen⟩
      · right
        have h1 : (⟨mx, my - 1⟩ : Coordinate) = ⟨kx, ky⟩ := by
          rw [Coordinate.mk.injEq]; omega
        have h2 : (⟨mx, my + 1⟩ : Coordinate) = ⟨cx, cy⟩ := by
          rw [Coordinate.mk.injEq]; omega
        rw [h1, h2]
        exact ⟨by omega, by omega, hchosen, hcurrent⟩
      · right
        have h1 : (⟨mx, my - 1⟩ : Coordinate) = ⟨cx, cy⟩ := by
          rw [Coordinate.mk.injEq]; omega
        have h2 : (⟨mx, my + 1⟩ : Coordinate) = ⟨kx, ky⟩ := by
          rw [Coordinate.mk.injEq]; omega
        rw [h1, h2]
        exact ⟨by omega, by omega, hcurrent, hchosen⟩
    · rw [if_neg hcm] at hcw
      by_cases hcc : c = chosen
      · left
        rw [hvis, if_pos hcc]
      · rw [if_neg hcc] at hcw
        rcases htree.open_kind c hcv hcw with e | ⟨e1, e2, e3, e4⟩ | ⟨e1, e2, e3, e4⟩
        · exact Or.inl (hvmono c e)
        · exact Or.inr (Or.inl ⟨e1, e2, hvmono _ e3, hvmono _ e4⟩)
        · exact Or.inr (Or.inr ⟨e1, e2, hvmono _ e3, hvmono _ e4⟩)
  · have h1 := countP_unset_point (fun c => s.maze.wall c)
      (fun c => (s.maze.setWall chosen false).wall c) chosen s.maze.cells
      (Maze.cells_nodup _) ((Maze.mem_cells _ _).mpr hchv) hchw (by simp [Maze.setWall])
      (by intro k hk; simp [Maze.setWall, hk])
    have h2 := countP_unset_point (fun c => (s.maze.setWall chosen false).wall c)
      (fun c => (((s.maze.setWall chosen false).setVisited chosen true).setWall
        mid false).wall c) mid s.maze.cells
      (Maze.cells_nodup _) ((Maze.mem_cells _ _).mpr hmv) (by simp [Maze.setWall, hmc, hmw])
      (by simp [Maze.setWall])
      (by intro k hk; simp [Maze.setWall, Maze.setVisited, hk])
    have h3 := countP_unset_point (fun c => !s.maze.visited c)
      (fun c => !(((s.maze.setWall chosen false).setVisited chosen true).setWall
        mid false).visited c) chosen s.maze.cells (Maze.cells_nodup _)
      ((Maze.mem_cells _ _).mpr hchv) (by simp [hchu])
      (by simp [Maze.setWall, Maze.setVisited])
      (by intro k hk; simp [Maze.setWall, Maze.setVisited, hk])
    have hcells : (((s.maze.setWall chosen false).setVisited chosen true).setWall
        mid false).cells = s.maze.cells := Maze.cells_eq_of_size _ _ rfl rfl
    have harea : (((s.maze.setWall chosen false).setVisited chosen true).setWall
        mid false).area = s.maze.area := rfl
    have hcount := htree.count
    unfold Maze.countUnvisited at hcount ⊢
    dsimp only at h1 h2 h3 hcount ⊢
    rw [hcells, harea]
    omega

theorem CarveTree.carveTree_step {w h : Int} {origin : Coordinate} {s : Maze.CarveState}
    (hw : w % 2 = 1) (hh : h % 2 = 1) (hinv : CarveInv w h origin s)
    (htree : CarveTree w h s) (hne : s.stack ≠ []) : CarveTree w h (Maze.carveBody s) := by
  obtain ⟨current, rest, hs⟩ := List.exists_cons_of_ne_nil hne
  have hcur := hinv.stack_ok current (by rw [hs]; exact List.mem_cons_self _ _)
  by_cases hnone : (Maze.twoAway current).filter
      (fun n => s.maze.isValid n.x n.y && !s.maze.visited n) = []
  · rw [Maze.carveBody_pop s current rest hs hnone]
    exact ⟨htree.odd_visited, htree.open_kind, htree.count⟩
  · obtain ⟨chosen, hch, hchv, hchu, hbody⟩ := Maze.carveBody_push s current rest hs hnone
    rw [hbody]
    have hcodd := htree.odd_visited current hcur.2
    rw [Maze.mem_twoAway] at hch
    have hchb := (Maze.isValid_iff _ _ _).mp hchv
    apply htree.push hinv.width hinv.height hw hh current chosen _ _ _ hcur.2 hchv hchu
    have hx : Int.tdiv (current.x + chosen.x) 2 = (current.x + chosen.x) / 2 :=
      Int.tdiv_eq_ediv (by omega) (by omega)
    have hy : Int.tdiv (current.y + chosen.y) 2 = (current.y + chosen.y) / 2 :=
      Int.tdiv_eq_ediv (by omega) (by omega)
    simp only
    rw [hx, hy]
    rcases hch with e | e | e | e <;> rw [e] <;> simp only [true_and, and_true] <;> omega

/-! ## The backtracker on a grid of odd width and height -/

theorem countP_all_but_one {α : Type} [DecidableEq α] (l : List α) (hl : l.Nodup) (a : α)
    (ha : a ∈ l) (q : α → Bool) (hq : q a = false) (hothers : ∀ k ∈ l, k ≠ a → q k = true) :
    l.countP q + 1 = l.length := by
  have h1 := countP_unset_point (fun _ => true) (fun k => !decide (k = a)) a l hl ha rfl
    (by simp) (by intro k hk; simp [hk])
  have h2 : l.countP q = l.countP (fun k => !decide (k = a)) := by
    apply List.countP_congr
    intro k hk
    by_cases hka : k = a
    · simp [hka, hq]
    · simp [hka, hothers k hk hka]
  rw [h2, h1, List.countP_true]

/-- The state in which the carving loop is entered, on a grid of walls with no
visited flag set. -/
theorem Maze.carveSeed_inv (m : Maze) (rng : Rng) (hw : 3 ≤ m.width) (hh : 3 ≤ m.height)
    (hwalls : ∀ c, m.isValid c.x c.y = true → m.wall c = true)
    (hfresh : ∀ c, m.visited c = false) :
    ∃ origin, origin.x % 2 = 1 ∧ origin.y % 2 = 1 ∧
      CarveInv m.width m.height origin (Maze.carveSeed rng m) ∧
      CarveTree m.width m.height (Maze.carveSeed rng m) := by
  have hrx := uniformInt_mem 0 (Int.tdiv (m.width - 3) 2) (rng 0)
    (by rw [Int.tdiv_eq_ediv (by omega) (by omega)]; omega)
  have hry := uniformInt_mem 0 (Int.tdiv (m.height - 3) 2) (rng 1)
    (by rw [Int.tdiv_eq_ediv (by omega) (by omega)]; omega)
  rw [Int.tdiv_eq_ediv (by omega) (by omega)] at hrx hry
  unfold Maze.carveSeed
  simp only
  generalize hox : 1 + uniformInt 0 (Int.tdiv (m.width - 3) 2) (rng 0) * 2 = ox at *
  generalize hoy : 1 + uniformInt 0 (Int.tdiv (m.height - 3) 2) (rng 1) * 2 = oy at *
  have hoxb : 1 ≤ ox ∧ ox ≤ m.width - 2 ∧ ox % 2 = 1 := by
    rw [Int.tdiv_eq_ediv (by omega) (by omega)] at hox
    omega
  have hoyb : 1 ≤ oy ∧ oy ≤ m.height - 2 ∧ oy % 2 = 1 := by
    rw [Int.tdiv_eq_ediv (by omega) (by omega)] at hoy
    omega
  have hov : m.isValid ox oy = true := by rw [Maze.isValid_iff]; omega
  refine ⟨⟨ox, oy⟩, hoxb.2.2, hoyb.2.2, ?_, ?_⟩
  · constructor
    · rfl
    · rfl
    · exact ⟨hov, by simp [Maze.setVisited]⟩
    · intro c hc
      simp only [List.mem_singleton] at hc
      subst hc
      exact ⟨hov, by simp [Maze.setVisited]⟩
    · intro c hv hvis
      by_cases hc : c = ⟨ox, oy⟩
      · simp [Maze.setVisited, Maze.setWall, hc]
      · simp [Maze.setVisited, Maze.setWall, hc, hfresh c] at hvis
    · intro c hc
      rw [Maze.isOpen_iff] at hc
      by_cases hcc : c = ⟨ox, oy⟩
      · rw [hcc]; exact ⟨0, Maze.StepsTo.zero⟩
      · have hv : m.isValid c.x c.y = true := hc.1
        have := hc.2
        simp [Maze.setVisited, Maze.setWall, hcc, hwalls c hv] at this
    · intro c hv hvis hc
      by_cases hcc : c = ⟨ox, oy⟩
      · simp [hcc] at hc
      · simp [Maze.setVisited, Maze.setWall, hcc, hfresh c] at hvis
  · constructor
    · intro c hc
      by_cases hcc : c = ⟨ox, oy⟩
      · rw [hcc]
        exact ⟨hoxb.2.2, hoyb.2.2, hoxb.1, hoxb.2.1, hoyb.1, hoyb.2.1⟩
      · simp [Maze.setVisited, Maze.setWall, hcc, hfresh c] at hc
    · intro c hv hc
      left
      by_cases hcc : c = ⟨ox, oy⟩
      · simp [Maze.setVisited, Maze.setWall, hcc]
      · have hv' : m.isValid c.x c.y = true := hv
        simp [Maze.setVisited, Maze.setWall, hcc, hwalls c hv'] at hc
    · have h1 := countP_all_but_one m.cells (Maze.cells_nodup _) ⟨ox, oy⟩
        ((Maze.mem_cells _ _).mpr hov)
        (fun c => ((m.setWall ⟨ox, oy⟩ false).setVisited ⟨ox, oy⟩ true).wall c)
        (by simp [Maze.setWall, Maze.setVisited])
        (by
          intro k hk hne
          simp [Maze.setWall, Maze.setVisited, hne, hwalls k ((Maze.mem_cells _ _).mp hk)])
      have h2 := countP_all_but_one m.cells (Maze.cells_nodup _) ⟨ox, oy⟩
        ((Maze.mem_cells _ _).mpr hov)
        (fun c => !((m.setWall ⟨ox, oy⟩ false).setVisited ⟨ox, oy⟩ true).visited c)
        (by simp [Maze.setWall, Maze.setVisited])
        (by
          intro k hk hne
          simp [Maze.setWall, Maze.setVisited, hne, hfresh k])
      have hcells : ((m.setWall ⟨ox, oy⟩ false).setVisited ⟨ox, oy⟩ true).cells = m.cells :=
        Maze.cells_eq_of_size _ _ rfl rfl
      have harea : ((m.setWall ⟨ox, oy⟩ false).setVisited ⟨ox, oy⟩ true).area = m.area := rfl
      have hlen := Maze.cells_length m
      unfold Maze.countUnvisited
      dsimp only at h1 h2 ⊢
      rw [hcells, harea]
      omega

/-- On a grid of walls of odd width and height the backtracker returns within
twice the number of cells with two odd coordinates, and the loop ends in a
state of tree shape. -/
theorem Maze.generateRecursiveBacktracking_tree (m : Maze) (rng : Rng) (fuel : Nat)
    (hw : 3 ≤ m.width) (hh : 3 ≤ m.height) (hwo : m.width % 2 = 1) (hho : m.height % 2 = 1)
    (hwalls : ∀ c, m.isValid c.x c.y = true → m.wall c = true)
    (hfresh : ∀ c, m.visited c = false) (hfuel : 2 * m.oddCells.length ≤ fuel) :
    ∃ s origin, m.generateRecursiveBacktracking fuel rng = some (s.maze.clearVisited, s.rng) ∧
      CarveInv m.width m.height origin s ∧ CarveTree m.width m.height s ∧ s.stack = [] ∧
      origin.x % 2 = 1 ∧ origin.y % 2 = 1 := by
  obtain ⟨origin, hox, hoy, hinv, htree⟩ := Maze.carveSeed_inv m rng hw hh hwalls hfresh
  obtain ⟨hodd, hmu⟩ := Maze.carveSeed_odd m rng hw hh hfresh
  obtain ⟨s, hs, ⟨h1, h2, _⟩, hcond⟩ := whileLoop_spec
    (fun (s : Maze.CarveState) => !s.stack.isEmpty) Maze.carveBody
    (fun s => CarveInv m.width m.height origin s ∧ CarveTree m.width m.height s ∧
      CarveOdd m.width m.height s)
    (fun s => 2 * s.maze.countUnvisitedOdd + s.stack.length)
    (by
      intro s hI hcond
      simp only [Bool.not_eq_true', List.isEmpty_eq_false] at hcond
      have hstep := hI.2.2.carveOdd_step hcond
      exact ⟨⟨(hI.1.carveInv_step hcond).1, hI.2.1.carveTree_step hwo hho hI.1 hcond, hstep.1⟩,
        by show 2 * _ + _ < 2 * _ + _; omega⟩)
    fuel _ ⟨hinv, htree, hodd⟩ (by show 2 * _ + _ ≤ fuel; omega)
  refine ⟨s, origin, ?_, h1, h2, by simpa using hcond, hox, hoy⟩
  rw [Maze.generateRecursiveBacktracking_seed, hs]
  rfl

/-! ## The grid the backtracker leaves behind, for odd width and height -/

theorem countP_add_countP_not {α : Type} (p : α → Bool) (l : List α) :
    l.countP p + l.countP (fun a => !p a) = l.length := by
  rw [List.length_eq_countP_add_countP p l]
  congr 1
  apply List.countP_congr
  intro a _
  cases p a <;> simp

/-- Every cell with two odd coordinates has been opened. -/
theorem CarveInv.odd_open {w h : Int} {origin : Coordinate} {s : Maze.CarveState}
    (hinv : CarveInv w h origin s) (hempty : s.stack = [])
    (hox : origin.x % 2 = 1) (hoy : origin.y % 2 = 1) (c : Coordinate)
    (hv : s.maze.isValid c.x c.y = true) (hx : c.x % 2 = 1) (hy : c.y % 2 = 1) :
    s.maze.visited c = true ∧ s.maze.wall c = false := by
  have hvis := hinv.visited_all hempty c hv (by omega) (by omega)
  exact ⟨hvis, hinv.open_of_visited c hv hvis⟩

/-- A cell with two even coordinates and a cell of the border are walls. -/
theorem CarveTree.even_and_border_walls {w h : Int} {s : Maze.CarveState}
    (htree : CarveTree w h s) (c : Coordinate) (hv : s.maze.isValid c.x c.y = true)
    (hc : (c.x % 2 = 0 ∧ c.y % 2 = 0) ∨ c.x = 0 ∨ c.x = w - 1 ∨ c.y = 0 ∨ c.y = h - 1) :
    s.maze.wall c = true := by
  cases hwl : s.maze.wall c with
  | true => rfl
  | false =>
    exfalso
    rcases htree.open_kind c hv hwl with e | ⟨e1, e2, e3, e4⟩ | ⟨e1, e2, e3, e4⟩
    · have := htree.odd_visited c e
      omega
    · have h3 := htree.odd_visited _ e3
      have h4 := htree.odd_visited _ e4
      simp only at h3 h4
      omega
    · have h3 := htree.odd_visited _ e3
      have h4 := htree.odd_visited _ e4
      simp only at h3 h4
      omega

/-- The non-wall cells are one fewer than twice the cells with two odd
coordinates. -/
theorem CarveTree.open_count {w h : Int} {origin : Coordinate} {s : Maze.CarveState}
    (hinv : CarveInv w h origin s) (htree : CarveTree w h s) (hempty : s.stack = [])
    (hox : origin.x % 2 = 1) (hoy : origin.y % 2 = 1) :
    s.maze.cells.countP (fun c => !s.maze.wall c) + 1 = 2 * s.maze.oddCells.length := by
  have hU : s.maze.oddCells.length + s.maze.countUnvisited = s.maze.area := by
    unfold Maze.oddCells Maze.countUnvisited
    rw [← List.countP_eq_length_filter, ← Maze.cells_length,
      ← countP_add_countP_not (fun c => decide (c.x % 2 = 1) && decide (c.y % 2 = 1))]
    congr 1
    apply List.countP_congr
    intro c hc
    have hv := (Maze.mem_cells _ _).mp hc
    by_cases hodd : c.x % 2 = 1 ∧ c.y % 2 = 1
    · simp [hodd.1, hodd.2, (hinv.odd_open hempty hox hoy c hv hodd.1 hodd.2).1]
    · cases hvis : s.maze.visited c with
      | true =>
        have := htree.odd_visited c hvis
        exact absurd ⟨this.1, this.2.1⟩ hodd
      | false =>
        simp only [Bool.not_false, Bool.not_eq_true', Bool.and_eq_false_iff,
          decide_eq_false_iff_not, true_iff]
        by_cases h1 : c.x % 2 = 1
        · exact Or.inr (fun h2 => hodd ⟨h1, h2⟩)
        · exact Or.inl h1
  have hW := countP_add_countP_not (fun c => s.maze.wall c) s.maze.cells
  rw [Maze.cells_length] at hW
  have := htree.count
  omega

/-- Any two non-wall cells are joined by steps through non-wall cells. -/
theorem CarveInv.mutually_connected {w h : Int} {origin : Coordinate} {s : Maze.CarveState}
    (hinv : CarveInv w h origin s) (a b : Coordinate) (ha : s.maze.isOpen a = true)
    (hb : s.maze.isOpen b = true) : ∃ n, s.maze.StepsTo a n b := by
  obtain ⟨n1, h1⟩ := hinv.connected a ha
  obtain ⟨n2, h2⟩ := hinv.connected b hb
  have ho : s.maze.isOpen origin = true := by
    rw [Maze.isOpen_iff]
    exact ⟨hinv.origin_ok.1, hinv.open_of_visited origin hinv.origin_ok.1 hinv.origin_ok.2⟩
  exact ⟨n1 + n2, Maze.StepsTo.trans (Maze.StepsTo.symm ho h1) h2⟩

/-! ## The claims about residual flags and about the recursive backtracker -/

/-- C21: Dijkstra and A* do not read the visited or path flags of the grid.  For
two grids of the same size with the same wall flags, whatever their visited
and path flags, `findPath` with the same start and goal (and the same order
among equal heap keys) returns on both, whatever the two clock readings, with
the same coordinates in the same order on the path, the same `nodesExplored`
and the same `pathLength`. -/
theorem residual_flags_do_not_change_result (m1 m2 : Maze) (hsame : m1.SameWalls m2)
    (start goal : Option Coordinate) (fuel e1 e2 : Nat) (ties : Nat → Nat)
    (hstart : ∀ s, start = some s → m1.isValid s.x s.y = true)
    (hfuel : 5 * m1.area + 1 ≤ fuel) :
    (∃ r1 r2, DijkstraPathfinder.findPath fuel e1 ties m1 start goal = some r1 ∧
      DijkstraPathfinder.findPath fuel e2 ties m2 start goal = some r2 ∧
      r1.path.map Cell.coords = r2.path.map Cell.coords ∧
      r1.stats.nodesExplored = r2.stats.nodesExplored ∧
      r1.stats.pathLength = r2.stats.pathLength) ∧
    (∃ r1 r2, AStarPathfinder.findPath fuel e1 ties m1 start goal = some r1 ∧
      AStarPathfinder.findPath fuel e2 ties m2 start goal = some r2 ∧
      r1.path.map Cell.coords = r2.path.map Cell.coords ∧
      r1.stats.nodesExplored = r2.stats.nodesExplored ∧
      r1.stats.pathLength = r2.stats.pathLength) := by
  cases start with
  | none => exact ⟨⟨_, _, rfl, rfl, rfl, rfl, rfl⟩, ⟨_, _, rfl, rfl, rfl, rfl, rfl⟩⟩
  | some start =>
    cases goal with
    | none => exact ⟨⟨_, _, rfl, rfl, rfl, rfl, rfl⟩, ⟨_, _, rfl, rfl, rfl, rfl, rfl⟩⟩
    | some goal =>
      constructor
      · obtain ⟨r1, hr1, _⟩ := DijkstraPathfinder.dijkstra_findPath_spec m1 start goal fuel e1
          ties hfuel (hstart start rfl)
        obtain ⟨r2, hr2, hp, hs, _⟩ := DijkstraPathfinder.dijkstra_findPath_alike m1 m2 hsame
          start goal fuel e1 ties r1 hr1
        have hr2' := DijkstraPathfinder.dijkstra_findPath_elapsed m2 (some start) (some goal)
          fuel e1 e2 ties r2 hr2
        exact ⟨r1, _, hr1, hr2', hp, by rw [hs], by rw [hs]⟩
      · obtain ⟨r1, hr1, _⟩ := AStarPathfinder.astar_findPath_spec m1 start goal fuel e1
          ties hfuel (hstart start rfl)
        obtain ⟨r2, hr2, hp, hs, _⟩ := AStarPathfinder.astar_findPath_alike m1 m2 hsame
          start goal fuel e1 ties r1 hr1
        have hr2' := AStarPathfinder.astar_findPath_elapsed m2 (some start) (some goal)
          fuel e1 e2 ties r2 hr2
        exact ⟨r1, _, hr1, hr2', hp, by rw [hs], by rw [hs]⟩

/-- C21 on `exampleMaze` against the same grid with every visited and path flag
set, from `(1, 1)` to `(3, 3)`. -/
theorem residual_flags_do_not_change_result_witness :
    exampleMaze.SameWalls { exampleMaze with visited := fun _ => true, path := fun _ => true } ∧
    (∀ s, some (⟨1, 1⟩ : Coordinate) = some s → exampleMaze.isValid s.x s.y = true) ∧
    5 * exampleMaze.area + 1 ≤ 126 ∧
    ((∃ r1 r2, DijkstraPathfinder.findPath 126 0 (fun _ => 0) exampleMaze (some ⟨1, 1⟩)
        (some ⟨3, 3⟩) = some r1 ∧
      DijkstraPathfinder.findPath 126 7 (fun _ => 0)
        { exampleMaze with visited := fun _ => true, path := fun _ => true } (some ⟨1, 1⟩)
        (some ⟨3, 3⟩) = some r2 ∧
      r1.path.map Cell.coords = r2.path.map Cell.coords ∧
      r1.stats.nodesExplored = r2.stats.nodesExplored ∧
      r1.stats.pathLength = r2.stats.pathLength) ∧
    (∃ r1 r2, AStarPathfinder.findPath 126 0 (fun _ => 0) exampleMaze (some ⟨1, 1⟩)
        (some ⟨3, 3⟩) = some r1 ∧
      AStarPathfinder.findPath 126 7 (fun _ => 0)
        { exampleMaze with visited := fun _ => true, path := fun _ => true } (some ⟨1, 1⟩)
        (some ⟨3, 3⟩) = some r2 ∧
      r1.path.map Cell.coords = r2.path.map Cell.coords ∧
      r1.stats.nodesExplored = r2.stats.nodesExplored ∧
      r1.stats.pathLength = r2.stats.pathLength)) :=
  have hsame : exampleMaze.SameWalls
      { exampleMaze with visited := fun _ => true, path := fun _ => true } :=
    ⟨rfl, rfl, fun _ _ => rfl⟩
  have hstart : ∀ s, some (⟨1, 1⟩ : Coordinate) = some s →
      exampleMaze.isValid s.x s.y = true := by
    intro s hs
    cases hs
    decide
  ⟨hsame, hstart, by decide,
    residual_flags_do_not_change_result exampleMaze _ hsame (some ⟨1, 1⟩) (some ⟨3, 3⟩) 126 0 7
      (fun _ => 0) hstart (by decide)⟩

/-- C24: for odd width and height in `[5, 100]` and every sequence of draws,
`generatePerfectMaze` with `RECURSIVE_BACKTRACKING` returns (twice `N`
iterations of the carving loop suffice, `N = ((width - 1) / 2) * ((height - 1) / 2)`)
and leaves a spanning tree over the cells with two odd coordinates: every
such cell of the grid is open, every cell with two even coordinates and
every border cell is a wall, exactly `2 * N - 1` cells are open, and any two
open cells are joined by a path of 4-adjacent open cells. -/
theorem backtracking_odd_size_spanning_tree (w h : Int) (rng : Rng) (m : Maze) (fuel N : Nat)
    (hw : 5 ≤ w ∧ w ≤ 100) (hh : 5 ≤ h ∧ h ≤ 100) (hwo : w % 2 = 1) (hho : h % 2 = 1)
    (hN : (N : Int) = ((w - 1) / 2) * ((h - 1) / 2)) (hfuel : 2 * N ≤ fuel) :
    ∃ m', Maze.generatePerfectMaze fuel rng m w h .RECURSIVE_BACKTRACKING = .ok (some m') ∧
      m'.width = w ∧ m'.height = h ∧
      (∀ c, m'.isValid c.x c.y = true → c.x % 2 = 1 → c.y % 2 = 1 → m'.wall c = false) ∧
      (∀ c, m'.isValid c.x c.y = true → c.x % 2 = 0 → c.y % 2 = 0 → m'.wall c = true) ∧
      (∀ c, m'.isValid c.x c.y = true → c.x = 0 ∨ c.x = w - 1 ∨ c.y = 0 ∨ c.y = h - 1 →
        m'.wall c = true) ∧
      (m'.cells.filter fun c => m'.isOpen c).length = 2 * N - 1 ∧
      (∀ a b, m'.isOpen a = true → m'.isOpen b = true → m'.Reachable a b) := by
  obtain ⟨h1, h2, h3, h4⟩ := Maze.carveStart_props m w h
  generalize hm1 : (({ m with width := w, height := h } : Maze).initializeGrid).setAllWalls
    true = m1 at h1 h2 h3 h4
  have hK : m1.oddCells.length = N := by
    rw [Maze.oddCells_length, h1, h2]
    have ha : ((w.toNat / 2 : Nat) : Int) = (w - 1) / 2 := by omega
    have hb : ((h.toNat / 2 : Nat) : Int) = (h - 1) / 2 := by omega
    have : (((w.toNat / 2) * (h.toNat / 2) : Nat) : Int) = (N : Int) := by
      rw [hN, Nat.cast_mul, ha, hb]
    exact_mod_cast this
  obtain ⟨s, origin, hgen, hinv, htree, hempty, hox, hoy⟩ :=
    Maze.generateRecursiveBacktracking_tree m1 rng fuel (by rw [h1]; omega) (by rw [h2]; omega)
      (by rw [h1]; exact hwo) (by rw [h2]; exact hho) h3 h4 (by rw [hK]; exact hfuel)
  rw [h1, h2] at hinv htree
  have hsw := hinv.width
  have hsh := hinv.height
  have hodd := fun c hv hx hy => (hinv.odd_open hempty hox hoy c hv hx hy).2
  have hwallEq : ∀ c, ((({ s.maze.clearVisited with
      start := some ⟨1, 1⟩, goal := some ⟨w - 2, h - 2⟩ } : Maze).setWall ⟨1, 1⟩ false).setWall
        ⟨w - 2, h - 2⟩ false).wall c = s.maze.wall c := by
    intro c
    show (if c = ⟨w - 2, h - 2⟩ then false else if c = ⟨1, 1⟩ then false else s.maze.wall c) =
      s.maze.wall c
    by_cases hc1 : c = ⟨w - 2, h - 2⟩
    · rw [if_pos hc1, hc1]
      exact (hodd _ (by rw [Maze.isValid_iff, hsw, hsh]; simp only; omega)
        (by simp only; omega) (by simp only; omega)).symm
    · rw [if_neg hc1]
      by_cases hc2 : c = ⟨1, 1⟩
      · rw [if_pos hc2, hc2]
        exact (hodd _ (by rw [Maze.isValid_iff, hsw, hsh]; simp only; omega)
          (by decide) (by decide)).symm
      · rw [if_neg hc2]
  have hopenEq : ∀ c, ((({ s.maze.clearVisited with
      start := some ⟨1, 1⟩, goal := some ⟨w - 2, h - 2⟩ } : Maze).setWall ⟨1, 1⟩ false).setWall
        ⟨w - 2, h - 2⟩ false).isOpen c = s.maze.isOpen c := by
    intro c
    unfold Maze.isOpen
    rw [hwallEq]
    rfl
  refine ⟨(({ s.maze.clearVisited with start := some ⟨1, 1⟩, goal := some ⟨w - 2, h - 2⟩ } :
    Maze).setWall ⟨1, 1⟩ false).setWall ⟨w - 2, h - 2⟩ false, ?_, hsw, hsh, ?_, ?_, ?_, ?_, ?_⟩
  · unfold Maze.generatePerfectMaze
    rw [Maze.validateDimensions_ok w h hw hh]
    simp only [ne_eq, reduceCtorEq, not_false_eq_true, if_true]
    rw [hm1, hgen]
    rfl
  · intro c hv hx hy
    rw [hwallEq]
    exact hodd c hv hx hy
  · intro c hv hx hy
    rw [hwallEq]
    exact htree.even_and_border_walls c hv (Or.inl ⟨hx, hy⟩)
  · intro c hv hb
    rw [hwallEq]
    exact htree.even_and_border_walls c hv (Or.inr hb)
  · have hcount := CarveTree.open_count hinv htree hempty hox hoy
    have hodds : s.maze.oddCells = m1.oddCells :=
      Maze.oddCells_eq_of_size m1 s.maze (by rw [hsw, h1]) (by rw [hsh, h2])
    rw [hodds, hK] at hcount
    have hcells : ((({ s.maze.clearVisited with
        start := some ⟨1, 1⟩, goal := some ⟨w - 2, h - 2⟩ } : Maze).setWall ⟨1, 1⟩ false).setWall
          ⟨w - 2, h - 2⟩ false).cells = s.maze.cells := Maze.cells_eq_of_size _ _ rfl rfl
    rw [hcells, ← List.countP_eq_length_filter]
    have hcongr : s.maze.cells.countP (fun c => ((({ s.maze.clearVisited with
        start := some ⟨1, 1⟩, goal := some ⟨w - 2, h - 2⟩ } : Maze).setWall ⟨1, 1⟩ false).setWall
          ⟨w - 2, h - 2⟩ false).isOpen c) = s.maze.cells.countP (fun c => !s.maze.wall c) := by
      apply List.countP_congr
      intro c hc
      rw [hopenEq]
      unfold Maze.isOpen
      rw [(Maze.mem_cells _ _).mp hc]
      simp
    rw [hcongr]
    omega
  · intro a b ha hb
    rw [hopenEq] at ha hb
    obtain ⟨n, hn⟩ := hinv.mutually_connected a b ha hb
    refine (Maze.reachable_iff_stepsTo _ a b (by rw [hopenEq]; exact ha)).mpr ⟨n, ?_⟩
    refine Maze.StepsTo.mono s.maze _ ?_ ?_ (fun c hc => (hwallEq c).symm.trans hc) hn
    · rfl
    · rfl

/-- C24 at the 5x5 grid with every raw draw 0: `N = 4` and 7 open cells. -/
theorem backtracking_odd_size_spanning_tree_witness :
    ((5 : Int) ≤ 5 ∧ (5 : Int) ≤ 100) ∧ ((5 : Int) ≤ 5 ∧ (5 : Int) ≤ 100) ∧
    (5 : Int) % 2 = 1 ∧ (5 : Int) % 2 = 1 ∧
    ((4 : Nat) : Int) = (((5 : Int) - 1) / 2) * (((5 : Int) - 1) / 2) ∧ 2 * 4 ≤ 8 ∧
    ∃ m', Maze.generatePerfectMaze 8 (fun _ => 0) defaultMaze 5 5 .RECURSIVE_BACKTRACKING =
        .ok (some m') ∧
      m'.width = 5 ∧ m'.height = 5 ∧
      (∀ c, m'.isValid c.x c.y = true → c.x % 2 = 1 → c.y % 2 = 1 → m'.wall c = false) ∧
      (∀ c, m'.isValid c.x c.y = true → c.x % 2 = 0 → c.y % 2 = 0 → m'.wall c = true) ∧
      (∀ c, m'.isValid c.x c.y = true → c.x = 0 ∨ c.x = 5 - 1 ∨ c.y = 0 ∨ c.y = 5 - 1 →
        m'.wall c = true) ∧
      (m'.cells.filter fun c => m'.isOpen c).length = 2 * 4 - 1 ∧
      (∀ a b, m'.isOpen a = true → m'.isOpen b = true → m'.Reachable a b) :=
  ⟨by decide, by decide, by decide, by decide, by decide, by decide,
    backtracking_odd_size_spanning_tree 5 5 (fun _ => 0) defaultMaze 8 4 (by decide) (by decide)
      (by decide) (by decide) (by decide) (by decide)⟩

/-- C27: for every width and height in `[5, 100]` and every sequence of draws
the carving loop of the recursive backtracker ends with an empty stack within
`2 * K` iterations, `K` the number of cells of the grid with two odd coordinates
(`(width / 2) * (height / 2)` of them), and `generatePerfectMaze` returns.  In any
state with a stack that is not empty, an iteration either pops the stack and
leaves the grid alone, or marks a cell of the grid that was not visited and
pushes it. -/
theorem backtracking_loop_terminates (w h : Int) (rng : Rng) (m : Maze) (fuel : Nat)
    (hw : 5 ≤ w ∧ w ≤ 100) (hh : 5 ≤ h ∧ h ≤ 100)
    (hfuel : 2 * ((({ m with width := w, height := h } : Maze).initializeGrid).setAllWalls
      true).oddCells.length ≤ fuel) :
    (∃ s, whileLoop (fun (s : Maze.CarveState) => !s.stack.isEmpty) Maze.carveBody fuel
        (Maze.carveSeed rng ((({ m with width := w, height := h } :
          Maze).initializeGrid).setAllWalls true)) = some s ∧ s.stack = [] ∧
      ∃ m', Maze.generatePerfectMaze fuel rng m w h .RECURSIVE_BACKTRACKING = .ok (some m') ∧
        m'.wall = ((s.maze.setWall ⟨1, 1⟩ false).setWall ⟨w - 2, h - 2⟩ false).wall) ∧
    ((({ m with width := w, height := h } : Maze).initializeGrid).setAllWalls
      true).oddCells.length = (w.toNat / 2) * (h.toNat / 2) ∧
    (∀ (s : Maze.CarveState) (current : Coordinate) (rest : List Coordinate),
      s.stack = current :: rest →
      ((Maze.carveBody s).stack = rest ∧ (Maze.carveBody s).maze = s.maze) ∨
      ∃ chosen, s.maze.isValid chosen.x chosen.y = true ∧ s.maze.visited chosen = false ∧
        (Maze.carveBody s).maze.visited chosen = true ∧
        (Maze.carveBody s).stack = chosen :: current :: rest) := by
  obtain ⟨h1, h2, _, h4⟩ := Maze.carveStart_props m w h
  refine ⟨?_, ?_, Maze.carveBody_cases⟩
  · obtain ⟨s, hs, hempty⟩ := Maze.carveLoop_terminates _ rng fuel (by rw [h1]; omega)
      (by rw [h2]; omega) h4 hfuel
    refine ⟨s, hs, hempty, (({ s.maze.clearVisited with
      start := some ⟨1, 1⟩, goal := some ⟨w - 2, h - 2⟩ } : Maze).setWall ⟨1, 1⟩ false).setWall
        ⟨w - 2, h - 2⟩ false, ?_, rfl⟩
    unfold Maze.generatePerfectMaze
    rw [Maze.validateDimensions_ok w h hw hh]
    simp only [ne_eq, reduceCtorEq, not_false_eq_true, if_true]
    rw [Maze.generateRecursiveBacktracking_seed, hs]
    rfl
  · rw [Maze.oddCells_length, h1, h2]

/-- C27 at the 6x5 grid with every raw draw 0: 6 cells with two odd
coordinates, 12 iterations. -/
theorem backtracking_loop_terminates_witness :
    ((5 : Int) ≤ 6 ∧ (6 : Int) ≤ 100) ∧ ((5 : Int) ≤ 5 ∧ (5 : Int) ≤ 100) ∧
    2 * ((({ defaultMaze with width := 6, height := 5 } : Maze).initializeGrid).setAllWalls
      true).oddCells.length ≤ 12 ∧
    (∃ s, whileLoop (fun (s : Maze.CarveState) => !s.stack.isEmpty) Maze.carveBody 12
        (Maze.carveSeed (fun _ => 0) ((({ defaultMaze with width := 6, height := 5 } :
          Maze).initializeGrid).setAllWalls true)) = some s ∧ s.stack = [] ∧
      ∃ m', Maze.generatePerfectMaze 12 (fun _ => 0) defaultMaze 6 5 .RECURSIVE_BACKTRACKING =
          .ok (some m') ∧
        m'.wall = ((s.maze.setWall ⟨1, 1⟩ false).setWall ⟨6 - 2, 5 - 2⟩ false).wall) ∧
    ((({ defaultMaze with width := 6, height := 5 } : Maze).initializeGrid).setAllWalls
      true).oddCells.length = ((6 : Int).toNat / 2) * ((5 : Int).toNat / 2) ∧
    (∀ (s : Maze.CarveState) (current : Coordinate) (rest : List Coordinate),
      s.stack = current :: rest →
      ((Maze.carveBody s).stack = rest ∧ (Maze.carveBody s).maze = s.maze) ∨
      ∃ chosen, s.maze.isValid chosen.x chosen.y = true ∧ s.maze.visited chosen = false ∧
        (Maze.carveBody s).maze.visited chosen = true ∧
        (Maze.carveBody s).stack = chosen :: current :: rest) :=
  ⟨by decide, by decide, by decide,
    backtracking_loop_terminates 6 5 (fun _ => 0) defaultMaze 12 (by decide) (by decide)
      (by decide)⟩

/-! ## Loops, state by state -/

/-- The state a loop returns is the state after its last iteration. -/
theorem whileLoop_run {σ : Type} (cond : σ → Bool) (body : σ → σ) (s0 : σ) :
    ∀ (n k : Nat) (s s' : σ), LoopRun cond body s0 k s → whileLoop cond body n s = some s' →
      ∃ j, j ≤ n ∧ LoopRun cond body s0 (k + j) s' ∧ cond s' = false := by
  intro n
  induction n with
  | zero =>
    intro k s s' hrun h
    cases hc : cond s with
    | false =>
      simp [whileLoop, hc] at h
      subst h
      exact ⟨0, le_refl _, hrun, hc⟩
    | true => simp [whileLoop, hc] at h
  | succ n ih =>
    intro k s s' hrun h
    cases hc : cond s with
    | false =>
      simp [whileLoop, hc] at h
      subst h
      exact ⟨0, Nat.zero_le _, hrun, hc⟩
    | true =>
      simp [whileLoop, hc] at h
      obtain ⟨j, hj, hrun', hc'⟩ := ih (k + 1) (body s) s' (LoopRun.step hrun hc) h
      exact ⟨j + 1, by omega, by rw [show k + (j + 1) = k + 1 + j by omega]; exact hrun', hc'⟩

/-- An invariant holds in every state a loop goes through. -/
theorem LoopRun.inv {σ : Type} {cond : σ → Bool} {body : σ → σ} {s0 s : σ} {k : Nat}
    (Inv : σ → Prop) (hstep : ∀ s, Inv s → cond s = true → Inv (body s)) (h0 : Inv s0)
    (h : LoopRun cond body s0 k s) : Inv s := by
  induction h with
  | start => exact h0
  | step _ hc ih => exact hstep _ ih hc

/-- One more iteration when the condition holds. -/
theorem whileLoop_succ_of_cond {σ : Type} (cond : σ → Bool) (body : σ → σ) (n : Nat) (s : σ)
    (h : cond s = true) : whileLoop cond body (n + 1) s = whileLoop cond body n (body s) := by
  simp [whileLoop, h]

/-- A loop whose condition holds at the start does not return without an
iteration. -/
theorem whileLoop_pos_of_cond {σ : Type} (cond : σ → Bool) (body : σ → σ) (n : Nat) (s s' : σ)
    (h : cond s = true) (hr : whileLoop cond body n s = some s') :
    ∃ k, n = k + 1 ∧ whileLoop cond body k (body s) = some s' := by
  cases n with
  | zero => simp [whileLoop, h] at hr
  | succ k => exact ⟨k, rfl, by rw [← hr, whileLoop_succ_of_cond _ _ _ _ h]⟩

/-! ## The orientation of a dividing wall -/

namespace Maze

theorem divide_orientation (fuel : Nat) (m : Maze) (rng : Rng) (x y w h : Int)
    (hw : 2 ≤ w) (hh : 2 ≤ h) :
    divide (fuel + 1) (m, rng) x y w h =
      if (decide (h > w) || (decide (h = w) && rng 0 % 2 == 0)) = true then
        divideHorizontal fuel m (if h = w then rng.drop 1 else rng) x y w h
      else divideVertical fuel m (if h = w then rng.drop 1 else rng) x y w h :=
  divide_succ fuel m rng x y w h hw hh

end Maze

/-! ## The length stored in the statistics -/

theorem finishSearch_length (maze : Maze) (parent : Coordinate → Option Coordinate)
    (found : Bool) (n fuel elapsed : Nat) (goal : Coordinate) (p : List Cell × PathStats)
    (h : finishSearch maze parent found n fuel elapsed goal = some p) :
    p.2.pathLength = p.1.length := by
  unfold finishSearch at h
  cases found with
  | false =>
    simp only [Bool.false_eq_true, if_false, Option.some.injEq] at h
    subst h
    rfl
  | true =>
    simp only [if_true, Option.map_eq_some'] at h
    obtain ⟨path, _, rfl⟩ := h
    rfl

theorem BFSPathfinder.bfs_findPath_length (maze : Maze) (start goal : Option Coordinate)
    (fuel elapsed : Nat) (r : SearchResult)
    (h : BFSPathfinder.findPath fuel elapsed maze start goal = some r) :
    r.stats.pathLength = r.path.length := by
  unfold BFSPathfinder.findPath at h
  cases start with
  | none => simp only [Option.some.injEq] at h; subst h; rfl
  | some start =>
    cases goal with
    | none => simp only [Option.some.injEq] at h; subst h; rfl
    | some goal =>
      simp only [Option.bind_eq_some, Option.map_eq_some'] at h
      obtain ⟨s, _, p, hp, rfl⟩ := h
      exact finishSearch_length _ _ _ _ _ _ _ p hp

theorem DFSPathfinder.dfs_findPath_length (maze : Maze) (start goal : Option Coordinate)
    (fuel elapsed : Nat) (r : SearchResult)
    (h : DFSPathfinder.findPath fuel elapsed maze start goal = some r) :
    r.stats.pathLength = r.path.length := by
  unfold DFSPathfinder.findPath at h
  cases start with
  | none => simp only [Option.some.injEq] at h; subst h; rfl
  | some start =>
    cases goal with
    | none => simp only [Option.some.injEq] at h; subst h; rfl
    | some goal =>
      simp only [Option.bind_eq_some, Option.map_eq_some'] at h
      obtain ⟨s, _, p, hp, rfl⟩ := h
      exact finishSearch_length _ _ _ _ _ _ _ p hp

theorem DijkstraPathfinder.dijkstra_findPath_length (maze : Maze)
    (start goal : Option Coordinate) (fuel elapsed : Nat) (ties : Nat → Nat) (r : SearchResult)
    (h : DijkstraPathfinder.findPath fuel elapsed ties maze start goal = some r) :
    r.stats.pathLength = r.path.length := by
  unfold DijkstraPathfinder.findPath at h
  cases start with
  | none => simp only [Option.some.injEq] at h; subst h; rfl
  | some start =>
    cases goal with
    | none => simp only [Option.some.injEq] at h; subst h; rfl
    | some goal =>
      simp only [Option.bind_eq_some, Option.map_eq_some'] at h
      obtain ⟨s, _, p, hp, rfl⟩ := h
      exact finishSearch_length _ _ _ _ _ _ _ p hp

theorem AStarPathfinder.astar_findPath_length (maze : Maze)
    (start goal : Option Coordinate) (fuel elapsed : Nat) (ties : Nat → Nat) (r : SearchResult)
    (h : AStarPathfinder.findPath fuel elapsed ties maze start goal = some r) :
    r.stats.pathLength = r.path.length := by
  unfold AStarPathfinder.findPath at h
  cases start with
  | none => simp only [Option.some.injEq] at h; subst h; rfl
  | some start =>
    cases goal with
    | none => simp only [Option.some.injEq] at h; subst h; rfl
    | some goal =>
      simp only [Option.bind_eq_some, Option.map_eq_some'] at h
      obtain ⟨s, _, p, hp, rfl⟩ := h
      exact finishSearch_length _ _ _ _ _ _ _ p hp

/-! ## A search from a cell to itself -/

/-- The reconstruction from a cell without predecessor gives that cell alone. -/
theorem reconstructPath_root (maze : Maze) (parent : Coordinate → Option Coordinate)
    (fuel : Nat) (c : Coordinate) (h : parent c = none) :
    reconstructPath maze parent (fuel + 1) c = some [maze.cellAt c] := by
  unfold reconstructPath
  rw [whileLoop_succ_of_cond _ _ _ _ (by rfl)]
  rw [whileLoop_of_not_cond _ _ _ _ (by simp [reconstructStep, h])]
  simp [reconstructStep]

theorem pop_singleton {α : Type} (key : α → Nat) (tie : Nat) (a : α) :
    PriorityQueue.pop key tie [a] = some (a, []) := by
  simp [PriorityQueue.pop, PriorityQueue.takeNth, Nat.mod_one]

theorem BFSPathfinder.bfs_findPath_same (maze : Maze) (c : Coordinate) (fuel elapsed : Nat) :
    BFSPathfinder.findPath (fuel + 1) elapsed maze (some c) (some c) =
      some ⟨[(maze.setVisited c true).cellAt c], ⟨1, 1, elapsed⟩, maze.setVisited c true,
        [(maze.setVisited c true).cellAt c]⟩ := by
  have hsearch : BFSPathfinder.search (fuel + 1) maze c c =
      some { maze := maze.setVisited c true, queue := [], parent := fun _ => none,
             nodesExplored := 1, found := true,
             notified := [(maze.setVisited c true).cellAt c] } := by
    unfold BFSPathfinder.search
    rw [whileLoop_succ_of_cond _ _ _ _ (by rfl)]
    rw [whileLoop_of_not_cond _ _ _ _ (by simp [BFSPathfinder.body, BFSPathfinder.init])]
    simp [BFSPathfinder.body, BFSPathfinder.init]
  unfold BFSPathfinder.findPath
  simp only [hsearch, Option.some_bind]
  unfold finishSearch
  simp only [if_true]
  rw [reconstructPath_root _ _ _ _ rfl]
  rfl

theorem DFSPathfinder.dfs_findPath_same (maze : Maze) (c : Coordinate) (fuel elapsed : Nat) :
    DFSPathfinder.findPath (fuel + 1) elapsed maze (some c) (some c) =
      some ⟨[(maze.setVisited c true).cellAt c], ⟨1, 1, elapsed⟩, maze.setVisited c true,
        [(maze.setVisited c true).cellAt c]⟩ := by
  have hsearch : DFSPathfinder.search (fuel + 1) maze c c =
      some { maze := maze.setVisited c true, stack := [], parent := fun _ => none,
             nodesExplored := 1, found := true,
             notified := [(maze.setVisited c true).cellAt c] } := by
    unfold DFSPathfinder.search
    rw [whileLoop_succ_of_cond _ _ _ _ (by rfl)]
    rw [whileLoop_of_not_cond _ _ _ _ (by simp [DFSPathfinder.body, DFSPathfinder.init])]
    simp [DFSPathfinder.body, DFSPathfinder.init]
  unfold DFSPathfinder.findPath
  simp only [hsearch, Option.some_bind]
  unfold finishSearch
  simp only [if_true]
  rw [reconstructPath_root _ _ _ _ rfl]
  rfl

theorem DijkstraPathfinder.dijkstra_findPath_same (maze : Maze) (c : Coordinate)
    (fuel elapsed : Nat) (ties : Nat → Nat) :
    DijkstraPathfinder.findPath (fuel + 1) elapsed ties maze (some c) (some c) =
      some ⟨[(maze.setVisited c true).cellAt c], ⟨1, 1, elapsed⟩, maze.setVisited c true,
        [(maze.setVisited c true).cellAt c]⟩ := by
  have hsearch : DijkstraPathfinder.search (fuel + 1) ties maze c c =
      some { maze := maze.setVisited c true, pq := [],
             cost := fun k => if k = c then some 0 else none, parent := fun _ => none,
             visited := [c], nodesExplored := 1, found := true,
             notified := [(maze.setVisited c true).cellAt c],
             ties := fun n => ties (n + 1) } := by
    unfold DijkstraPathfinder.search
    rw [whileLoop_succ_of_cond _ _ _ _ (by rfl)]
    rw [whileLoop_of_not_cond _ _ _ _
      (by simp [DijkstraPathfinder.body, DijkstraPathfinder.init, pop_singleton])]
    simp [DijkstraPathfinder.body, DijkstraPathfinder.init, pop_singleton]
  unfold DijkstraPathfinder.findPath
  simp only [hsearch, Option.some_bind]
  unfold finishSearch
  simp only [if_true]
  rw [reconstructPath_root _ _ _ _ rfl]
  rfl

theorem AStarPathfinder.astar_findPath_same (maze : Maze) (c : Coordinate)
    (fuel elapsed : Nat) (ties : Nat → Nat) :
    AStarPathfinder.findPath (fuel + 1) elapsed ties maze (some c) (some c) =
      some ⟨[(maze.setVisited c true).cellAt c], ⟨1, 1, elapsed⟩, maze.setVisited c true,
        [(maze.setVisited c true).cellAt c]⟩ := by
  have hsearch : AStarPathfinder.search (fuel + 1) ties maze c c =
      some { maze := maze.setVisited c true, openSet := [],
             gScore := fun k => if k = c then some 0 else none, parent := fun _ => none,
             closedSet := [c], nodesExplored := 1, found := true,
             notified := [(maze.setVisited c true).cellAt c],
             ties := fun n => ties (n + 1) } := by
    unfold AStarPathfinder.search
    rw [whileLoop_succ_of_cond _ _ _ _ (by rfl)]
    rw [whileLoop_of_not_cond _ _ _ _
      (by simp [AStarPathfinder.body, AStarPathfinder.init, pop_singleton])]
    simp [AStarPathfinder.body, AStarPathfinder.init, pop_singleton]
  unfold AStarPathfinder.findPath
  simp only [hsearch, Option.some_bind]
  unfold finishSearch
  simp only [if_true]
  rw [reconstructPath_root _ _ _ _ rfl]
  rfl

/-! ## The flags a generator leaves behind -/

namespace Maze

/-- The carving loop changes no path flag and not the size. -/
theorem carveBody_keeps (s : CarveState) :
    (carveBody s).maze.path = s.maze.path ∧ (carveBody s).maze.width = s.maze.width ∧
      (carveBody s).maze.height = s.maze.height := by
  cases hs : s.stack with
  | nil => simp [carveBody, hs]
  | cons current rest =>
    by_cases hnone : (twoAway current).filter
        (fun n => s.maze.isValid n.x n.y && !s.maze.visited n) = []
    · rw [carveBody_pop s current rest hs hnone]
      exact ⟨rfl, rfl, rfl⟩
    · obtain ⟨chosen, _, _, _, hbody⟩ := carveBody_push s current rest hs hnone
      rw [hbody]
      exact ⟨rfl, rfl, rfl⟩

theorem generateRecursiveBacktracking_flags (m : Maze) (rng : Rng) (fuel : Nat) (r : Maze × Rng)
    (h : m.generateRecursiveBacktracking fuel rng = some r) :
    r.1.path = m.path ∧ r.1.width = m.width ∧ r.1.height = m.height ∧
      ∀ c, r.1.isValid c.x c.y = true → r.1.visited c = false := by
  rw [generateRecursiveBacktracking_seed, Option.map_eq_some'] at h
  obtain ⟨s, hs, rfl⟩ := h
  obtain ⟨⟨h1, h2, h3⟩, _⟩ := whileLoop_inv (fun (s : CarveState) => !s.stack.isEmpty) carveBody
    (fun s => s.maze.path = m.path ∧ s.maze.width = m.width ∧ s.maze.height = m.height)
    (by
      intro s hI _
      obtain ⟨k1, k2, k3⟩ := carveBody_keeps s
      exact ⟨k1.trans hI.1, k2.trans hI.2.1, k3.trans hI.2.2⟩)
    fuel (carveSeed rng m) s ⟨rfl, rfl, rfl⟩ hs
  refine ⟨h1, h2, h3, ?_⟩
  intro c hc
  have hc' : s.maze.isValid c.x c.y = true := hc
  simp [clearVisited, hc']

/-- On a valid size a generator that returns leaves no visited flag on a cell
of the grid and no path flag at all. -/
theorem generatePerfectMaze_flags (fuel : Nat) (rng : Rng) (m : Maze) (w h : Int)
    (algorithm : MazeGenerationAlgorithm) (m' : Maze)
    (hgen : generatePerfectMaze fuel rng m w h algorithm = .ok (some m')) :
    (∀ c, m'.isValid c.x c.y = true → m'.visited c = false) ∧ ∀ c, m'.path c = false := by
  by_cases hok : 5 ≤ w ∧ w ≤ 100 ∧ 5 ≤ h ∧ h ≤ 100
  · unfold generatePerfectMaze at hgen
    rw [validateDimensions_ok w h ⟨hok.1, hok.2.1⟩ ⟨hok.2.2.1, hok.2.2.2⟩] at hgen
    simp only [Except.ok.injEq, Option.map_eq_some'] at hgen
    obtain ⟨r, hr, rfl⟩ := hgen
    cases algorithm with
    | RECURSIVE_BACKTRACKING =>
      simp only [ne_eq, reduceCtorEq, not_false_eq_true, if_true] at hr
      obtain ⟨h1, h2, h3, h4⟩ := generateRecursiveBacktracking_flags _ rng fuel r hr
      refine ⟨fun c hc => h4 c hc, fun c => ?_⟩
      show r.1.path c = false
      rw [h1]
      rfl
    | RANDOMIZED_PRIMS =>
      simp only [ne_eq, reduceCtorEq, not_false_eq_true, if_true] at hr
      rw [generateRandomizedPrims_eq] at hr
      simp only [Option.some.injEq] at hr
      subst hr
      refine ⟨fun c hc => ?_, fun c => rfl⟩
      have hv : (decide (c.x ≥ 0) && decide (c.x < w) && decide (c.y ≥ 0) &&
          decide (c.y < h)) = true := hc
      show (if (decide (c.x ≥ 0) && decide (c.x < w) && decide (c.y ≥ 0) &&
          decide (c.y < h)) = true then false else _) = false
      rw [if_pos hv]
    | RECURSIVE_DIVISION =>
      simp only [ne_eq, not_true_eq_false, if_false] at hr
      obtain ⟨_, h1, h2, _⟩ := divide_inside fuel _ _ _ 1 1 (w - 2) (h - 2)
        (by omega) (by omega) (by omega) (by omega)
        (by show 1 + (w - 2) ≤ w; omega) (by show 1 + (h - 2) ≤ h; omega) hr
      refine ⟨fun c _ => ?_, fun c => ?_⟩
      · show r.1.visited c = false
        rw [h1]
        rfl
      · show r.1.path c = false
        rw [h2]
        rfl
  · rw [generatePerfectMaze_error fuel rng m w h algorithm hok] at hgen
    cases hgen

/-- A grid without visited and path flags on its cells is left as it is by
`reset`. -/
theorem reset_eq_self (m : Maze) (hv : ∀ c, m.isValid c.x c.y = true → m.visited c = false)
    (hp : ∀ c, m.isValid c.x c.y = true → m.path c = false) : m.reset = m := by
  apply eq_of_fields
  · rfl
  · rfl
  · intro c; rfl
  · funext c
    show (if m.isValid c.x c.y = true then false else m.visited c) = m.visited c
    by_cases hc : m.isValid c.x c.y = true
    · rw [if_pos hc, hv c hc]
    · rw [if_neg hc]
  · funext c
    show (if m.isValid c.x c.y = true then false else m.path c) = m.path c
    by_cases hc : m.isValid c.x c.y = true
    · rw [if_pos hc, hp c hc]
    · rw [if_neg hc]
  · rfl
  · rfl

end Maze

/-! ## The grid built by `generate` -/

namespace Maze

theorem generate_ok (m : Maze) (w h : Int) (hw : 5 ≤ w ∧ w ≤ 100) (hh : 5 ≤ h ∧ h ≤ 100) :
    (m.generate w h).1 = .ok () ∧ (m.generate w h).2.width = w ∧
    (m.generate w h).2.height = h ∧
    (m.generate w h).2.start = some ⟨1, 1⟩ ∧ (m.generate w h).2.goal = some ⟨w - 2, h - 2⟩ ∧
    (∀ c, (m.generate w h).2.visited c = false) ∧ (∀ c, (m.generate w h).2.path c = false) ∧
    ∀ c, (m.generate w h).2.wall c = true ↔
      ((0 ≤ c.x ∧ c.x < w ∧ 0 ≤ c.y ∧ c.y < h) ∧
        (c.x = 0 ∨ c.x = w - 1 ∨ c.y = 0 ∨ c.y = h - 1)) ∨
      (2 ≤ c.y ∧ c.y < h - 2 ∧ c.y % 2 = 0 ∧ 2 ≤ c.x ∧ c.x < w - 2 ∧ (c.x - 2) % 3 = 0) := by
  unfold generate
  rw [validateDimensions_ok w h hw hh]
  simp only
  rw [if_pos ⟨by omega, by omega⟩]
  refine ⟨trivial, rfl, rfl, rfl, rfl, fun _ => rfl, fun _ => rfl, ?_⟩
  intro c
  simp only [addInnerWalls, addBorder, initializeGrid, isValid_iff]
  by_cases hin : 2 ≤ c.y ∧ c.y < h - 2 ∧ c.y % 2 = 0 ∧ 2 ≤ c.x ∧ c.x < w - 2 ∧ (c.x - 2) % 3 = 0
  · simp [hin]
  · rw [if_neg hin]
    by_cases hb : (0 ≤ c.x ∧ c.x < w ∧ 0 ≤ c.y ∧ c.y < h) ∧
        (c.x = 0 ∨ c.x = w - 1 ∨ c.y = 0 ∨ c.y = h - 1)
    · rw [if_pos hb]
      simp only [true_iff]
      exact Or.inl hb
    · rw [if_neg hb]
      simp only [Bool.false_eq_true, false_iff]
      rintro (h1 | h1)
      · exact hb h1
      · exact hin h1

/-- In the grid built by `generate` the column 1 and the row `h - 2` are open,
which joins start to goal. -/
theorem generate_reachable (m : Maze) (w h : Int) (hw : 5 ≤ w ∧ w ≤ 100)
    (hh : 5 ≤ h ∧ h ≤ 100) :
    ∃ n, (m.generate w h).2.StepsTo ⟨1, 1⟩ n ⟨w - 2, h - 2⟩ := by
  obtain ⟨_, h1, h2, _, _, _, _, hwall⟩ := generate_ok m w h hw hh
  generalize (m.generate w h).2 = g at h1 h2 hwall
  have hopen : ∀ c : Coordinate, 1 ≤ c.x → c.x ≤ w - 2 → 1 ≤ c.y → c.y ≤ h - 2 →
      (c.x = 1 ∨ c.y = h - 2) → g.isOpen c = true := by
    intro c a1 a2 a3 a4 a5
    rw [isOpen_iff, isValid_iff, h1, h2]
    refine ⟨by omega, ?_⟩
    cases hc : g.wall c with
    | false => rfl
    | true =>
      exfalso
      rcases (hwall c).mp hc with ⟨_, hb⟩ | hin
      · omega
      · omega
  have hcol : ∀ k : Nat, 1 + (k : Int) ≤ h - 2 → g.StepsTo ⟨1, 1⟩ k ⟨1, 1 + (k : Int)⟩ := by
    intro k
    induction k with
    | zero => intro _; exact StepsTo.zero
    | succ k ih =>
      intro hk
      have hprev := ih (by push_cast at hk; omega)
      refine StepsTo.step hprev ?_
      rw [mem_getNeighbors]
      refine ⟨hopen _ (by simp) (by simp only; omega) (by simp only; omega)
        (by simp only; exact hk) (Or.inl rfl), ?_⟩
      unfold manhattan
      simp only
      push_cast
      omega
  have hrow : ∀ k : Nat, 1 + (k : Int) ≤ w - 2 →
      g.StepsTo ⟨1, 1⟩ ((h - 3).toNat + k) ⟨1 + (k : Int), h - 2⟩ := by
    intro k
    induction k with
    | zero =>
      intro _
      have := hcol (h - 3).toNat (by omega)
      have e : (1 : Int) + ((h - 3).toNat : Int) = h - 2 := by omega
      rw [e] at this
      exact this
    | succ k ih =>
      intro hk
      have hprev := ih (by push_cast at hk; omega)
      refine StepsTo.step hprev ?_
      rw [mem_getNeighbors]
      refine ⟨hopen _ (by simp only; omega) (by simp only; exact hk) (by simp only; omega)
        (by simp only; omega) (Or.inr rfl), ?_⟩
      unfold manhattan
      simp only
      push_cast
      omega
  have := hrow (w - 3).toNat (by omega)
  have e : (1 : Int) + ((w - 3).toNat : Int) = w - 2 := by omega
  rw [e] at this
  exact ⟨_, this⟩

end Maze

/-! ## A goal that is a wall -/

/-- A marking search does not find a wall other than its start. -/
theorem MarkInv.mark_not_found_of_wall {m0 : Maze} {start goal : Coordinate} {total : Nat}
    {lvl : Coordinate → Option Nat} {s : MarkState}
    (h : MarkInv m0 start goal total lvl s) (hwall : m0.wall goal = true) (hne : start ≠ goal) :
    s.found = false := by
  cases hf : s.found with
  | false => rfl
  | true =>
    exfalso
    obtain ⟨k, hk⟩ := Option.ne_none_iff_exists'.mp (h.found_seen hf)
    cases k with
    | zero => exact hne (h.root_only goal hk).symm
    | succ k =>
      obtain ⟨p, _, _, hp⟩ := h.tree goal k hk
      have := ((Maze.isOpen_iff _ _).mp ((Maze.mem_getNeighbors _ _ _).mp hp).1).2
      rw [hwall] at this
      cases this

/-- A best-first search does not find a wall other than its start. -/
theorem BestInv.best_not_found_of_wall {m0 : Maze} {h : Coordinate → Nat} {start goal : Coordinate}
    {s : BestState} (hinv : BestInv m0 h start goal s) (hwall : m0.wall goal = true)
    (hne : start ≠ goal) : s.found = false := by
  cases hf : s.found with
  | false => rfl
  | true =>
    exfalso
    obtain ⟨k, hk⟩ := hinv.closed_seen goal (hinv.goal_closed.mpr hf)
    cases k with
    | zero => exact hne (hinv.root_only goal hk).symm
    | succ k =>
      obtain ⟨p, _, _, hp, _⟩ := hinv.tree goal k hk
      have := ((Maze.isOpen_iff _ _).mp ((Maze.mem_getNeighbors _ _ _).mp hp).1).2
      rw [hwall] at this
      cases this

theorem BFSPathfinder.bfs_findPath_wall_goal (maze : Maze) (start goal : Coordinate)
    (fuel elapsed : Nat) (hfuel : 2 * maze.area + 1 ≤ fuel) (hwall : maze.wall goal = true)
    (hne : start ≠ goal) :
    ∃ r, BFSPathfinder.findPath fuel elapsed maze (some start) (some goal) = some r ∧
      r.path = [] ∧ r.stats.pathLength = 0 := by
  obtain ⟨s, lvl, hs, hinv, _, _⟩ := BFSPathfinder.bfs_search_spec maze start goal fuel hfuel
  have hnf : s.found = false := hinv.mark_not_found_of_wall hwall hne
  refine ⟨⟨[], ⟨0, s.nodesExplored, elapsed⟩, s.maze, s.notified⟩, ?_, rfl, rfl⟩
  simp [BFSPathfinder.findPath, hs, finishSearch, hnf]

theorem DFSPathfinder.dfs_findPath_wall_goal (maze : Maze) (start goal : Coordinate)
    (fuel elapsed : Nat) (hfuel : 2 * maze.area + 1 ≤ fuel) (hwall : maze.wall goal = true)
    (hne : start ≠ goal) :
    ∃ r, DFSPathfinder.findPath fuel elapsed maze (some start) (some goal) = some r ∧
      r.path = [] ∧ r.stats.pathLength = 0 := by
  obtain ⟨s, lvl, hs, hinv, _, _⟩ := DFSPathfinder.dfs_search_spec maze start goal fuel hfuel
  have hnf : s.found = false := hinv.mark_not_found_of_wall hwall hne
  refine ⟨⟨[], ⟨0, s.nodesExplored, elapsed⟩, s.maze, s.notified⟩, ?_, rfl, rfl⟩
  simp [DFSPathfinder.findPath, hs, finishSearch, hnf]

theorem DijkstraPathfinder.dijkstra_findPath_wall_goal (maze : Maze) (start goal : Coordinate)
    (fuel elapsed : Nat) (ties : Nat → Nat) (hfuel : 5 * maze.area + 1 ≤ fuel)
    (hv : maze.isValid start.x start.y = true) (hwall : maze.wall goal = true)
    (hne : start ≠ goal) :
    ∃ r, DijkstraPathfinder.findPath fuel elapsed ties maze (some start) (some goal) = some r ∧
      r.path = [] ∧ r.stats.pathLength = 0 := by
  obtain ⟨s, hs, hinv, _⟩ :=
    DijkstraPathfinder.dijkstra_search_spec maze start goal fuel ties hfuel hv
  have hnf : s.found = false := hinv.best_not_found_of_wall hwall hne
  refine ⟨⟨[], ⟨0, s.nodesExplored, elapsed⟩, s.maze, s.notified⟩, ?_, rfl, rfl⟩
  simp [DijkstraPathfinder.findPath, hs, finishSearch, hnf]

theorem AStarPathfinder.astar_findPath_wall_goal (maze : Maze) (start goal : Coordinate)
    (fuel elapsed : Nat) (ties : Nat → Nat) (hfuel : 5 * maze.area + 1 ≤ fuel)
    (hv : maze.isValid start.x start.y = true) (hwall : maze.wall goal = true)
    (hne : start ≠ goal) :
    ∃ r, AStarPathfinder.findPath fuel elapsed ties maze (some start) (some goal) = some r ∧
      r.path = [] ∧ r.stats.pathLength = 0 := by
  obtain ⟨s, hs, hinv, _⟩ :=
    AStarPathfinder.astar_search_spec maze start goal fuel ties hfuel hv
  have hnf : s.found = false := hinv.best_not_found_of_wall hwall hne
  refine ⟨⟨[], ⟨0, s.nodesExplored, elapsed⟩, s.maze, s.notified⟩, ?_, rfl, rfl⟩
  simp [AStarPathfinder.findPath, hs, finishSearch, hnf]

/-! ## A start that is a wall -/

/-- From the wall `(2, 2)` of `exampleMaze` to its neighbour `(3, 2)`: the four
strategies return the path of these two cells, the first of them a wall. -/
theorem exampleMaze_wall_start :
    (BFSPathfinder.findPath 51 0 exampleMaze (some ⟨2, 2⟩) (some ⟨3, 2⟩)).map
        (fun r => r.path.map fun c => (c.coords, c.wall)) =
      some [(⟨2, 2⟩, true), (⟨3, 2⟩, false)] ∧
    (DFSPathfinder.findPath 51 0 exampleMaze (some ⟨2, 2⟩) (some ⟨3, 2⟩)).map
        (fun r => r.path.map fun c => (c.coords, c.wall)) =
      some [(⟨2, 2⟩, true), (⟨3, 2⟩, false)] ∧
    (DijkstraPathfinder.findPath 126 0 (fun _ => 0) exampleMaze (some ⟨2, 2⟩)
        (some ⟨3, 2⟩)).map (fun r => r.path.map fun c => (c.coords, c.wall)) =
      some [(⟨2, 2⟩, true), (⟨3, 2⟩, false)] ∧
    (AStarPathfinder.findPath 126 0 (fun _ => 0) exampleMaze (some ⟨2, 2⟩)
        (some ⟨3, 2⟩)).map (fun r => r.path.map fun c => (c.coords, c.wall)) =
      some [(⟨2, 2⟩, true), (⟨3, 2⟩, false)] := by
  refine ⟨by decide, by decide, by decide, by decide⟩

/-! ## A second run without `reset` -/

/-- The first iteration of the breadth-first search from a cell whose
neighbours are all marked leaves the queue empty. -/
theorem BFSPathfinder.bfs_findPath_blocked (maze : Maze) (start goal : Coordinate)
    (fuel elapsed : Nat) (hne : start ≠ goal)
    (hvis : ∀ n ∈ maze.getNeighbors start, maze.visited n = true) :
    ∃ r, BFSPathfinder.findPath (fuel + 1) elapsed maze (some start) (some goal) = some r ∧
      r.path = [] ∧ r.stats.nodesExplored = 1 ∧ r.stats.pathLength = 0 := by
  have hstep := BFSPathfinder.bfs_body_markStep goal (BFSPathfinder.init maze start) start []
    rfl
  have hfresh : (BFSPathfinder.init maze start).mark.fresh start = [] := by
    unfold MarkState.fresh
    rw [List.filter_eq_nil_iff]
    intro n hn
    have hn' : n ∈ maze.getNeighbors start := hn
    have : (maze.setVisited start true).visited n = true := by
      simp [Maze.setVisited, hvis n hn']
    simpa using this
  have hq : (BFSPathfinder.body goal (BFSPathfinder.init maze start)).queue = [] := by
    have := hstep.frontier
    rw [if_neg hne, hfresh] at this
    simpa using this
  have hf : (BFSPathfinder.body goal (BFSPathfinder.init maze start)).found = false := by
    have := hstep.found
    simpa [hne] using this
  have he : (BFSPathfinder.body goal (BFSPathfinder.init maze start)).nodesExplored = 1 :=
    hstep.explored
  have hsearch : BFSPathfinder.search (fuel + 1) maze start goal =
      some (BFSPathfinder.body goal (BFSPathfinder.init maze start)) := by
    unfold BFSPathfinder.search
    rw [whileLoop_succ_of_cond _ _ _ _ (by rfl)]
    exact whileLoop_of_not_cond _ _ _ _ (by simp [hq])
  refine ⟨⟨[], ⟨0, 1, elapsed⟩,
    (BFSPathfinder.body goal (BFSPathfinder.init maze start)).maze,
    (BFSPathfinder.body goal (BFSPathfinder.init maze start)).notified⟩, ?_, rfl, rfl, rfl⟩
  simp [BFSPathfinder.findPath, hsearch, finishSearch, hf, he]

theorem DFSPathfinder.dfs_findPath_blocked (maze : Maze) (start goal : Coordinate)
    (fuel elapsed : Nat) (hne : start ≠ goal)
    (hvis : ∀ n ∈ maze.getNeighbors start, maze.visited n = true) :
    ∃ r, DFSPathfinder.findPath (fuel + 1) elapsed maze (some start) (some goal) = some r ∧
      r.path = [] ∧ r.stats.nodesExplored = 1 ∧ r.stats.pathLength = 0 := by
  have hstep := DFSPathfinder.dfs_body_markStep goal (DFSPathfinder.init maze start) start []
    rfl
  have hfresh : (DFSPathfinder.init maze start).mark.fresh start = [] := by
    unfold MarkState.fresh
    rw [List.filter_eq_nil_iff]
    intro n hn
    have hn' : n ∈ maze.getNeighbors start := hn
    have : (maze.setVisited start true).visited n = true := by
      simp [Maze.setVisited, hvis n hn']
    simpa using this
  have hq : (DFSPathfinder.body goal (DFSPathfinder.init maze start)).stack = [] := by
    have := hstep.frontier
    rw [if_neg hne, hfresh] at this
    simpa using this
  have hf : (DFSPathfinder.body goal (DFSPathfinder.init maze start)).found = false := by
    have := hstep.found
    simpa [hne] using this
  have he : (DFSPathfinder.body goal (DFSPathfinder.init maze start)).nodesExplored = 1 :=
    hstep.explored
  have hsearch : DFSPathfinder.search (fuel + 1) maze start goal =
      some (DFSPathfinder.body goal (DFSPathfinder.init maze start)) := by
    unfold DFSPathfinder.search
    rw [whileLoop_succ_of_cond _ _ _ _ (by rfl)]
    exact whileLoop_of_not_cond _ _ _ _ (by simp [hq])
  refine ⟨⟨[], ⟨0, 1, elapsed⟩,
    (DFSPathfinder.body goal (DFSPathfinder.init maze start)).maze,
    (DFSPathfinder.body goal (DFSPathfinder.init maze start)).notified⟩, ?_, rfl, rfl, rfl⟩
  simp [DFSPathfinder.findPath, hsearch, finishSearch, hf, he]

/-- What a step of a marking search keeps: the size, the walls and the marks. -/
theorem MarkStep.keeps {fifo : Bool} {goal : Coordinate} {s t : MarkState}
    {current : Coordinate} {rest : List Coordinate} (h : MarkStep fifo goal s t current rest)
    (c : Coordinate) (hc : s.maze.visited c = true) : t.maze.visited c = true := by
  rw [h.visited c, hc]
  rfl

/-- A run of the breadth-first search with start other than goal leaves every
neighbour of start marked. -/
theorem BFSPathfinder.bfs_findPath_marks_neighbors (maze : Maze) (start goal : Coordinate)
    (fuel elapsed : Nat) (r : SearchResult) (hne : start ≠ goal)
    (h : BFSPathfinder.findPath fuel elapsed maze (some start) (some goal) = some r) :
    (∀ n ∈ maze.getNeighbors start, r.maze.visited n = true) ∧
      ∀ c, r.maze.getNeighbors c = maze.getNeighbors c := by
  simp only [BFSPathfinder.findPath, Option.bind_eq_some, Option.map_eq_some'] at h
  obtain ⟨s, hs, p, _, rfl⟩ := h
  unfold BFSPathfinder.search at hs
  obtain ⟨k, _, hs'⟩ := whileLoop_pos_of_cond _ _ _ _ _ (by rfl) hs
  have hstep := BFSPathfinder.bfs_body_markStep goal (BFSPathfinder.init maze start) start []
    rfl
  obtain ⟨⟨h1, h2, h3, h4⟩, _⟩ := whileLoop_inv
    (fun (s : BFSPathfinder.State) => !s.queue.isEmpty && !s.found) (BFSPathfinder.body goal)
    (fun s => (∀ n ∈ maze.getNeighbors start, s.maze.visited n = true) ∧
      s.maze.width = maze.width ∧ s.maze.height = maze.height ∧
      ∀ c, s.maze.wall c = maze.wall c)
    (by
      intro s hI hcond
      simp only [Bool.and_eq_true, Bool.not_eq_true', List.isEmpty_eq_false] at hcond
      obtain ⟨current, rest, hq⟩ := List.exists_cons_of_ne_nil hcond.1
      have hst := BFSPathfinder.bfs_body_markStep goal s current rest hq
      exact ⟨fun n hn => hst.keeps n (hI.1 n hn), hst.width.trans hI.2.1,
        hst.height.trans hI.2.2.1, fun c => (hst.wall c).trans (hI.2.2.2 c)⟩)
    k (BFSPathfinder.body goal (BFSPathfinder.init maze start)) s
    ⟨by
      intro n hn
      have hv := hstep.visited n
      refine hv.trans ?_
      by_cases hvn : (BFSPathfinder.init maze start).mark.maze.visited n = true
      · rw [hvn]; rfl
      · have hmem : n ∈ (BFSPathfinder.init maze start).mark.fresh start := by
          rw [MarkState.mem_fresh]
          exact ⟨hn, by simpa using hvn⟩
        simp [hne, hmem],
      hstep.width, hstep.height, hstep.wall⟩ hs'
  exact ⟨h1, Maze.getNeighbors_congr maze s.maze h2 h3 h4⟩

theorem DFSPathfinder.dfs_findPath_marks_neighbors (maze : Maze) (start goal : Coordinate)
    (fuel elapsed : Nat) (r : SearchResult) (hne : start ≠ goal)
    (h : DFSPathfinder.findPath fuel elapsed maze (some start) (some goal) = some r) :
    (∀ n ∈ maze.getNeighbors start, r.maze.visited n = true) ∧
      ∀ c, r.maze.getNeighbors c = maze.getNeighbors c := by
  simp only [DFSPathfinder.findPath, Option.bind_eq_some, Option.map_eq_some'] at h
  obtain ⟨s, hs, p, _, rfl⟩ := h
  unfold DFSPathfinder.search at hs
  obtain ⟨k, _, hs'⟩ := whileLoop_pos_of_cond _ _ _ _ _ (by rfl) hs
  have hstep := DFSPathfinder.dfs_body_markStep goal (DFSPathfinder.init maze start) start []
    rfl
  obtain ⟨⟨h1, h2, h3, h4⟩, _⟩ := whileLoop_inv
    (fun (s : DFSPathfinder.State) => !s.stack.isEmpty && !s.found) (DFSPathfinder.body goal)
    (fun s => (∀ n ∈ maze.getNeighbors start, s.maze.visited n = true) ∧
      s.maze.width = maze.width ∧ s.maze.height = maze.height ∧
      ∀ c, s.maze.wall c = maze.wall c)
    (by
      intro s hI hcond
      simp only [Bool.and_eq_true, Bool.not_eq_true', List.isEmpty_eq_false] at hcond
      obtain ⟨current, rest, hq⟩ := List.exists_cons_of_ne_nil hcond.1
      have hst := DFSPathfinder.dfs_body_markStep goal s current rest hq
      exact ⟨fun n hn => hst.keeps n (hI.1 n hn), hst.width.trans hI.2.1,
        hst.height.trans hI.2.2.1, fun c => (hst.wall c).trans (hI.2.2.2 c)⟩)
    k (DFSPathfinder.body goal (DFSPathfinder.init maze start)) s
    ⟨by
      intro n hn
      have hv := hstep.visited n
      refine hv.trans ?_
      by_cases hvn : (DFSPathfinder.init maze start).mark.maze.visited n = true
      · rw [hvn]; rfl
      · have hmem : n ∈ (DFSPathfinder.init maze start).mark.fresh start := by
          rw [MarkState.mem_fresh]
          exact ⟨hn, by simpa using hvn⟩
        simp [hne, hmem],
      hstep.width, hstep.height, hstep.wall⟩ hs'
  exact ⟨h1, Maze.getNeighbors_congr maze s.maze h2 h3 h4⟩

/-! ## The second cell explored -/

/-- On a grid without visited flags every neighbour of start is put on the
frontier by the first iteration. -/
theorem MarkState.fresh_start (maze : Maze) (start : Coordinate) (hU : maze.Unvisited)
    (s : MarkState) (hs : s.maze = maze.setVisited start true) :
    s.fresh start = maze.getNeighbors start := by
  unfold MarkState.fresh
  rw [hs]
  have hnb : (maze.setVisited start true).getNeighbors start = maze.getNeighbors start := rfl
  rw [hnb, List.filter_eq_self]
  intro n hn
  have hopen := (Maze.mem_getNeighbors _ _ _).mp hn
  have hv := ((Maze.isOpen_iff _ _).mp hopen.1).1
  have hns : n ≠ start := by
    intro e
    rw [e] at hn
    exact Maze.not_mem_getNeighbors_self _ _ hn
  simp [Maze.setVisited, hns, hU n hv]

/-- The calls of the visit callback only accumulate. -/
theorem BFSPathfinder.bfs_notified_prefix (goal : Coordinate) (pre : List Cell) (fuel : Nat)
    (s s' : BFSPathfinder.State) (hp : ∃ tail, s.notified = pre ++ tail)
    (h : whileLoop (fun (s : BFSPathfinder.State) => !s.queue.isEmpty && !s.found)
      (BFSPathfinder.body goal) fuel s = some s') :
    ∃ tail, s'.notified = pre ++ tail := by
  refine (whileLoop_inv (fun (s : BFSPathfinder.State) => !s.queue.isEmpty && !s.found)
    (BFSPathfinder.body goal) (fun s => ∃ tail, s.notified = pre ++ tail) ?_ fuel s s' hp h).1
  rintro t ⟨tail, ht⟩ hcond
  simp only [Bool.and_eq_true, Bool.not_eq_true', List.isEmpty_eq_false] at hcond
  obtain ⟨current, rest, hq⟩ := List.exists_cons_of_ne_nil hcond.1
  rw [BFSPathfinder.bfs_body_notified goal t current rest hq, ht]
  exact ⟨tail ++ [t.maze.cellAt current], by simp⟩

theorem DFSPathfinder.dfs_notified_prefix (goal : Coordinate) (pre : List Cell) (fuel : Nat)
    (s s' : DFSPathfinder.State) (hp : ∃ tail, s.notified = pre ++ tail)
    (h : whileLoop (fun (s : DFSPathfinder.State) => !s.stack.isEmpty && !s.found)
      (DFSPathfinder.body goal) fuel s = some s') :
    ∃ tail, s'.notified = pre ++ tail := by
  refine (whileLoop_inv (fun (s : DFSPathfinder.State) => !s.stack.isEmpty && !s.found)
    (DFSPathfinder.body goal) (fun s => ∃ tail, s.notified = pre ++ tail) ?_ fuel s s' hp h).1
  rintro t ⟨tail, ht⟩ hcond
  simp only [Bool.and_eq_true, Bool.not_eq_true', List.isEmpty_eq_false] at hcond
  obtain ⟨current, rest, hq⟩ := List.exists_cons_of_ne_nil hcond.1
  rw [DFSPathfinder.dfs_body_notified goal t current rest hq, ht]
  exact ⟨tail ++ [t.maze.cellAt current], by simp⟩

/-- The breadth-first search explores start and then the first neighbour of
start. -/
theorem BFSPathfinder.bfs_findPath_second (maze : Maze) (start goal : Coordinate)
    (fuel elapsed : Nat) (r : SearchResult) (hU : maze.Unvisited) (hne : start ≠ goal)
    (hnb : maze.getNeighbors start ≠ [])
    (h : BFSPathfinder.findPath fuel elapsed maze (some start) (some goal) = some r) :
    (r.notified.map Cell.coords)[0]? = some start ∧
      (r.notified.map Cell.coords)[1]? = (maze.getNeighbors start).head? := by
  simp only [BFSPathfinder.findPath, Option.bind_eq_some, Option.map_eq_some'] at h
  obtain ⟨s, hs, p, _, rfl⟩ := h
  unfold BFSPathfinder.search at hs
  obtain ⟨k, _, hs1⟩ := whileLoop_pos_of_cond _ _ _ _ _ (by rfl) hs
  have hstep := BFSPathfinder.bfs_body_markStep goal (BFSPathfinder.init maze start) start []
    rfl
  have hfresh := MarkState.fresh_start maze start hU (BFSPathfinder.init maze start).mark rfl
  obtain ⟨x, rest, hx⟩ := List.exists_cons_of_ne_nil hnb
  have hq : (BFSPathfinder.body goal (BFSPathfinder.init maze start)).queue = x :: rest := by
    have := hstep.frontier
    rw [if_neg hne, hfresh, hx] at this
    simpa using this
  have hf : (BFSPathfinder.body goal (BFSPathfinder.init maze start)).found = false := by
    have := hstep.found
    simpa [hne] using this
  have hn1 : (BFSPathfinder.body goal (BFSPathfinder.init maze start)).notified =
      [(maze.setVisited start true).cellAt start] :=
    BFSPathfinder.bfs_body_notified goal (BFSPathfinder.init maze start) start [] rfl
  obtain ⟨j, _, hs2⟩ := whileLoop_pos_of_cond _ _ _ _ _ (by simp [hq, hf]) hs1
  have hn2 := BFSPathfinder.bfs_body_notified goal
    (BFSPathfinder.body goal (BFSPathfinder.init maze start)) x rest hq
  rw [hn1] at hn2
  obtain ⟨tail, ht⟩ := BFSPathfinder.bfs_notified_prefix goal
    [(maze.setVisited start true).cellAt start,
      (BFSPathfinder.body goal (BFSPathfinder.init maze start)).maze.cellAt x] j _ s
    ⟨[], by rw [hn2]; simp⟩ hs2
  show (s.notified.map Cell.coords)[0]? = some start ∧
    (s.notified.map Cell.coords)[1]? = (maze.getNeighbors start).head?
  rw [ht, hx]
  simp [Maze.cellAt]

/-- The depth-first search explores start and then the last neighbour of
start. -/
theorem DFSPathfinder.dfs_findPath_second (maze : Maze) (start goal : Coordinate)
    (fuel elapsed : Nat) (r : SearchResult) (hU : maze.Unvisited) (hne : start ≠ goal)
    (hnb : maze.getNeighbors start ≠ [])
    (h : DFSPathfinder.findPath fuel elapsed maze (some start) (some goal) = some r) :
    (r.notified.map Cell.coords)[0]? = some start ∧
      (r.notified.map Cell.coords)[1]? = (maze.getNeighbors start).getLast? := by
  simp only [DFSPathfinder.findPath, Option.bind_eq_some, Option.map_eq_some'] at h
  obtain ⟨s, hs, p, _, rfl⟩ := h
  unfold DFSPathfinder.search at hs
  obtain ⟨k, _, hs1⟩ := whileLoop_pos_of_cond _ _ _ _ _ (by rfl) hs
  have hstep := DFSPathfinder.dfs_body_markStep goal (DFSPathfinder.init maze start) start []
    rfl
  have hfresh := MarkState.fresh_start maze start hU (DFSPathfinder.init maze start).mark rfl
  have hrev : (maze.getNeighbors start).reverse ≠ [] := by simpa using hnb
  obtain ⟨x, rest, hx⟩ := List.exists_cons_of_ne_nil hrev
  have hlast : (maze.getNeighbors start).getLast? = some x := by
    rw [← List.head?_reverse, hx]
    rfl
  have hq : (DFSPathfinder.body goal (DFSPathfinder.init maze start)).stack = x :: rest := by
    have := hstep.frontier
    rw [if_neg hne, hfresh, hx] at this
    simpa using this
  have hf : (DFSPathfinder.body goal (DFSPathfinder.init maze start)).found = false := by
    have := hstep.found
    simpa [hne] using this
  have hn1 : (DFSPathfinder.body goal (DFSPathfinder.init maze start)).notified =
      [(maze.setVisited start true).cellAt start] :=
    DFSPathfinder.dfs_body_notified goal (DFSPathfinder.init maze start) start [] rfl
  obtain ⟨j, _, hs2⟩ := whileLoop_pos_of_cond _ _ _ _ _ (by simp [hq, hf]) hs1
  have hn2 := DFSPathfinder.dfs_body_notified goal
    (DFSPathfinder.body goal (DFSPathfinder.init maze start)) x rest hq
  rw [hn1] at hn2
  obtain ⟨tail, ht⟩ := DFSPathfinder.dfs_notified_prefix goal
    [(maze.setVisited start true).cellAt start,
      (DFSPathfinder.body goal (DFSPathfinder.init maze start)).maze.cellAt x] j _ s
    ⟨[], by rw [hn2]; simp⟩ hs2
  show (s.notified.map Cell.coords)[0]? = some start ∧
    (s.notified.map Cell.coords)[1]? = (maze.getNeighbors start).getLast?
  rw [ht, hlast]
  simp [Maze.cellAt]

/-! ## Dijkstra's search pushes every cell at most once -/

theorem LoopRun.inv_indexed {σ : Type} {cond : σ → Bool} {body : σ → σ} {s0 s : σ} {k : Nat}
    (Inv : Nat → σ → Prop) (hstep : ∀ k s, Inv k s → cond s = true → Inv (k + 1) (body s))
    (h0 : Inv 0 s0) (h : LoopRun cond body s0 k s) : Inv k s := by
  induction h with
  | start => exact h0
  | step _ hc ih => exact hstep _ _ ih hc

theorem pushedOnce_init (maze : Maze) (start : Coordinate) :
    PushedOnce ⟨maze, [(start, 0)], fun k => if k = start then some 0 else none,
      fun _ => none, [], 0, false⟩ := by
  constructor
  · simp
  · simp
  · simp
  · intro c gv hc
    right
    by_cases hcs : c = start
    · simp only [hcs, if_true, Option.some.injEq] at hc
      simp [hcs, hc]
    · simp [hcs] at hc
  · intro c gv hc e he
    by_cases hcs : c = start
    · simp only [hcs, if_true, Option.some.injEq] at hc
      omega
    · simp [hcs] at hc
  · simp
  · simp
  · simp
  · rfl

/-- One iteration: the popped entry is for a cell that is not closed and
carries its recorded cost, no recorded cost exceeds the popped cost plus one,
and the invariant is kept. -/
theorem PushedOnce.pushedOnce_step {goal : Coordinate} {s t : BestState}
    {current : Coordinate} {f : Nat} {rest : List (Coordinate × Nat)}
    (hinv : PushedOnce s) (hstep : BestStep (fun _ => 0) goal s t current f rest) :
    PushedOnce t ∧ current ∉ s.closed ∧ s.g current = some f ∧
      (∀ n old, s.g n = some old → ¬ (f + 1 < old)) ∧
      (∀ c ∈ s.closed, (s.g c).getD 0 ≤ f) ∧
      t.closed = current :: s.closed := by
  have hmem : (current, f) ∈ s.openSet := hstep.perm.symm.subset (List.mem_cons_self _ _)
  have hnc : current ∉ s.closed := hinv.entries_open _ hmem
  have hgc : s.g current = some f := hinv.entry_cost _ hmem
  have hgd : (s.g current).getD 0 = f := by rw [hgc]; rfl
  have hno : ∀ n old, s.g n = some old → old ≤ f + 1 :=
    fun n old h => hinv.cost_near n old h _ hmem
  have himp : ∀ n, n ∈ s.improved goal current → s.g n = none ∧ n ∉ s.closed ∧ n ≠ current := by
    intro n hn
    obtain ⟨_, _, _, h4, h5, h6⟩ := (s.mem_improved goal current n).mp hn
    refine ⟨?_, h5, h4⟩
    cases hg : s.g n with
    | none => rfl
    | some old =>
      have h1 := h6 old hg
      have h2 := hno n old hg
      rw [hgd] at h1
      omega
  have hrest : ∀ e ∈ rest, e ∈ s.openSet :=
    fun e he => hstep.perm.symm.subset (List.mem_cons_of_mem _ he)
  have hnd : (((current, f) :: rest).map Prod.fst).Nodup :=
    (hstep.perm.map Prod.fst).nodup_iff.mp hinv.entries_nodup
  rw [List.map_cons, List.nodup_cons] at hnd
  have hopen : t.openSet = rest ++ (s.improved goal current).map fun n => (n, f + 1) := by
    rw [hstep.openSet, hgd]
  have hclosed : t.closed = current :: s.closed := by rw [hstep.closed, if_neg hnc]
  have hg : ∀ c, t.g c = if c ∈ s.improved goal current then some (f + 1) else s.g c := by
    intro c; rw [hstep.g c, hgd]
  have hgold : ∀ c gv, s.g c = some gv → t.g c = some gv := by
    intro c gv hc
    rw [hg c, if_neg, hc]
    intro hmem'
    rw [(himp c hmem').1] at hc
    cases hc
  have hleast : ∀ e ∈ rest, f ≤ e.2 := fun e he => hstep.least e (hrest e he)
  have himp_nodup : (s.improved goal current).Nodup := by
    unfold BestState.improved
    split
    · exact List.nodup_nil
    · exact (Maze.getNeighbors_nodup _ _).filter _
  have hmem_open : ∀ e, e ∈ t.openSet ↔
      e ∈ rest ∨ (e.1 ∈ s.improved goal current ∧ e.2 = f + 1) := by
    intro e
    rw [hopen, List.mem_append, List.mem_map]
    constructor
    · rintro (h | ⟨n, hn, rfl⟩)
      · exact Or.inl h
      · exact Or.inr ⟨hn, rfl⟩
    · rintro (h | ⟨h1, h2⟩)
      · exact Or.inl h
      · exact Or.inr ⟨e.1, h1, by rw [← h2]⟩
  refine ⟨?_, hnc, hgc, fun n old h hlt => by have := hno n old h; omega,
    fun c hc => hinv.closed_le c hc _ hmem, hclosed⟩
  constructor
  · -- entries_nodup
    rw [hopen, List.map_append, List.map_map]
    have hid : (List.map (Prod.fst ∘ fun n => (n, f + 1)) (s.improved goal current)) =
        s.improved goal current := by
      rw [show (Prod.fst ∘ fun (n : Coordinate) => (n, f + 1)) = id from rfl, List.map_id]
    rw [hid, List.nodup_append]
    refine ⟨hnd.2, himp_nodup, ?_⟩
    intro a ha hb
    obtain ⟨e, he, rfl⟩ := List.mem_map.mp ha
    have := hinv.entry_cost e (hrest e he)
    rw [(himp e.1 hb).1] at this
    cases this
  · -- entries_open
    intro e he
    rw [hclosed, List.mem_cons, not_or]
    rcases (hmem_open e).mp he with h | ⟨h1, _⟩
    · refine ⟨?_, hinv.entries_open e (hrest e h)⟩
      intro hec
      have hm : e.1 ∈ rest.map Prod.fst := List.mem_map_of_mem Prod.fst h
      rw [hec] at hm
      exact hnd.1 hm
    · exact ⟨(himp _ h1).2.2, (himp _ h1).2.1⟩
  · -- entry_cost
    intro e he
    rcases (hmem_open e).mp he with h | ⟨h1, h2⟩
    · exact hgold _ _ (hinv.entry_cost e (hrest e h))
    · rw [hg, if_pos h1, h2]
  · -- costed
    intro c gv hc
    rw [hg c] at hc
    by_cases hci : c ∈ s.improved goal current
    · rw [if_pos hci, Option.some.injEq] at hc
      right
      exact (hmem_open (c, gv)).mpr (Or.inr ⟨hci, hc.symm⟩)
    · rw [if_neg hci] at hc
      rcases hinv.costed c gv hc with h | h
      · left; rw [hclosed]; exact List.mem_cons_of_mem _ h
      · rcases List.mem_cons.mp (hstep.perm.subset h) with h' | h'
        · left
          rw [hclosed]
          have : c = current := congrArg Prod.fst h'
          rw [this]
          exact List.mem_cons_self _ _
        · right
          exact (hmem_open (c, gv)).mpr (Or.inl h')
  · -- cost_near
    intro c gv hc e he
    have hgv : gv ≤ f + 1 := by
      rw [hg c] at hc
      by_cases hci : c ∈ s.improved goal current
      · rw [if_pos hci, Option.some.injEq] at hc
        omega
      · rw [if_neg hci] at hc
        exact hno c gv hc
    rcases (hmem_open e).mp he with h | ⟨_, h2⟩
    · have := hleast e h
      omega
    · omega
  · -- closed_nodup
    rw [hclosed, List.nodup_cons]
    exact ⟨hnc, hinv.closed_nodup⟩
  · -- closed_sorted
    have hkeep : ∀ c ∈ s.closed, (t.g c).getD 0 = (s.g c).getD 0 := by
      intro c hc
      rw [hg c, if_neg]
      intro hci
      exact (himp c hci).2.1 hc
    rw [hclosed, List.map_cons, List.pairwise_cons]
    constructor
    · intro b hb
      obtain ⟨c, hc, rfl⟩ := List.mem_map.mp hb
      rw [hkeep c hc, hgold current f hgc]
      exact hinv.closed_le c hc _ hmem
    · have : (s.closed.map fun c => (t.g c).getD 0) = s.closed.map fun c => (s.g c).getD 0 :=
        List.map_congr_left hkeep
      rw [this]
      exact hinv.closed_sorted
  · -- closed_le
    intro c hc e he
    have he2 : f ≤ e.2 := by
      rcases (hmem_open e).mp he with h | ⟨_, h2⟩
      · exact hleast e h
      · omega
    rw [hclosed] at hc
    rcases List.mem_cons.mp hc with h | h
    · rw [h, hgold current f hgc]
      exact he2
    · have hkeep : (t.g c).getD 0 = (s.g c).getD 0 := by
        rw [hg c, if_neg]
        intro hci
        exact (himp c hci).2.1 h
      rw [hkeep]
      exact le_trans (hinv.closed_le c h _ hmem) he2
  · -- explored
    rw [hstep.explored, if_neg hnc, hclosed, List.length_cons, hinv.explored]

/-! ## The states of a run of Dijkstra's search -/

/-- What the invariant gives for the entry that the next pop yields. -/
theorem DijkstraPathfinder.dijkstra_pop_facts (goal : Coordinate)
    (s : DijkstraPathfinder.State) (hinv : PushedOnce s.best)
    (current : DijkstraPathfinder.Node) (rest : List DijkstraPathfinder.Node)
    (hpop : PriorityQueue.pop DijkstraPathfinder.Node.cost (s.ties 0) s.pq =
      some (current, rest)) :
    PushedOnce (DijkstraPathfinder.body goal s).best ∧
    current.cell ∉ s.visited ∧ s.cost current.cell = some current.cost ∧
    (∀ n old, s.cost n = some old → ¬ (current.cost + 1 < old)) ∧
    (∀ c ∈ s.visited, (s.cost c).getD 0 ≤ current.cost) ∧
    (DijkstraPathfinder.body goal s).visited = current.cell :: s.visited ∧
    (DijkstraPathfinder.body goal s).nodesExplored = s.nodesExplored + 1 := by
  obtain ⟨hperm, _⟩ := PriorityQueue.pop_spec _ _ _ _ _ hpop
  have hcur : current ∈ s.pq := hperm.symm.subset (List.mem_cons_self _ _)
  have hmem : (current.cell, current.cost) ∈ s.best.openSet := by
    simp only [DijkstraPathfinder.State.best, List.mem_map]
    exact ⟨current, hcur, rfl⟩
  have hgc : s.cost current.cell = some current.cost := hinv.entry_cost _ hmem
  have hstep := DijkstraPathfinder.dijkstra_body_bestStep goal s current rest hpop
    (fun _ => by rw [hgc]; rfl)
  obtain ⟨h1, h2, h3, h4, h5, h6⟩ := hinv.pushedOnce_step hstep
  refine ⟨h1, h2, h3, h4, h5, h6, ?_⟩
  have := hstep.explored
  rw [if_neg h2] at this
  exact this

/-- The invariant holds in every state of a run, and the counter of explored
nodes is the number of iterations. -/
theorem DijkstraPathfinder.dijkstra_run_pushedOnce (maze : Maze) (start goal : Coordinate)
    (ties : Nat → Nat) (k : Nat) (s : DijkstraPathfinder.State)
    (h : LoopRun (fun (s : DijkstraPathfinder.State) => !s.pq.isEmpty && !s.found)
      (DijkstraPathfinder.body goal) (DijkstraPathfinder.init ties maze start) k s) :
    PushedOnce s.best ∧ s.nodesExplored = k := by
  refine LoopRun.inv_indexed
    (fun k (s : DijkstraPathfinder.State) => PushedOnce s.best ∧ s.nodesExplored = k) ?_ ?_ h
  · rintro k s ⟨hinv, hk⟩ hcond
    simp only [Bool.and_eq_true, Bool.not_eq_true', List.isEmpty_eq_false] at hcond
    obtain ⟨⟨current, rest⟩, hpop⟩ :=
      PriorityQueue.pop_isSome DijkstraPathfinder.Node.cost (s.ties 0) s.pq hcond.1
    obtain ⟨h1, _, _, _, _, _, h7⟩ :=
      DijkstraPathfinder.dijkstra_pop_facts goal s hinv current rest hpop
    exact ⟨h1, by rw [h7, hk]⟩
  · exact ⟨pushedOnce_init maze start, rfl⟩

/-- No cell appears twice among the entries of the queue and the closed
cells. -/
theorem PushedOnce.all_nodup {s : BestState} (h : PushedOnce s) :
    (s.openSet.map Prod.fst ++ s.closed).Nodup := by
  rw [List.nodup_append]
  refine ⟨h.entries_nodup, h.closed_nodup, ?_⟩
  intro a ha hb
  obtain ⟨e, he, rfl⟩ := List.mem_map.mp ha
  exact h.entries_open e he hb

/-! ## Levels of the breadth-first search are least numbers of moves -/

theorem Maze.Dist.unique {m : Maze} {a b : Coordinate} {i j : Nat}
    (hi : m.Dist a b i) (hj : m.Dist a b j) : i = j :=
  le_antisymm (hi.2 j hj.1) (hj.2 i hi.1)

theorem Maze.Dist.self (m : Maze) (a : Coordinate) : m.Dist a a 0 :=
  ⟨Maze.StepsTo.zero, fun _ _ => Nat.zero_le _⟩

/-- While the goal is not found, the level of a seen cell is its least number
of moves from start. -/
theorem QueueInv.level_dist {m0 : Maze} {start goal : Coordinate} {total : Nat}
    {lvl : Coordinate → Option Nat} {s : MarkState}
    (h : MarkInv m0 start goal total lvl s) (hq : QueueInv m0 goal lvl s)
    (hfound : s.found = false) (c : Coordinate) (i : Nat) (hc : lvl c = some i) :
    m0.Dist start c i := by
  refine ⟨stepsTo_of_levels m0 start s.parent lvl h.root_only h.tree i c hc, ?_⟩
  have key : ∀ n d, m0.StepsTo start n d →
      (∃ j, lvl d = some j ∧ j ≤ n) ∨
        ∃ q j, q ∈ s.frontier ∧ lvl q = some j ∧ j + 1 ≤ n := by
    intro n d hsteps
    induction hsteps with
    | zero => exact Or.inl ⟨0, h.root.1, le_refl _⟩
    | @step n c d _ hd ih =>
      rcases ih with ⟨j, hj, hjn⟩ | ⟨q, j, hq', hj, hjn⟩
      · by_cases hcf : c ∈ s.frontier
        · exact Or.inr ⟨c, j, hcf, hj, by omega⟩
        · obtain ⟨j', hj', hle⟩ := hq.near c d j hj hcf
            (fun hf => by rw [hfound] at hf; cases hf) hd
          exact Or.inl ⟨j', hj', by omega⟩
      · exact Or.inr ⟨q, j, hq', hj, by omega⟩
  intro n hn
  rcases key n c hn with ⟨j, hj, hjn⟩ | ⟨q, j, hq', hj, hjn⟩
  · rw [hc] at hj
    simp only [Option.some.injEq] at hj
    omega
  · by_cases hcf : c ∈ s.frontier
    · have := hq.narrow q hq' c hcf j i hj hc
      omega
    · have := hq.above c q i j hc hcf hq' hj
      omega

/-- While the goal is not found the queue is ordered by the least number of
moves from start. -/
theorem QueueInv.queue_order {m0 : Maze} {start goal : Coordinate} {total : Nat}
    {lvl : Coordinate → Option Nat} {s : MarkState}
    (h : MarkInv m0 start goal total lvl s) (hq : QueueInv m0 goal lvl s)
    (hfound : s.found = false) :
    (∀ a ∈ s.frontier, ∃ i, m0.Dist start a i) ∧
    s.frontier.Pairwise (m0.DistLE start) ∧
    ∀ a ∈ s.frontier, ∀ b ∈ s.frontier, ∀ i j,
      m0.Dist start a i → m0.Dist start b j → j ≤ i + 1 := by
  have hlvl : ∀ a ∈ s.frontier, ∃ i, lvl a = some i ∧ m0.Dist start a i := by
    intro a ha
    obtain ⟨i, hi⟩ := Option.ne_none_iff_exists'.mp (h.frontier_seen a ha)
    exact ⟨i, hi, hq.level_dist h hfound a i hi⟩
  refine ⟨fun a ha => ?_, ?_, ?_⟩
  · obtain ⟨i, _, hi⟩ := hlvl a ha
    exact ⟨i, hi⟩
  · refine hq.sorted.imp_of_mem ?_
    intro a b ha hb hab i j hi hj
    obtain ⟨i', hi1, hi2⟩ := hlvl a ha
    obtain ⟨j', hj1, hj2⟩ := hlvl b hb
    have := hab i' j' hi1 hj1
    rw [hi.unique hi2, hj.unique hj2]
    exact this
  · intro a ha b hb i j hi hj
    obtain ⟨i', hi1, hi2⟩ := hlvl a ha
    obtain ⟨j', hj1, hj2⟩ := hlvl b hb
    have := hq.narrow a ha b hb i' j' hi1 hj1
    rw [hi.unique hi2, hj.unique hj2]
    exact this

/-! ## The order in which the breadth-first search explores -/

theorem BFSPathfinder.bfs_run_order (maze : Maze) (start goal : Coordinate)
    (hU : maze.Unvisited) (hstart : maze.isOpen start = true) (k : Nat)
    (s : BFSPathfinder.State)
    (h : LoopRun (fun (s : BFSPathfinder.State) => !s.queue.isEmpty && !s.found)
      (BFSPathfinder.body goal) (BFSPathfinder.init maze start) k s) :
    BfsOrder maze start s.queue (s.notified.map Cell.coords) := by
  have key : ∃ lvl,
      MarkInv maze start goal (1 + (maze.setVisited start true).countUnvisited) lvl s.mark ∧
      MarkFresh maze goal lvl s.mark ∧ QueueInv maze goal lvl s.mark ∧
      MarkNotified start goal s.mark s.notified ∧
      BfsOrder maze start s.queue (s.notified.map Cell.coords) := by
    refine LoopRun.inv
      (fun (s : BFSPathfinder.State) => ∃ lvl,
        MarkInv maze start goal (1 + (maze.setVisited start true).countUnvisited) lvl s.mark ∧
        MarkFresh maze goal lvl s.mark ∧ QueueInv maze goal lvl s.mark ∧
        MarkNotified start goal s.mark s.notified ∧
        BfsOrder maze start s.queue (s.notified.map Cell.coords)) ?_ ?_ h
    · rintro s ⟨lvl, hI1, hI2, hI3, hI4, hJ⟩ hcond
      simp only [Bool.and_eq_true, Bool.not_eq_true', List.isEmpty_eq_false] at hcond
      obtain ⟨hne, hnf⟩ := hcond
      obtain ⟨current, rest, hq⟩ := List.exists_cons_of_ne_nil hne
      have hstep := BFSPathfinder.bfs_body_markStep goal s current rest hq
      have hI1' := hI1.markInv_step hstep
      have hI2' := hI2.markFresh_step hI1 hnf hstep
      have hI3' := hI3.queueInv_step hI1 hI2 hnf hstep
      have hnot := BFSPathfinder.bfs_body_notified goal s current rest hq
      have hI4' : MarkNotified start goal (BFSPathfinder.body goal s).mark
          (BFSPathfinder.body goal s).notified := by
        rw [hnot]
        exact MarkNotified.mark_notified_step hstep hI4 hnf
      refine ⟨_, hI1', hI2', hI3', hI4', ?_⟩
      have hcm : current ∈ s.queue := by rw [hq]; exact List.mem_cons_self _ _
      have hcoords : (BFSPathfinder.body goal s).notified.map Cell.coords =
          s.notified.map Cell.coords ++ [current] := by
        rw [hnot]
        simp [Maze.cellAt]
      obtain ⟨kc, hkc⟩ := Option.ne_none_iff_exists'.mp (hI1.frontier_seen current hcm)
      have hcd : maze.Dist start current kc := hI3.level_dist hI1 hnf current kc hkc
      -- an earlier notified cell is not farther from start than `current`
      have hbefore : ∀ a ∈ s.notified.map Cell.coords, maze.DistLE start a current := by
        intro a ha i j hi hj
        have hav : maze.isValid a.x a.y = true :=
          ((Maze.isOpen_iff _ _).mp (Maze.stepsTo_isOpen maze start hstart i a hi.1)).1
        have hvis : s.mark.maze.visited a = true :=
          hI4.marked a (List.mem_append_left _ ha)
        obtain ⟨ia, hia⟩ := Option.ne_none_iff_exists'.mp (hI2.seen a hav hvis)
        have had := hI3.level_dist hI1 hnf a ia hia
        have hnq : a ∉ s.mark.frontier := by
          intro haq
          exact (List.nodup_append.mp hI4.nodup).2.2 ha haq
        have := hI3.above a current ia kc hia hnq hcm hkc
        rw [hi.unique had, hj.unique hcd]
        exact this
      have hold := hJ.queue_sorted
      rw [hq, List.pairwise_cons] at hold
      cases htf : (BFSPathfinder.body goal s).found with
      | false =>
        obtain ⟨q1, q2, q3⟩ := hI3'.queue_order hI1' htf
        constructor
        · exact q1
        · intro a ha
          rw [hcoords, List.mem_append, List.mem_singleton] at ha
          rcases ha with ha | ha
          · exact hJ.notified_dist a ha
          · rw [ha]; exact ⟨kc, hcd⟩
        · exact q2
        · exact q3
        · rw [hcoords, List.pairwise_append]
          refine ⟨hJ.notified_sorted, List.pairwise_singleton _ _, ?_⟩
          intro a ha b hb
          rw [List.mem_singleton] at hb
          rw [hb]
          exact hbefore a ha
      | true =>
        have hg : current = goal := by
          have := hstep.found
          rw [show (BFSPathfinder.body goal s).mark.found = (BFSPathfinder.body goal s).found
            from rfl, htf, show s.mark.found = s.found from rfl, hnf] at this
          simpa using this
        have hrest : (BFSPathfinder.body goal s).queue = rest := by
          have := hstep.frontier
          rw [if_pos hg] at this
          exact this
        have hsub : ∀ a ∈ rest, a ∈ s.queue := by
          intro a ha; rw [hq]; exact List.mem_cons_of_mem _ ha
        constructor
        · intro a ha
          rw [hrest] at ha
          exact hJ.queue_dist a (hsub a ha)
        · intro a ha
          rw [hcoords, List.mem_append, List.mem_singleton] at ha
          rcases ha with ha | ha
          · exact hJ.notified_dist a ha
          · rw [ha]; exact ⟨kc, hcd⟩
        · rw [hrest]; exact hold.2
        · intro a ha b hb
          rw [hrest] at ha hb
          exact hJ.queue_narrow a (hsub a ha) b (hsub b hb)
        · rw [hcoords, List.pairwise_append]
          refine ⟨hJ.notified_sorted, List.pairwise_singleton _ _, ?_⟩
          intro a ha b hb
          rw [List.mem_singleton] at hb
          rw [hb]
          exact hbefore a ha
    · exact ⟨_, markInv_init maze start goal, markFresh_init maze start goal hU,
      queueInv_init maze start goal, MarkNotified.mark_notified_init maze start goal,
      ⟨by
        intro a ha
        have : a = start := by simpa [BFSPathfinder.init] using ha
        rw [this]
        exact ⟨0, Maze.Dist.self maze start⟩,
       by intro a ha; simp [BFSPathfinder.init] at ha,
       by simp [BFSPathfinder.init],
       by
        intro a ha b hb i j hi hj
        have e1 : a = start := by simpa [BFSPathfinder.init] using ha
        have e2 : b = start := by simpa [BFSPathfinder.init] using hb
        rw [e1] at hi
        rw [e2] at hj
        have := hi.unique hj
        omega,
       by simp [BFSPathfinder.init]⟩⟩
  obtain ⟨_, _, _, _, _, hJ⟩ := key
  exact hJ

/-- The cells handed to the visit callback by a run of `findPath` are in the
order of their least number of moves from start. -/
theorem BFSPathfinder.bfs_findPath_order (maze : Maze) (start goal : Coordinate)
    (fuel elapsed : Nat) (r : SearchResult) (hU : maze.Unvisited)
    (hstart : maze.isOpen start = true)
    (hr : BFSPathfinder.findPath fuel elapsed maze (some start) (some goal) = some r) :
    (r.notified.map Cell.coords).Pairwise (maze.DistLE start) ∧
      ∀ a ∈ r.notified.map Cell.coords, ∃ i, maze.Dist start a i := by
  simp only [BFSPathfinder.findPath, Option.bind_eq_some, Option.map_eq_some'] at hr
  obtain ⟨s, hs, p, _, rfl⟩ := hr
  obtain ⟨j, _, hrun, _⟩ := whileLoop_run _ _ (BFSPathfinder.init maze start) fuel 0 _ s
    LoopRun.start hs
  have hJ := BFSPathfinder.bfs_run_order maze start goal hU hstart _ s hrun
  exact ⟨hJ.notified_sorted, hJ.notified_dist⟩

/-! ## The claims about the orientation of a dividing wall and the flags left by a generator -/

/-- C31: in the recursive division, on a region of width `w >= 2` and height
`h >= 2` the call draws a horizontal wall whenever `h > w` and a vertical wall
whenever `h < w`, without tossing the coin; when `h = w` the coin `rng() % 2`
alone decides: horizontal for an even draw, vertical for an odd one. -/
theorem division_wall_orientation (fuel : Nat) (m : Maze) (rng : Rng) (x y w h : Int)
    (hw : 2 ≤ w) (hh : 2 ≤ h) :
    (h > w → Maze.divide (fuel + 1) (m, rng) x y w h =
      Maze.divideHorizontal fuel m rng x y w h) ∧
    (h < w → Maze.divide (fuel + 1) (m, rng) x y w h =
      Maze.divideVertical fuel m rng x y w h) ∧
    (h = w → rng 0 % 2 = 0 → Maze.divide (fuel + 1) (m, rng) x y w h =
      Maze.divideHorizontal fuel m (rng.drop 1) x y w h) ∧
    (h = w → rng 0 % 2 ≠ 0 → Maze.divide (fuel + 1) (m, rng) x y w h =
      Maze.divideVertical fuel m (rng.drop 1) x y w h) := by
  have key := Maze.divide_orientation fuel m rng x y w h hw hh
  refine ⟨?_, ?_, ?_, ?_⟩
  · intro hgt
    rw [key, if_pos (by simp [hgt]), if_neg (by omega)]
  · intro hlt
    rw [key, if_neg (by
      simp only [Bool.or_eq_true, Bool.and_eq_true, decide_eq_true_eq, not_or, not_and]
      exact ⟨by omega, fun e => by omega⟩), if_neg (by omega)]
  · intro heq hcoin
    rw [key, if_pos (by simp [heq, hcoin]), if_pos heq]
  · intro heq hcoin
    rw [key, if_neg (by simp [heq, hcoin]), if_pos heq]

/-- C31 on the 5x5 interior of `emptyRoom` with every raw draw 0. -/
theorem division_wall_orientation_witness :
    (2 : Int) ≤ 5 ∧ (2 : Int) ≤ 5 ∧
    (((5 : Int) > 5 → Maze.divide (0 + 1) (emptyRoom, fun _ => 0) 1 1 5 5 =
      Maze.divideHorizontal 0 emptyRoom (fun _ => 0) 1 1 5 5) ∧
    ((5 : Int) < 5 → Maze.divide (0 + 1) (emptyRoom, fun _ => 0) 1 1 5 5 =
      Maze.divideVertical 0 emptyRoom (fun _ => 0) 1 1 5 5) ∧
    ((5 : Int) = 5 → (fun _ => 0 : Rng) 0 % 2 = 0 →
      Maze.divide (0 + 1) (emptyRoom, fun _ => 0) 1 1 5 5 =
        Maze.divideHorizontal 0 emptyRoom (Rng.drop (fun _ => 0) 1) 1 1 5 5) ∧
    ((5 : Int) = 5 → (fun _ => 0 : Rng) 0 % 2 ≠ 0 →
      Maze.divide (0 + 1) (emptyRoom, fun _ => 0) 1 1 5 5 =
        Maze.divideVertical 0 emptyRoom (Rng.drop (fun _ => 0) 1) 1 1 5 5)) :=
  ⟨by decide, by decide,
    division_wall_orientation 0 emptyRoom (fun _ => 0) 1 1 5 5 (by decide) (by decide)⟩

/-- C32: for each of the three generators, every width and height in
`[5, 100]` and every sequence of draws, `generatePerfectMaze` ends and leaves a
grid none of whose cells has its visited flag or its path flag set: `reset`
would change nothing, so a search can be run on it at once. -/
theorem generated_grid_has_no_flags (w h : Int) (algorithm : MazeGenerationAlgorithm)
    (rng : Rng) (m : Maze) (fuel : Nat) (hw : 5 ≤ w ∧ w ≤ 100) (hh : 5 ≤ h ∧ h ≤ 100)
    (hfuel : 2 * (w.toNat * h.toNat) + 1 ≤ fuel) :
    ∃ m', Maze.generatePerfectMaze fuel rng m w h algorithm = .ok (some m') ∧
      (∀ c, m'.isValid c.x c.y = true → m'.visited c = false ∧ m'.path c = false) ∧
      m'.Unvisited ∧ m'.reset = m' := by
  obtain ⟨m', hgen, _⟩ := Maze.generatePerfectMaze_endpoints w h algorithm rng m fuel hw hh hfuel
  obtain ⟨hv, hp⟩ := Maze.generatePerfectMaze_flags fuel rng m w h algorithm m' hgen
  exact ⟨m', hgen, fun c hc => ⟨hv c hc, hp c⟩, hv,
    Maze.reset_eq_self m' hv (fun c _ => hp c)⟩

/-- C32 for the recursive backtracker on the 5x5 grid with every raw draw 0. -/
theorem generated_grid_has_no_flags_witness :
    ((5 : Int) ≤ 5 ∧ (5 : Int) ≤ 100) ∧ ((5 : Int) ≤ 5 ∧ (5 : Int) ≤ 100) ∧
    2 * ((5 : Int).toNat * (5 : Int).toNat) + 1 ≤ 51 ∧
    ∃ m', Maze.generatePerfectMaze 51 (fun _ => 0) defaultMaze 5 5 .RECURSIVE_BACKTRACKING =
        .ok (some m') ∧
      (∀ c, m'.isValid c.x c.y = true → m'.visited c = false ∧ m'.path c = false) ∧
      m'.Unvisited ∧ m'.reset = m' :=
  ⟨by decide, by decide, by decide,
    generated_grid_has_no_flags 5 5 .RECURSIVE_BACKTRACKING (fun _ => 0) defaultMaze 51
      (by decide) (by decide) (by decide)⟩

/-! ## The claims about the order of exploration -/

/-- C33: in a run of the breadth-first search on a grid with no visited flag
set and a start that is not a wall, in every state of the main loop the
cells handed to the visit callback so far (the cells dequeued, in that order)
are in non-decreasing order of their least number of moves from start, the
cells of the queue, front to back, are so too, and any two cells of the queue
differ by at most 1; each of these cells can be reached from start.  The
notified cells of a returned result are in that order, and with a budget of
`2 * area + 1` iterations the search returns. -/
theorem bfs_explores_in_distance_order (maze : Maze) (start goal : Coordinate)
    (hU : maze.Unvisited) (hstart : maze.isOpen start = true) :
    (∀ (k : Nat) (s : BFSPathfinder.State),
      LoopRun (fun (s : BFSPathfinder.State) => !s.queue.isEmpty && !s.found)
        (BFSPathfinder.body goal) (BFSPathfinder.init maze start) k s →
      (∀ a ∈ s.queue ++ s.notified.map Cell.coords, ∃ i, maze.Dist start a i) ∧
      (s.notified.map Cell.coords).Pairwise (maze.DistLE start) ∧
      s.queue.Pairwise (maze.DistLE start) ∧
      (∀ a ∈ s.queue, ∀ b ∈ s.queue, ∀ i j,
        maze.Dist start a i → maze.Dist start b j → j ≤ i + 1)) ∧
    (∀ (fuel elapsed : Nat) (r : SearchResult),
      BFSPathfinder.findPath fuel elapsed maze (some start) (some goal) = some r →
      (r.notified.map Cell.coords).Pairwise (maze.DistLE start)) ∧
    (∀ (fuel elapsed : Nat), 2 * maze.area + 1 ≤ fuel →
      ∃ r, BFSPathfinder.findPath fuel elapsed maze (some start) (some goal) = some r ∧
        (r.notified.map Cell.coords).Pairwise (maze.DistLE start)) := by
  refine ⟨?_, ?_, ?_⟩
  · intro k s hrun
    have hJ := BFSPathfinder.bfs_run_order maze start goal hU hstart k s hrun
    refine ⟨?_, hJ.notified_sorted, hJ.queue_sorted, hJ.queue_narrow⟩
    intro a ha
    rcases List.mem_append.mp ha with h | h
    · exact hJ.queue_dist a h
    · exact hJ.notified_dist a h
  · intro fuel elapsed r hr
    exact (BFSPathfinder.bfs_findPath_order maze start goal fuel elapsed r hU hstart hr).1
  · intro fuel elapsed hfuel
    obtain ⟨r, hr, _⟩ := BFSPathfinder.bfs_findPath_spec maze start goal fuel elapsed hfuel
      ((Maze.isOpen_iff _ _).mp hstart).1
    exact ⟨r, hr,
      (BFSPathfinder.bfs_findPath_order maze start goal fuel elapsed r hU hstart hr).1⟩

/-- C33 on `exampleMaze` from `(1, 1)` to `(3, 3)`. -/
theorem bfs_explores_in_distance_order_witness :
    exampleMaze.Unvisited ∧ exampleMaze.isOpen ⟨1, 1⟩ = true ∧
    ((∀ (k : Nat) (s : BFSPathfinder.State),
      LoopRun (fun (s : BFSPathfinder.State) => !s.queue.isEmpty && !s.found)
        (BFSPathfinder.body ⟨3, 3⟩) (BFSPathfinder.init exampleMaze ⟨1, 1⟩) k s →
      (∀ a ∈ s.queue ++ s.notified.map Cell.coords, ∃ i, exampleMaze.Dist ⟨1, 1⟩ a i) ∧
      (s.notified.map Cell.coords).Pairwise (exampleMaze.DistLE ⟨1, 1⟩) ∧
      s.queue.Pairwise (exampleMaze.DistLE ⟨1, 1⟩) ∧
      (∀ a ∈ s.queue, ∀ b ∈ s.queue, ∀ i j,
        exampleMaze.Dist ⟨1, 1⟩ a i → exampleMaze.Dist ⟨1, 1⟩ b j → j ≤ i + 1)) ∧
    (∀ (fuel elapsed : Nat) (r : SearchResult),
      BFSPathfinder.findPath fuel elapsed exampleMaze (some ⟨1, 1⟩) (some ⟨3, 3⟩) = some r →
      (r.notified.map Cell.coords).Pairwise (exampleMaze.DistLE ⟨1, 1⟩)) ∧
    (∀ (fuel elapsed : Nat), 2 * exampleMaze.area + 1 ≤ fuel →
      ∃ r, BFSPathfinder.findPath fuel elapsed exampleMaze (some ⟨1, 1⟩) (some ⟨3, 3⟩) =
          some r ∧
        (r.notified.map Cell.coords).Pairwise (exampleMaze.DistLE ⟨1, 1⟩))) :=
  ⟨fun _ _ => rfl, by decide,
    bfs_explores_in_distance_order exampleMaze ⟨1, 1⟩ ⟨3, 3⟩ (fun _ _ => rfl) (by decide)⟩

/-- C34: on a grid with no visited flag set, with start other than goal and
a start that has a non-wall neighbour, the depth-first search explores start
and then the last element of `getNeighbors(start)` (in the order UP, DOWN, LEFT,
RIGHT), and the breadth-first search explores start and then the first
element of `getNeighbors(start)`. -/
theorem dfs_explores_last_neighbor_first (maze : Maze) (start goal : Coordinate)
    (fuel elapsed : Nat) (hU : maze.Unvisited) (hv : maze.isValid start.x start.y = true)
    (hne : start ≠ goal) (hnb : maze.getNeighbors start ≠ [])
    (hfuel : 2 * maze.area + 1 ≤ fuel) :
    (∃ r, DFSPathfinder.findPath fuel elapsed maze (some start) (some goal) = some r ∧
      (r.notified.map Cell.coords)[0]? = some start ∧
      (r.notified.map Cell.coords)[1]? = (maze.getNeighbors start).getLast?) ∧
    (∃ r, BFSPathfinder.findPath fuel elapsed maze (some start) (some goal) = some r ∧
      (r.notified.map Cell.coords)[0]? = some start ∧
      (r.notified.map Cell.coords)[1]? = (maze.getNeighbors start).head?) := by
  constructor
  · obtain ⟨r, hr, _⟩ := DFSPathfinder.dfs_findPath_spec maze start goal fuel elapsed hfuel hv
    obtain ⟨h0, h1⟩ := DFSPathfinder.dfs_findPath_second maze start goal fuel elapsed r hU hne
      hnb hr
    exact ⟨r, hr, h0, h1⟩
  · obtain ⟨r, hr, _⟩ := BFSPathfinder.bfs_findPath_spec maze start goal fuel elapsed hfuel hv
    obtain ⟨h0, h1⟩ := BFSPathfinder.bfs_findPath_second maze start goal fuel elapsed r hU hne
      hnb hr
    exact ⟨r, hr, h0, h1⟩

/-- C34 on `exampleMaze` from `(1, 1)`, whose neighbours are `(1, 2)` and `(2, 1)`. -/
theorem dfs_explores_last_neighbor_first_witness :
    exampleMaze.Unvisited ∧ exampleMaze.isValid 1 1 = true ∧
    (⟨1, 1⟩ : Coordinate) ≠ ⟨3, 3⟩ ∧ exampleMaze.getNeighbors ⟨1, 1⟩ ≠ [] ∧
    2 * exampleMaze.area + 1 ≤ 51 ∧
    ((∃ r, DFSPathfinder.findPath 51 0 exampleMaze (some ⟨1, 1⟩) (some ⟨3, 3⟩) = some r ∧
      (r.notified.map Cell.coords)[0]? = some ⟨1, 1⟩ ∧
      (r.notified.map Cell.coords)[1]? = (exampleMaze.getNeighbors ⟨1, 1⟩).getLast?) ∧
    (∃ r, BFSPathfinder.findPath 51 0 exampleMaze (some ⟨1, 1⟩) (some ⟨3, 3⟩) = some r ∧
      (r.notified.map Cell.coords)[0]? = some ⟨1, 1⟩ ∧
      (r.notified.map Cell.coords)[1]? = (exampleMaze.getNeighbors ⟨1, 1⟩).head?)) :=
  ⟨fun _ _ => rfl, by decide, by decide, by decide, by decide,
    dfs_explores_last_neighbor_first exampleMaze ⟨1, 1⟩ ⟨3, 3⟩ 51 0 (fun _ _ => rfl)
      (by decide) (by decide) (by decide) (by decide)⟩

/-! ## The claim about the heuristic -/

/-- C35: the heuristic `h(c) = |c.x - goal.x| + |c.y - goal.y|` of A* is admissible and
consistent on every grid: `h(goal) = 0`; for every path of 4-adjacent non-wall
cells of a grid from `c` to `goal`, `h(c)` is at most its number of moves (its
number of cells minus one); and `h(a) <= 1 + h(b)` for 4-adjacent `a`, `b`. -/
theorem heuristic_admissible_and_consistent (goal : Coordinate) :
    AStarPathfinder.heuristic goal goal = 0 ∧
    (∀ (m : Maze) (c : Coordinate) (p : List Coordinate), m.Connects c goal p →
      AStarPathfinder.heuristic c goal ≤ p.length - 1 ∧ 1 ≤ p.length) ∧
    (∀ a b : Coordinate, manhattan a b = 1 →
      AStarPathfinder.heuristic a goal ≤ 1 + AStarPathfinder.heuristic b goal) := by
  refine ⟨by simp [AStarPathfinder.heuristic], ?_, ?_⟩
  · intro m c p hp
    have h1 := (Maze.stepsTo_of_connects m c goal p hp).manhattan_le
    refine ⟨h1, ?_⟩
    obtain ⟨_, hhead, _⟩ := hp
    cases p with
    | nil => simp at hhead
    | cons a l => simp
  · intro a b hab
    unfold manhattan at hab
    unfold AStarPathfinder.heuristic
    omega

/-! ## The claim about `generate` -/

/-- C36: for every width and height in `[5, 100]`, `generate(width, height)` succeeds and
leaves a grid of that size in which every border cell is a wall, a cell off
the border is a wall exactly when its row is one of 2, 4, ... below
`height - 2` and its column one of 2, 5, 8, ... below `width - 2`, start is `(1, 1)`,
goal is `(width - 2, height - 2)`, neither is a wall, the goal can be reached from
start, and the breadth-first search returns a path from start to goal. -/
theorem generate_layout_and_reachability (m : Maze) (w h : Int) (fuel elapsed : Nat)
    (hw : 5 ≤ w ∧ w ≤ 100) (hh : 5 ≤ h ∧ h ≤ 100)
    (hfuel : 2 * (w.toNat * h.toNat) + 1 ≤ fuel) :
    (m.generate w h).1 = .ok () ∧
    (m.generate w h).2.width = w ∧ (m.generate w h).2.height = h ∧
    (∀ c, (m.generate w h).2.isValid c.x c.y = true →
      (c.x = 0 ∨ c.x = w - 1 ∨ c.y = 0 ∨ c.y = h - 1) → (m.generate w h).2.wall c = true) ∧
    (∀ c, (m.generate w h).2.isValid c.x c.y = true →
      ¬ (c.x = 0 ∨ c.x = w - 1 ∨ c.y = 0 ∨ c.y = h - 1) →
      ((m.generate w h).2.wall c = true ↔
        ∃ i j : Nat, c.y = 2 + 2 * (i : Int) ∧ c.y < h - 2 ∧
          c.x = 2 + 3 * (j : Int) ∧ c.x < w - 2)) ∧
    (m.generate w h).2.start = some ⟨1, 1⟩ ∧
    (m.generate w h).2.goal = some ⟨w - 2, h - 2⟩ ∧
    (m.generate w h).2.wall ⟨1, 1⟩ = false ∧
    (m.generate w h).2.wall ⟨w - 2, h - 2⟩ = false ∧
    (m.generate w h).2.Reachable ⟨1, 1⟩ ⟨w - 2, h - 2⟩ ∧
    ∃ r, BFSPathfinder.findPath fuel elapsed (m.generate w h).2 (m.generate w h).2.start
        (m.generate w h).2.goal = some r ∧
      ValidPath (m.generate w h).2 ⟨1, 1⟩ ⟨w - 2, h - 2⟩ r.path ∧ r.path ≠ [] := by
  obtain ⟨h0, h1, h2, h3, h4, h5, _, hwall⟩ := Maze.generate_ok m w h hw hh
  obtain ⟨n, hn⟩ := Maze.generate_reachable m w h hw hh
  generalize (m.generate w h).2 = g at h1 h2 h3 h4 h5 hwall hn
  have hs : g.wall ⟨1, 1⟩ = false := by
    cases hc : g.wall ⟨1, 1⟩ with
    | false => rfl
    | true =>
      exfalso
      rcases (hwall _).mp hc with ⟨_, hb⟩ | hin
      · simp only at hb; omega
      · simp only at hin; omega
  have hg : g.wall ⟨w - 2, h - 2⟩ = false := by
    cases hc : g.wall ⟨w - 2, h - 2⟩ with
    | false => rfl
    | true =>
      exfalso
      rcases (hwall _).mp hc with ⟨_, hb⟩ | hin
      · simp only at hb; omega
      · simp only at hin; omega
  have hopen : g.isOpen ⟨1, 1⟩ = true := by
    rw [Maze.isOpen_iff, Maze.isValid_iff, h1, h2]
    exact ⟨by simp only; omega, hs⟩
  refine ⟨h0, h1, h2, ?_, ?_, h3, h4, hs, hg,
    (Maze.reachable_iff_stepsTo g _ _ hopen).mpr ⟨n, hn⟩, ?_⟩
  · intro c hc hb
    rw [Maze.isValid_iff, h1, h2] at hc
    exact (hwall c).mpr (Or.inl ⟨hc, hb⟩)
  · intro c hc hb
    rw [hwall c]
    constructor
    · rintro (⟨_, hb'⟩ | hin)
      · exact absurd hb' hb
      · refine ⟨((c.y - 2) / 2).toNat, ((c.x - 2) / 3).toNat, ?_, hin.2.1, ?_, hin.2.2.2.2.1⟩
        · omega
        · omega
    · rintro ⟨i, j, e1, e2, e3, e4⟩
      right
      omega
  · obtain ⟨r, hr, _, _, _, hres⟩ := BFSPathfinder.bfs_findPath_spec g ⟨1, 1⟩ ⟨w - 2, h - 2⟩
      fuel elapsed (by unfold Maze.area; rw [h1, h2]; exact hfuel)
      ((Maze.isOpen_iff _ _).mp hopen).1
    have hvalid := ((hres (fun c _ => h5 c) hopen).1 n hn).1
    rw [h3, h4]
    exact ⟨r, hr, hvalid, hvalid.1⟩

/-- C36 at the 5x5 grid. -/
theorem generate_layout_and_reachability_witness :
    ((5 : Int) ≤ 5 ∧ (5 : Int) ≤ 100) ∧ ((5 : Int) ≤ 5 ∧ (5 : Int) ≤ 100) ∧
    2 * ((5 : Int).toNat * (5 : Int).toNat) + 1 ≤ 51 ∧
    ((defaultMaze.generate 5 5).1 = .ok () ∧
    (defaultMaze.generate 5 5).2.width = 5 ∧ (defaultMaze.generate 5 5).2.height = 5 ∧
    (∀ c, (defaultMaze.generate 5 5).2.isValid c.x c.y = true →
      (c.x = 0 ∨ c.x = 5 - 1 ∨ c.y = 0 ∨ c.y = 5 - 1) →
      (defaultMaze.generate 5 5).2.wall c = true) ∧
    (∀ c, (defaultMaze.generate 5 5).2.isValid c.x c.y = true →
      ¬ (c.x = 0 ∨ c.x = 5 - 1 ∨ c.y = 0 ∨ c.y = 5 - 1) →
      ((defaultMaze.generate 5 5).2.wall c = true ↔
        ∃ i j : Nat, c.y = 2 + 2 * (i : Int) ∧ c.y < 5 - 2 ∧
          c.x = 2 + 3 * (j : Int) ∧ c.x < 5 - 2)) ∧
    (defaultMaze.generate 5 5).2.start = some ⟨1, 1⟩ ∧
    (defaultMaze.generate 5 5).2.goal = some ⟨5 - 2, 5 - 2⟩ ∧
    (defaultMaze.generate 5 5).2.wall ⟨1, 1⟩ = false ∧
    (defaultMaze.generate 5 5).2.wall ⟨5 - 2, 5 - 2⟩ = false ∧
    (defaultMaze.generate 5 5).2.Reachable ⟨1, 1⟩ ⟨5 - 2, 5 - 2⟩ ∧
    ∃ r, BFSPathfinder.findPath 51 0 (defaultMaze.generate 5 5).2
        (defaultMaze.generate 5 5).2.start (defaultMaze.generate 5 5).2.goal = some r ∧
      ValidPath (defaultMaze.generate 5 5).2 ⟨1, 1⟩ ⟨5 - 2, 5 - 2⟩ r.path ∧ r.path ≠ []) :=
  ⟨by decide, by decide, by decide,
    generate_layout_and_reachability defaultMaze 5 5 51 0 (by decide) (by decide) (by decide)⟩

/-! ## The claims about the statistics and about runs without `reset` -/

/-- C37: for every strategy, a result of `findPath` has `stats.pathLength` equal to
the number of cells of the returned path, start and goal included (one more
than the number of moves), and 0 for the empty path.  From a cell to itself
every strategy returns the path of that single cell, with `pathLength = 1` and
`nodesExplored = 1`.  With a start inside the grid and a budget of `5 * area + 1`
iterations every strategy returns. -/
theorem pathLength_is_number_of_cells (maze : Maze) (start goal : Option Coordinate)
    (c : Coordinate) (fuel elapsed : Nat) (ties : Nat → Nat) :
    (∀ r, BFSPathfinder.findPath fuel elapsed maze start goal = some r →
      r.stats.pathLength = r.path.length ∧ (r.path = [] → r.stats.pathLength = 0)) ∧
    (∀ r, DFSPathfinder.findPath fuel elapsed maze start goal = some r →
      r.stats.pathLength = r.path.length ∧ (r.path = [] → r.stats.pathLength = 0)) ∧
    (∀ r, DijkstraPathfinder.findPath fuel elapsed ties maze start goal = some r →
      r.stats.pathLength = r.path.length ∧ (r.path = [] → r.stats.pathLength = 0)) ∧
    (∀ r, AStarPathfinder.findPath fuel elapsed ties maze start goal = some r →
      r.stats.pathLength = r.path.length ∧ (r.path = [] → r.stats.pathLength = 0)) ∧
    (∃ r, BFSPathfinder.findPath (fuel + 1) elapsed maze (some c) (some c) = some r ∧
      r.path.map Cell.coords = [c] ∧ r.stats.pathLength = 1 ∧ r.stats.nodesExplored = 1) ∧
    (∃ r, DFSPathfinder.findPath (fuel + 1) elapsed maze (some c) (some c) = some r ∧
      r.path.map Cell.coords = [c] ∧ r.stats.pathLength = 1 ∧ r.stats.nodesExplored = 1) ∧
    (∃ r, DijkstraPathfinder.findPath (fuel + 1) elapsed ties maze (some c) (some c) =
        some r ∧
      r.path.map Cell.coords = [c] ∧ r.stats.pathLength = 1 ∧ r.stats.nodesExplored = 1) ∧
    (∃ r, AStarPathfinder.findPath (fuel + 1) elapsed ties maze (some c) (some c) = some r ∧
      r.path.map Cell.coords = [c] ∧ r.stats.pathLength = 1 ∧ r.stats.nodesExplored = 1) ∧
    ((∀ s, start = some s → maze.isValid s.x s.y = true) → 5 * maze.area + 1 ≤ fuel →
      (∃ r, BFSPathfinder.findPath fuel elapsed maze start goal = some r) ∧
      (∃ r, DFSPathfinder.findPath fuel elapsed maze start goal = some r) ∧
      (∃ r, DijkstraPathfinder.findPath fuel elapsed ties maze start goal = some r) ∧
      (∃ r, AStarPathfinder.findPath fuel elapsed ties maze start goal = some r)) := by
  have hzero : ∀ r : SearchResult, r.stats.pathLength = r.path.length →
      r.stats.pathLength = r.path.length ∧ (r.path = [] → r.stats.pathLength = 0) := by
    intro r h
    refine ⟨h, fun he => ?_⟩
    rw [h, he]
    rfl
  refine ⟨?_, ?_, ?_, ?_, ?_, ?_, ?_, ?_, ?_⟩
  · exact fun r hr =>
      hzero r (BFSPathfinder.bfs_findPath_length maze start goal fuel elapsed r hr)
  · exact fun r hr =>
      hzero r (DFSPathfinder.dfs_findPath_length maze start goal fuel elapsed r hr)
  · exact fun r hr =>
      hzero r (DijkstraPathfinder.dijkstra_findPath_length maze start goal fuel elapsed ties r hr)
  · exact fun r hr =>
      hzero r (AStarPathfinder.astar_findPath_length maze start goal fuel elapsed ties r hr)
  · exact ⟨_, BFSPathfinder.bfs_findPath_same maze c fuel elapsed, rfl, rfl, rfl⟩
  · exact ⟨_, DFSPathfinder.dfs_findPath_same maze c fuel elapsed, rfl, rfl, rfl⟩
  · exact ⟨_, DijkstraPathfinder.dijkstra_findPath_same maze c fuel elapsed ties, rfl, rfl, rfl⟩
  · exact ⟨_, AStarPathfinder.astar_findPath_same maze c fuel elapsed ties, rfl, rfl, rfl⟩
  · intro hvalid hfuel
    obtain ⟨r1, h1, _⟩ := BFSPathfinder.bfs_findPath_total maze start goal fuel elapsed hvalid
      (by omega)
    obtain ⟨r2, h2, _⟩ := DFSPathfinder.dfs_findPath_total maze start goal fuel elapsed hvalid
      (by omega)
    obtain ⟨r3, h3, _⟩ := DijkstraPathfinder.dijkstra_findPath_total maze start goal fuel
      elapsed ties hvalid hfuel
    obtain ⟨r4, h4, _⟩ := AStarPathfinder.astar_findPath_total maze start goal fuel
      elapsed ties hvalid hfuel
    exact ⟨⟨r1, h1⟩, ⟨r2, h2⟩, ⟨r3, h3⟩, ⟨r4, h4⟩⟩

/-- C38: for the breadth-first and the depth-first search, on every grid and
for start other than goal, a second run of `findPath` on the grid as the first
run left it, without `reset`, returns the empty path with `nodesExplored = 1`: the
first run has marked every neighbour of start.  This is so also when the
first run found a path. -/
theorem second_run_without_reset_is_empty (maze : Maze) (start goal : Coordinate)
    (fuel e1 e2 : Nat) (hv : maze.isValid start.x start.y = true) (hne : start ≠ goal)
    (hfuel : 2 * maze.area + 1 ≤ fuel) :
    (∃ r1 r2, BFSPathfinder.findPath fuel e1 maze (some start) (some goal) = some r1 ∧
      BFSPathfinder.findPath fuel e2 r1.maze (some start) (some goal) = some r2 ∧
      r2.path = [] ∧ r2.stats.nodesExplored = 1 ∧ r2.stats.pathLength = 0 ∧
      (∀ n ∈ maze.getNeighbors start, r1.maze.visited n = true) ∧
      (maze.Unvisited → maze.isOpen start = true → maze.Reachable start goal →
        ValidPath maze start goal r1.path)) ∧
    (∃ r1 r2, DFSPathfinder.findPath fuel e1 maze (some start) (some goal) = some r1 ∧
      DFSPathfinder.findPath fuel e2 r1.maze (some start) (some goal) = some r2 ∧
      r2.path = [] ∧ r2.stats.nodesExplored = 1 ∧ r2.stats.pathLength = 0 ∧
      (∀ n ∈ maze.getNeighbors start, r1.maze.visited n = true) ∧
      (maze.Unvisited → maze.isOpen start = true → maze.Reachable start goal →
        ValidPath maze start goal r1.path)) := by
  obtain ⟨k, hk⟩ : ∃ k, fuel = k + 1 := ⟨fuel - 1, by omega⟩
  constructor
  · obtain ⟨r1, hr1, _, _, _, hres⟩ :=
      BFSPathfinder.bfs_findPath_spec maze start goal fuel e1 hfuel hv
    obtain ⟨hmarks, hnb⟩ :=
      BFSPathfinder.bfs_findPath_marks_neighbors maze start goal fuel e1 r1 hne hr1
    obtain ⟨r2, hr2, h1, h2, h3⟩ := BFSPathfinder.bfs_findPath_blocked r1.maze start goal k e2
      hne (by rw [hnb]; exact hmarks)
    rw [← hk] at hr2
    refine ⟨r1, r2, hr1, hr2, h1, h2, h3, hmarks, ?_⟩
    intro hU hopen hreach
    obtain ⟨n, hn⟩ := (Maze.reachable_iff_stepsTo maze start goal hopen).mp hreach
    exact ((hres hU hopen).1 n hn).1
  · obtain ⟨r1, hr1, _, _, _, hres⟩ :=
      DFSPathfinder.dfs_findPath_spec maze start goal fuel e1 hfuel hv
    obtain ⟨hmarks, hnb⟩ :=
      DFSPathfinder.dfs_findPath_marks_neighbors maze start goal fuel e1 r1 hne hr1
    obtain ⟨r2, hr2, h1, h2, h3⟩ := DFSPathfinder.dfs_findPath_blocked r1.maze start goal k e2
      hne (by rw [hnb]; exact hmarks)
    rw [← hk] at hr2
    refine ⟨r1, r2, hr1, hr2, h1, h2, h3, hmarks, ?_⟩
    intro hU hopen hreach
    obtain ⟨n, hn⟩ := (Maze.reachable_iff_stepsTo maze start goal hopen).mp hreach
    exact (hres hU hopen).1 n hn

/-- C38 on `exampleMaze` from `(1, 1)` to `(3, 3)`, where the first run finds a path. -/
theorem second_run_without_reset_is_empty_witness :
    exampleMaze.isValid 1 1 = true ∧ (⟨1, 1⟩ : Coordinate) ≠ ⟨3, 3⟩ ∧
    2 * exampleMaze.area + 1 ≤ 51 ∧
    ((∃ r1 r2, BFSPathfinder.findPath 51 0 exampleMaze (some ⟨1, 1⟩) (some ⟨3, 3⟩) = some r1 ∧
      BFSPathfinder.findPath 51 0 r1.maze (some ⟨1, 1⟩) (some ⟨3, 3⟩) = some r2 ∧
      r2.path = [] ∧ r2.stats.nodesExplored = 1 ∧ r2.stats.pathLength = 0 ∧
      (∀ n ∈ exampleMaze.getNeighbors ⟨1, 1⟩, r1.maze.visited n = true) ∧
      (exampleMaze.Unvisited → exampleMaze.isOpen ⟨1, 1⟩ = true →
        exampleMaze.Reachable ⟨1, 1⟩ ⟨3, 3⟩ → ValidPath exampleMaze ⟨1, 1⟩ ⟨3, 3⟩ r1.path)) ∧
    (∃ r1 r2, DFSPathfinder.findPath 51 0 exampleMaze (some ⟨1, 1⟩) (some ⟨3, 3⟩) = some r1 ∧
      DFSPathfinder.findPath 51 0 r1.maze (some ⟨1, 1⟩) (some ⟨3, 3⟩) = some r2 ∧
      r2.path = [] ∧ r2.stats.nodesExplored = 1 ∧ r2.stats.pathLength = 0 ∧
      (∀ n ∈ exampleMaze.getNeighbors ⟨1, 1⟩, r1.maze.visited n = true) ∧
      (exampleMaze.Unvisited → exampleMaze.isOpen ⟨1, 1⟩ = true →
        exampleMaze.Reachable ⟨1, 1⟩ ⟨3, 3⟩ → ValidPath exampleMaze ⟨1, 1⟩ ⟨3, 3⟩ r1.path))) :=
  ⟨by decide, by decide, by decide,
    second_run_without_reset_is_empty exampleMaze ⟨1, 1⟩ ⟨3, 3⟩ 51 0 0 (by decide) (by decide)
      (by decide)⟩

/-! ## The claim about the queue of Dijkstra's search -/

/-- C39: in a run of Dijkstra's search on any grid, from any start to any
goal, in every state of the main loop: the cells with an entry in the
priority queue and the cells popped so far are pairwise different, so no
cell is pushed twice; the counter `nodesExplored` and the number of popped cells
both equal the number of iterations, one pop each; the costs of the popped
cells, in the order of their pops, do not decrease; and the entry that the
next pop yields is for a cell that is not marked visited (the stale-entry
branch is not taken), carries the cost recorded for its cell, which no
popped cell exceeds, and no recorded cost is greater than its cost plus one,
so that its relaxations lower no cost.  The state a search returns is such a
state. -/
theorem dijkstra_pushes_each_cell_once (maze : Maze) (start goal : Coordinate)
    (ties : Nat → Nat) :
    (∀ (k : Nat) (s : DijkstraPathfinder.State),
      LoopRun (fun (s : DijkstraPathfinder.State) => !s.pq.isEmpty && !s.found)
        (DijkstraPathfinder.body goal) (DijkstraPathfinder.init ties maze start) k s →
      (s.pq.map DijkstraPathfinder.Node.cell ++ s.visited).Nodup ∧
      s.nodesExplored = k ∧ s.visited.length = k ∧
      (s.visited.map fun c => (s.cost c).getD 0).Pairwise (· ≥ ·) ∧
      ∀ (current : DijkstraPathfinder.Node) (rest : List DijkstraPathfinder.Node),
        PriorityQueue.pop DijkstraPathfinder.Node.cost (s.ties 0) s.pq = some (current, rest) →
        current.cell ∉ s.visited ∧ s.cost current.cell = some current.cost ∧
        (∀ c ∈ s.visited, (s.cost c).getD 0 ≤ current.cost) ∧
        (∀ n old, s.cost n = some old → ¬ (current.cost + 1 < old)) ∧
        (DijkstraPathfinder.body goal s).visited = current.cell :: s.visited) ∧
    (∀ (fuel : Nat) (s : DijkstraPathfinder.State),
      DijkstraPathfinder.search fuel ties maze start goal = some s →
      ∃ k, k ≤ fuel ∧ s.nodesExplored = k ∧
        LoopRun (fun (s : DijkstraPathfinder.State) => !s.pq.isEmpty && !s.found)
          (DijkstraPathfinder.body goal) (DijkstraPathfinder.init ties maze start) k s) ∧
    (maze.isValid start.x start.y = true → ∀ fuel, 5 * maze.area + 1 ≤ fuel →
      ∃ s, DijkstraPathfinder.search fuel ties maze start goal = some s) := by
  refine ⟨?_, ?_, ?_⟩
  · intro k s hrun
    obtain ⟨hinv, hk⟩ := DijkstraPathfinder.dijkstra_run_pushedOnce maze start goal ties k s hrun
    have hnd := hinv.all_nodup
    have hlen : s.visited.length = k := by
      rw [← hk]
      exact hinv.explored.symm
    refine ⟨?_, hk, hlen, hinv.closed_sorted, ?_⟩
    · simpa [DijkstraPathfinder.State.best, List.map_map, Function.comp_def] using hnd
    · intro current rest hpop
      obtain ⟨_, h2, h3, h4, h5, h6, _⟩ :=
        DijkstraPathfinder.dijkstra_pop_facts goal s hinv current rest hpop
      exact ⟨h2, h3, h5, h4, h6⟩
  · intro fuel s hs
    obtain ⟨j, hj, hrun, _⟩ := whileLoop_run _ _ (DijkstraPathfinder.init ties maze start)
      fuel 0 _ s LoopRun.start hs
    rw [Nat.zero_add] at hrun
    exact ⟨j, hj,
      (DijkstraPathfinder.dijkstra_run_pushedOnce maze start goal ties j s hrun).2, hrun⟩
  · intro hv fuel hfuel
    obtain ⟨s, hs, _⟩ :=
      DijkstraPathfinder.dijkstra_search_spec maze start goal fuel ties hfuel hv
    exact ⟨s, hs⟩

/-! ## The claim about walls as goal and as start -/

/-- C40: for every strategy and every grid, when the goal is a wall and start
is another cell, `findPath` returns the empty path; start is the first cell
explored whether or not it is a wall.  A start that is a wall can be the
first cell of a returned path: from the wall `(2, 2)` of `exampleMaze` to its
neighbour `(3, 2)` every strategy returns the path of these two cells. -/
theorem wall_goal_is_never_reached (maze : Maze) (start goal : Coordinate)
    (fuel elapsed : Nat) (ties : Nat → Nat) (hv : maze.isValid start.x start.y = true)
    (hwall : maze.wall goal = true) (hne : start ≠ goal)
    (hfuel : 5 * maze.area + 1 ≤ fuel) :
    (∃ r, BFSPathfinder.findPath fuel elapsed maze (some start) (some goal) = some r ∧
      r.path = [] ∧ r.stats.pathLength = 0 ∧
      r.notified.head?.map Cell.coords = some start) ∧
    (∃ r, DFSPathfinder.findPath fuel elapsed maze (some start) (some goal) = some r ∧
      r.path = [] ∧ r.stats.pathLength = 0 ∧
      r.notified.head?.map Cell.coords = some start) ∧
    (∃ r, DijkstraPathfinder.findPath fuel elapsed ties maze (some start) (some goal) =
        some r ∧
      r.path = [] ∧ r.stats.pathLength = 0 ∧
      r.notified.head?.map Cell.coords = some start) ∧
    (∃ r, AStarPathfinder.findPath fuel elapsed ties maze (some start) (some goal) = some r ∧
      r.path = [] ∧ r.stats.pathLength = 0 ∧
      r.notified.head?.map Cell.coords = some start) ∧
    exampleMaze.wall ⟨2, 2⟩ = true ∧
    (BFSPathfinder.findPath 51 0 exampleMaze (some ⟨2, 2⟩) (some ⟨3, 2⟩)).map
        (fun r => r.path.map fun c => (c.coords, c.wall)) =
      some [(⟨2, 2⟩, true), (⟨3, 2⟩, false)] ∧
    (DFSPathfinder.findPath 51 0 exampleMaze (some ⟨2, 2⟩) (some ⟨3, 2⟩)).map
        (fun r => r.path.map fun c => (c.coords, c.wall)) =
      some [(⟨2, 2⟩, true), (⟨3, 2⟩, false)] ∧
    (DijkstraPathfinder.findPath 126 0 (fun _ => 0) exampleMaze (some ⟨2, 2⟩)
        (some ⟨3, 2⟩)).map (fun r => r.path.map fun c => (c.coords, c.wall)) =
      some [(⟨2, 2⟩, true), (⟨3, 2⟩, false)] ∧
    (AStarPathfinder.findPath 126 0 (fun _ => 0) exampleMaze (some ⟨2, 2⟩)
        (some ⟨3, 2⟩)).map (fun r => r.path.map fun c => (c.coords, c.wall)) =
      some [(⟨2, 2⟩, true), (⟨3, 2⟩, false)] := by
  obtain ⟨e1, e2, e3, e4⟩ := exampleMaze_wall_start
  refine ⟨?_, ?_, ?_, ?_, by decide, e1, e2, e3, e4⟩
  · obtain ⟨r, hr, h1, h2⟩ := BFSPathfinder.bfs_findPath_wall_goal maze start goal fuel elapsed
      (by omega) hwall hne
    exact ⟨r, hr, h1, h2,
      (BFSPathfinder.bfs_findPath_notified maze start goal fuel elapsed r hr).2.2.1⟩
  · obtain ⟨r, hr, h1, h2⟩ := DFSPathfinder.dfs_findPath_wall_goal maze start goal fuel elapsed
      (by omega) hwall hne
    exact ⟨r, hr, h1, h2,
      (DFSPathfinder.dfs_findPath_notified maze start goal fuel elapsed r hr).2.2.1⟩
  · obtain ⟨r, hr, h1, h2⟩ := DijkstraPathfinder.dijkstra_findPath_wall_goal maze start goal
      fuel elapsed ties hfuel hv hwall hne
    exact ⟨r, hr, h1, h2,
      (DijkstraPathfinder.dijkstra_findPath_notified maze start goal fuel elapsed ties r
        hr).2.2.1⟩
  · obtain ⟨r, hr, h1, h2⟩ := AStarPathfinder.astar_findPath_wall_goal maze start goal
      fuel elapsed ties hfuel hv hwall hne
    exact ⟨r, hr, h1, h2,
      (AStarPathfinder.astar_findPath_notified maze start goal fuel elapsed ties r hr).2.2.1⟩

/-- C40 on `exampleMaze` from `(1, 1)` to the wall `(2, 2)`. -/
theorem wall_goal_is_never_reached_witness :
    exampleMaze.isValid 1 1 = true ∧ exampleMaze.wall ⟨2, 2⟩ = true ∧
    (⟨1, 1⟩ : Coordinate) ≠ ⟨2, 2⟩ ∧ 5 * exampleMaze.area + 1 ≤ 126 ∧
    ((∃ r, BFSPathfinder.findPath 126 0 exampleMaze (some ⟨1, 1⟩) (some ⟨2, 2⟩) = some r ∧
      r.path = [] ∧ r.stats.pathLength = 0 ∧
      r.notified.head?.map Cell.coords = some ⟨1, 1⟩) ∧
    (∃ r, DFSPathfinder.findPath 126 0 exampleMaze (some ⟨1, 1⟩) (some ⟨2, 2⟩) = some r ∧
      r.path = [] ∧ r.stats.pathLength = 0 ∧
      r.notified.head?.map Cell.coords = some ⟨1, 1⟩) ∧
    (∃ r, DijkstraPathfinder.findPath 126 0 (fun _ => 0) exampleMaze (some ⟨1, 1⟩)
        (some ⟨2, 2⟩) = some r ∧
      r.path = [] ∧ r.stats.pathLength = 0 ∧
      r.notified.head?.map Cell.coords = some ⟨1, 1⟩) ∧
    (∃ r, AStarPathfinder.findPath 126 0 (fun _ => 0) exampleMaze (some ⟨1, 1⟩)
        (some ⟨2, 2⟩) = some r ∧
      r.path = [] ∧ r.stats.pathLength = 0 ∧
      r.notified.head?.map Cell.coords = some ⟨1, 1⟩) ∧
    exampleMaze.wall ⟨2, 2⟩ = true ∧
    (BFSPathfinder.findPath 51 0 exampleMaze (some ⟨2, 2⟩) (some ⟨3, 2⟩)).map
        (fun r => r.path.map fun c => (c.coords, c.wall)) =
      some [(⟨2, 2⟩, true), (⟨3, 2⟩, false)] ∧
    (DFSPathfinder.findPath 51 0 exampleMaze (some ⟨2, 2⟩) (some ⟨3, 2⟩)).map
        (fun r => r.path.map fun c => (c.coords, c.wall)) =
      some [(⟨2, 2⟩, true), (⟨3, 2⟩, false)] ∧
    (DijkstraPathfinder.findPath 126 0 (fun _ => 0) exampleMaze (some ⟨2, 2⟩)
        (some ⟨3, 2⟩)).map (fun r => r.path.map fun c => (c.coords, c.wall)) =
      some [(⟨2, 2⟩, true), (⟨3, 2⟩, false)] ∧
    (AStarPathfinder.findPath 126 0 (fun _ => 0) exampleMaze (some ⟨2, 2⟩)
        (some ⟨3, 2⟩)).map (fun r => r.path.map fun c => (c.coords, c.wall)) =
      some [(⟨2, 2⟩, true), (⟨3, 2⟩, false)]) :=
  ⟨by decide, by decide, by decide, by decide,
    wall_goal_is_never_reached exampleMaze ⟨1, 1⟩ ⟨2, 2⟩ 126 0 (fun _ => 0) (by decide)
      (by decide) (by decide) (by decide)⟩
